import Mathlib

/-!
# MODWT engine (sjneph/modwt): shallow embedding and verified properties

The embedding follows `src/include/WT.cpp`, `src/include/WTFilter.cpp` and
`src/include/WTOps.cpp`.

* Samples and filter taps are elements of a field `α` (exact arithmetic; the
  C++ code uses floating point). Instantiating `α := ℚ` makes every definition
  executable.
* A C++ container (`std::vector`) is a `List α`; a read `v[k]` is
  `v.getD k 0` and a write `v[t] = x` is `v.set t x`. The namespace `Checked`
  holds the kernels and orchestrators a second time with every subscript of a
  coefficient buffer or of a filter checked and the index arithmetic taken on
  64-bit `std::size_t`: there a run that reaches an out-of-range subscript
  has no result.
* Output sinks are handles on a shared sink state `σ` (the "world"): calling a
  sink method transforms the world. Two distinct C++ sink objects are two
  handles acting on different components of the world; a shared log lets the
  order of calls be observed.
* `std::sqrt(2)` is not available in a general field and is a parameter `sqrt2`.
-/

namespace WT

/-! ## Errors -/

/-- Error kinds. `ArgumentError`, `LogicError`, `InvalidFile` and `UserError` are the
`Ext::` exception types thrown in the sources; `ConfigError` is the kind the
specification names for an unknown filter family (no source path throws it). -/
inductive Error where
  | ArgumentError
  | LogicError
  | InvalidFile
  | UserError
  | ConfigError
  deriving DecidableEq, Repr

/-- Modelled from the spec: `Ext::Assert<E>(cond, ...)` (`Assertion.hpp` is not among the
sources) throws `E` when `cond` is false and does nothing otherwise. -/
def Assert (e : Error) (cond : Bool) : Except Error Unit :=
  if cond then Except.ok () else Except.error e

/-! ## Sinks -/

/-- The four-method sink contract used by every orchestrator
(`Level`, `Off`, `On`, `IsOn`, `Reset`, `operator()`), as transformers of the sink state. -/
structure Sink (σ : Type) (α : Type) where
  Level : Int → σ → σ
  Off : σ → σ
  On : σ → σ
  IsOn : σ → Bool
  Reset : σ → σ
  call : α → σ → σ

/-- A sink acting on the first component of a pair of sink states. -/
def Sink.onFst {σ τ α : Type} (s : Sink σ α) : Sink (σ × τ) α where
  Level l w := (s.Level l w.1, w.2)
  Off w := (s.Off w.1, w.2)
  On w := (s.On w.1, w.2)
  IsOn w := s.IsOn w.1
  Reset w := (s.Reset w.1, w.2)
  call x w := (s.call x w.1, w.2)

/-- A sink acting on the second component of a pair of sink states. -/
def Sink.onSnd {σ τ α : Type} (s : Sink τ α) : Sink (σ × τ) α where
  Level l w := (w.1, s.Level l w.2)
  Off w := (w.1, s.Off w.2)
  On w := (w.1, s.On w.2)
  IsOn w := s.IsOn w.2
  Reset w := (w.1, s.Reset w.2)
  call x w := (w.1, s.call x w.2)

/-- `struct DoNothing`: every method is empty and `IsOn()` returns `false`. -/
def DoNothing {σ α : Type} : Sink σ α where
  Level _ w := w
  Off w := w
  On w := w
  IsOn _ := false
  Reset w := w
  call _ w := w

/-- State of `SaveAllValues<T>`: `on_` and `vals_`. -/
structure SaveAllValuesState (α : Type) where
  on_ : Bool
  vals_ : List (List α)
  deriving DecidableEq, Repr

/-- Constructor `SaveAllValues<T>::SaveAllValues() : on_(true)`. -/
def SaveAllValuesState.init {α : Type} : SaveAllValuesState α := { on_ := true, vals_ := [] }

/-- Append to the last partition: `vals_[vals_.size()-1].push_back(t)`.
With no partition the C++ access is out of range; the model leaves `vals_` empty. -/
def pushLast {α : Type} (vals : List (List α)) (t : α) : List (List α) :=
  match vals.getLast? with
  | some l => vals.dropLast ++ [l ++ [t]]
  | none => vals

/-- Methods of `SaveAllValues<T>`. -/
def SaveAllValues {α : Type} : Sink (SaveAllValuesState α) α where
  Level _ s := if s.on_ then { s with vals_ := s.vals_ ++ [[]] } else s
  Off s := { s with on_ := false }
  On s := { s with on_ := true }
  IsOn s := s.on_
  Reset _ := { on_ := true, vals_ := [] }
  call t s := if s.on_ then { s with vals_ := pushLast s.vals_ t } else s

/-- State of `SaveLastLevel<T>`: `on_`, `last_` and `vals_`. -/
structure SaveLastLevelState (α : Type) where
  on_ : Bool
  last_ : Int
  vals_ : List α
  deriving DecidableEq, Repr

/-- Constructor `SaveLastLevel<T>::SaveLastLevel(int last) : on_(false), last_(last)`. -/
def SaveLastLevelState.init {α : Type} (last : Int) : SaveLastLevelState α :=
  { on_ := false, last_ := last, vals_ := [] }

/-- Methods of `SaveLastLevel<T>`. -/
def SaveLastLevel {α : Type} : Sink (SaveLastLevelState α) α where
  Level level s :=
    let on1 := if s.last_ = level ∨ s.last_ < 0 then true else s.on_
    if on1 then { s with on_ := on1, vals_ := [] } else { s with on_ := on1 }
  Off s := { s with on_ := false }
  On s := { s with on_ := true }
  IsOn s := s.on_
  Reset s := { s with vals_ := [], on_ := true }
  call t s := if s.on_ then { s with vals_ := s.vals_ ++ [t] } else s

/-- A non-null `FILE*`: the standard output or the stream returned by the `id`-th successful
`std::fopen` of the run. -/
inductive Dest where
  | stdout
  | file (id : Nat)
  deriving DecidableEq, Repr

/-- Calls a printing sink makes on the C library: `std::fopen(name, "w")` with the stream it
returned (`none` for a null pointer), `std::fclose(fptr)`, and `PrintTypes::Println(fptr, t)`
with the value of `fptr_` at the call (`none` for a null pointer). -/
inductive IOEvent (α : Type) where
  | fopen (name : String) (result : Option Dest)
  | fclose (d : Dest)
  | println (d : Option Dest) (t : α)
  deriving DecidableEq, Repr

/-- State of a `PrintValues` object (the data members, `fptr_` being `none` for a null
pointer), together with the library calls made so far (`io`) and the exception raised by the
most recent throwing call (`thrown`). -/
structure PrintValuesState (α : Type) where
  pLevel_ : Int
  currentPrints_ : Nat
  maxPrints_ : Nat
  base_ : String
  on_ : Bool
  doReset_ : Bool
  useStdout_ : Bool
  fptr_ : Option Dest
  io : List (IOEvent α)
  thrown : Option Error
  deriving DecidableEq, Repr

/-- Number of successful `std::fopen` calls so far; the next stream opened gets this id. -/
def openCount {α : Type} (io : List (IOEvent α)) : Nat :=
  (io.filter (fun e => match e with
    | IOEvent.fopen _ (some _) => true
    | _ => false)).length

/-- Constructor `PrintValues::PrintValues(basename, maxPrints, pLevel)`: the member
initialisers, then `Ext::Assert<Ext::LogicError>(!useStdout_ || pLevel_ >= 0, ...)`. -/
def PrintValuesState.ctor {α : Type} (basename : String) (maxPrints : Nat) (pLevel : Int) :
    Except Error (PrintValuesState α) :=
  let s : PrintValuesState α :=
    { pLevel_ := pLevel, currentPrints_ := 0, maxPrints_ := maxPrints, base_ := basename,
      on_ := true, doReset_ := false, useStdout_ := basename.isEmpty, fptr_ := none,
      io := [], thrown := none }
  match Assert Error.LogicError (!s.useStdout_ || decide (s.pLevel_ ≥ 0)) with
  | Except.error e => Except.error e
  | Except.ok _ => Except.ok s

/-- The statement `if ( !useStdout_ && fptr_ ) std::fclose(fptr_);` (the pointer itself is
left as it is). -/
def PrintValuesState.closeIfOpen {α : Type} (s : PrintValuesState α) : PrintValuesState α :=
  match s.fptr_ with
  | some d => if !s.useStdout_ then { s with io := s.io ++ [IOEvent.fclose d] } else s
  | none => s

/-- Method `PrintValues::Level(int level)`. `canOpen name` tells whether
`std::fopen(name, "w")` succeeds; the file name is `base_ + "." + level`. -/
def PrintValuesState.Level {α : Type} (canOpen : String → Bool) (level : Int)
    (s0 : PrintValuesState α) : PrintValuesState α :=
  let s := s0.closeIfOpen
  if s.pLevel_ ≥ 0 ∧ level ≠ s.pLevel_ then
    { s with on_ := false, fptr_ := if !s.useStdout_ then none else s.fptr_ }
  else if s.on_ = false ∧ s.pLevel_ < 0 then s
  else
    let s1 := { s with currentPrints_ := 0, on_ := true }
    if !s1.useStdout_ then
      let name := s1.base_ ++ "." ++ toString level
      if canOpen name then
        let d := Dest.file (openCount s1.io)
        { s1 with fptr_ := some d, io := s1.io ++ [IOEvent.fopen name (some d)] }
      else
        { s1 with fptr_ := none, io := s1.io ++ [IOEvent.fopen name none],
                  thrown := some Error.InvalidFile }
    else { s1 with fptr_ := some Dest.stdout }

/-- Method `PrintValues::Reset()`. -/
def PrintValuesState.Reset {α : Type} (s : PrintValuesState α) : PrintValuesState α :=
  let s1 := { s with on_ := true }
  if !s1.useStdout_ then { s1.closeIfOpen with fptr_ := none } else s1

/-- Method `PrintValues::operator()(T t)`: `++currentPrints_` on `std::size_t`, then
`Println(fptr_, t)` while the counter does not exceed `maxPrints_`. -/
def PrintValuesState.call {α : Type} (t : α) (s : PrintValuesState α) : PrintValuesState α :=
  if s.on_ then
    let c := (s.currentPrints_ + 1) % 2 ^ 64
    if c ≤ s.maxPrints_ then
      { s with currentPrints_ := c, io := s.io ++ [IOEvent.println s.fptr_ t] }
    else { s with currentPrints_ := c }
  else s

/-- Destructor `PrintValues::~PrintValues()`. -/
def PrintValuesState.destroy {α : Type} (s : PrintValuesState α) : PrintValuesState α :=
  s.closeIfOpen

/-- Methods of `PrintValues`. -/
def PrintValues {α : Type} (canOpen : String → Bool) : Sink (PrintValuesState α) α where
  Level level s := s.Level canOpen level
  Off s := { s with on_ := false }
  On s := { s with on_ := true }
  IsOn s := s.on_
  Reset s := s.Reset
  call t s := s.call t

/-- Constructor `PrintLast::PrintLast(basename, maxPrints, pLevel)`: the `PrintValues`
constructor, then `Assert<ArgumentError>(pLevel >= 0, ...)` and
`Assert<LogicError>(!basename.empty(), ...)`. -/
def PrintLastCtor {α : Type} (basename : String) (maxPrints : Nat) (pLevel : Int) :
    Except Error (PrintValuesState α) :=
  match PrintValuesState.ctor basename maxPrints pLevel with
  | Except.error e => Except.error e
  | Except.ok s =>
    match Assert Error.ArgumentError (decide (pLevel ≥ 0)) with
    | Except.error e => Except.error e
    | Except.ok _ =>
      match Assert Error.LogicError (!basename.isEmpty) with
      | Except.error e => Except.error e
      | Except.ok _ => Except.ok s

/-- Methods of `PrintLast`: those of `PrintValues` except `Reset()`, which is
`if ( pLevel_ >= 0 ) ++pLevel_, currentPrints_ = 0;`. `pLevel_` is an `int`: the increment is
the exact successor below `INT_MAX = 2^31 - 1`; at `INT_MAX` it overflows, which is undefined,
and the model takes the two's-complement wrap to `INT_MIN`. -/
def PrintLast {α : Type} (canOpen : String → Bool) : Sink (PrintValuesState α) α where
  Level level s := s.Level canOpen level
  Off s := { s with on_ := false }
  On s := { s with on_ := true }
  IsOn s := s.on_
  Reset s :=
    if s.pLevel_ ≥ 0 then
      { s with pLevel_ := (s.pLevel_ + 1 + 2 ^ 31) % 2 ^ 32 - 2 ^ 31, currentPrints_ := 0 }
    else s
  call t s := s.call t

/-- One observed sink call; `IsOn()` is a `const` query and is not recorded. -/
inductive Call (α : Type) where
  | Level (level : Int)
  | Off
  | On
  | Reset
  | value (x : α)
  deriving DecidableEq, Repr

/-- A sink that appends every call it receives, tagged with `tag`, to a shared log.
`isOn` is the answer it gives to `IsOn()`. -/
def recorder {τ α : Type} (tag : τ) (isOn : Bool) : Sink (List (τ × Call α)) α where
  Level l w := w ++ [(tag, Call.Level l)]
  Off w := w ++ [(tag, Call.Off)]
  On w := w ++ [(tag, Call.On)]
  IsOn _ := isOn
  Reset w := w ++ [(tag, Call.Reset)]
  call x w := w ++ [(tag, Call.value x)]

/-! ## Filter bank (`WTFilter.hpp`, `WTFilter.cpp`) -/

/-- The tag types `struct MODWT` and `struct DWT` selecting the normalisation. -/
inductive Transform where
  | MODWT
  | DWT
  deriving DecidableEq, Repr

namespace Filter

/-- The enumeration `FType`; the enumerators have the values `0 .. 24` in this order. -/
inductive FType where
  | Haar
  | D4
  | D6
  | D8
  | D10
  | D12
  | D14
  | D16
  | D18
  | D20
  | LA8
  | LA10
  | LA12
  | LA14
  | LA16
  | LA18
  | LA20
  | BL14
  | BL18
  | BL20
  | C6
  | C12
  | C18
  | C24
  | C30
  deriving DecidableEq, Repr

/-- Integer value of an enumerator of `FType`. -/
def FType.toInt : FType → Int
  | FType.Haar => 0
  | FType.D4 => 1
  | FType.D6 => 2
  | FType.D8 => 3
  | FType.D10 => 4
  | FType.D12 => 5
  | FType.D14 => 6
  | FType.D16 => 7
  | FType.D18 => 8
  | FType.D20 => 9
  | FType.LA8 => 10
  | FType.LA10 => 11
  | FType.LA12 => 12
  | FType.LA14 => 13
  | FType.LA16 => 14
  | FType.LA18 => 15
  | FType.LA20 => 16
  | FType.BL14 => 17
  | FType.BL18 => 18
  | FType.BL20 => 19
  | FType.C6 => 20
  | FType.C12 => 21
  | FType.C18 => 22
  | FType.C24 => 23
  | FType.C30 => 24

/-- Every enumerator of `FType`, in declaration order. -/
def FType.all : List FType :=
  [FType.Haar, FType.D4, FType.D6, FType.D8, FType.D10,
   FType.D12, FType.D14, FType.D16, FType.D18, FType.D20,
   FType.LA8, FType.LA10, FType.LA12, FType.LA14, FType.LA16,
   FType.LA18, FType.LA20, FType.BL14, FType.BL18, FType.BL20,
   FType.C6, FType.C12, FType.C18, FType.C24, FType.C30]

namespace Details

variable {α : Type} [Field α]

/-- Loop of `quadraticMirror`: `*out++ = (*rbeg++) * inv; inv = -inv;`. -/
def quadraticMirrorLoop : List α → Int → List α
  | [], _ => []
  | x :: rest, inv => x * (inv : α) :: quadraticMirrorLoop rest (-inv)

/-- The function `quadraticMirror(rbeg, rend, out, invert)`: `r` is the sequence the reverse
iterators traverse, the result is what is written through `out`. -/
def quadraticMirror (r : List α) (invert : Bool) : List α :=
  quadraticMirrorLoop r (if invert then 1 else -1)

/-- The function `make_filter<WT>(t, sz)`: `g` is the array, divided by `std::sqrt(2)` when `WT`
is `MODWT`; `h` is the quadrature mirror of `g`; the pair returned is `(h, g)`. -/
def make_filter (wt : Transform) (sqrt2 : α) (t : List α) : List α × List α :=
  let g := if wt = Transform.MODWT then t.map (fun x => x / sqrt2) else t
  let h := quadraticMirror g.reverse true
  (h, g)

/-- The array `garr` of `Details::Haar`. -/
def Haar_garr : List α :=
  [
    0.707106781186547, 0.707106781186547
  ]

/-- `Details::Haar<WT>()`. -/
def Haar (wt : Transform) (sqrt2 : α) : List α × List α :=
  make_filter wt sqrt2 Haar_garr

/-- The array `garr` of `Details::Daub4`. -/
def Daub4_garr : List α :=
  [
    0.482962913144534, 0.836516303737808,
    0.224143868042013, -0.129409522551260
  ]

/-- `Details::Daub4<WT>()`. -/
def Daub4 (wt : Transform) (sqrt2 : α) : List α × List α :=
  make_filter wt sqrt2 Daub4_garr

/-- The array `garr` of `Details::Daub6`. -/
def Daub6_garr : List α :=
  [
    0.332670552950083, 0.806891509311093,
    0.459877502118491, -0.135011020010255,
    -0.0854412738820267, 0.0352262918857096
  ]

/-- `Details::Daub6<WT>()`. -/
def Daub6 (wt : Transform) (sqrt2 : α) : List α × List α :=
  make_filter wt sqrt2 Daub6_garr

/-- The array `garr` of `Details::Daub8`. -/
def Daub8_garr : List α :=
  [
    0.230377813307443, 0.714846570548406,
    0.630880767935879, -0.0279837694166834,
    -0.187034811717913, 0.0308413818353661,
    0.0328830116666778, -0.0105974017850021
  ]

/-- `Details::Daub8<WT>()`. -/
def Daub8 (wt : Transform) (sqrt2 : α) : List α × List α :=
  make_filter wt sqrt2 Daub8_garr

/-- The array `garr` of `Details::Daub10`. -/
def Daub10_garr : List α :=
  [
    0.160102397974193, 0.60382926979719,
    0.724308528437773, 0.138428145901320,
    -0.242294887066382, -0.0322448695846381,
    0.0775714938400459, -0.0062414902127983,
    -0.012580751999082, 0.0033357252854738
  ]

/-- `Details::Daub10<WT>()`. -/
def Daub10 (wt : Transform) (sqrt2 : α) : List α × List α :=
  make_filter wt sqrt2 Daub10_garr

/-- The array `garr` of `Details::Daub12`. -/
def Daub12_garr : List α :=
  [
    0.111540743350109, 0.494623890398453,
    0.751133908021095, 0.315250351709198,
    -0.22626469396544, -0.129766867567262,
    0.0975016055873224, 0.0275228655303053,
    -0.0315820393174862, 0.0005538422011614,
    0.0047772575109455, -0.0010773010853085
  ]

/-- `Details::Daub12<WT>()`. -/
def Daub12 (wt : Transform) (sqrt2 : α) : List α × List α :=
  make_filter wt sqrt2 Daub12_garr

/-- The array `garr` of `Details::Daub14`. -/
def Daub14_garr : List α :=
  [
    0.0778520540850081, 0.396539319481914,
    0.729132090846237, 0.469782287405215,
    -0.143906003928529, -0.224036184993854,
    0.0713092192668312, 0.080612609151082,
    -0.0380299369350125, -0.0165745416306664,
    0.0125509985560993, 0.0004295779729214,
    -0.0018016407040474, 0.0003537137999745
  ]

/-- `Details::Daub14<WT>()`. -/
def Daub14 (wt : Transform) (sqrt2 : α) : List α × List α :=
  make_filter wt sqrt2 Daub14_garr

/-- The array `garr` of `Details::Daub16`. -/
def Daub16_garr : List α :=
  [
    0.0544158422431049, 0.312871590914303,
    0.67563073629729, 0.585354683654191,
    -0.0158291052563816, -0.284015542961570,
    0.0004724845739124, 0.128747426620484,
    -0.0173693010018083, -0.0440882539307952,
    0.0139810279173995, 0.0087460940474061,
    -0.0048703529934518, -0.000391740373377,
    0.0006754494064506, -0.0001174767841248
  ]

/-- `Details::Daub16<WT>()`. -/
def Daub16 (wt : Transform) (sqrt2 : α) : List α × List α :=
  make_filter wt sqrt2 Daub16_garr

/-- The array `garr` of `Details::Daub18`. -/
def Daub18_garr : List α :=
  [
    0.0380779473638791, 0.243834674612594,
    0.604823123690116, 0.657288078051296,
    0.133197385824993, -0.293273783279176,
    -0.0968407832229524, 0.148540749338131,
    0.0307256814793395, -0.0676328290613302,
    0.000250947114834, 0.0223616621236805,
    -0.004723204757752, -0.0042815036824636,
    0.0018476468830564, 0.0002303857635232,
    -0.0002519631889427, 0.0000393473203163
  ]

/-- `Details::Daub18<WT>()`. -/
def Daub18 (wt : Transform) (sqrt2 : α) : List α × List α :=
  make_filter wt sqrt2 Daub18_garr

/-- The array `garr` of `Details::Daub20`. The last initializer of the source is the
single expression `0.0000935886703202 -0.0000132642028945` (no comma between the two
literals), so the array has 19 elements. -/
def Daub20_garr : List α :=
  [
    0.0266700579005546, 0.188176800077686,
    0.52720118893172, 0.688459039453625,
    0.281172343660649, -0.249846424327228,
    -0.19594627437734, 0.127369340335789,
    0.0930573646035802, -0.0713941471663697,
    -0.029457536821848, 0.0332126740593703,
    0.003606553566988, -0.0107331754833036,
    0.0013953517470692, 0.001992405295193,
    -0.0006858566949566, -0.0001164668551285,
    0.0000935886703202 - 0.0000132642028945
  ]

/-- `Details::Daub20<WT>()`. -/
def Daub20 (wt : Transform) (sqrt2 : α) : List α × List α :=
  make_filter wt sqrt2 Daub20_garr

/-- The array `garr` of `Details::LA8`. -/
def LA8_garr : List α :=
  [
    -0.0757657147893407, -0.0296355276459541,
    0.497618667632458, 0.803738751805216,
    0.297857795605542, -0.0992195435769354,
    -0.0126039672622612, 0.0322231006040713
  ]

/-- `Details::LA8<WT>()`. -/
def LA8 (wt : Transform) (sqrt2 : α) : List α × List α :=
  make_filter wt sqrt2 LA8_garr

/-- The array `garr` of `Details::LA10`. -/
def LA10_garr : List α :=
  [
    0.0195388827353869, -0.0211018340249298,
    -0.175328089908107, 0.0166021057644243,
    0.633978963456949, 0.723407690403808,
    0.199397533976996, -0.0391342493025834,
    0.0295194909260734, 0.0273330683451645
  ]

/-- `Details::LA10<WT>()`. -/
def LA10 (wt : Transform) (sqrt2 : α) : List α × List α :=
  make_filter wt sqrt2 LA10_garr

/-- The array `garr` of `Details::LA12`. -/
def LA12_garr : List α :=
  [
    0.0154041093273377, 0.0034907120843304,
    -0.117990111148411, -0.0483117425859981,
    0.49105594192764, 0.787641141028794,
    0.33792942172824, -0.0726375227866,
    -0.0210602925126954, 0.0447249017707482,
    0.0017677118643983, -0.007800708324765
  ]

/-- `Details::LA12<WT>()`. -/
def LA12 (wt : Transform) (sqrt2 : α) : List α × List α :=
  make_filter wt sqrt2 LA12_garr

/-- The array `garr` of `Details::LA14`. -/
def LA14_garr : List α :=
  [
    0.0102681767084968, 0.0040102448717033,
    -0.107808237703617, -0.140047240442703,
    0.288629631750983, 0.767764317004571,
    0.536101917090772, 0.0174412550871099,
    -0.049552834937041, 0.0678926935015971,
    0.0305155131659062, -0.0126363034031526,
    -0.0010473848889657, 0.0026818145681164
  ]

/-- `Details::LA14<WT>()`. -/
def LA14 (wt : Transform) (sqrt2 : α) : List α × List α :=
  make_filter wt sqrt2 LA14_garr

/-- The array `garr` of `Details::LA16`. -/
def LA16_garr : List α :=
  [
    -0.0033824159513594, -0.0005421323316355,
    0.0316950878103452, 0.0076074873252848,
    -0.143294238351054, -0.0612733590679088,
    0.481359651259201, 0.777185751699748,
    0.364441894835956, -0.0519458381078751,
    -0.0272190299168137, 0.0491371796734768,
    0.0038087520140601, -0.0149522583367926,
    -0.0003029205145516, 0.0018899503329007
  ]

/-- `Details::LA16<WT>()`. -/
def LA16 (wt : Transform) (sqrt2 : α) : List α × List α :=
  make_filter wt sqrt2 LA16_garr

/-- The array `garr` of `Details::LA18`. -/
def LA18_garr : List α :=
  [
    0.0010694900326538, -0.0004731544985879,
    -0.0102640640276849, 0.0088592674935117,
    0.0620777893027638, -0.0182337707798257,
    -0.191550831296487, 0.0352724880359345,
    0.617338449141352, 0.717897082764226,
    0.238760914607418, -0.0545689584305765,
    0.0005834627463312, 0.0302248788579895,
    -0.0115282102079848, -0.0132719677815332,
    0.0006197808890549, 0.0014009155255716
  ]

/-- `Details::LA18<WT>()`. -/
def LA18 (wt : Transform) (sqrt2 : α) : List α × List α :=
  make_filter wt sqrt2 LA18_garr

/-- The array `garr` of `Details::LA20`. -/
def LA20_garr : List α :=
  [
    0.000770159809103, 0.0000956326707837,
    -0.0086412992759401, -0.0014653825833465,
    0.0459272392237649, 0.0116098939129724,
    -0.159494278857531, -0.0708805358108615,
    0.471690666842659, 0.769510037014339,
    0.383826761225382, -0.0355367403054689,
    -0.0319900568281631, 0.049994972079156,
    0.0057649120455518, -0.020354939803946,
    -0.000804358934537, 0.0045931735836703,
    0.000057036084339, -0.0004593294205481
  ]

/-- `Details::LA20<WT>()`. -/
def LA20 (wt : Transform) (sqrt2 : α) : List α × List α :=
  make_filter wt sqrt2 LA20_garr

/-- The array `garr` of `Details::BL14`. -/
def BL14_garr : List α :=
  [
    0.0120154192834842, 0.0172133762994439,
    -0.0649080035533744, -0.064131289818917,
    0.360218460898555, 0.781921593296555,
    0.483610915693782, -0.0568044768822707,
    -0.101010920866413, 0.0447423494687405,
    0.0204642075778225, -0.0181266051311065,
    -0.0032832978473081, 0.0022918339541009
  ]

/-- `Details::BL14<WT>()`. -/
def BL14 (wt : Transform) (sqrt2 : α) : List α × List α :=
  make_filter wt sqrt2 BL14_garr

/-- The array `garr` of `Details::BL18`. -/
def BL18_garr : List α :=
  [
    0.0002594576266544, -0.0006273974067728,
    -0.0019161070047557, 0.0059845525181721,
    0.0040676562965785, -0.0295361433733604,
    -0.0002189514157348, 0.0856124017265279,
    -0.0211480310688774, -0.143292975939652,
    0.233778290022498, 0.737470761993369,
    0.592655137443396, 0.0805670008868546,
    -0.114334306961931, -0.0348460237698368,
    0.0139636362487191, 0.0057746045512475
  ]

/-- `Details::BL18<WT>()`. -/
def BL18 (wt : Transform) (sqrt2 : α) : List α × List α :=
  make_filter wt sqrt2 BL18_garr

/-- The array `garr` of `Details::BL20`. -/
def BL20_garr : List α :=
  [
    0.0008625782242896, 0.0007154205305517,
    -0.0070567640909701, 0.0005956827305406,
    0.0496861265075979, 0.0262403647054251,
    -0.121552106157816, -0.0150192395413644,
    0.513709872833405, 0.766954836501085,
    0.340216013511079, -0.0878787107378667,
    -0.0670899071680668, 0.0338423550064691,
    -0.0008687519578684, -0.0230054612862905,
    -0.0011404297773324, 0.0050716491945793,
    0.0003401492622332, -0.0004101159165852
  ]

/-- `Details::BL20<WT>()`. -/
def BL20 (wt : Transform) (sqrt2 : α) : List α × List α :=
  make_filter wt sqrt2 BL20_garr

/-- The array `garr` of `Details::C6`. -/
def C6_garr : List α :=
  [
    -0.0156557285289848, -0.0727326213410511,
    0.384864856538113, 0.85257204164239,
    0.337897670951159, -0.0727322757411889
  ]

/-- `Details::C6<WT>()`. -/
def C6 (wt : Transform) (sqrt2 : α) : List α × List α :=
  make_filter wt sqrt2 C6_garr

/-- The array `garr` of `Details::C12`. -/
def C12_garr : List α :=
  [
    -0.0007205494453679, -0.0018232088707116,
    0.0056114348194211, 0.0236801719464464,
    -0.0594344186467388, -0.0764885990786692,
    0.417005184423671, 0.812723635449398,
    0.386110066822994, -0.0673725547222826,
    -0.0414649367819558, 0.0163873364635998
  ]

/-- `Details::C12<WT>()`. -/
def C12 (wt : Transform) (sqrt2 : α) : List α × List α :=
  make_filter wt sqrt2 C12_garr

/-- The array `garr` of `Details::C18`. -/
def C18_garr : List α :=
  [
    -0.0000345997728362, -0.0000709833031381,
    0.0004662169601129, 0.0011175187708906,
    -0.0025745176887502, -0.0090079761366615,
    0.0158805448636158, 0.0345550275730615,
    -0.0823019271068856, -0.0717998216193117,
    0.428483476377617, 0.793777222625617,
    0.405176902409615, -0.0611233900026726,
    -0.0657719112818552, 0.0234526961418362,
    0.0077825964273254, -0.003793512864491
  ]

/-- `Details::C18<WT>()`. -/
def C18 (wt : Transform) (sqrt2 : α) : List α × List α :=
  make_filter wt sqrt2 C18_garr

/-- The array `garr` of `Details::C24`. -/
def C24_garr : List α :=
  [
    -0.0000017849850031, -0.0000032596802369,
    0.0000312298758654, 0.000062339034461,
    -0.0002599745524878, -0.0005890207562444,
    0.0012665619292991, 0.003751436157279,
    -0.0056582866866115, -0.0152117315279485,
    0.0250822618448678, 0.0393344271233433,
    -0.096220442034002, -0.0666274742634348,
    0.434386056491532, 0.782238930920613,
    0.415308407030491, -0.056077313316763,
    -0.0812666996808907, 0.026682300156057,
    0.0160689439647787, -0.0073461663276432,
    -0.001629492012602, 0.0008923136685824
  ]

/-- `Details::C24<WT>()`. -/
def C24 (wt : Transform) (sqrt2 : α) : List α × List α :=
  make_filter wt sqrt2 C24_garr

/-- The array `garr` of `Details::C30`. -/
def C30_garr : List α :=
  [
    -0.0000000951765727, -0.0000001674428858,
    0.0000020637618516, 0.0000037346551755,
    -0.0000213150268122, -0.0000413404322768,
    0.0001405411497166, 0.0003022595818445,
    -0.0006381313431115, -0.001662863702186,
    0.0024333732129107, 0.0067641854487565,
    -0.0091642311634348, -0.0197617789446276,
    0.0326835742705106, 0.0412892087544753,
    -0.105574208714317, -0.0620359639693546,
    0.437991626217383, 0.774289603733474,
    0.42156620673469, -0.0520431631816557,
    -0.0919200105692549, 0.0281680289738655,
    0.0234081567882734, -0.0101311175209033,
    -0.0041593587818186, 0.0021782363583355,
    0.000358589687933, -0.0002120808398259
  ]

/-- `Details::C30<WT>()`. -/
def C30 (wt : Transform) (sqrt2 : α) : List α × List α :=
  make_filter wt sqrt2 C30_garr

end Details

variable {α : Type} [Field α]

/-- The function `getFilters<WT>(ft)`: the `switch` over the value of `ft`, whose `default`
branch throws `Ext::ArgumentError("getFilters()", "no FType match")`. -/
def getFilters (wt : Transform) (sqrt2 : α) (ft : Int) : Except Error (List α × List α) :=
  match ft with
  | 0 => Except.ok (Details.Haar wt sqrt2)
  | 1 => Except.ok (Details.Daub4 wt sqrt2)
  | 2 => Except.ok (Details.Daub6 wt sqrt2)
  | 3 => Except.ok (Details.Daub8 wt sqrt2)
  | 4 => Except.ok (Details.Daub10 wt sqrt2)
  | 5 => Except.ok (Details.Daub12 wt sqrt2)
  | 6 => Except.ok (Details.Daub14 wt sqrt2)
  | 7 => Except.ok (Details.Daub16 wt sqrt2)
  | 8 => Except.ok (Details.Daub18 wt sqrt2)
  | 9 => Except.ok (Details.Daub20 wt sqrt2)
  | 10 => Except.ok (Details.LA8 wt sqrt2)
  | 11 => Except.ok (Details.LA10 wt sqrt2)
  | 12 => Except.ok (Details.LA12 wt sqrt2)
  | 13 => Except.ok (Details.LA14 wt sqrt2)
  | 14 => Except.ok (Details.LA16 wt sqrt2)
  | 15 => Except.ok (Details.LA18 wt sqrt2)
  | 16 => Except.ok (Details.LA20 wt sqrt2)
  | 17 => Except.ok (Details.BL14 wt sqrt2)
  | 18 => Except.ok (Details.BL18 wt sqrt2)
  | 19 => Except.ok (Details.BL20 wt sqrt2)
  | 20 => Except.ok (Details.C6 wt sqrt2)
  | 21 => Except.ok (Details.C12 wt sqrt2)
  | 22 => Except.ok (Details.C18 wt sqrt2)
  | 23 => Except.ok (Details.C24 wt sqrt2)
  | 24 => Except.ok (Details.C30 wt sqrt2)
  | _ => Except.error Error.ArgumentError

end Filter

/-! ## Transform kernels (`namespace Details` of `WT.cpp`) -/

/-- Result of an orchestrator call: the exception that reached the caller (if any), the
caller-visible buffer after the call and the sink state after the call. -/
structure Run (σ β : Type) where
  err : Option Error
  buf : β
  world : σ

/-- The length test `size >= std::pow(2.0, expsz)` shared by the orchestrators. The power is
a `double`: it is the exact `2^expsz` (a fraction when `expsz` is negative) down to the
smallest subnormal `2^-1074`, and it underflows to `0` for `expsz ≤ -1075`, where the test
passes for every size, the empty one included. Above `expsz = 1023` the power is `+inf`, which
no `std::size_t` reaches, as no size below `2^64` reaches the exact power; the conversion of
`size` to `double` is exact below `2^53`. -/
def lengthOk (size : Nat) (expsz : Int) : Bool :=
  if expsz < -1074 then true else decide ((2 : ℚ) ^ expsz ≤ (size : ℚ))

namespace Details

variable {α : Type} [Field α] {σ : Type}

/-- Index update of the forward kernels: `if ( k >= D ) k -= D; else k = N + k - D;`
(natural-number subtraction; exact whenever `D ≤ N + k`). -/
def fwdIdx (N D k : Nat) : Nat := if k ≥ D then k - D else N + k - D

/-- Index update of the backward kernels: `k += D; if ( k >= N ) k -= N;`. -/
def bwdIdx (N D k : Nat) : Nat := if k + D ≥ N then k + D - N else k + D

/-- Body of the `t` loop of `modwt_forward` without the sink calls: the pair
`(Vj[t], Wj)` after the inner loop `for l = 1 .. L-1`, with `k` starting at `t`. -/
def modwt_forward_at (Vi wavefilt scalefilt : List α) (D t : Nat) : α × α :=
  let N := Vi.length
  let L := wavefilt.length
  let r := (List.range' 1 (L - 1)).foldl
    (fun (acc : Nat × α × α) l =>
      let k := fwdIdx N D acc.1
      (k, acc.2.1 + scalefilt.getD l 0 * Vi.getD k 0, acc.2.2 + wavefilt.getD l 0 * Vi.getD k 0))
    (t, scalefilt.getD 0 0 * Vi.getD t 0, wavefilt.getD 0 0 * Vi.getD t 0)
  (r.2.1, r.2.2)

/-- First overload of `modwt_forward` (the wavelet coefficient is a local scalar): returns the
buffer `Vj` and the sink state after the loop over `t = 0 .. N-1`. `D = 2^j`. -/
def modwt_forward (vop wop : Sink σ α) (Vi wavefilt scalefilt : List α) (j : Nat)
    (Vj : List α) (w : σ) : List α × σ :=
  (List.range Vi.length).foldl
    (fun (st : List α × σ) t =>
      let r := modwt_forward_at Vi wavefilt scalefilt (2 ^ j) t
      (st.1.set t r.1, wop.call r.2 (vop.call r.1 st.2)))
    (Vj, w)

/-- Second overload of `modwt_forward` (wavelet coefficients are stored in the buffer `Wj`):
returns `Vj`, `Wj` and the sink state. -/
def modwt_forward2 (vop wop : Sink σ α) (Vi wavefilt scalefilt : List α) (j : Nat)
    (Vj Wj : List α) (w : σ) : List α × List α × σ :=
  (List.range Vi.length).foldl
    (fun (st : List α × List α × σ) t =>
      let r := modwt_forward_at Vi wavefilt scalefilt (2 ^ j) t
      (st.1.set t r.1, st.2.1.set t r.2, wop.call r.2 (vop.call r.1 st.2.2)))
    (Vj, Wj, w)

/-- Body of the `t` loop of `imodwt_backward` without the sink call: `Vi[t]`. -/
def imodwt_backward_at (Vj Wj wavefilt scalefilt : List α) (D t : Nat) : α :=
  let N := Vj.length
  let L := wavefilt.length
  let r := (List.range' 1 (L - 1)).foldl
    (fun (acc : Nat × α) l =>
      let k := bwdIdx N D acc.1
      (k, acc.2 + (scalefilt.getD l 0 * Vj.getD k 0 + wavefilt.getD l 0 * Wj.getD k 0)))
    (t, scalefilt.getD 0 0 * Vj.getD t 0 + wavefilt.getD 0 0 * Wj.getD t 0)
  r.2

/-- The kernel `imodwt_backward`: returns the buffer `Vi` and the sink state. -/
def imodwt_backward (vop : Sink σ α) (Vj Wj wavefilt scalefilt : List α) (j : Nat)
    (Vi : List α) (w : σ) : List α × σ :=
  (List.range Vj.length).foldl
    (fun (st : List α × σ) t =>
      let v := imodwt_backward_at Vj Wj wavefilt scalefilt (2 ^ j) t
      (st.1.set t v, vop.call v st.2))
    (Vi, w)

/-- Body of the `t` loop of `imodwt_backward_zerophase` without the sink call: `Ki[t]`. -/
def imodwt_backward_zerophase_at (Kj filt : List α) (D t : Nat) : α :=
  let N := Kj.length
  let L := filt.length
  let r := (List.range' 1 (L - 1)).foldl
    (fun (acc : Nat × α) l =>
      let k := bwdIdx N D acc.1
      (k, acc.2 + filt.getD l 0 * Kj.getD k 0))
    (t, filt.getD 0 0 * Kj.getD t 0)
  r.2

/-- The kernel `imodwt_backward_zerophase`: returns the buffer `Ki` and the sink state. -/
def imodwt_backward_zerophase (op : Sink σ α) (Kj filt : List α) (j : Nat)
    (Ki : List α) (w : σ) : List α × σ :=
  (List.range Kj.length).foldl
    (fun (st : List α × σ) t =>
      let v := imodwt_backward_zerophase_at Kj filt (2 ^ j) t
      (st.1.set t v, op.call v st.2))
    (Ki, w)

/-- Two buffers addressed through a pair of pointers that are swapped after every step:
`src` is the buffer the read pointer designates, `dst` the one the write pointer designates. -/
structure PingPong (σ α : Type) where
  src : List α
  dst : List α
  world : σ

/-- The buffer passed as first reference after `n` pointer swaps (the read pointer
started on it). -/
def PingPong.first {σ α : Type} (p : PingPong σ α) (n : Nat) : List α :=
  if n % 2 = 0 then p.src else p.dst

/-- The buffer passed as second reference after `n` pointer swaps. -/
def PingPong.second {σ α : Type} (p : PingPong σ α) (n : Nat) : List α :=
  if n % 2 = 0 then p.dst else p.src

/-- Body of the `for` loop of `details_one` at `j`: `dop.Level(j+1)`, one zero-phase step
(wavelet filter when `j == level`, scaling filter otherwise), then the pointer swap. -/
def details_one_step (dop : Sink σ α) (wavefilt scalefilt : List α) (level : Nat)
    (st : PingPong σ α) (j : Nat) : PingPong σ α :=
  let w1 := dop.Level ((j : Int) + 1) st.world
  let r := imodwt_backward_zerophase dop st.src (if j = level then wavefilt else scalefilt)
    j st.dst w1
  { src := r.1, dst := st.src, world := r.2 }

/-- The cascade `details_one`: nothing for an empty `Wjt`, otherwise the loop
`for ( int j = 0; j <= level; ++j )`. Returns the buffers `Wjt`, `Wit` and the sink state. -/
def details_one (dop : Sink σ α) (Wjt Wit wavefilt scalefilt : List α) (level : Nat)
    (w : σ) : List α × List α × σ :=
  if Wjt.isEmpty then (Wjt, Wit, w)
  else
    let p := (List.range (level + 1)).foldl (details_one_step dop wavefilt scalefilt level)
      { src := Wjt, dst := Wit, world := w }
    (p.first (level + 1), p.second (level + 1), p.world)

/-- Body of the `for` loop of `smooth_one` at its `i`-th iteration (`n` iterations in all,
`j = n - 1 - i`, `n` being the incremented `numLevels`): `sop.Level(numLevels - j)`, one
zero-phase step with the scaling filter, then the pointer swap. -/
def smooth_one_step (sop : Sink σ α) (scalefilt : List α) (n : Nat) (st : PingPong σ α)
    (i : Nat) : PingPong σ α :=
  let j : Nat := n - 1 - i
  let w1 := sop.Level ((n : Int) - (j : Int)) st.world
  let r := imodwt_backward_zerophase sop st.src scalefilt j st.dst w1
  { src := r.1, dst := st.src, world := r.2 }

/-- The cascade `smooth_one`: the length check, `++numLevels`, then the loop
`for ( int j = numLevels - 1; j >= 0; --j )`. The buffer of the result holds `(Vj0, Vi)`.
The model covers the `int` values `-2^31 < numLevels < 2^31 - 1` (neither `numLevels - 1` nor
`++numLevels` overflows). -/
def smooth_one (sop : Sink σ α) (Vj0 Vi scalefilt : List α) (numLevels : Int) (w : σ) :
    Run σ (List α × List α) :=
  match Assert Error.ArgumentError (lengthOk Vj0.length (numLevels - 1)) with
  | Except.error e => { err := some e, buf := (Vj0, Vi), world := w }
  | Except.ok _ =>
    let n := (numLevels + 1).toNat
    let p := (List.range n).foldl (smooth_one_step sop scalefilt n)
      { src := Vj0, dst := Vi, world := w }
    { err := none, buf := (p.first n, p.second n), world := p.world }

end Details

/-! ## Orchestrators (`WT.cpp`) -/

variable {α : Type} [Field α] {σ : Type}

/-- Body of the `for` loop of `modwt` at `j`: `vop.Level(j+1)`, `wop.Level(j+1)`, the forward
step from `*Vi` into `*Vj`, then the pointer swap. -/
def modwtStep (vop wop : Sink σ α) (wavefilt scalefilt : List α) (st : Details.PingPong σ α)
    (j : Nat) : Details.PingPong σ α :=
  let w1 := wop.Level ((j : Int) + 1) (vop.Level ((j : Int) + 1) st.world)
  let r := Details.modwt_forward vop wop st.src wavefilt scalefilt j st.dst w1
  { src := r.1, dst := st.src, world := r.2 }

/-- The orchestrator `modwt(X, wavefilt, scalefilt, numLevels, vop, wop)`. The scratch buffer
`Vk` starts as `X.size()` zeros; the read pointer `Vi` starts on `X`. `numLevels` is an `int`:
`numLevels - 1` is the exact difference for every value above `INT_MIN` (at `INT_MIN` the
subtraction overflows, which is undefined), so the model covers `-2^31 < numLevels < 2^31`. -/
def modwt (vop wop : Sink σ α) (X wavefilt scalefilt : List α) (numLevels : Int) (w : σ) :
    Run σ (List α) :=
  match Assert Error.ArgumentError (lengthOk X.length (numLevels - 1)) with
  | Except.error e => { err := some e, buf := X, world := w }
  | Except.ok _ =>
    let n := numLevels.toNat
    let p := (List.range n).foldl (modwtStep vop wop wavefilt scalefilt)
      { src := X, dst := List.replicate X.length 0, world := w }
    { err := none, buf := p.first n, world := p.world }

/-- Body of the `while` loop of `imodwt` at its `i`-th iteration (`n = Wj.size()`):
`vop.Level(--j)`, the backward step with the series the reverse iterator designates, then the
pointer swap. -/
def imodwtStep (vop : Sink σ α) (Wj : List (List α)) (wavefilt scalefilt : List α) (n : Nat)
    (st : Details.PingPong σ α) (i : Nat) : Details.PingPong σ α :=
  let j : Nat := n - 1 - i
  let w1 := vop.Level (j : Int) st.world
  let r := Details.imodwt_backward vop st.src (Wj.getD j []) wavefilt scalefilt j st.dst w1
  { src := r.1, dst := st.src, world := r.2 }

/-- The orchestrator `imodwt(Vj0, Wj, wavefilt, scalefilt, vop)`. `Wj.size() - 1` is computed
on `std::size_t` (64 bits); the series of `Wj` are visited through a reverse iterator while
`j` counts down from `Wj.size()`. -/
def imodwt (vop : Sink σ α) (Vj0 : List α) (Wj : List (List α)) (wavefilt scalefilt : List α)
    (w : σ) : Run σ (List α) :=
  let expsz : Nat := (Wj.length + 2 ^ 64 - 1) % 2 ^ 64
  match Assert Error.ArgumentError (lengthOk Vj0.length expsz) with
  | Except.error e => { err := some e, buf := Vj0, world := w }
  | Except.ok _ =>
    let n := Wj.length
    let p := (List.range n).foldl (imodwtStep vop Wj wavefilt scalefilt n)
      { src := Vj0, dst := List.replicate Vj0.length 0, world := w }
    { err := none, buf := p.first n, world := p.world }

/-- Body of the `for` loop of `smooth` at its `i`-th iteration (`n` iterations in all,
`j = n - 1 - i`): `sop.Level(numLevels - j)`, one zero-phase step, then the pointer swap. -/
def smoothStep (sop : Sink σ α) (scalefilt : List α) (n : Nat) (st : Details.PingPong σ α)
    (i : Nat) : Details.PingPong σ α :=
  let j : Nat := n - 1 - i
  let w1 := sop.Level ((n : Int) - (j : Int)) st.world
  let r := Details.imodwt_backward_zerophase sop st.src scalefilt j st.dst w1
  { src := r.1, dst := st.src, world := r.2 }

/-- The orchestrator `smooth(Vj0, scalefilt, numLevels, sop)`: the loop
`for ( int j = numLevels - 1; j >= 0; --j )` with `sop.Level(numLevels - j)`; the second
buffer `Vi` starts as a copy of `Vj0`. As in `modwt`, the model covers the `int` values
`-2^31 < numLevels < 2^31`. -/
def smooth (sop : Sink σ α) (Vj0 scalefilt : List α) (numLevels : Int) (w : σ) :
    Run σ (List α) :=
  match Assert Error.ArgumentError (lengthOk Vj0.length (numLevels - 1)) with
  | Except.error e => { err := some e, buf := Vj0, world := w }
  | Except.ok _ =>
    let n := numLevels.toNat
    let p := (List.range n).foldl (smoothStep sop scalefilt n)
      { src := Vj0, dst := Vj0, world := w }
    { err := none, buf := p.first n, world := p.world }

/-- Body of the `while` loop of `details` at `sz`: the cascade `details_one` on the series
`Wj[sz]` and the shared scratch buffer `Wit`, with level `sz` and sink `dops[sz]`. -/
def detailsStep (dops : List (Sink σ α)) (wavefilt scalefilt : List α)
    (st : List (List α) × List α × σ) (sz : Nat) : List (List α) × List α × σ :=
  let d := Details.details_one (dops.getD sz DoNothing) (st.1.getD sz []) st.2.1
    wavefilt scalefilt sz st.2.2
  (st.1.set sz d.1, d.2.1, d.2.2)

/-- The orchestrator `details(Wj, wavefilt, scalefilt, dops)`: one `details_one` cascade per
series, all sharing the scratch buffer `Wit` of `Wj[0].size()` zeros. -/
def details (dops : List (Sink σ α)) (Wj : List (List α)) (wavefilt scalefilt : List α)
    (w : σ) : Run σ (List (List α)) :=
  if Wj.isEmpty then { err := none, buf := Wj, world := w }
  else
    match Assert Error.ArgumentError
      (lengthOk (Wj.getD 0 []).length ((Wj.length - 1 : Nat) : Int)) with
    | Except.error e => { err := some e, buf := Wj, world := w }
    | Except.ok _ =>
      let r := (List.range Wj.length).foldl (detailsStep dops wavefilt scalefilt)
        (Wj, List.replicate (Wj.getD 0 []).length 0, w)
      { err := none, buf := r.1, world := r.2.2 }

/-- Loop state of `doAll`: the buffers `*xPtr` and `*yPtr`, whether `xPtr` designates the
caller's `X`, the optional third buffer `*zPtr`, the sink state and a pending exception. -/
structure DoAllState (σ α : Type) where
  x : List α
  y : List α
  xIsX : Bool
  z : Option (List α)
  world : σ
  err : Option Error

/-- One iteration (`idx`) of the `for` loop of `doAll`; `Ysize` is `Y.size()`. -/
def doAllStep (waveletOp detailsOp scalingOp smoothOp : Sink σ α) (wavefilt scalefilt : List α)
    (Ysize level : Nat) (scalingWasOn : Bool) (st : DoAllState σ α) (idx : Nat) :
    DoAllState σ α :=
  if st.err.isSome then st
  else
    let w1 := waveletOp.Level (idx : Int) st.world
    let w2 := if idx = level ∧ scalingWasOn = true then
        scalingOp.Level (idx : Int) (scalingOp.On w1) else w1
    let w3 := detailsOp.Level (idx : Int) (detailsOp.Reset w2)
    let st1 : DoAllState σ α :=
      if detailsOp.IsOn w3 then
        let z0 := match st.z with
          | some z => z
          | none => List.replicate Ysize 0
        let f := Details.modwt_forward2 scalingOp waveletOp st.x wavefilt scalefilt (idx - 1)
          st.y z0 w3
        let d := Details.details_one detailsOp f.2.1 st.x wavefilt scalefilt (idx - 1) f.2.2
        { st with x := d.2.1, y := f.1, z := some d.1, world := d.2.2 }
      else
        let f := Details.modwt_forward scalingOp waveletOp st.x wavefilt scalefilt (idx - 1)
          st.y w3
        { st with y := f.1, world := f.2 }
    let w4 := smoothOp.Level (idx : Int) st1.world
    let st2 : DoAllState σ α :=
      if idx = level ∧ smoothOp.IsOn w4 = true then
        let r := Details.smooth_one smoothOp st1.y st1.x scalefilt ((idx : Int) - 1) w4
        { st1 with y := r.buf.1, x := r.buf.2, world := r.world, err := r.err }
      else { st1 with world := w4 }
    if st2.err.isSome then st2
    else { st2 with x := st2.y, y := st2.x, xIsX := !st2.xIsX }

/-- The orchestrator `doAll(X, level, filterType, waveletOp, detailsOp, scalingOp, smoothOp)`.
`level` is an `unsigned int`, so `level - 1` is computed modulo `2^32`. -/
def doAll (sqrt2 : α) (waveletOp detailsOp scalingOp smoothOp : Sink σ α) (X : List α)
    (level : Nat) (filterType : Int) (w : σ) : Run σ (List α) :=
  match Assert Error.ArgumentError (!X.isEmpty) with
  | Except.error e => { err := some e, buf := X, world := w }
  | Except.ok _ =>
    let expsz : Nat := (level + 2 ^ 32 - 1) % 2 ^ 32
    match Assert Error.ArgumentError (lengthOk X.length expsz) with
    | Except.error e => { err := some e, buf := X, world := w }
    | Except.ok _ =>
      match Filter.getFilters Transform.MODWT sqrt2 filterType with
      | Except.error e => { err := some e, buf := X, world := w }
      | Except.ok filters =>
        let scalingWasOn := scalingOp.IsOn w
        let w0 := scalingOp.Off w
        let st := (List.range' 1 level).foldl
          (doAllStep waveletOp detailsOp scalingOp smoothOp filters.1 filters.2 X.length level
            scalingWasOn)
          { x := X, y := List.replicate X.length 0, xIsX := true, z := none, world := w0,
            err := none }
        { err := st.err, buf := if st.xIsX then st.x else st.y, world := st.world }

/-- The wrapper `mra(X, level, filterType, detailsOp, smoothOp)`: `doAll` with `DoNothing`
wavelet and scaling sinks. -/
def mra (sqrt2 : α) (detailsOp smoothOp : Sink σ α) (X : List α) (level : Nat)
    (filterType : Int) (w : σ) : Run σ (List α) :=
  doAll sqrt2 DoNothing detailsOp DoNothing smoothOp X level filterType w

/-! ## The transform with every kernel subscript checked

The kernels and orchestrators once more, with the reads and writes of the coefficient buffers
and of the filters checked: a result `none` means that the run reaches a kernel whose
documented precondition (`D <= N`, "asserted by caller") fails or a subscript that is out of
range, where the behaviour of the C++ code is undefined. An exception raised by
`Ext::Assert` is a defined outcome and is reported in `Run.err` as before. -/

namespace Checked

namespace Details

variable {α : Type} [Field α] {σ : Type}

/-- The shift `D = static_cast<std::size_t>(std::pow(2.0, j))` for `j ≥ 0`: `2^j` when it
fits a 64-bit `std::size_t`; from `2^64` on the conversion is undefined. -/
def shift (j : Nat) : Option Nat := if j < 64 then some (2 ^ j) else none

/-- Index update of the forward kernels on `std::size_t`:
`if ( k >= D ) k -= D; else k = N + k - D;`, the sum and the difference taken modulo `2^64`. -/
def fwdIdx (N D k : Nat) : Nat := if k ≥ D then k - D else (N + k + 2 ^ 64 - D) % 2 ^ 64

/-- Index update of the backward kernels on `std::size_t`: `k += D; if ( k >= N ) k -= N;`,
the sum taken modulo `2^64`. -/
def bwdIdx (N D k : Nat) : Nat :=
  let k1 := (k + D) % 2 ^ 64
  if k1 ≥ N then k1 - N else k1

/-- Body of the `t` loop of `modwt_forward` with checked reads of `Vi`, `scalefilt` and
`wavefilt`: the pair `(Vj[t], Wj)` after the inner loop. -/
def modwt_forward_at (Vi wavefilt scalefilt : List α) (D t : Nat) : Option (α × α) := do
  let N := Vi.length
  let L := wavefilt.length
  let g0 ← scalefilt[0]?
  let h0 ← wavefilt[0]?
  let x0 ← Vi[t]?
  let r ← (List.range' 1 (L - 1)).foldlM
    (fun (acc : Nat × α × α) l => do
      let k := fwdIdx N D acc.1
      let gl ← scalefilt[l]?
      let hl ← wavefilt[l]?
      let x ← Vi[k]?
      pure (k, acc.2.1 + gl * x, acc.2.2 + hl * x))
    (t, g0 * x0, h0 * x0)
  pure (r.2.1, r.2.2)

/-- First overload of `modwt_forward`, checked: the shift must be representable and at most
`N`, and every write `Vj[t]` must be in range. -/
def modwt_forward (vop wop : Sink σ α) (Vi wavefilt scalefilt : List α) (j : Nat)
    (Vj : List α) (w : σ) : Option (List α × σ) := do
  let D ← shift j
  if D ≤ Vi.length then
    (List.range Vi.length).foldlM
      (fun (st : List α × σ) t => do
        let r ← modwt_forward_at Vi wavefilt scalefilt D t
        if t < st.1.length then
          pure (st.1.set t r.1, wop.call r.2 (vop.call r.1 st.2))
        else none)
      (Vj, w)
  else none

/-- Second overload of `modwt_forward`, checked: as the first, and every write `Wj[t]` must be
in range. -/
def modwt_forward2 (vop wop : Sink σ α) (Vi wavefilt scalefilt : List α) (j : Nat)
    (Vj Wj : List α) (w : σ) : Option (List α × List α × σ) := do
  let D ← shift j
  if D ≤ Vi.length then
    (List.range Vi.length).foldlM
      (fun (st : List α × List α × σ) t => do
        let r ← modwt_forward_at Vi wavefilt scalefilt D t
        if t < st.1.length ∧ t < st.2.1.length then
          pure (st.1.set t r.1, st.2.1.set t r.2, wop.call r.2 (vop.call r.1 st.2.2))
        else none)
      (Vj, Wj, w)
  else none

/-- Body of the `t` loop of `imodwt_backward` with checked reads of `Vj`, `Wj` and the
filters: `Vi[t]`. -/
def imodwt_backward_at (Vj Wj wavefilt scalefilt : List α) (D t : Nat) : Option α := do
  let N := Vj.length
  let L := wavefilt.length
  let g0 ← scalefilt[0]?
  let h0 ← wavefilt[0]?
  let v0 ← Vj[t]?
  let w0 ← Wj[t]?
  let r ← (List.range' 1 (L - 1)).foldlM
    (fun (acc : Nat × α) l => do
      let k := bwdIdx N D acc.1
      let gl ← scalefilt[l]?
      let hl ← wavefilt[l]?
      let v ← Vj[k]?
      let u ← Wj[k]?
      pure (k, acc.2 + (gl * v + hl * u)))
    (t, g0 * v0 + h0 * w0)
  pure r.2

/-- The kernel `imodwt_backward`, checked. -/
def imodwt_backward (vop : Sink σ α) (Vj Wj wavefilt scalefilt : List α) (j : Nat)
    (Vi : List α) (w : σ) : Option (List α × σ) := do
  let D ← shift j
  if D ≤ Vj.length then
    (List.range Vj.length).foldlM
      (fun (st : List α × σ) t => do
        let v ← imodwt_backward_at Vj Wj wavefilt scalefilt D t
        if t < st.1.length then pure (st.1.set t v, vop.call v st.2) else none)
      (Vi, w)
  else none

/-- Body of the `t` loop of `imodwt_backward_zerophase` with checked reads of `Kj` and
`filt`: `Ki[t]`. -/
def imodwt_backward_zerophase_at (Kj filt : List α) (D t : Nat) : Option α := do
  let N := Kj.length
  let L := filt.length
  let f0 ← filt[0]?
  let x0 ← Kj[t]?
  let r ← (List.range' 1 (L - 1)).foldlM
    (fun (acc : Nat × α) l => do
      let k := bwdIdx N D acc.1
      let fl ← filt[l]?
      let x ← Kj[k]?
      pure (k, acc.2 + fl * x))
    (t, f0 * x0)
  pure r.2

/-- The kernel `imodwt_backward_zerophase`, checked. -/
def imodwt_backward_zerophase (op : Sink σ α) (Kj filt : List α) (j : Nat)
    (Ki : List α) (w : σ) : Option (List α × σ) := do
  let D ← shift j
  if D ≤ Kj.length then
    (List.range Kj.length).foldlM
      (fun (st : List α × σ) t => do
        let v ← imodwt_backward_zerophase_at Kj filt D t
        if t < st.1.length then pure (st.1.set t v, op.call v st.2) else none)
      (Ki, w)
  else none

/-- Body of the `for` loop of `details_one` at `j`, with the checked kernel. -/
def details_one_step (dop : Sink σ α) (wavefilt scalefilt : List α) (level : Nat)
    (st : WT.Details.PingPong σ α) (j : Nat) : Option (WT.Details.PingPong σ α) := do
  let w1 := dop.Level ((j : Int) + 1) st.world
  let r ← imodwt_backward_zerophase dop st.src (if j = level then wavefilt else scalefilt)
    j st.dst w1
  pure { src := r.1, dst := st.src, world := r.2 }

/-- The cascade `details_one` with the checked kernel. -/
def details_one (dop : Sink σ α) (Wjt Wit wavefilt scalefilt : List α) (level : Nat)
    (w : σ) : Option (List α × List α × σ) :=
  if Wjt.isEmpty then some (Wjt, Wit, w)
  else do
    let p ← (List.range (level + 1)).foldlM (details_one_step dop wavefilt scalefilt level)
      { src := Wjt, dst := Wit, world := w }
    pure (p.first (level + 1), p.second (level + 1), p.world)

/-- Body of the `for` loop of `smooth_one` at its `i`-th iteration, with the checked
kernel. -/
def smooth_one_step (sop : Sink σ α) (scalefilt : List α) (n : Nat)
    (st : WT.Details.PingPong σ α) (i : Nat) : Option (WT.Details.PingPong σ α) := do
  let j : Nat := n - 1 - i
  let w1 := sop.Level ((n : Int) - (j : Int)) st.world
  let r ← imodwt_backward_zerophase sop st.src scalefilt j st.dst w1
  pure { src := r.1, dst := st.src, world := r.2 }

/-- The cascade `smooth_one` with the checked kernel. -/
def smooth_one (sop : Sink σ α) (Vj0 Vi scalefilt : List α) (numLevels : Int) (w : σ) :
    Option (Run σ (List α × List α)) :=
  match Assert Error.ArgumentError (lengthOk Vj0.length (numLevels - 1)) with
  | Except.error e => some { err := some e, buf := (Vj0, Vi), world := w }
  | Except.ok _ => do
    let n := (numLevels + 1).toNat
    let p ← (List.range n).foldlM (smooth_one_step sop scalefilt n)
      { src := Vj0, dst := Vi, world := w }
    pure { err := none, buf := (p.first n, p.second n), world := p.world }

end Details

variable {α : Type} [Field α] {σ : Type}

/-- Body of the `for` loop of `modwt` at `j`, with the checked kernel. -/
def modwtStep (vop wop : Sink σ α) (wavefilt scalefilt : List α)
    (st : WT.Details.PingPong σ α) (j : Nat) : Option (WT.Details.PingPong σ α) := do
  let w1 := wop.Level ((j : Int) + 1) (vop.Level ((j : Int) + 1) st.world)
  let r ← Details.modwt_forward vop wop st.src wavefilt scalefilt j st.dst w1
  pure { src := r.1, dst := st.src, world := r.2 }

/-- The orchestrator `modwt` with the checked kernel. -/
def modwt (vop wop : Sink σ α) (X wavefilt scalefilt : List α) (numLevels : Int) (w : σ) :
    Option (Run σ (List α)) :=
  match Assert Error.ArgumentError (lengthOk X.length (numLevels - 1)) with
  | Except.error e => some { err := some e, buf := X, world := w }
  | Except.ok _ => do
    let n := numLevels.toNat
    let p ← (List.range n).foldlM (modwtStep vop wop wavefilt scalefilt)
      { src := X, dst := List.replicate X.length 0, world := w }
    pure { err := none, buf := p.first n, world := p.world }

/-- Body of the `while` loop of `imodwt` at its `i`-th iteration, with the checked kernel. -/
def imodwtStep (vop : Sink σ α) (Wj : List (List α)) (wavefilt scalefilt : List α) (n : Nat)
    (st : WT.Details.PingPong σ α) (i : Nat) : Option (WT.Details.PingPong σ α) := do
  let j : Nat := n - 1 - i
  let w1 := vop.Level (j : Int) st.world
  let r ← Details.imodwt_backward vop st.src (Wj.getD j []) wavefilt scalefilt j st.dst w1
  pure { src := r.1, dst := st.src, world := r.2 }

/-- The orchestrator `imodwt` with the checked kernel. -/
def imodwt (vop : Sink σ α) (Vj0 : List α) (Wj : List (List α)) (wavefilt scalefilt : List α)
    (w : σ) : Option (Run σ (List α)) :=
  let expsz : Nat := (Wj.length + 2 ^ 64 - 1) % 2 ^ 64
  match Assert Error.ArgumentError (lengthOk Vj0.length expsz) with
  | Except.error e => some { err := some e, buf := Vj0, world := w }
  | Except.ok _ => do
    let n := Wj.length
    let p ← (List.range n).foldlM (imodwtStep vop Wj wavefilt scalefilt n)
      { src := Vj0, dst := List.replicate Vj0.length 0, world := w }
    pure { err := none, buf := p.first n, world := p.world }

/-- Body of the `for` loop of `smooth` at its `i`-th iteration, with the checked kernel. -/
def smoothStep (sop : Sink σ α) (scalefilt : List α) (n : Nat)
    (st : WT.Details.PingPong σ α) (i : Nat) : Option (WT.Details.PingPong σ α) := do
  let j : Nat := n - 1 - i
  let w1 := sop.Level ((n : Int) - (j : Int)) st.world
  let r ← Details.imodwt_backward_zerophase sop st.src scalefilt j st.dst w1
  pure { src := r.1, dst := st.src, world := r.2 }

/-- The orchestrator `smooth` with the checked kernel. -/
def smooth (sop : Sink σ α) (Vj0 scalefilt : List α) (numLevels : Int) (w : σ) :
    Option (Run σ (List α)) :=
  match Assert Error.ArgumentError (lengthOk Vj0.length (numLevels - 1)) with
  | Except.error e => some { err := some e, buf := Vj0, world := w }
  | Except.ok _ => do
    let n := numLevels.toNat
    let p ← (List.range n).foldlM (smoothStep sop scalefilt n)
      { src := Vj0, dst := Vj0, world := w }
    pure { err := none, buf := p.first n, world := p.world }

/-- Body of the `while` loop of `details` at `sz`, with the checked cascade. -/
def detailsStep (dops : List (Sink σ α)) (wavefilt scalefilt : List α)
    (st : List (List α) × List α × σ) (sz : Nat) : Option (List (List α) × List α × σ) := do
  let d ← Details.details_one (dops.getD sz DoNothing) (st.1.getD sz []) st.2.1
    wavefilt scalefilt sz st.2.2
  pure (st.1.set sz d.1, d.2.1, d.2.2)

/-- The orchestrator `details` with the checked cascade. -/
def details (dops : List (Sink σ α)) (Wj : List (List α)) (wavefilt scalefilt : List α)
    (w : σ) : Option (Run σ (List (List α))) :=
  if Wj.isEmpty then some { err := none, buf := Wj, world := w }
  else
    match Assert Error.ArgumentError
      (lengthOk (Wj.getD 0 []).length ((Wj.length - 1 : Nat) : Int)) with
    | Except.error e => some { err := some e, buf := Wj, world := w }
    | Except.ok _ => do
      let r ← (List.range Wj.length).foldlM (detailsStep dops wavefilt scalefilt)
        (Wj, List.replicate (Wj.getD 0 []).length 0, w)
      pure { err := none, buf := r.1, world := r.2.2 }

/-- One iteration (`idx`) of the `for` loop of `doAll`, with the checked kernels and
cascades. -/
def doAllStep (waveletOp detailsOp scalingOp smoothOp : Sink σ α) (wavefilt scalefilt : List α)
    (Ysize level : Nat) (scalingWasOn : Bool) (st : DoAllState σ α) (idx : Nat) :
    Option (DoAllState σ α) :=
  if st.err.isSome then some st
  else do
    let w1 := waveletOp.Level (idx : Int) st.world
    let w2 := if idx = level ∧ scalingWasOn = true then
        scalingOp.Level (idx : Int) (scalingOp.On w1) else w1
    let w3 := detailsOp.Level (idx : Int) (detailsOp.Reset w2)
    let st1 ←
      (if detailsOp.IsOn w3 then do
        let z0 := match st.z with
          | some z => z
          | none => List.replicate Ysize 0
        let f ← Details.modwt_forward2 scalingOp waveletOp st.x wavefilt scalefilt (idx - 1)
          st.y z0 w3
        let d ← Details.details_one detailsOp f.2.1 st.x wavefilt scalefilt (idx - 1) f.2.2
        pure ({ st with x := d.2.1, y := f.1, z := some d.1, world := d.2.2 } :
          DoAllState σ α)
      else do
        let f ← Details.modwt_forward scalingOp waveletOp st.x wavefilt scalefilt (idx - 1)
          st.y w3
        pure ({ st with y := f.1, world := f.2 } : DoAllState σ α))
    let w4 := smoothOp.Level (idx : Int) st1.world
    let st2 ←
      (if idx = level ∧ smoothOp.IsOn w4 = true then do
        let r ← Details.smooth_one smoothOp st1.y st1.x scalefilt ((idx : Int) - 1) w4
        pure ({ st1 with y := r.buf.1, x := r.buf.2, world := r.world, err := r.err } :
          DoAllState σ α)
      else pure ({ st1 with world := w4 } : DoAllState σ α))
    if st2.err.isSome then pure st2
    else pure { st2 with x := st2.y, y := st2.x, xIsX := !st2.xIsX }

/-- The orchestrator `doAll` with the checked kernels and cascades. -/
def doAll (sqrt2 : α) (waveletOp detailsOp scalingOp smoothOp : Sink σ α) (X : List α)
    (level : Nat) (filterType : Int) (w : σ) : Option (Run σ (List α)) :=
  match Assert Error.ArgumentError (!X.isEmpty) with
  | Except.error e => some { err := some e, buf := X, world := w }
  | Except.ok _ =>
    let expsz : Nat := (level + 2 ^ 32 - 1) % 2 ^ 32
    match Assert Error.ArgumentError (lengthOk X.length expsz) with
    | Except.error e => some { err := some e, buf := X, world := w }
    | Except.ok _ =>
      match Filter.getFilters Transform.MODWT sqrt2 filterType with
      | Except.error e => some { err := some e, buf := X, world := w }
      | Except.ok filters => do
        let scalingWasOn := scalingOp.IsOn w
        let w0 := scalingOp.Off w
        let st ← (List.range' 1 level).foldlM
          (doAllStep waveletOp detailsOp scalingOp smoothOp filters.1 filters.2 X.length level
            scalingWasOn)
          { x := X, y := List.replicate X.length 0, xIsX := true, z := none, world := w0,
            err := none }
        pure { err := st.err, buf := if st.xIsX then st.x else st.y, world := st.world }

end Checked

/-! ## Boundary pre-processing (`WaveletApp.cpp`, `WTBoundaries.hpp`) -/

/-- The enumeration `enum Boundary { Periodic, Reflected }`. -/
inductive Boundary where
  | Periodic
  | Reflected
  deriving DecidableEq, Repr

/-- The call `x.resize(n)`: truncation, or padding with value-initialised (zero) entries. -/
def resize (x : List α) (n : Nat) : List α :=
  x.take n ++ List.replicate (n - x.length) 0

/-- The loop `for ( std::size_t i = 2 * outputSize - 1, j = 0; i >= outputSize; )
x[i--] = x[j++];` of `main`, from the state `(x, i, j)`, on 64-bit `std::size_t` counters.
`fuel` bounds the number of evaluations of the loop condition; the result is `none` when it
runs out. -/
def reflectLoop (outputSize : Nat) : Nat → List α → Nat → Nat → Option (List α)
  | 0, _, _, _ => none
  | fuel + 1, x, i, j =>
    if i ≥ outputSize then
      reflectLoop outputSize fuel (x.set i (x.getD j 0)) ((i + 2 ^ 64 - 1) % 2 ^ 64)
        ((j + 1) % 2 ^ 64)
    else some x

/-- The block "Deal with possible reflected boundary" of `main`: for `WT::Reflected`,
`x.resize(2 * outputSize)` and the mirroring loop; otherwise `x` is left as it is. -/
def applyBoundary (fuel : Nat) (boundaryType : Boundary) (x : List α) : Option (List α) :=
  let outputSize := x.length
  if boundaryType = Boundary.Reflected then
    reflectLoop outputSize fuel (resize x ((2 * outputSize) % 2 ^ 64))
      (((2 * outputSize) % 2 ^ 64 + 2 ^ 64 - 1) % 2 ^ 64) 0
  else some x

/-! ## Definitions used to state the properties -/

namespace Filter

variable {α : Type} [Field α]

/-- The array `garr` each family passes to `make_filter`. -/
def FType.garr : FType → List α
  | FType.Haar => Details.Haar_garr
  | FType.D4 => Details.Daub4_garr
  | FType.D6 => Details.Daub6_garr
  | FType.D8 => Details.Daub8_garr
  | FType.D10 => Details.Daub10_garr
  | FType.D12 => Details.Daub12_garr
  | FType.D14 => Details.Daub14_garr
  | FType.D16 => Details.Daub16_garr
  | FType.D18 => Details.Daub18_garr
  | FType.D20 => Details.Daub20_garr
  | FType.LA8 => Details.LA8_garr
  | FType.LA10 => Details.LA10_garr
  | FType.LA12 => Details.LA12_garr
  | FType.LA14 => Details.LA14_garr
  | FType.LA16 => Details.LA16_garr
  | FType.LA18 => Details.LA18_garr
  | FType.LA20 => Details.LA20_garr
  | FType.BL14 => Details.BL14_garr
  | FType.BL18 => Details.BL18_garr
  | FType.BL20 => Details.BL20_garr
  | FType.C6 => Details.C6_garr
  | FType.C12 => Details.C12_garr
  | FType.C18 => Details.C18_garr
  | FType.C24 => Details.C24_garr
  | FType.C30 => Details.C30_garr

/-- The filter width announced by the name of a family (2 for Haar, 4 for D4, ...). -/
def FType.width : FType → Nat
  | FType.Haar => 2
  | FType.D4 => 4
  | FType.D6 => 6
  | FType.D8 => 8
  | FType.D10 => 10
  | FType.D12 => 12
  | FType.D14 => 14
  | FType.D16 => 16
  | FType.D18 => 18
  | FType.D20 => 20
  | FType.LA8 => 8
  | FType.LA10 => 10
  | FType.LA12 => 12
  | FType.LA14 => 14
  | FType.LA16 => 16
  | FType.LA18 => 18
  | FType.LA20 => 20
  | FType.BL14 => 14
  | FType.BL18 => 18
  | FType.BL20 => 20
  | FType.C6 => 6
  | FType.C12 => 12
  | FType.C18 => 18
  | FType.C24 => 24
  | FType.C30 => 30

end Filter

section Observation

variable {α : Type} [Field α] {σ τ : Type}

/-- The method of a sink that a recorded call stands for. -/
def Sink.apply (s : Sink σ α) : Call α → σ → σ
  | Call.Level l => s.Level l
  | Call.Off => s.Off
  | Call.On => s.On
  | Call.Reset => s.Reset
  | Call.value x => s.call x

/-- Performing a sequence of tagged calls, in order, on the sinks the tags designate. -/
def replay (sinks : τ → Sink σ α) (log : List (τ × Call α)) (w : σ) : σ :=
  log.foldl (fun w e => (sinks e.1).apply e.2 w) w

/-- Driving one sink through a sequence of calls, in order. -/
def drive (s : Sink σ α) (calls : List (Call α)) (w : σ) : σ :=
  calls.foldl (fun w c => s.apply c w) w

/-- The values a printing sink has passed to `Println`, in order. -/
def printed (io : List (IOEvent α)) : List α :=
  io.filterMap (fun e => match e with
    | IOEvent.println _ t => some t
    | _ => none)

/-- The two sinks of `modwt`: `vop` (scaling coefficients) and `wop` (wavelet coefficients). -/
inductive Port where
  | vop
  | wop
  deriving DecidableEq, Repr

/-- The sink a port of `modwt` stands for. -/
def Port.sink (vop wop : Sink σ α) : Port → Sink σ α
  | Port.vop => vop
  | Port.wop => wop

/-- All scaling outputs of one forward step, each computed from the complete input `Vi`. -/
def Details.forwardV (Vi wavefilt scalefilt : List α) (j : Nat) : List α :=
  (List.range Vi.length).map (fun t => (Details.modwt_forward_at Vi wavefilt scalefilt (2 ^ j) t).1)

/-- All wavelet outputs of one forward step, each computed from the complete input `Vi`. -/
def Details.forwardW (Vi wavefilt scalefilt : List α) (j : Nat) : List α :=
  (List.range Vi.length).map (fun t => (Details.modwt_forward_at Vi wavefilt scalefilt (2 ^ j) t).2)

/-- Pure recursion over the levels: `V_0 = X` and `V_(j+1)` is the scaling output of the
forward step applied to the complete `V_j` with shift `2^j`. -/
def scalingLevel (X wavefilt scalefilt : List α) : Nat → List α
  | 0 => X
  | j + 1 => Details.forwardV (scalingLevel X wavefilt scalefilt j) wavefilt scalefilt j

/-- The wavelet coefficients `W_(j+1)`: the wavelet output of the forward step applied to the
complete `V_j` with shift `2^j`. -/
def waveletLevel (X wavefilt scalefilt : List α) (j : Nat) : List α :=
  Details.forwardW (scalingLevel X wavefilt scalefilt j) wavefilt scalefilt j

/-- The calls of one level of the emission protocol: `vop.Level(lvl)`, `wop.Level(lvl)`, then
for `t = 0 .. N-1` the call `vop(V[t])` followed by `wop(W[t])`. -/
def levelCalls (N : Nat) (lvl : Int) (V W : List α) : List (Port × Call α) :=
  [(Port.vop, Call.Level lvl), (Port.wop, Call.Level lvl)] ++
    (List.range N).flatMap
      (fun t => [(Port.vop, Call.value (V.getD t 0)), (Port.wop, Call.value (W.getD t 0))])

/-- The emission protocol of `modwt` to depth `J`, stated on the pure recursion. -/
def modwtProtocol (X wavefilt scalefilt : List α) (J : Nat) : List (Port × Call α) :=
  (List.range J).flatMap (fun j =>
    levelCalls X.length ((j : Int) + 1) (scalingLevel X wavefilt scalefilt (j + 1))
      (waveletLevel X wavefilt scalefilt j))

/-- All outputs of one backward step, each computed from the complete inputs `Vj`, `Wj`. -/
def Details.backwardAll (Vj Wj wavefilt scalefilt : List α) (j : Nat) : List α :=
  (List.range Vj.length).map
    (fun t => Details.imodwt_backward_at Vj Wj wavefilt scalefilt (2 ^ j) t)

/-- All outputs of one zero-phase step, each computed from the complete input `Kj`. -/
def Details.zerophaseAll (Kj filt : List α) (j : Nat) : List α :=
  (List.range Kj.length).map (fun t => Details.imodwt_backward_zerophase_at Kj filt (2 ^ j) t)

/-- The cascade of `smooth` as a pure recursion: stage 0 is `Vj0`, stage `i + 1` is the
zero-phase step with the scaling filter and shift `2^(J-1-i)` applied to the complete
stage `i`. -/
def smoothStage (Vj0 scalefilt : List α) (J : Nat) : Nat → List α
  | 0 => Vj0
  | i + 1 => Details.zerophaseAll (smoothStage Vj0 scalefilt J i) scalefilt (J - 1 - i)

/-- The calls `smooth` makes on its sink for depth `J`: for `i = 0 .. J-1`, `Level(i+1)` and
then the values of stage `i + 1` in index order. -/
def smoothCalls (Vj0 scalefilt : List α) (J : Nat) : List (Call α) :=
  (List.range J).flatMap (fun i =>
    Call.Level ((i : Int) + 1) :: (smoothStage Vj0 scalefilt J (i + 1)).map Call.value)

/-- The reconstruction of `imodwt` as a pure recursion over `J = Wj.size()` series: stage 0 is
`Vj0`, stage `i + 1` is the backward step with the series `Wj[J-1-i]` and shift `2^(J-1-i)`
applied to the complete stage `i`. -/
def backStage (Vj0 : List α) (Wj : List (List α)) (wavefilt scalefilt : List α) :
    Nat → List α
  | 0 => Vj0
  | i + 1 => Details.backwardAll (backStage Vj0 Wj wavefilt scalefilt i)
      (Wj.getD (Wj.length - 1 - i) []) wavefilt scalefilt (Wj.length - 1 - i)

/-- The calls `imodwt` makes on its sink: for `i = 0 .. J-1`, `Level(J-1-i)` and then the
values of stage `i + 1` in index order. -/
def imodwtCalls (Vj0 : List α) (Wj : List (List α)) (wavefilt scalefilt : List α) :
    List (Call α) :=
  (List.range Wj.length).flatMap (fun i =>
    Call.Level ((Wj.length - 1 - i : Nat) : Int) ::
      (backStage Vj0 Wj wavefilt scalefilt (i + 1)).map Call.value)

/-- The calls of a log that were made on the sink of port `p`, in order. -/
def Port.calls (p : Port) (log : List (Port × Call α)) : List (Call α) :=
  log.filterMap (fun e => if e.1 = p then some e.2 else none)

/-- Number of `Level` calls a sink received while on since its construction or its last
`Reset()`; `b` tells whether the sink is on at the start and `n` is the number of such calls
already counted. -/
def levelsWhileOn : Bool → Nat → List (Call α) → Nat
  | _, n, [] => n
  | b, n, Call.Level _ :: cs => levelsWhileOn b (if b then n + 1 else n) cs
  | _, n, Call.Off :: cs => levelsWhileOn false n cs
  | _, n, Call.On :: cs => levelsWhileOn true n cs
  | _, _, Call.Reset :: cs => levelsWhileOn true 0 cs
  | b, n, Call.value _ :: cs => levelsWhileOn b n cs

/-- Whether a recorded call is a `Level` call. -/
def Call.isLevel : Call α → Bool
  | Call.Level _ => true
  | _ => false

/-- Whether a recorded call is a value passed to `operator()`. -/
def Call.isValue : Call α → Bool
  | Call.value _ => true
  | _ => false

end Observation

section Capture

/-- Entrywise agreement of two sequences within the tolerance `tol`. -/
def closeTo {α : Type} [LinearOrderedField α] (tol : α) (a b : List α) : Prop :=
  a.length = b.length ∧ ∀ i, i < a.length → |a.getD i 0 - b.getD i 0| ≤ tol

variable {α : Type} [Field α]

/-- The run of `modwt` in which both sinks are fresh `SaveAllValues` objects: `vop` is the
first component of the sink state and `wop` the second. -/
def modwtSaveAll (X wavefilt scalefilt : List α) (numLevels : Int) :
    Run (SaveAllValuesState α × SaveAllValuesState α) (List α) :=
  modwt SaveAllValues.onFst SaveAllValues.onSnd X wavefilt scalefilt numLevels
    (SaveAllValuesState.init, SaveAllValuesState.init)

/-- Apply `f` to the entry at index `i` of a list of sink states (nothing when out of range). -/
def updateAt {τ : Type} (i : Nat) (f : τ → τ) : List τ → List τ
  | [] => []
  | x :: xs =>
    match i with
    | 0 => f x :: xs
    | i + 1 => x :: updateAt i f xs

/-- A sink acting on the entry at index `i` of a list of sink states. -/
def Sink.onIndex {τ β : Type} (i : Nat) (s : Sink τ β) : Sink (List τ) β where
  Level l w := updateAt i (s.Level l) w
  Off w := updateAt i s.Off w
  On w := updateAt i s.On w
  IsOn w := match w.get? i with
    | some x => s.IsOn x
    | none => false
  Reset w := updateAt i s.Reset w
  call x w := updateAt i (s.call x) w

/-- The round trip of the specification: `modwt` to depth `J` with a `SaveLastLevel(J)` scaling
sink and a `SaveAllValues` wavelet sink, then `imodwt` on the retained final scaling
coefficients and the `J` retained wavelet series, with a `SaveLastLevel(0)` sink. The result is
what `imodwt` emits in its last step (tagged `Level(0)`). -/
def roundTrip (wavefilt scalefilt X : List α) (J : Nat) : List α :=
  let m := modwt SaveLastLevel.onFst SaveAllValues.onSnd X wavefilt scalefilt (J : Int)
    (SaveLastLevelState.init (J : Int), SaveAllValuesState.init)
  (imodwt SaveLastLevel m.world.1.vals_ m.world.2.vals_ wavefilt scalefilt
    (SaveLastLevelState.init 0)).world.vals_

/-- The smooth waveform: what `smooth` emits in its last step (tagged `Level(J)`), retained by
a `SaveLastLevel(J)` sink. -/
def smoothWaveform (scalefilt Vj0 : List α) (J : Nat) : List α :=
  (smooth SaveLastLevel Vj0 scalefilt (J : Int) (SaveLastLevelState.init (J : Int))).world.vals_

/-- The detail waveforms: for the series at index `i`, what `details` emits on `dops[i]` in the
last step of its cascade (tagged `Level(i+1)`), retained by a `SaveLastLevel(i+1)` sink. -/
def detailWaveforms (wavefilt scalefilt : List α) (Wj : List (List α)) : List (List α) :=
  ((details ((List.range Wj.length).map (fun i => Sink.onIndex i SaveLastLevel)) Wj
      wavefilt scalefilt
      ((List.range Wj.length).map
        (fun (i : Nat) => SaveLastLevelState.init ((i : Int) + 1)))).world).map
    (fun st => st.vals_)

/-- The multiresolution sum of the specification: `modwt` to depth `J` (sinks as in
`roundTrip`), then the smooth waveform plus the pointwise sum of the `J` detail waveforms. -/
def mraSum (wavefilt scalefilt X : List α) (J : Nat) : List α :=
  let m := modwt SaveLastLevel.onFst SaveAllValues.onSnd X wavefilt scalefilt (J : Int)
    (SaveLastLevelState.init (J : Int), SaveAllValuesState.init)
  (detailWaveforms wavefilt scalefilt m.world.2.vals_).foldl
    (fun acc d => List.zipWith (fun a b => a + b) acc d)
    (smoothWaveform scalefilt m.world.1.vals_ J)

end Capture

section DoAllObservation

variable {α : Type} [Field α] {σ τ : Type}

/-- What a cascade driven by a sink on the first component preserves: both buffers keep the
length `N` and the second component of the sink state stays `w2`. -/
def Framed (N : Nat) (w2 : τ) (st : Details.PingPong (σ × τ) α) : Prop :=
  st.src.length = N ∧ st.dst.length = N ∧ st.world.2 = w2

/-- The loop invariant of `doAll` between two levels: no pending exception, `*xPtr` holds the
scaling coefficients `V`, the other buffers have the length `N`, and the second component of
the sink state is `w2`. -/
def DoAllInv (N : Nat) (V : List α) (w2 : τ) (st : DoAllState (σ × τ) α) : Prop :=
  st.err = none ∧ st.x = V ∧ st.y.length = N ∧ (∀ z, st.z = some z → z.length = N) ∧
    st.world.2 = w2

/-- The calls `doAll` makes on its scaling sink for depth `level`, `wasOn` being the answer of
`IsOn()` on entry: `Off()`; the values of the levels `1 .. level-1`, in index order, with no
`Level` or `On` call among them; then `On()` and `Level(level)` when `wasOn`; then the values
of the level `level`. -/
def doAllScalingCalls (X wavefilt scalefilt : List α) (level : Nat) (wasOn : Bool) :
    List (Call α) :=
  Call.Off ::
    ((List.range' 1 (level - 1)).flatMap
        (fun idx => (scalingLevel X wavefilt scalefilt idx).map Call.value) ++
      ((if wasOn then [Call.On, Call.Level (level : Int)] else []) ++
        (scalingLevel X wavefilt scalefilt level).map Call.value))

/-- A sink that honours `Off()`: after `Off()` it answers `IsOn() = false`, and while it
answers `false` a call of `operator()` leaves its state as it is. -/
def HonoursOff (t : Sink τ α) : Prop :=
  (∀ w, t.IsOn (t.Off w) = false) ∧ (∀ w x, t.IsOn w = false → t.call x w = w)

end DoAllObservation

section ClosedForms

variable {α : Type} [Field α]

/-- The position `i mod N` of a circular buffer of length `N`, for any integer `i`
(the mathematical remainder, never negative for `N > 0`). -/
def circ (N : Nat) (i : Int) : Nat := (i % (N : Int)).toNat

/-- The closed form of a circular filter: `Σ_{l < L} filt[l] · K[(t + dir·l·D) mod N]`, with
`dir = -1` for the forward step and `dir = 1` for the backward steps. -/
def circSum (filt K : List α) (L D : Nat) (dir : Int) (t : Nat) : α :=
  (Finset.range L).sum (fun l =>
    filt.getD l 0 * K.getD (circ K.length ((t : Int) + dir * ((l : Int) * (D : Int)))) 0)

end ClosedForms

section DetailCascade

variable {α : Type} [Field α]

/-- The cascade of `details_one` for the 0-based level `ell` as a pure recursion: stage 0 is
the series `W`, stage `j + 1` is the zero-phase step with shift `2^j` applied to the complete
stage `j`, with the wavelet filter when `j = ell` and the scaling filter otherwise. -/
def detailStage (W wavefilt scalefilt : List α) (ell : Nat) : Nat → List α
  | 0 => W
  | j + 1 => Details.zerophaseAll (detailStage W wavefilt scalefilt ell j)
      (if j = ell then wavefilt else scalefilt) j

/-- The calls `details_one` makes on its sink for the 0-based level `ell`: for
`j = 0 .. ell`, `Level(j+1)` and then the values of stage `j + 1` in index order. -/
def detailCalls (W wavefilt scalefilt : List α) (ell : Nat) : List (Call α) :=
  (List.range (ell + 1)).flatMap (fun j =>
    Call.Level ((j : Int) + 1) :: (detailStage W wavefilt scalefilt ell (j + 1)).map Call.value)

/-- The calls `smooth_one` makes on its sink when called with `numLevels = n - 1` (so that
its loop runs `n` steps, `j = n-1 .. 0`): the calls of `smooth` for depth `n`. -/
def smoothOneCalls (Vj0 scalefilt : List α) (n : Nat) : List (Call α) :=
  smoothCalls Vj0 scalefilt n

/-- Zero-phase steps with the scaling filter at the shifts `1, 2, ..., 2^(m-1)`, in this
order (the first `m` steps of the detail cascade). -/
def scalingUp (scalefilt : List α) : Nat → List α → List α
  | 0, K => K
  | m + 1, K => Details.zerophaseAll (scalingUp scalefilt m K) scalefilt m

/-- Zero-phase steps with the scaling filter at the shifts `2^(m-1), ..., 2, 1`, in this
order (the order of the inverse transform). -/
def scalingDown (scalefilt : List α) : Nat → List α → List α
  | 0, K => K
  | m + 1, K => scalingDown scalefilt m (Details.zerophaseAll K scalefilt m)

/-- The detail waveform computed in the order of the inverse transform: the wavelet-filter
step at the shift `2^ell` first, then the scaling-filter steps at the shifts
`2^(ell-1), ..., 2, 1`. -/
def inverseOrderWaveform (W wavefilt scalefilt : List α) (ell : Nat) : List α :=
  scalingDown scalefilt ell (Details.zerophaseAll W wavefilt ell)

end DetailCascade

section Lifecycle

variable {α : Type}

/-- Effect of one library call on the destinations the program holds open (the standard
output is not tracked). `none` stands for undefined behaviour of the C library: `std::fclose`
on a stream that is not open (such as a second `fclose` of the same `FILE*`), or `Println` on
a null pointer or on a stream that is not open. A successful `fopen` adds the stream it
returned; a failed one changes nothing. -/
def ioStep : Option (List Dest) → IOEvent α → Option (List Dest)
  | none, _ => none
  | some acc, IOEvent.fopen _ (some d) => some (acc ++ [d])
  | some acc, IOEvent.fopen _ none => some acc
  | some acc, IOEvent.fclose d => if d ∈ acc then some (acc.erase d) else none
  | some acc, IOEvent.println (some d) _ =>
    if d = Dest.stdout ∨ d ∈ acc then some acc else none
  | some _, IOEvent.println none _ => none

/-- The destinations that are open after a sequence of library calls, `none` when the
sequence runs into undefined behaviour. -/
def openAfter (io : List (IOEvent α)) : Option (List Dest) :=
  io.foldl ioStep (some [])

/-- The destination discipline of a trace: every prefix is defined and leaves at most one
destination open, and before every successful `fopen` none is open. -/
def Disciplined (io : List (IOEvent α)) : Prop :=
  (∀ p, p <+: io → ∃ acc, openAfter p = some acc ∧ acc.length ≤ 1) ∧
    (∀ p name d, (p ++ [IOEvent.fopen name (some d)]) <+: io → openAfter p = some [])

/-- The invariant of a file-backed printing sink whose pointer does not dangle: its trace is
disciplined; either `fptr_` is null and no destination is open, or the destination `fptr_`
designates is the one that is open; and the sink has a trigger or is on. -/
def LifeInv (s : PrintValuesState α) : Prop :=
  s.useStdout_ = false ∧ Disciplined s.io ∧
    ((s.fptr_ = none ∧ openAfter s.io = some []) ∨
      ∃ d, s.fptr_ = some d ∧ openAfter s.io = some [d]) ∧
    (0 ≤ s.pLevel_ ∨ s.on_ = true)

/-- Summary of a file-backed printing sink in a run without exception: its trigger level,
its cap, and the values it has passed to `Println` so far. -/
def PrintSummary (s : PrintValuesState α) (p : Int) (mp : Nat) (pr : List α) : Prop :=
  s.pLevel_ = p ∧ s.useStdout_ = false ∧ s.maxPrints_ = mp ∧ s.thrown = none ∧
    printed s.io = pr

/-- Number of `fclose` calls on the stream `d` in a sequence of library calls. -/
def closeCount (d : Dest) (io : List (IOEvent α)) : Nat :=
  io.countP (fun e => match e with
    | IOEvent.fclose c => decide (c = d)
    | _ => false)

/-- Whether the access `vals_[vals_.size()-1]` of `SaveAllValues::operator()` is in range,
the index being computed on `std::size_t` (64 bits). -/
def lastPartitionInRange (vals : List (List α)) : Bool :=
  decide ((vals.length + 2 ^ 64 - 1) % 2 ^ 64 < vals.length)

end Lifecycle

section DoAllProtocol

variable {α : Type} [Field α] {σ : Type}

/-- The sink calls of one forward step: for `t = 0 .. N-1`, `vop(V[t])` then `wop(W[t])`. -/
def forwardCalls (V W : List α) : List (Port × Call α) :=
  (List.range V.length).flatMap (fun t =>
    [(Port.vop, Call.value (V.getD t 0)), (Port.wop, Call.value (W.getD t 0))])

/-- The effect of the iteration `idx` of `doAll` on the sink state, written with the pure
coefficient sequences: `waveletOp.Level(idx)`; `scalingOp.On()` and `scalingOp.Level(idx)` at
the last level when the scaling sink was on; `detailsOp.Reset()` and `detailsOp.Level(idx)`;
the values of the forward step on the scaling and wavelet sinks; the detail cascade of
`W_idx` with the 0-based level `idx - 1` when `detailsOp.IsOn()` answered true;
`smoothOp.Level(idx)`; and, at the last level when `smoothOp.IsOn()` answers true, the smooth
cascade of `V_level`. -/
def doAllLevelWorld (waveletOp detailsOp scalingOp smoothOp : Sink σ α)
    (X wavefilt scalefilt : List α) (level : Nat) (scalingWasOn : Bool) (w : σ) (idx : Nat) : σ :=
  let w1 := waveletOp.Level (idx : Int) w
  let w2 := if idx = level ∧ scalingWasOn = true then
      scalingOp.Level (idx : Int) (scalingOp.On w1) else w1
  let w3 := detailsOp.Level (idx : Int) (detailsOp.Reset w2)
  let w3a := replay (Port.sink scalingOp waveletOp)
    (forwardCalls (scalingLevel X wavefilt scalefilt idx)
      (waveletLevel X wavefilt scalefilt (idx - 1))) w3
  let w3b := if detailsOp.IsOn w3 then
      drive detailsOp (detailCalls (waveletLevel X wavefilt scalefilt (idx - 1))
        wavefilt scalefilt (idx - 1)) w3a
    else w3a
  let w4 := smoothOp.Level (idx : Int) w3b
  if idx = level ∧ smoothOp.IsOn w4 = true then
    drive smoothOp (smoothOneCalls (scalingLevel X wavefilt scalefilt idx) scalefilt idx) w4
  else w4

/-- The loop invariant of `doAll` between two levels, for sinks sharing one state: no pending
exception, `*xPtr` holds the scaling coefficients `V`, the other buffers have the length
`N`, and the sink state is `w`. -/
def DoAllShared (N : Nat) (V : List α) (w : σ) (st : DoAllState σ α) : Prop :=
  st.err = none ∧ st.x = V ∧ st.y.length = N ∧ (∀ z, st.z = some z → z.length = N) ∧
    st.world = w

/-- The effect of the iteration `idx` of `doAll` on a details sink `t` that has its own
state: `Reset()`, `Level(idx)` and, when `IsOn()` then answers true, the detail cascade of
`W_idx` with the 0-based level `idx - 1`. -/
def detailsLevelWorld {τ : Type} (t : Sink τ α) (X wavefilt scalefilt : List α) (s : τ)
    (idx : Nat) : τ :=
  let s3 := t.Level (idx : Int) (t.Reset s)
  if t.IsOn s3 then
    drive t (detailCalls (waveletLevel X wavefilt scalefilt (idx - 1))
      wavefilt scalefilt (idx - 1)) s3
  else s3

/-- The effect of the iteration `idx` of `doAll` on a wavelet sink `t` that has its own
state: `Level(idx)` and the `N` wavelet coefficients of the level `idx`. -/
def waveletLevelWorld {τ : Type} (t : Sink τ α) (X wavefilt scalefilt : List α) (s : τ)
    (idx : Nat) : τ :=
  drive t
    (Call.Level (idx : Int) :: (waveletLevel X wavefilt scalefilt (idx - 1)).map Call.value) s

/-- The effect of the iteration `idx` of `doAll` on a smooth sink `t` that has its own state:
`Level(idx)` and, at the last level when `IsOn()` then answers true, the smooth cascade of
`V_level`. -/
def smoothLevelWorld {τ : Type} (t : Sink τ α) (X wavefilt scalefilt : List α) (level : Nat)
    (s : τ) (idx : Nat) : τ :=
  let s4 := t.Level (idx : Int) s
  if idx = level ∧ t.IsOn s4 = true then
    drive t (smoothOneCalls (scalingLevel X wavefilt scalefilt idx) scalefilt idx) s4
  else s4

/-- The calls `Level(1), ..., Level(m)`. -/
def levelTags (m : Nat) : List (Call α) :=
  (List.range' 1 m).map (fun (idx : Nat) => Call.Level ((idx : Nat) : Int))

/-- The separate pipeline for the detail waveform of the level `idx` on a sink `t`:
`Reset()`, `Level(idx)` and, when `IsOn()` then answers true, the orchestrator `details` on
the wavelet coefficient series of the levels `1 .. idx` with `t` as the sink of the last
series and `DoNothing` for the others. -/
def detailsViaDetails {τ : Type} (t : Sink τ α) (X wavefilt scalefilt : List α) (s : τ)
    (idx : Nat) : τ :=
  let s3 := t.Level (idx : Int) (t.Reset s)
  if t.IsOn s3 then
    (details (List.replicate (idx - 1) DoNothing ++ [t])
      ((List.range idx).map (fun i => waveletLevel X wavefilt scalefilt i))
      wavefilt scalefilt s3).world
  else s3

end DoAllProtocol

/-! ## Auxiliary lemmas -/

section Lemmas

theorem lengthOk_exact (N : Nat) (e : Int) (he : -1074 ≤ e) :
    lengthOk N e = decide ((2 : ℚ) ^ e ≤ (N : ℚ)) := by
  unfold lengthOk
  rw [if_neg (by omega)]

theorem lengthOk_natCast (N e : Nat) : lengthOk N (e : Int) = decide (2 ^ e ≤ N) := by
  rw [lengthOk_exact N (e : Int) (by omega)]
  congr 1
  rw [zpow_natCast]
  apply propext
  constructor
  · intro h
    exact_mod_cast h
  · intro h
    exact_mod_cast h

theorem lengthOk_of_neg (N : Nat) (e : Int) (he : e < 0) (hlo : -1074 ≤ e) :
    lengthOk N e = decide (1 ≤ N) := by
  rw [lengthOk_exact N e hlo]
  congr 1
  apply propext
  have hpos : (0 : ℚ) < 2 ^ e := zpow_pos (by norm_num) e
  have hlt : (2 : ℚ) ^ e < 1 := zpow_lt_one_of_neg₀ (by norm_num) he
  constructor
  · intro h
    have h0 : (0 : ℚ) < (N : ℚ) := lt_of_lt_of_le hpos h
    have : 0 < N := by exact_mod_cast h0
    omega
  · intro h
    have h1 : (1 : ℚ) ≤ (N : ℚ) := by exact_mod_cast h
    linarith

theorem foldl_set_range {β : Type} (f : Nat → β) (v : List β) (n : Nat) (hn : n ≤ v.length) :
    (List.range n).foldl (fun l t => l.set t (f t)) v = (List.range n).map f ++ v.drop n := by
  induction n with
  | zero => simp
  | succ n ih =>
    have hn' : n ≤ v.length := by omega
    rw [List.range_succ, List.foldl_append, ih hn']
    simp only [List.foldl_cons, List.foldl_nil, List.map_append, List.map_cons, List.map_nil]
    have hlen : ((List.range n).map f).length = n := by simp
    rw [List.set_append_right _ _ (by rw [hlen]), hlen, Nat.sub_self]
    have hd : v.drop n = v[n] :: v.drop (n + 1) := List.drop_eq_getElem_cons (by omega)
    rw [hd, List.set_cons_zero, List.append_assoc]
    rfl

theorem foldl_pair {β γ ι : Type} (A : β → ι → β) (B : γ → ι → γ) (l : List ι) (a : β) (b : γ) :
    l.foldl (fun (st : β × γ) t => (A st.1 t, B st.2 t)) (a, b) = (l.foldl A a, l.foldl B b) := by
  induction l generalizing a b with
  | nil => rfl
  | cons x xs ih => simp only [List.foldl_cons, ih]

end Lemmas

section Lemmas2

variable {α σ τ : Type}

theorem replay_nil (sinks : τ → Sink σ α) (w : σ) : replay sinks [] w = w := rfl

theorem replay_append (sinks : τ → Sink σ α) (l1 l2 : List (τ × Call α)) (w : σ) :
    replay sinks (l1 ++ l2) w = replay sinks l2 (replay sinks l1 w) := by
  simp [replay]

theorem replay_recorder_append (sinks : τ → Sink (List (τ × Call α)) α)
    (hs : ∀ (p : τ) (c : Call α) (w : List (τ × Call α)), (sinks p).apply c w = w ++ [(p, c)])
    (log w : List (τ × Call α)) : replay sinks log w = w ++ log := by
  induction log generalizing w with
  | nil => simp [replay]
  | cons e rest ih =>
    have hstep : replay sinks (e :: rest) w = replay sinks rest ((sinks e.1).apply e.2 w) := rfl
    rw [hstep, ih, hs]
    simp

theorem foldl_calls_eq_replay (vop wop : Sink σ α) (fV fW : Nat → α) (l : List Nat) (w : σ) :
    l.foldl (fun w t => wop.call (fW t) (vop.call (fV t) w)) w =
      replay (Port.sink vop wop)
        (l.flatMap (fun t => [(Port.vop, Call.value (fV t)), (Port.wop, Call.value (fW t))])) w := by
  induction l generalizing w with
  | nil => rfl
  | cons t rest ih =>
    rw [List.foldl_cons, ih]
    rfl

variable [Field α]

theorem forwardV_length (Vi h g : List α) (j : Nat) :
    (Details.forwardV Vi h g j).length = Vi.length := by
  simp [Details.forwardV]

theorem forwardW_length (Vi h g : List α) (j : Nat) :
    (Details.forwardW Vi h g j).length = Vi.length := by
  simp [Details.forwardW]

theorem forwardV_getD (Vi h g : List α) (j t : Nat) (ht : t < Vi.length) :
    (Details.forwardV Vi h g j).getD t 0 = (Details.modwt_forward_at Vi h g (2 ^ j) t).1 := by
  simp [Details.forwardV, ht]

theorem forwardW_getD (Vi h g : List α) (j t : Nat) (ht : t < Vi.length) :
    (Details.forwardW Vi h g j).getD t 0 = (Details.modwt_forward_at Vi h g (2 ^ j) t).2 := by
  simp [Details.forwardW, ht]

theorem flatMap_congr_mem {β γ : Type} (l : List β) (f g : β → List γ)
    (h : ∀ x ∈ l, f x = g x) : l.flatMap f = l.flatMap g := by
  induction l with
  | nil => rfl
  | cons x rest ih =>
    simp only [List.flatMap_cons]
    rw [h x (List.mem_cons_self _ _), ih (fun y hy => h y (List.mem_cons_of_mem _ hy))]

theorem modwt_forward_eq (vop wop : Sink σ α) (Vi h g : List α) (j : Nat) (Vj : List α) (w : σ)
    (hlen : Vj.length = Vi.length) :
    Details.modwt_forward vop wop Vi h g j Vj w =
      (Details.forwardV Vi h g j,
        replay (Port.sink vop wop)
          ((List.range Vi.length).flatMap (fun t =>
            [(Port.vop, Call.value ((Details.forwardV Vi h g j).getD t 0)),
             (Port.wop, Call.value ((Details.forwardW Vi h g j).getD t 0))])) w) := by
  have hpair := foldl_pair
    (fun (l : List α) t => l.set t (Details.modwt_forward_at Vi h g (2 ^ j) t).1)
    (fun (w : σ) t => wop.call (Details.modwt_forward_at Vi h g (2 ^ j) t).2
      (vop.call (Details.modwt_forward_at Vi h g (2 ^ j) t).1 w))
    (List.range Vi.length) Vj w
  have hset := foldl_set_range (fun t => (Details.modwt_forward_at Vi h g (2 ^ j) t).1) Vj
    Vi.length (by omega)
  have hcalls := foldl_calls_eq_replay vop wop
    (fun t => (Details.modwt_forward_at Vi h g (2 ^ j) t).1)
    (fun t => (Details.modwt_forward_at Vi h g (2 ^ j) t).2) (List.range Vi.length) w
  have hdrop : Vj.drop Vi.length = [] := by
    rw [← hlen]
    exact List.drop_length Vj
  unfold Details.modwt_forward
  refine hpair.trans ?_
  rw [hset, hcalls, hdrop, List.append_nil]
  congr 2
  apply flatMap_congr_mem
  intro t ht
  have ht' : t < Vi.length := List.mem_range.mp ht
  rw [forwardV_getD Vi h g j t ht', forwardW_getD Vi h g j t ht']

end Lemmas2

section ModwtLoop

variable {α : Type} [Field α] {σ : Type}

theorem scalingLevel_length (X h g : List α) (j : Nat) :
    (scalingLevel X h g j).length = X.length := by
  induction j with
  | zero => rfl
  | succ j ih => rw [scalingLevel, forwardV_length, ih]

theorem modwtProtocol_succ (X h g : List α) (n : Nat) :
    modwtProtocol X h g (n + 1) =
      modwtProtocol X h g n ++
        levelCalls X.length ((n : Int) + 1) (scalingLevel X h g (n + 1)) (waveletLevel X h g n) := by
  simp [modwtProtocol, List.range_succ]

theorem modwt_loop (vop wop : Sink σ α) (X h g : List α) (w : σ) (n : Nat) :
    (List.range n).foldl (modwtStep vop wop h g)
        { src := X, dst := List.replicate X.length 0, world := w } =
      { src := scalingLevel X h g n,
        dst := if n = 0 then List.replicate X.length 0 else scalingLevel X h g (n - 1),
        world := replay (Port.sink vop wop) (modwtProtocol X h g n) w } := by
  induction n with
  | zero => simp [scalingLevel, modwtProtocol, replay]
  | succ n ih =>
    rw [List.range_succ, List.foldl_append, ih]
    simp only [List.foldl_cons, List.foldl_nil, modwtStep]
    have hdst : (if n = 0 then List.replicate X.length (0 : α) else scalingLevel X h g (n - 1)).length
        = (scalingLevel X h g n).length := by
      split
      · simp [scalingLevel_length]
      · simp [scalingLevel_length]
    rw [modwt_forward_eq vop wop _ h g n _ _ hdst]
    simp only [Nat.add_sub_cancel, Nat.succ_ne_zero, if_false, modwtProtocol_succ, replay_append,
      levelCalls, scalingLevel_length]
    rfl

end ModwtLoop

section FilterLemmas

open Filter

variable {α : Type} [Field α]

theorem getFilters_catalog (wt : Transform) (sqrt2 : α) (f : FType) :
    getFilters wt sqrt2 f.toInt = Except.ok (Filter.Details.make_filter wt sqrt2 f.garr) := by
  cases f <;> rfl

theorem FType.toInt_range (f : FType) : 0 ≤ f.toInt ∧ f.toInt ≤ 24 := by
  cases f <;> simp [FType.toInt]

theorem FType.exists_of_range (ft : Int) (h0 : 0 ≤ ft) (h1 : ft ≤ 24) :
    ∃ f : FType, f.toInt = ft := by
  interval_cases ft
  · exact ⟨FType.Haar, rfl⟩
  · exact ⟨FType.D4, rfl⟩
  · exact ⟨FType.D6, rfl⟩
  · exact ⟨FType.D8, rfl⟩
  · exact ⟨FType.D10, rfl⟩
  · exact ⟨FType.D12, rfl⟩
  · exact ⟨FType.D14, rfl⟩
  · exact ⟨FType.D16, rfl⟩
  · exact ⟨FType.D18, rfl⟩
  · exact ⟨FType.D20, rfl⟩
  · exact ⟨FType.LA8, rfl⟩
  · exact ⟨FType.LA10, rfl⟩
  · exact ⟨FType.LA12, rfl⟩
  · exact ⟨FType.LA14, rfl⟩
  · exact ⟨FType.LA16, rfl⟩
  · exact ⟨FType.LA18, rfl⟩
  · exact ⟨FType.LA20, rfl⟩
  · exact ⟨FType.BL14, rfl⟩
  · exact ⟨FType.BL18, rfl⟩
  · exact ⟨FType.BL20, rfl⟩
  · exact ⟨FType.C6, rfl⟩
  · exact ⟨FType.C12, rfl⟩
  · exact ⟨FType.C18, rfl⟩
  · exact ⟨FType.C24, rfl⟩
  · exact ⟨FType.C30, rfl⟩

theorem getFilters_outside (wt : Transform) (sqrt2 : α) (ft : Int) (h : ft < 0 ∨ 24 < ft) :
    getFilters wt sqrt2 ft = Except.error Error.ArgumentError := by
  unfold getFilters
  split <;> first | rfl | omega

theorem quadraticMirrorLoop_length (r : List α) (inv : Int) :
    (Filter.Details.quadraticMirrorLoop r inv).length = r.length := by
  induction r generalizing inv with
  | nil => rfl
  | cons x rest ih => simp [Filter.Details.quadraticMirrorLoop, ih]

theorem quadraticMirrorLoop_getD (r : List α) (inv : Int) (i : Nat) :
    (Filter.Details.quadraticMirrorLoop r inv).getD i 0 =
      r.getD i 0 * ((inv : α) * (-1) ^ i) := by
  induction r generalizing inv i with
  | nil => simp [Filter.Details.quadraticMirrorLoop]
  | cons x rest ih =>
    cases i with
    | zero => simp [Filter.Details.quadraticMirrorLoop]
    | succ i =>
      simp only [Filter.Details.quadraticMirrorLoop, List.getD_cons_succ, ih]
      push_cast
      ring

theorem quadraticMirrorLoop_map_div (r : List α) (inv : Int) (s : α) :
    Filter.Details.quadraticMirrorLoop (r.map (fun x => x / s)) inv =
      (Filter.Details.quadraticMirrorLoop r inv).map (fun x => x / s) := by
  induction r generalizing inv with
  | nil => rfl
  | cons x rest ih =>
    simp only [List.map_cons, Filter.Details.quadraticMirrorLoop, ih]
    rw [div_mul_eq_mul_div]

theorem make_filter_length (wt : Transform) (sqrt2 : α) (t : List α) :
    (Filter.Details.make_filter wt sqrt2 t).1.length = t.length ∧
      (Filter.Details.make_filter wt sqrt2 t).2.length = t.length := by
  cases wt <;>
    simp [Filter.Details.make_filter, Filter.Details.quadraticMirror, quadraticMirrorLoop_length]

theorem make_filter_mirror (wt : Transform) (sqrt2 : α) (t : List α) (i : Nat)
    (hi : i < (Filter.Details.make_filter wt sqrt2 t).2.length) :
    (Filter.Details.make_filter wt sqrt2 t).1.getD i 0 =
      (-1) ^ i * (Filter.Details.make_filter wt sqrt2 t).2.getD
        ((Filter.Details.make_filter wt sqrt2 t).2.length - 1 - i) 0 := by
  have hrev : ∀ (g : List α), i < g.length →
      (Filter.Details.quadraticMirror g.reverse true).getD i 0 =
        (-1) ^ i * g.getD (g.length - 1 - i) 0 := by
    intro g hg
    unfold Filter.Details.quadraticMirror
    rw [quadraticMirrorLoop_getD]
    have h1 : g.reverse.getD i 0 = g.getD (g.length - 1 - i) 0 := by
      rw [List.getD_eq_getElem _ _ (by simpa using hg), List.getD_eq_getElem _ _ (by omega)]
      exact List.getElem_reverse _
    rw [h1]
    simp
    ring
  exact hrev _ hi

theorem make_filter_modwt_eq (sqrt2 : α) (t : List α) :
    (Filter.Details.make_filter Transform.DWT sqrt2 t).2 = t ∧
      (Filter.Details.make_filter Transform.MODWT sqrt2 t).2 = t.map (fun x => x / sqrt2) ∧
      (Filter.Details.make_filter Transform.MODWT sqrt2 t).1 =
        (Filter.Details.make_filter Transform.DWT sqrt2 t).1.map (fun x => x / sqrt2) := by
  refine ⟨by simp [Filter.Details.make_filter], by simp [Filter.Details.make_filter], ?_⟩
  simp only [Filter.Details.make_filter, Filter.Details.quadraticMirror, if_true,
    ← List.map_reverse, quadraticMirrorLoop_map_div]
  simp

end FilterLemmas

section Homogeneity

variable {α : Type} [Field α]

theorem getD_map_div (l : List α) (s : α) (i : Nat) :
    (l.map (fun x => x / s)).getD i 0 = l.getD i 0 / s := by
  have h := List.getD_map (l := l) (d := (0 : α)) (n := i) (fun x => x / s)
  simpa using h

theorem modwt_forward_at_div (Vi h g : List α) (s : α) (D t : Nat) :
    Details.modwt_forward_at Vi (h.map (fun x => x / s)) (g.map (fun x => x / s)) D t =
      ((Details.modwt_forward_at Vi h g D t).1 / s, (Details.modwt_forward_at Vi h g D t).2 / s) := by
  have key : ∀ (ls : List Nat) (acc : Nat × α × α),
      ls.foldl (fun (acc : Nat × α × α) l =>
          (Details.fwdIdx Vi.length D acc.1,
            acc.2.1 + (g.map (fun x => x / s)).getD l 0 * Vi.getD (Details.fwdIdx Vi.length D acc.1) 0,
            acc.2.2 + (h.map (fun x => x / s)).getD l 0 * Vi.getD (Details.fwdIdx Vi.length D acc.1) 0))
        (acc.1, acc.2.1 / s, acc.2.2 / s) =
      ((ls.foldl (fun (acc : Nat × α × α) l =>
          (Details.fwdIdx Vi.length D acc.1,
            acc.2.1 + g.getD l 0 * Vi.getD (Details.fwdIdx Vi.length D acc.1) 0,
            acc.2.2 + h.getD l 0 * Vi.getD (Details.fwdIdx Vi.length D acc.1) 0)) acc).1,
       (ls.foldl (fun (acc : Nat × α × α) l =>
          (Details.fwdIdx Vi.length D acc.1,
            acc.2.1 + g.getD l 0 * Vi.getD (Details.fwdIdx Vi.length D acc.1) 0,
            acc.2.2 + h.getD l 0 * Vi.getD (Details.fwdIdx Vi.length D acc.1) 0)) acc).2.1 / s,
       (ls.foldl (fun (acc : Nat × α × α) l =>
          (Details.fwdIdx Vi.length D acc.1,
            acc.2.1 + g.getD l 0 * Vi.getD (Details.fwdIdx Vi.length D acc.1) 0,
            acc.2.2 + h.getD l 0 * Vi.getD (Details.fwdIdx Vi.length D acc.1) 0)) acc).2.2 / s) := by
    intro ls
    induction ls with
    | nil => intro acc; rfl
    | cons l rest ih =>
      intro acc
      simp only [List.foldl_cons]
      rw [← ih]
      congr 1
      simp only [getD_map_div]
      refine Prod.ext rfl (Prod.ext ?_ ?_)
      · show _ / s + _ / s * _ = (_ + _ * _) / s
        ring
      · show _ / s + _ / s * _ = (_ + _ * _) / s
        ring
  have h0 := key (List.range' 1 (h.length - 1)) (t, g.getD 0 0 * Vi.getD t 0, h.getD 0 0 * Vi.getD t 0)
  simp only [Details.modwt_forward_at, List.length_map, getD_map_div]
  have e1 : g.getD 0 0 / s * Vi.getD t 0 = g.getD 0 0 * Vi.getD t 0 / s := by ring
  have e2 : h.getD 0 0 / s * Vi.getD t 0 = h.getD 0 0 * Vi.getD t 0 / s := by ring
  rw [e1, e2]
  simp only [getD_map_div] at h0
  rw [h0]

end Homogeneity

section Homogeneity2

variable {α : Type} [Field α]

theorem imodwt_backward_at_div (Vj Wj h g : List α) (s : α) (D t : Nat) :
    Details.imodwt_backward_at (Vj.map (fun x => x / s)) (Wj.map (fun x => x / s))
        (h.map (fun x => x / s)) (g.map (fun x => x / s)) D t =
      Details.imodwt_backward_at Vj Wj h g D t / (s * s) := by
  have key : ∀ (ls : List Nat) (acc : Nat × α),
      ls.foldl (fun (acc : Nat × α) l =>
          (Details.bwdIdx Vj.length D acc.1,
            acc.2 + (g.getD l 0 / s * (Vj.getD (Details.bwdIdx Vj.length D acc.1) 0 / s) +
              h.getD l 0 / s * (Wj.getD (Details.bwdIdx Vj.length D acc.1) 0 / s))))
        (acc.1, acc.2 / (s * s)) =
      ((ls.foldl (fun (acc : Nat × α) l =>
          (Details.bwdIdx Vj.length D acc.1,
            acc.2 + (g.getD l 0 * Vj.getD (Details.bwdIdx Vj.length D acc.1) 0 +
              h.getD l 0 * Wj.getD (Details.bwdIdx Vj.length D acc.1) 0))) acc).1,
       (ls.foldl (fun (acc : Nat × α) l =>
          (Details.bwdIdx Vj.length D acc.1,
            acc.2 + (g.getD l 0 * Vj.getD (Details.bwdIdx Vj.length D acc.1) 0 +
              h.getD l 0 * Wj.getD (Details.bwdIdx Vj.length D acc.1) 0))) acc).2 / (s * s)) := by
    intro ls
    induction ls with
    | nil => intro acc; rfl
    | cons l rest ih =>
      intro acc
      simp only [List.foldl_cons]
      rw [← ih]
      congr 1
      refine Prod.ext rfl ?_
      show _ / (s * s) + (_ / s * (_ / s) + _ / s * (_ / s)) = (_ + (_ * _ + _ * _)) / (s * s)
      ring
  have h0 := key (List.range' 1 (h.length - 1))
    (t, g.getD 0 0 * Vj.getD t 0 + h.getD 0 0 * Wj.getD t 0)
  simp only [Details.imodwt_backward_at, List.length_map, getD_map_div]
  have e1 : g.getD 0 0 / s * (Vj.getD t 0 / s) + h.getD 0 0 / s * (Wj.getD t 0 / s) =
      (g.getD 0 0 * Vj.getD t 0 + h.getD 0 0 * Wj.getD t 0) / (s * s) := by ring
  rw [e1, h0]

theorem imodwt_backward_zerophase_at_div (Kj filt : List α) (s : α) (D t : Nat) :
    Details.imodwt_backward_zerophase_at (Kj.map (fun x => x / s)) (filt.map (fun x => x / s))
        D t =
      Details.imodwt_backward_zerophase_at Kj filt D t / (s * s) := by
  have key : ∀ (ls : List Nat) (acc : Nat × α),
      ls.foldl (fun (acc : Nat × α) l =>
          (Details.bwdIdx Kj.length D acc.1,
            acc.2 + filt.getD l 0 / s * (Kj.getD (Details.bwdIdx Kj.length D acc.1) 0 / s)))
        (acc.1, acc.2 / (s * s)) =
      ((ls.foldl (fun (acc : Nat × α) l =>
          (Details.bwdIdx Kj.length D acc.1,
            acc.2 + filt.getD l 0 * Kj.getD (Details.bwdIdx Kj.length D acc.1) 0)) acc).1,
       (ls.foldl (fun (acc : Nat × α) l =>
          (Details.bwdIdx Kj.length D acc.1,
            acc.2 + filt.getD l 0 * Kj.getD (Details.bwdIdx Kj.length D acc.1) 0)) acc).2 /
          (s * s)) := by
    intro ls
    induction ls with
    | nil => intro acc; rfl
    | cons l rest ih =>
      intro acc
      simp only [List.foldl_cons]
      rw [← ih]
      congr 1
      refine Prod.ext rfl ?_
      show _ / (s * s) + _ / s * (_ / s) = (_ + _ * _) / (s * s)
      ring
  have h0 := key (List.range' 1 (filt.length - 1)) (t, filt.getD 0 0 * Kj.getD t 0)
  simp only [Details.imodwt_backward_zerophase_at, List.length_map, getD_map_div]
  have e1 : filt.getD 0 0 / s * (Kj.getD t 0 / s) = filt.getD 0 0 * Kj.getD t 0 / (s * s) := by
    ring
  rw [e1, h0]

end Homogeneity2

section PipelineLemmas

variable {α : Type} [Field α] {σ : Type}

theorem size_minus_one (n : Nat) (h1 : 1 ≤ n) (h2 : n < 2 ^ 64) :
    (n + 2 ^ 64 - 1) % 2 ^ 64 = n - 1 := by
  omega

theorem imodwt_of_valid (vop : Sink σ α) (Vj0 : List α) (Wj : List (List α)) (h g : List α)
    (w : σ) (h1 : 1 ≤ Wj.length) (h2 : Wj.length < 2 ^ 64)
    (hN : 2 ^ (Wj.length - 1) ≤ Vj0.length) :
    imodwt vop Vj0 Wj h g w =
      { err := none,
        buf := ((List.range Wj.length).foldl (imodwtStep vop Wj h g Wj.length)
          { src := Vj0, dst := List.replicate Vj0.length 0, world := w }).first Wj.length,
        world := ((List.range Wj.length).foldl (imodwtStep vop Wj h g Wj.length)
          { src := Vj0, dst := List.replicate Vj0.length 0, world := w }).world } := by
  have hok : lengthOk Vj0.length (((Wj.length + 2 ^ 64 - 1) % 2 ^ 64 : Nat) : Int) = true := by
    rw [size_minus_one _ h1 h2, lengthOk_natCast]
    simpa using hN
  simp only [imodwt, Assert, hok, if_true]

theorem modwt_capture_four_one (h g : List α) (x0 x1 x2 x3 : α) :
    (modwt SaveLastLevel.onFst SaveAllValues.onSnd [x0, x1, x2, x3] h g ((1 : Nat) : Int)
      (SaveLastLevelState.init ((1 : Nat) : Int), SaveAllValuesState.init)).world =
      ({ on_ := true, last_ := 1, vals_ := Details.forwardV [x0, x1, x2, x3] h g 0 },
        { on_ := true, vals_ := [Details.forwardW [x0, x1, x2, x3] h g 0] }) := by
  simp [modwt, modwtStep, Assert, lengthOk, Details.modwt_forward, List.range_succ,
    Sink.onFst, Sink.onSnd, SaveLastLevel, SaveAllValues, SaveLastLevelState.init,
    SaveAllValuesState.init, pushLast, Details.forwardV, Details.forwardW]

end PipelineLemmas

section SinkLemmas

variable {α σ : Type}

theorem drive_nil (s : Sink σ α) (w : σ) : drive s [] w = w := rfl

theorem drive_cons (s : Sink σ α) (c : Call α) (cs : List (Call α)) (w : σ) :
    drive s (c :: cs) w = drive s cs (s.apply c w) := rfl

theorem drive_append (s : Sink σ α) (l1 l2 : List (Call α)) (w : σ) :
    drive s (l1 ++ l2) w = drive s l2 (drive s l1 w) := by
  simp [drive]

theorem printed_append (a b : List (IOEvent α)) : printed (a ++ b) = printed a ++ printed b := by
  simp [printed]

theorem printed_println (d : Option Dest) (vs : List α) :
    printed (vs.map (IOEvent.println d)) = vs := by
  induction vs with
  | nil => rfl
  | cons t rest ih =>
    simp only [List.map_cons]
    have h : printed (IOEvent.println d t :: rest.map (IOEvent.println d)) =
        t :: printed (rest.map (IOEvent.println d)) := rfl
    rw [h, ih]

theorem PrintValues_values_off (canOpen : String → Bool) (vs : List α) (s : PrintValuesState α)
    (hoff : s.on_ = false) : drive (PrintValues canOpen) (vs.map Call.value) s = s := by
  induction vs with
  | nil => rfl
  | cons t rest ih =>
    have h1 : (PrintValues canOpen).apply (Call.value t) s = s := by
      simp [Sink.apply, PrintValues, PrintValuesState.call, hoff]
    rw [List.map_cons, drive_cons, h1, ih]

theorem PrintValues_values_on (canOpen : String → Bool) (vs : List α) (s : PrintValuesState α)
    (hon : s.on_ = true) (hlt : s.currentPrints_ + vs.length < 2 ^ 64) :
    drive (PrintValues canOpen) (vs.map Call.value) s =
      { s with currentPrints_ := s.currentPrints_ + vs.length,
               io := s.io ++ (vs.take (s.maxPrints_ - s.currentPrints_)).map
                 (IOEvent.println s.fptr_) } := by
  induction vs generalizing s with
  | nil => simp [drive]
  | cons t rest ih =>
    rw [List.map_cons, drive_cons]
    have hlen : s.currentPrints_ + 1 + rest.length < 2 ^ 64 := by
      simp only [List.length_cons] at hlt
      omega
    have hmod : (s.currentPrints_ + 1) % 2 ^ 64 = s.currentPrints_ + 1 :=
      Nat.mod_eq_of_lt (by omega)
    by_cases hc : s.currentPrints_ + 1 ≤ s.maxPrints_
    · have h1 : (PrintValues canOpen).apply (Call.value t) s =
          { s with currentPrints_ := s.currentPrints_ + 1,
                   io := s.io ++ [IOEvent.println s.fptr_ t] } := by
        simp only [Sink.apply, PrintValues, PrintValuesState.call, hon, if_true]
        rw [hmod, if_pos hc]
      rw [h1, ih { s with currentPrints_ := s.currentPrints_ + 1,
                          io := s.io ++ [IOEvent.println s.fptr_ t] } hon hlen]
      have ht : s.maxPrints_ - s.currentPrints_ = (s.maxPrints_ - (s.currentPrints_ + 1)) + 1 := by
        omega
      simp only [List.length_cons]
      rw [ht, List.take_succ_cons]
      simp [Nat.add_assoc, Nat.add_comm 1]
    · have h1 : (PrintValues canOpen).apply (Call.value t) s =
          { s with currentPrints_ := s.currentPrints_ + 1 } := by
        simp only [Sink.apply, PrintValues, PrintValuesState.call, hon, if_true]
        rw [hmod, if_neg hc]
      rw [h1, ih { s with currentPrints_ := s.currentPrints_ + 1 } hon hlen]
      have ht : s.maxPrints_ - s.currentPrints_ = 0 := by omega
      have ht2 : s.maxPrints_ - (s.currentPrints_ + 1) = 0 := by omega
      simp only [List.length_cons]
      rw [ht, ht2]
      simp [Nat.add_assoc, Nat.add_comm 1]

theorem SaveLastLevel_values_off (vs : List α) (s : SaveLastLevelState α) (hoff : s.on_ = false) :
    drive SaveLastLevel (vs.map Call.value) s = s := by
  induction vs with
  | nil => rfl
  | cons t rest ih =>
    have h1 : (SaveLastLevel (α := α)).apply (Call.value t) s = s := by
      simp [Sink.apply, SaveLastLevel, hoff]
    rw [List.map_cons, drive_cons, h1, ih]

theorem SaveLastLevel_values_on (vs : List α) (s : SaveLastLevelState α) (hon : s.on_ = true) :
    drive SaveLastLevel (vs.map Call.value) s = { s with vals_ := s.vals_ ++ vs } := by
  induction vs generalizing s with
  | nil => simp [drive]
  | cons t rest ih =>
    have h1 : (SaveLastLevel (α := α)).apply (Call.value t) s =
        { s with vals_ := s.vals_ ++ [t] } := by
      simp [Sink.apply, SaveLastLevel, hon]
    rw [List.map_cons, drive_cons, h1, ih { s with vals_ := s.vals_ ++ [t] } hon]
    simp

end SinkLemmas

section KernelLemmas

variable {α : Type} [Field α] {σ : Type}

theorem foldl_call_eq_drive (op : Sink σ α) (f : Nat → α) (l : List Nat) (w : σ) :
    l.foldl (fun w t => op.call (f t) w) w = drive op ((l.map f).map Call.value) w := by
  induction l generalizing w with
  | nil => rfl
  | cons t rest ih =>
    rw [List.foldl_cons, ih]
    rfl

theorem backwardAll_length (Vj Wj h g : List α) (j : Nat) :
    (Details.backwardAll Vj Wj h g j).length = Vj.length := by
  simp [Details.backwardAll]

theorem zerophaseAll_length (Kj filt : List α) (j : Nat) :
    (Details.zerophaseAll Kj filt j).length = Kj.length := by
  simp [Details.zerophaseAll]

theorem imodwt_backward_eq (vop : Sink σ α) (Vj Wj h g : List α) (j : Nat) (Vi : List α) (w : σ)
    (hlen : Vi.length = Vj.length) :
    Details.imodwt_backward vop Vj Wj h g j Vi w =
      (Details.backwardAll Vj Wj h g j,
        drive vop ((Details.backwardAll Vj Wj h g j).map Call.value) w) := by
  have hpair := foldl_pair
    (fun (l : List α) t => l.set t (Details.imodwt_backward_at Vj Wj h g (2 ^ j) t))
    (fun (w : σ) t => vop.call (Details.imodwt_backward_at Vj Wj h g (2 ^ j) t) w)
    (List.range Vj.length) Vi w
  have hset := foldl_set_range (fun t => Details.imodwt_backward_at Vj Wj h g (2 ^ j) t) Vi
    Vj.length (by omega)
  have hcalls := foldl_call_eq_drive vop
    (fun t => Details.imodwt_backward_at Vj Wj h g (2 ^ j) t) (List.range Vj.length) w
  have hdrop : Vi.drop Vj.length = [] := by
    rw [← hlen]
    exact List.drop_length Vi
  unfold Details.imodwt_backward
  refine hpair.trans ?_
  rw [hset, hcalls, hdrop, List.append_nil]
  rfl

theorem imodwt_backward_zerophase_eq (op : Sink σ α) (Kj filt : List α) (j : Nat) (Ki : List α)
    (w : σ) (hlen : Ki.length = Kj.length) :
    Details.imodwt_backward_zerophase op Kj filt j Ki w =
      (Details.zerophaseAll Kj filt j,
        drive op ((Details.zerophaseAll Kj filt j).map Call.value) w) := by
  have hpair := foldl_pair
    (fun (l : List α) t => l.set t (Details.imodwt_backward_zerophase_at Kj filt (2 ^ j) t))
    (fun (w : σ) t => op.call (Details.imodwt_backward_zerophase_at Kj filt (2 ^ j) t) w)
    (List.range Kj.length) Ki w
  have hset := foldl_set_range (fun t => Details.imodwt_backward_zerophase_at Kj filt (2 ^ j) t)
    Ki Kj.length (by omega)
  have hcalls := foldl_call_eq_drive op
    (fun t => Details.imodwt_backward_zerophase_at Kj filt (2 ^ j) t) (List.range Kj.length) w
  have hdrop : Ki.drop Kj.length = [] := by
    rw [← hlen]
    exact List.drop_length Ki
  unfold Details.imodwt_backward_zerophase
  refine hpair.trans ?_
  rw [hset, hcalls, hdrop, List.append_nil]
  rfl

theorem smoothStage_length (Vj0 g : List α) (J i : Nat) :
    (smoothStage Vj0 g J i).length = Vj0.length := by
  induction i with
  | zero => rfl
  | succ i ih => rw [smoothStage, zerophaseAll_length, ih]

theorem backStage_length (Vj0 : List α) (Wj : List (List α)) (h g : List α) (i : Nat) :
    (backStage Vj0 Wj h g i).length = Vj0.length := by
  induction i with
  | zero => rfl
  | succ i ih => rw [backStage, backwardAll_length, ih]

end KernelLemmas

section CascadeLoops

variable {α : Type} [Field α] {σ : Type}

theorem smooth_loop (sop : Sink σ α) (Vj0 g : List α) (J : Nat) (w : σ) (m : Nat) (hm : m ≤ J) :
    (List.range m).foldl (smoothStep sop g J) { src := Vj0, dst := Vj0, world := w } =
      { src := smoothStage Vj0 g J m,
        dst := if m = 0 then Vj0 else smoothStage Vj0 g J (m - 1),
        world := drive sop ((List.range m).flatMap (fun i =>
          Call.Level ((i : Int) + 1) :: (smoothStage Vj0 g J (i + 1)).map Call.value)) w } := by
  induction m with
  | zero => simp [smoothStage, drive]
  | succ m ih =>
    rw [List.range_succ, List.foldl_append, ih (by omega)]
    simp only [List.foldl_cons, List.foldl_nil, smoothStep]
    have hdst : (if m = 0 then Vj0 else smoothStage Vj0 g J (m - 1)).length
        = (smoothStage Vj0 g J m).length := by
      split <;> simp [smoothStage_length]
    have hlev : ((J : Int) - ((J - 1 - m : Nat) : Int)) = (m : Int) + 1 := by omega
    rw [imodwt_backward_zerophase_eq sop _ g _ _ _ hdst, hlev]
    simp only [Nat.add_sub_cancel, Nat.succ_ne_zero, if_false, List.flatMap_append,
      List.flatMap_cons, List.flatMap_nil, List.append_nil, drive_append, drive_cons]
    rfl

theorem imodwt_loop (vop : Sink σ α) (Vj0 : List α) (Wj : List (List α)) (h g : List α) (w : σ)
    (m : Nat) (hm : m ≤ Wj.length) :
    (List.range m).foldl (imodwtStep vop Wj h g Wj.length)
        { src := Vj0, dst := List.replicate Vj0.length 0, world := w } =
      { src := backStage Vj0 Wj h g m,
        dst := if m = 0 then List.replicate Vj0.length 0 else backStage Vj0 Wj h g (m - 1),
        world := drive vop ((List.range m).flatMap (fun i =>
          Call.Level ((Wj.length - 1 - i : Nat) : Int) ::
            (backStage Vj0 Wj h g (i + 1)).map Call.value)) w } := by
  induction m with
  | zero => simp [backStage, drive]
  | succ m ih =>
    rw [List.range_succ, List.foldl_append, ih (by omega)]
    simp only [List.foldl_cons, List.foldl_nil, imodwtStep]
    have hdst : (if m = 0 then List.replicate Vj0.length (0 : α)
        else backStage Vj0 Wj h g (m - 1)).length = (backStage Vj0 Wj h g m).length := by
      split <;> simp [backStage_length]
    rw [imodwt_backward_eq vop _ _ h g _ _ _ hdst]
    simp only [Nat.add_sub_cancel, Nat.succ_ne_zero, if_false, List.flatMap_append,
      List.flatMap_cons, List.flatMap_nil, List.append_nil, drive_append, drive_cons]
    rfl

theorem smooth_of_valid (sop : Sink σ α) (Vj0 g : List α) (J : Nat) (w : σ)
    (hJ : 1 ≤ J) (hN : 2 ^ (J - 1) ≤ Vj0.length) :
    smooth sop Vj0 g (J : Int) w =
      { err := none,
        buf := if J % 2 = 0 then smoothStage Vj0 g J J else smoothStage Vj0 g J (J - 1),
        world := drive sop (smoothCalls Vj0 g J) w } := by
  have hcast : ((J : Int) - 1) = ((J - 1 : Nat) : Int) := by omega
  have hok : lengthOk Vj0.length ((J : Int) - 1) = true := by
    rw [hcast, lengthOk_natCast]
    simpa using hN
  have hJ0 : J ≠ 0 := by omega
  simp only [smooth, Assert, hok, if_true, Int.toNat_ofNat, smooth_loop sop Vj0 g J w J (le_refl J),
    Details.PingPong.first, hJ0, if_false, smoothCalls]

theorem imodwt_of_valid_calls (vop : Sink σ α) (Vj0 : List α) (Wj : List (List α)) (h g : List α)
    (w : σ) (h1 : 1 ≤ Wj.length) (h2 : Wj.length < 2 ^ 64)
    (hN : 2 ^ (Wj.length - 1) ≤ Vj0.length) :
    imodwt vop Vj0 Wj h g w =
      { err := none,
        buf := if Wj.length % 2 = 0 then backStage Vj0 Wj h g Wj.length
          else backStage Vj0 Wj h g (Wj.length - 1),
        world := drive vop (imodwtCalls Vj0 Wj h g) w } := by
  have hJ0 : Wj.length ≠ 0 := by omega
  rw [imodwt_of_valid vop Vj0 Wj h g w h1 h2 hN]
  simp only [imodwt_loop vop Vj0 Wj h g w Wj.length (le_refl _), Details.PingPong.first, hJ0,
    if_false, imodwtCalls]

end CascadeLoops

section CallCounts

variable {α σ τ : Type}

theorem countP_isLevel_values (vs : List α) :
    ((vs.map Call.value).countP Call.isLevel) = 0 := by
  induction vs with
  | nil => rfl
  | cons t rest ih => simpa [List.countP_cons, Call.isLevel] using ih

theorem countP_isValue_values (vs : List α) :
    ((vs.map Call.value).countP Call.isValue) = vs.length := by
  induction vs with
  | nil => rfl
  | cons t rest ih => simp [List.countP_cons, Call.isValue, ih]

theorem countP_level_blocks (lvl : Nat → Int) (vals : Nat → List α) (N J : Nat)
    (hv : ∀ i, (vals i).length = N) :
    ((List.range J).flatMap (fun i => Call.Level (lvl i) :: (vals i).map Call.value)).countP
        Call.isLevel = J ∧
      ((List.range J).flatMap (fun i => Call.Level (lvl i) :: (vals i).map Call.value)).countP
        Call.isValue = J * N := by
  induction J with
  | zero => simp
  | succ J ih =>
    simp only [List.range_succ, List.flatMap_append, List.flatMap_cons, List.flatMap_nil,
      List.append_nil, List.countP_append, List.countP_cons, ih.1, ih.2,
      countP_isLevel_values, countP_isValue_values, hv, Call.isLevel, Call.isValue]
    constructor
    · simp
    · simp [Nat.succ_mul]

theorem drive_recorder (tag : τ) (b : Bool) (calls : List (Call α)) (w : List (τ × Call α)) :
    drive (recorder tag b) calls w = w ++ calls.map (fun c => (tag, c)) := by
  induction calls generalizing w with
  | nil => simp [drive]
  | cons c rest ih =>
    rw [drive_cons, ih]
    cases c <;> simp [Sink.apply, recorder]

end CallCounts

section CaptureLemmas

variable {α σ τ : Type}

theorem replay_split (s : Sink σ α) (t : Sink τ α) (log : List (Port × Call α)) (a : σ) (b : τ) :
    replay (Port.sink s.onFst t.onSnd) log (a, b) =
      (drive s (Port.calls Port.vop log) a, drive t (Port.calls Port.wop log) b) := by
  induction log generalizing a b with
  | nil => rfl
  | cons e rest ih =>
    obtain ⟨p, c⟩ := e
    have hstep : replay (Port.sink s.onFst t.onSnd) ((p, c) :: rest) (a, b) =
        replay (Port.sink s.onFst t.onSnd) rest ((Port.sink s.onFst t.onSnd p).apply c (a, b)) :=
      rfl
    rw [hstep]
    cases p
    · have h1 : (Port.sink s.onFst t.onSnd Port.vop).apply c (a, b) = (s.apply c a, b) := by
        cases c <;> rfl
      rw [h1, ih]
      simp [Port.calls, drive_cons]
    · have h1 : (Port.sink s.onFst t.onSnd Port.wop).apply c (a, b) = (a, t.apply c b) := by
        cases c <;> rfl
      rw [h1, ih]
      simp [Port.calls, drive_cons]

theorem pushLast_concat (ps : List (List α)) (p : List α) (t : α) :
    pushLast (ps ++ [p]) t = ps ++ [p ++ [t]] := by
  simp [pushLast]

theorem pushLast_length (ps : List (List α)) (t : α) : (pushLast ps t).length = ps.length := by
  unfold pushLast
  cases h : ps.getLast? with
  | none => rfl
  | some l =>
    have hne : ps ≠ [] := by
      intro hnil
      rw [hnil] at h
      simp at h
    simp only [List.length_append, List.length_dropLast, List.length_cons, List.length_nil]
    have : 0 < ps.length := List.length_pos.mpr hne
    omega

theorem SaveAllValues_values_on (vs : List α) (ps : List (List α)) (p : List α) :
    drive SaveAllValues (vs.map Call.value)
        ({ on_ := true, vals_ := ps ++ [p] } : SaveAllValuesState α) =
      { on_ := true, vals_ := ps ++ [p ++ vs] } := by
  induction vs generalizing p with
  | nil => simp [drive]
  | cons t rest ih =>
    have h1 : (SaveAllValues (α := α)).apply (Call.value t) { on_ := true, vals_ := ps ++ [p] } =
        { on_ := true, vals_ := ps ++ [p ++ [t]] } := by
      simp [Sink.apply, SaveAllValues, pushLast_concat]
    rw [List.map_cons, drive_cons, h1, ih]
    simp

theorem SaveAllValues_block (l : Int) (vs : List α) (ps : List (List α)) :
    drive SaveAllValues (Call.Level l :: vs.map Call.value)
        ({ on_ := true, vals_ := ps } : SaveAllValuesState α) =
      { on_ := true, vals_ := ps ++ [vs] } := by
  have h1 : (SaveAllValues (α := α)).apply (Call.Level l) { on_ := true, vals_ := ps } =
      { on_ := true, vals_ := ps ++ [[]] } := by
    simp [Sink.apply, SaveAllValues]
  rw [drive_cons, h1, SaveAllValues_values_on]
  simp

theorem SaveAllValues_blocks (lvl : Nat → Int) (vals : Nat → List α) (J : Nat)
    (ps : List (List α)) :
    drive SaveAllValues
        ((List.range J).flatMap (fun j => Call.Level (lvl j) :: (vals j).map Call.value))
        ({ on_ := true, vals_ := ps } : SaveAllValuesState α) =
      { on_ := true, vals_ := ps ++ (List.range J).map vals } := by
  induction J with
  | zero => simp [drive]
  | succ J ih =>
    rw [List.range_succ, List.flatMap_append, drive_append, ih]
    simp only [List.flatMap_cons, List.flatMap_nil, List.append_nil, SaveAllValues_block,
      List.map_append, List.map_cons, List.map_nil, List.append_assoc]

theorem SaveAllValues_partitions (calls : List (Call α)) (st : SaveAllValuesState α) :
    (drive SaveAllValues calls st).vals_.length = levelsWhileOn st.on_ st.vals_.length calls := by
  induction calls generalizing st with
  | nil => rfl
  | cons c rest ih =>
    rw [drive_cons, ih]
    obtain ⟨b, vs⟩ := st
    cases c with
    | Level l => cases b <;> simp [Sink.apply, SaveAllValues, levelsWhileOn]
    | Off => simp [Sink.apply, SaveAllValues, levelsWhileOn]
    | On => simp [Sink.apply, SaveAllValues, levelsWhileOn]
    | Reset => simp [Sink.apply, SaveAllValues, levelsWhileOn]
    | value x => cases b <;> simp [Sink.apply, SaveAllValues, levelsWhileOn, pushLast_length]

end CaptureLemmas

section CaptureLemmas2

variable {α : Type} [Field α]

theorem range_map_getD (W : List α) (N : Nat) (hW : W.length = N) :
    (List.range N).map (fun t => W.getD t 0) = W := by
  apply List.ext_getElem
  · simp [hW]
  · intro i h1 h2
    simp only [List.getElem_map, List.getElem_range]
    exact List.getD_eq_getElem _ _ h2

theorem wop_calls_levelCalls (N : Nat) (lvl : Int) (V W : List α) (hW : W.length = N) :
    Port.calls Port.wop (levelCalls N lvl V W) = Call.Level lvl :: W.map Call.value := by
  have h : ∀ l : List Nat, Port.calls Port.wop (l.flatMap (fun t =>
      [(Port.vop, Call.value (V.getD t 0)), (Port.wop, Call.value (W.getD t 0))])) =
      (l.map (fun t => W.getD t 0)).map Call.value := by
    intro l
    induction l with
    | nil => rfl
    | cons t rest ih =>
      simp only [List.flatMap_cons, List.map_cons]
      rw [← ih]
      simp [Port.calls]
  have h0 : Port.calls Port.wop (levelCalls N lvl V W) =
      Call.Level lvl :: Port.calls Port.wop ((List.range N).flatMap (fun t =>
        [(Port.vop, Call.value (V.getD t 0)), (Port.wop, Call.value (W.getD t 0))])) := by
    simp [levelCalls, Port.calls]
  rw [h0, h, range_map_getD W N hW]

theorem waveletLevel_length (X h g : List α) (j : Nat) :
    (waveletLevel X h g j).length = X.length := by
  rw [waveletLevel, forwardW_length, scalingLevel_length]

theorem wop_calls_modwtProtocol (X h g : List α) (J : Nat) :
    Port.calls Port.wop (modwtProtocol X h g J) =
      (List.range J).flatMap (fun j =>
        Call.Level ((j : Int) + 1) :: (waveletLevel X h g j).map Call.value) := by
  induction J with
  | zero => rfl
  | succ J ih =>
    rw [modwtProtocol_succ, List.range_succ, List.flatMap_append]
    have happ : ∀ a b : List (Port × Call α),
        Port.calls Port.wop (a ++ b) = Port.calls Port.wop a ++ Port.calls Port.wop b := by
      intro a b
      simp [Port.calls]
    rw [happ, ih, wop_calls_levelCalls _ _ _ _ (waveletLevel_length X h g J)]
    simp

end CaptureLemmas2

section ShiftLemmas

variable {α : Type} [Field α]

theorem fwdIdx_eq_mod (N D k : Nat) (hk : k < N) (hD : D ≤ N) :
    Details.fwdIdx N D k = (k + (N - D)) % N := by
  unfold Details.fwdIdx
  split
  · rename_i hge
    have h1 : k + (N - D) = (k - D) + N := by omega
    rw [h1, Nat.add_mod_right, Nat.mod_eq_of_lt (by omega)]
  · rename_i hlt
    have h1 : N + k - D = k + (N - D) := by omega
    rw [h1, Nat.mod_eq_of_lt (by omega)]

theorem fwdIdx_lt (N D k : Nat) (hk : k < N) (hD : D ≤ N) : Details.fwdIdx N D k < N := by
  rw [fwdIdx_eq_mod N D k hk hD]
  exact Nat.mod_lt _ (by omega)

theorem fwdIdx_shift (N D k s : Nat) (hk : k < N) (hD : D ≤ N) :
    Details.fwdIdx N D ((k + s) % N) = (Details.fwdIdx N D k + s) % N := by
  have hN : 0 < N := by omega
  rw [fwdIdx_eq_mod N D _ (Nat.mod_lt _ hN) hD, fwdIdx_eq_mod N D k hk hD]
  rw [Nat.mod_add_mod, Nat.mod_add_mod]
  congr 1
  omega

theorem getD_rotate (X : List α) (s k : Nat) (hk : k < X.length) :
    (X.rotate s).getD k 0 = X.getD ((k + s) % X.length) 0 := by
  have hN : 0 < X.length := by omega
  rw [List.getD_eq_getElem _ _ (by simpa using hk),
    List.getD_eq_getElem _ _ (Nat.mod_lt _ hN)]
  exact List.getElem_rotate _ _ _ _

theorem modwt_forward_at_rotate (X h g : List α) (s D t : Nat) (hD : D ≤ X.length)
    (ht : t < X.length) :
    Details.modwt_forward_at (X.rotate s) h g D t =
      Details.modwt_forward_at X h g D ((t + s) % X.length) := by
  have key : ∀ (ls : List Nat) (k : Nat) (v u : α), k < X.length →
      ls.foldl (fun (acc : Nat × α × α) l =>
          (Details.fwdIdx X.length D acc.1,
            acc.2.1 + g.getD l 0 * (X.rotate s).getD (Details.fwdIdx X.length D acc.1) 0,
            acc.2.2 + h.getD l 0 * (X.rotate s).getD (Details.fwdIdx X.length D acc.1) 0))
        (k, v, u) =
      (((ls.foldl (fun (acc : Nat × α × α) l =>
          (Details.fwdIdx X.length D acc.1,
            acc.2.1 + g.getD l 0 * (X.rotate s).getD (Details.fwdIdx X.length D acc.1) 0,
            acc.2.2 + h.getD l 0 * (X.rotate s).getD (Details.fwdIdx X.length D acc.1) 0))
        (k, v, u)).1),
       (ls.foldl (fun (acc : Nat × α × α) l =>
          (Details.fwdIdx X.length D acc.1,
            acc.2.1 + g.getD l 0 * X.getD (Details.fwdIdx X.length D acc.1) 0,
            acc.2.2 + h.getD l 0 * X.getD (Details.fwdIdx X.length D acc.1) 0))
        ((k + s) % X.length, v, u)).2) := by
    intro ls
    induction ls with
    | nil => intro k v u _; rfl
    | cons l rest ih =>
      intro k v u hk
      simp only [List.foldl_cons]
      have hk1 := fwdIdx_lt X.length D k hk hD
      rw [ih _ _ _ hk1, fwdIdx_shift X.length D k s hk hD, getD_rotate X s _ hk1]
  have h0 := key (List.range' 1 (h.length - 1)) t (g.getD 0 0 * X.getD ((t + s) % X.length) 0)
    (h.getD 0 0 * X.getD ((t + s) % X.length) 0) ht
  simp only [Details.modwt_forward_at, List.length_rotate, getD_rotate X s t ht]
  rw [h0]

theorem forwardV_rotate (X h g : List α) (s j : Nat) (hj : 2 ^ j ≤ X.length) :
    Details.forwardV (X.rotate s) h g j = (Details.forwardV X h g j).rotate s := by
  have hN : 0 < X.length := lt_of_lt_of_le (Nat.pos_pow_of_pos j (by norm_num)) hj
  apply List.ext_getElem
  · simp [Details.forwardV]
  · intro t h1 h2
    have ht : t < X.length := by simpa [Details.forwardV] using h1
    rw [List.getElem_rotate]
    simp only [Details.forwardV, List.getElem_map, List.getElem_range, List.length_rotate,
      List.length_map, List.length_range]
    rw [modwt_forward_at_rotate X h g s (2 ^ j) t hj ht]

theorem forwardW_rotate (X h g : List α) (s j : Nat) (hj : 2 ^ j ≤ X.length) :
    Details.forwardW (X.rotate s) h g j = (Details.forwardW X h g j).rotate s := by
  apply List.ext_getElem
  · simp [Details.forwardW]
  · intro t h1 h2
    have ht : t < X.length := by simpa [Details.forwardW] using h1
    rw [List.getElem_rotate]
    simp only [Details.forwardW, List.getElem_map, List.getElem_range, List.length_rotate,
      List.length_map, List.length_range]
    rw [modwt_forward_at_rotate X h g s (2 ^ j) t hj ht]

theorem scalingLevel_rotate (X h g : List α) (s : Nat) (i : Nat)
    (hi : i = 0 ∨ 2 ^ (i - 1) ≤ X.length) :
    scalingLevel (X.rotate s) h g i = (scalingLevel X h g i).rotate s := by
  induction i with
  | zero => rfl
  | succ i ih =>
    have hpow : 2 ^ i ≤ X.length := by
      rcases hi with h0 | h1
      · omega
      · simpa using h1
    have hprev : i = 0 ∨ 2 ^ (i - 1) ≤ X.length := by
      rcases Nat.eq_zero_or_pos i with h0 | hpos
      · exact Or.inl h0
      · right
        exact le_trans (Nat.pow_le_pow_right (by norm_num) (by omega)) hpow
    rw [scalingLevel, scalingLevel, ih hprev]
    exact forwardV_rotate _ h g s i (by rw [scalingLevel_length]; exact hpow)

theorem waveletLevel_rotate (X h g : List α) (s : Nat) (i : Nat) (hi : 2 ^ i ≤ X.length) :
    waveletLevel (X.rotate s) h g i = (waveletLevel X h g i).rotate s := by
  have hprev : i = 0 ∨ 2 ^ (i - 1) ≤ X.length := by
    rcases Nat.eq_zero_or_pos i with h0 | hpos
    · exact Or.inl h0
    · right
      exact le_trans (Nat.pow_le_pow_right (by norm_num) (by omega)) hi
  rw [waveletLevel, waveletLevel, scalingLevel_rotate X h g s i hprev]
  exact forwardW_rotate _ h g s i (by rw [scalingLevel_length]; exact hi)

end ShiftLemmas

section DoAllLemmas

variable {α : Type} [Field α] {σ τ : Type}

theorem modwt_forward2_eq (vop wop : Sink σ α) (Vi h g : List α) (j : Nat) (Vj Wj : List α)
    (w : σ) (hV : Vj.length = Vi.length) (hW : Wj.length = Vi.length) :
    Details.modwt_forward2 vop wop Vi h g j Vj Wj w =
      (Details.forwardV Vi h g j, Details.forwardW Vi h g j,
        (Details.modwt_forward vop wop Vi h g j Vj w).2) := by
  have hpair := foldl_pair
    (fun (l : List α) t => l.set t (Details.modwt_forward_at Vi h g (2 ^ j) t).1)
    (fun (p : List α × σ) t => (p.1.set t (Details.modwt_forward_at Vi h g (2 ^ j) t).2,
      wop.call (Details.modwt_forward_at Vi h g (2 ^ j) t).2
        (vop.call (Details.modwt_forward_at Vi h g (2 ^ j) t).1 p.2)))
    (List.range Vi.length) Vj (Wj, w)
  have hpair2 := foldl_pair
    (fun (l : List α) t => l.set t (Details.modwt_forward_at Vi h g (2 ^ j) t).2)
    (fun (w : σ) t => wop.call (Details.modwt_forward_at Vi h g (2 ^ j) t).2
      (vop.call (Details.modwt_forward_at Vi h g (2 ^ j) t).1 w))
    (List.range Vi.length) Wj w
  have hpair3 := foldl_pair
    (fun (l : List α) t => l.set t (Details.modwt_forward_at Vi h g (2 ^ j) t).1)
    (fun (w : σ) t => wop.call (Details.modwt_forward_at Vi h g (2 ^ j) t).2
      (vop.call (Details.modwt_forward_at Vi h g (2 ^ j) t).1 w))
    (List.range Vi.length) Vj w
  have hsetV := foldl_set_range (fun t => (Details.modwt_forward_at Vi h g (2 ^ j) t).1) Vj
    Vi.length (by omega)
  have hsetW := foldl_set_range (fun t => (Details.modwt_forward_at Vi h g (2 ^ j) t).2) Wj
    Vi.length (by omega)
  have hdropV : Vj.drop Vi.length = [] := by
    rw [← hV]; exact List.drop_length Vj
  have hdropW : Wj.drop Vi.length = [] := by
    rw [← hW]; exact List.drop_length Wj
  have h2 : (Details.modwt_forward vop wop Vi h g j Vj w).2 =
      (List.range Vi.length).foldl (fun (w : σ) t =>
        wop.call (Details.modwt_forward_at Vi h g (2 ^ j) t).2
          (vop.call (Details.modwt_forward_at Vi h g (2 ^ j) t).1 w)) w := by
    unfold Details.modwt_forward
    exact congrArg Prod.snd hpair3
  unfold Details.modwt_forward2
  refine hpair.trans ?_
  rw [hpair2, hsetV, hsetW, hdropV, hdropW, List.append_nil, List.append_nil, h2]
  rfl

theorem drive_onFst (q : Sink σ α) (calls : List (Call α)) (a : σ) (b : τ) :
    drive (q.onFst (τ := τ)) calls (a, b) = (drive q calls a, b) := by
  induction calls generalizing a with
  | nil => rfl
  | cons c rest ih =>
    have h1 : (q.onFst (τ := τ)).apply c (a, b) = (q.apply c a, b) := by
      cases c <;> rfl
    rw [drive_cons, h1, ih]
    rfl

theorem replay_split_swap (t : Sink τ α) (a : Sink σ α) (log : List (Port × Call α)) (w1 : σ)
    (w2 : τ) :
    replay (Port.sink t.onSnd a.onFst) log (w1, w2) =
      (drive a (Port.calls Port.wop log) w1, drive t (Port.calls Port.vop log) w2) := by
  induction log generalizing w1 w2 with
  | nil => rfl
  | cons e rest ih =>
    obtain ⟨p, c⟩ := e
    have hstep : replay (Port.sink t.onSnd a.onFst) ((p, c) :: rest) (w1, w2) =
        replay (Port.sink t.onSnd a.onFst) rest ((Port.sink t.onSnd a.onFst p).apply c (w1, w2)) :=
      rfl
    rw [hstep]
    cases p
    · have h1 : (Port.sink (t.onSnd (σ := σ)) a.onFst Port.vop).apply c (w1, w2) =
          (w1, t.apply c w2) := by
        cases c <;> rfl
      rw [h1, ih]
      simp [Port.calls, drive_cons]
    · have h1 : (Port.sink (t.onSnd (σ := σ)) a.onFst Port.wop).apply c (w1, w2) =
          (a.apply c w1, w2) := by
        cases c <;> rfl
      rw [h1, ih]
      simp [Port.calls, drive_cons]

theorem vop_calls_values (V W : List α) (l : List Nat) :
    Port.calls Port.vop (l.flatMap (fun t =>
      [(Port.vop, Call.value (V.getD t 0)), (Port.wop, Call.value (W.getD t 0))])) =
      (l.map (fun t => V.getD t 0)).map Call.value := by
  induction l with
  | nil => rfl
  | cons t rest ih =>
    simp only [List.flatMap_cons, List.map_cons]
    rw [← ih]
    simp [Port.calls]

theorem modwt_forward_scaling (t : Sink τ α) (a : Sink σ α) (Vi h g : List α) (j : Nat)
    (Vj : List α) (w1 : σ) (w2 : τ) (hV : Vj.length = Vi.length) :
    (Details.modwt_forward t.onSnd a.onFst Vi h g j Vj (w1, w2)).1 = Details.forwardV Vi h g j ∧
      (Details.modwt_forward t.onSnd a.onFst Vi h g j Vj (w1, w2)).2.2 =
        drive t ((Details.forwardV Vi h g j).map Call.value) w2 := by
  rw [modwt_forward_eq _ _ Vi h g j Vj _ hV, replay_split_swap, vop_calls_values,
    range_map_getD _ _ (forwardV_length Vi h g j)]
  exact ⟨rfl, rfl⟩

end DoAllLemmas

section FrameLemmas

variable {α : Type} [Field α] {σ τ : Type}

theorem zerophase_onFst (q : Sink σ α) (Kj filt : List α) (j : Nat) (Ki : List α) (w : σ × τ)
    (hlen : Ki.length = Kj.length) :
    (Details.imodwt_backward_zerophase (q.onFst (τ := τ)) Kj filt j Ki w).1.length = Kj.length ∧
      (Details.imodwt_backward_zerophase (q.onFst (τ := τ)) Kj filt j Ki w).2.2 = w.2 := by
  obtain ⟨w1, w2⟩ := w
  rw [imodwt_backward_zerophase_eq _ Kj filt j Ki _ hlen, drive_onFst]
  exact ⟨zerophaseAll_length Kj filt j, rfl⟩

theorem details_one_step_framed (q : Sink σ α) (h g : List α) (level N : Nat) (w2 : τ)
    (st : Details.PingPong (σ × τ) α) (j : Nat) (hst : Framed N w2 st) :
    Framed N w2 (Details.details_one_step (q.onFst (τ := τ)) h g level st j) := by
  obtain ⟨h1, h2, h3⟩ := hst
  have hz := zerophase_onFst q st.src (if j = level then h else g) j st.dst
    ((q.onFst (τ := τ)).Level ((j : Int) + 1) st.world) (by omega)
  refine ⟨?_, h1, ?_⟩
  · exact hz.1.trans h1
  · exact hz.2.trans h3

theorem smooth_one_step_framed (q : Sink σ α) (g : List α) (n N : Nat) (w2 : τ)
    (st : Details.PingPong (σ × τ) α) (i : Nat) (hst : Framed N w2 st) :
    Framed N w2 (Details.smooth_one_step (q.onFst (τ := τ)) g n st i) := by
  obtain ⟨h1, h2, h3⟩ := hst
  have hz := zerophase_onFst q st.src g (n - 1 - i) st.dst
    ((q.onFst (τ := τ)).Level ((n : Int) - ((n - 1 - i : Nat) : Int)) st.world) (by omega)
  refine ⟨?_, h1, ?_⟩
  · exact hz.1.trans h1
  · exact hz.2.trans h3

theorem foldl_framed (step : Details.PingPong (σ × τ) α → Nat → Details.PingPong (σ × τ) α)
    (N : Nat) (w2 : τ) (hstep : ∀ st j, Framed N w2 st → Framed N w2 (step st j))
    (l : List Nat) (st : Details.PingPong (σ × τ) α) (hst : Framed N w2 st) :
    Framed N w2 (l.foldl step st) := by
  induction l generalizing st with
  | nil => exact hst
  | cons j rest ih => exact ih _ (hstep st j hst)

theorem first_second_length (N : Nat) (w2 : τ) (p : Details.PingPong (σ × τ) α) (n : Nat)
    (hp : Framed N w2 p) : (p.first n).length = N ∧ (p.second n).length = N := by
  obtain ⟨h1, h2, _⟩ := hp
  unfold Details.PingPong.first Details.PingPong.second
  by_cases hn : n % 2 = 0
  · simp [hn, h1, h2]
  · simp [hn, h1, h2]

theorem details_one_frame (q : Sink σ α) (Wjt Wit h g : List α) (level : Nat) (w : σ × τ)
    (N : Nat) (h1 : Wjt.length = N) (h2 : Wit.length = N) :
    (Details.details_one (q.onFst (τ := τ)) Wjt Wit h g level w).1.length = N ∧
      (Details.details_one (q.onFst (τ := τ)) Wjt Wit h g level w).2.1.length = N ∧
      (Details.details_one (q.onFst (τ := τ)) Wjt Wit h g level w).2.2.2 = w.2 := by
  unfold Details.details_one
  by_cases he : Wjt.isEmpty = true
  · rw [if_pos he]
    exact ⟨h1, h2, rfl⟩
  · rw [if_neg he]
    have hf := foldl_framed (Details.details_one_step (q.onFst (τ := τ)) h g level) N w.2
      (fun st j hst => details_one_step_framed q h g level N w.2 st j hst)
      (List.range (level + 1)) { src := Wjt, dst := Wit, world := w } ⟨h1, h2, rfl⟩
    have hl := first_second_length N w.2 _ (level + 1) hf
    exact ⟨hl.1, hl.2, hf.2.2⟩

theorem smooth_one_frame (q : Sink σ α) (Vj0 Vi g : List α) (numLevels : Int) (w : σ × τ)
    (hlen : Vi.length = Vj0.length) :
    (Details.smooth_one (q.onFst (τ := τ)) Vj0 Vi g numLevels w).world.2 = w.2 := by
  unfold Details.smooth_one
  cases hA : Assert Error.ArgumentError (lengthOk Vj0.length (numLevels - 1)) with
  | error e => rfl
  | ok u =>
    have hf := foldl_framed
      (Details.smooth_one_step (q.onFst (τ := τ)) g (numLevels + 1).toNat) Vj0.length w.2
      (fun st j hst => smooth_one_step_framed q g _ Vj0.length w.2 st j hst)
      (List.range (numLevels + 1).toNat) { src := Vj0, dst := Vi, world := w }
      ⟨rfl, hlen, rfl⟩
    exact hf.2.2

theorem smooth_one_err (sop : Sink σ α) (Vj0 Vi g : List α) (numLevels : Int) (w : σ)
    (hok : lengthOk Vj0.length (numLevels - 1) = true) :
    (Details.smooth_one sop Vj0 Vi g numLevels w).err = none := by
  unfold Details.smooth_one
  simp [Assert, hok]

theorem modwt_forward_scaling_world (t : Sink τ α) (a : Sink σ α) (Vi h g : List α) (j : Nat)
    (Vj : List α) (w : σ × τ) (hV : Vj.length = Vi.length) :
    (Details.modwt_forward t.onSnd a.onFst Vi h g j Vj w).1 = Details.forwardV Vi h g j ∧
      (Details.modwt_forward t.onSnd a.onFst Vi h g j Vj w).2.2 =
        drive t ((Details.forwardV Vi h g j).map Call.value) w.2 := by
  obtain ⟨w1, w2⟩ := w
  exact modwt_forward_scaling t a Vi h g j Vj w1 w2 hV

theorem doAllStep_mid (a b c : Sink σ α) (t : Sink τ α) (h g : List α) (N level : Nat)
    (wasOn : Bool) (V : List α) (w2 : τ) (st : DoAllState (σ × τ) α) (idx : Nat)
    (hne : idx ≠ level) (hV : V.length = N) (hinv : DoAllInv N V w2 st) :
    DoAllInv N (Details.forwardV V h g (idx - 1))
      (drive t ((Details.forwardV V h g (idx - 1)).map Call.value) w2)
      (doAllStep a.onFst b.onFst t.onSnd c.onFst h g N level wasOn st idx) := by
  obtain ⟨he, hx, hy, hz, hw⟩ := hinv
  subst hx
  subst hw
  have hsome : st.err.isSome = false := by rw [he]; rfl
  unfold doAllStep
  simp only [hsome, hne, false_and, if_false, Bool.false_eq_true]
  by_cases hd : (b.onFst (τ := τ)).IsOn ((b.onFst (τ := τ)).Level (idx : Int)
      ((b.onFst (τ := τ)).Reset ((a.onFst (τ := τ)).Level (idx : Int) st.world))) = true
  · rw [if_pos hd]
    have hz0 : (match st.z with
        | some z => z
        | none => List.replicate N (0 : α)).length = N := by
      cases hzz : st.z with
      | none => simp
      | some z => exact hz z hzz
    have hf2 := modwt_forward2_eq (t.onSnd (σ := σ)) (a.onFst (τ := τ)) st.x h g (idx - 1) st.y
      (match st.z with
        | some z => z
        | none => List.replicate N (0 : α))
      ((b.onFst (τ := τ)).Level (idx : Int)
        ((b.onFst (τ := τ)).Reset ((a.onFst (τ := τ)).Level (idx : Int) st.world)))
      (by omega) (by omega)
    have hf := modwt_forward_scaling_world t a st.x h g (idx - 1) st.y
      ((b.onFst (τ := τ)).Level (idx : Int)
        ((b.onFst (τ := τ)).Reset ((a.onFst (τ := τ)).Level (idx : Int) st.world)))
      (by omega)
    rw [hf2]
    simp only [hsome, Bool.false_eq_true, if_false]
    have hd1 := details_one_frame b (Details.forwardW st.x h g (idx - 1)) st.x h g (idx - 1)
      (Details.modwt_forward (t.onSnd (σ := σ)) (a.onFst (τ := τ)) st.x h g (idx - 1) st.y
        ((b.onFst (τ := τ)).Level (idx : Int)
          ((b.onFst (τ := τ)).Reset ((a.onFst (τ := τ)).Level (idx : Int) st.world)))).2
      N (by rw [forwardW_length]; exact hV) hV
    refine ⟨he, rfl, hd1.2.1, ?_, hd1.2.2.trans hf.2⟩
    intro z hzz
    have hzz2 : z = _ := (Option.some.inj hzz).symm
    rw [hzz2]
    exact hd1.1
  · rw [if_neg hd]
    simp only [hsome, Bool.false_eq_true, if_false]
    have hf := modwt_forward_scaling_world t a st.x h g (idx - 1) st.y
      ((b.onFst (τ := τ)).Level (idx : Int)
        ((b.onFst (τ := τ)).Reset ((a.onFst (τ := τ)).Level (idx : Int) st.world)))
      (by omega)
    exact ⟨he, hf.1, hV, hz, hf.2⟩

theorem doAllStep_last (a b c : Sink σ α) (t : Sink τ α) (h g : List α) (N level : Nat)
    (wasOn : Bool) (V : List α) (w2 : τ) (st : DoAllState (σ × τ) α)
    (hV : V.length = N) (hinv : DoAllInv N V w2 st)
    (hok : lengthOk N ((level : Int) - 1 - 1) = true) :
    (doAllStep a.onFst b.onFst t.onSnd c.onFst h g N level wasOn st level).world.2 =
        drive t ((if wasOn then [Call.On, Call.Level (level : Int)] else []) ++
          (Details.forwardV V h g (level - 1)).map Call.value) w2 ∧
      (doAllStep a.onFst b.onFst t.onSnd c.onFst h g N level wasOn st level).err = none := by
  obtain ⟨he, hx, hy, hz, hw⟩ := hinv
  subst hx
  subst hw
  have hsome : st.err.isSome = false := by rw [he]; rfl
  have hW : (if wasOn = true then
        (t.onSnd (σ := σ)).Level (level : Int)
          ((t.onSnd (σ := σ)).On ((a.onFst (τ := τ)).Level (level : Int) st.world))
      else (a.onFst (τ := τ)).Level (level : Int) st.world).2 =
      drive t (if wasOn then [Call.On, Call.Level (level : Int)] else []) st.world.2 := by
    cases wasOn <;> rfl
  unfold doAllStep
  simp only [hsome, true_and, if_false, Bool.false_eq_true]
  generalize (if wasOn = true then
        (t.onSnd (σ := σ)).Level (level : Int)
          ((t.onSnd (σ := σ)).On ((a.onFst (τ := τ)).Level (level : Int) st.world))
      else (a.onFst (τ := τ)).Level (level : Int) st.world) = W at hW ⊢
  rw [drive_append, ← hW]
  have hf := modwt_forward_scaling_world t a st.x h g (level - 1) st.y
    ((b.onFst (τ := τ)).Level (level : Int) ((b.onFst (τ := τ)).Reset W)) (by omega)
  have hw3 : ((b.onFst (τ := τ)).Level (level : Int) ((b.onFst (τ := τ)).Reset W)).2 = W.2 := rfl
  rw [hw3] at hf
  by_cases hd : (b.onFst (τ := τ)).IsOn ((b.onFst (τ := τ)).Level (level : Int)
      ((b.onFst (τ := τ)).Reset W)) = true
  · rw [if_pos hd]
    have hz0 : (match st.z with
        | some z => z
        | none => List.replicate N (0 : α)).length = N := by
      cases hzz : st.z with
      | none => simp
      | some z => exact hz z hzz
    have hf2 := modwt_forward2_eq (t.onSnd (σ := σ)) (a.onFst (τ := τ)) st.x h g (level - 1)
      st.y
      (match st.z with
        | some z => z
        | none => List.replicate N (0 : α))
      ((b.onFst (τ := τ)).Level (level : Int) ((b.onFst (τ := τ)).Reset W))
      (by omega) (by omega)
    rw [hf2]
    dsimp only
    have hd1 := details_one_frame b (Details.forwardW st.x h g (level - 1)) st.x h g (level - 1)
      (Details.modwt_forward (t.onSnd (σ := σ)) (a.onFst (τ := τ)) st.x h g (level - 1) st.y
        ((b.onFst (τ := τ)).Level (level : Int) ((b.onFst (τ := τ)).Reset W))).2
      N (by rw [forwardW_length]; exact hV) hV
    generalize Details.modwt_forward (t.onSnd (σ := σ)) (a.onFst (τ := τ)) st.x h g (level - 1)
      st.y ((b.onFst (τ := τ)).Level (level : Int) ((b.onFst (τ := τ)).Reset W)) = F
      at hf hd1 ⊢
    generalize Details.details_one (b.onFst (τ := τ)) (Details.forwardW st.x h g (level - 1))
      st.x h g (level - 1) F.2 = D at hd1 ⊢
    have hlenV : (Details.forwardV st.x h g (level - 1)).length = N := by
      rw [forwardV_length]; exact hV
    by_cases hs : (c.onFst (τ := τ)).IsOn ((c.onFst (τ := τ)).Level (level : Int) D.2.2) = true
    · rw [if_pos hs]
      dsimp only
      have herr := smooth_one_err (c.onFst (τ := τ)) (Details.forwardV st.x h g (level - 1))
        D.2.1 g ((level : Int) - 1) ((c.onFst (τ := τ)).Level (level : Int) D.2.2)
        (by rw [hlenV]; exact hok)
      have hfr := smooth_one_frame c (Details.forwardV st.x h g (level - 1)) D.2.1 g
        ((level : Int) - 1) ((c.onFst (τ := τ)).Level (level : Int) D.2.2)
        (by rw [hlenV]; exact hd1.2.1)
      simp only [herr, Option.isSome_none, Bool.false_eq_true, if_false]
      exact ⟨hfr.trans (hd1.2.2.trans hf.2), trivial⟩
    · rw [if_neg hs]
      simp only [hsome, Bool.false_eq_true, if_false]
      exact ⟨hd1.2.2.trans hf.2, he⟩
  · rw [if_neg hd]
    dsimp only
    generalize Details.modwt_forward (t.onSnd (σ := σ)) (a.onFst (τ := τ)) st.x h g (level - 1)
      st.y ((b.onFst (τ := τ)).Level (level : Int) ((b.onFst (τ := τ)).Reset W)) = F
      at hf ⊢
    have hlenF : F.1.length = N := by
      rw [hf.1, forwardV_length]; exact hV
    by_cases hs : (c.onFst (τ := τ)).IsOn ((c.onFst (τ := τ)).Level (level : Int) F.2) = true
    · rw [if_pos hs]
      dsimp only
      have herr := smooth_one_err (c.onFst (τ := τ)) F.1 st.x g ((level : Int) - 1)
        ((c.onFst (τ := τ)).Level (level : Int) F.2) (by rw [hlenF]; exact hok)
      have hfr := smooth_one_frame c F.1 st.x g ((level : Int) - 1)
        ((c.onFst (τ := τ)).Level (level : Int) F.2) (by rw [hlenF]; exact hV)
      simp only [herr, Option.isSome_none, Bool.false_eq_true, if_false]
      exact ⟨hfr.trans hf.2, trivial⟩
    · rw [if_neg hs]
      simp only [hsome, Bool.false_eq_true, if_false]
      exact ⟨hf.2, he⟩

theorem doAll_loop_mid (a b c : Sink σ α) (t : Sink τ α) (h g : List α) (level : Nat)
    (wasOn : Bool) (X : List α) (w2 : τ) (st : DoAllState (σ × τ) α)
    (hinv : DoAllInv X.length X w2 st) (m : Nat) (hm : m < level) :
    DoAllInv X.length (scalingLevel X h g m)
      (drive t ((List.range' 1 m).flatMap (fun idx => (scalingLevel X h g idx).map Call.value))
        w2)
      ((List.range' 1 m).foldl
        (doAllStep a.onFst b.onFst t.onSnd c.onFst h g X.length level wasOn) st) := by
  induction m with
  | zero => exact hinv
  | succ m ih =>
    have ih1 := ih (by omega)
    rw [List.range'_1_concat, List.foldl_append, List.flatMap_append, drive_append]
    have hstep := doAllStep_mid a b c t h g X.length level wasOn (scalingLevel X h g m) _ _
      (1 + m) (by omega) (scalingLevel_length X h g m) ih1
    have e1 : 1 + m - 1 = m := by omega
    rw [e1] at hstep
    have e2 : Details.forwardV (scalingLevel X h g m) h g m = scalingLevel X h g (1 + m) := by
      rw [Nat.add_comm]; rfl
    rw [e2] at hstep
    rw [Nat.add_comm m 1]
    simpa [drive] using hstep

theorem SaveAllValues_values_off (vs : List α) (ps : List (List α)) :
    drive SaveAllValues (vs.map Call.value)
        ({ on_ := false, vals_ := ps } : SaveAllValuesState α) =
      { on_ := false, vals_ := ps } := by
  induction vs with
  | nil => rfl
  | cons x rest ih =>
    rw [List.map_cons, drive_cons]
    exact ih

theorem doAllScalingCalls_SaveAllValues (X h g : List α) (level : Nat)
    (v : SaveAllValuesState α) :
    drive SaveAllValues (doAllScalingCalls X h g level v.on_) v =
      if v.on_ then { on_ := true, vals_ := v.vals_ ++ [scalingLevel X h g level] }
      else { on_ := false, vals_ := v.vals_ } := by
  obtain ⟨b, ps⟩ := v
  have hflat : (List.range' 1 (level - 1)).flatMap
      (fun idx => (scalingLevel X h g idx).map Call.value) =
      ((List.range' 1 (level - 1)).flatMap (fun idx => scalingLevel X h g idx)).map
        Call.value := by
    rw [List.map_flatMap]
  have hoff : (SaveAllValues (α := α)).apply Call.Off { on_ := b, vals_ := ps } =
      { on_ := false, vals_ := ps } := rfl
  unfold doAllScalingCalls
  rw [drive_cons, hoff, drive_append, hflat, SaveAllValues_values_off]
  cases b
  · exact SaveAllValues_values_off _ ps
  · exact SaveAllValues_block (level : Int) (scalingLevel X h g level) ps

theorem doAll_scaling (sqrt2 : α) (a b c : Sink σ α) (t : Sink τ α) (X : List α) (level : Nat)
    (f : Filter.FType) (w : σ × τ) (hX : X ≠ []) (h1 : 1 ≤ level) (h32 : level < 2 ^ 32)
    (hN : 2 ^ (level - 1) ≤ X.length) :
    (doAll sqrt2 a.onFst b.onFst t.onSnd c.onFst X level f.toInt w).err = none ∧
      (doAll sqrt2 a.onFst b.onFst t.onSnd c.onFst X level f.toInt w).world.2 =
        drive t (doAllScalingCalls X
          (Filter.Details.make_filter Transform.MODWT sqrt2 f.garr).1
          (Filter.Details.make_filter Transform.MODWT sqrt2 f.garr).2 level (t.IsOn w.2)) w.2 := by
  have hne : X.isEmpty = false := by
    cases X with
    | nil => exact absurd rfl hX
    | cons a l => rfl
  have hexp : (level + 2 ^ 32 - 1) % 2 ^ 32 = level - 1 := by omega
  have hgood : lengthOk X.length (((level + 2 ^ 32 - 1) % 2 ^ 32 : Nat) : Int) = true := by
    rw [hexp, lengthOk_natCast]
    exact decide_eq_true hN
  have hpos : 1 ≤ X.length := le_trans (Nat.one_le_two_pow) hN
  have hok : lengthOk X.length ((level : Int) - 1 - 1) = true := by
    by_cases h2 : level = 1
    · subst h2
      rw [lengthOk_of_neg _ _ (by norm_num) (by norm_num)]
      exact decide_eq_true hpos
    · have hcast : ((level : Int) - 1 - 1) = ((level - 2 : Nat) : Int) := by omega
      rw [hcast, lengthOk_natCast]
      apply decide_eq_true
      exact le_trans (Nat.pow_le_pow_right (by norm_num) (by omega)) hN
  have hlist : List.range' 1 level = List.range' 1 (level - 1) ++ [level] := by
    obtain ⟨m, rfl⟩ : ∃ m, level = m + 1 := ⟨level - 1, by omega⟩
    rw [List.range'_1_concat, Nat.add_sub_cancel, Nat.add_comm]
  have hinv0 : DoAllInv X.length X ((t.onSnd (σ := σ)).Off w).2
      ({ x := X, y := List.replicate X.length 0, xIsX := true, z := none,
         world := (t.onSnd (σ := σ)).Off w, err := none } : DoAllState (σ × τ) α) :=
by
    refine ⟨rfl, rfl, ?_, ?_, rfl⟩
    · simp
    · intro z hz
      cases hz
  have hmid := doAll_loop_mid a b c t
    (Filter.Details.make_filter Transform.MODWT sqrt2 f.garr).1
    (Filter.Details.make_filter Transform.MODWT sqrt2 f.garr).2 level
    ((t.onSnd (σ := σ)).IsOn w) X _ _ hinv0 (level - 1) (by omega)
  have hlast := doAllStep_last a b c t
    (Filter.Details.make_filter Transform.MODWT sqrt2 f.garr).1
    (Filter.Details.make_filter Transform.MODWT sqrt2 f.garr).2 X.length level
    ((t.onSnd (σ := σ)).IsOn w) _ _ _ (scalingLevel_length X _ _ (level - 1)) hmid hok
  have hsl : Details.forwardV (scalingLevel X
      (Filter.Details.make_filter Transform.MODWT sqrt2 f.garr).1
      (Filter.Details.make_filter Transform.MODWT sqrt2 f.garr).2 (level - 1))
      (Filter.Details.make_filter Transform.MODWT sqrt2 f.garr).1
      (Filter.Details.make_filter Transform.MODWT sqrt2 f.garr).2 (level - 1) =
      scalingLevel X (Filter.Details.make_filter Transform.MODWT sqrt2 f.garr).1
      (Filter.Details.make_filter Transform.MODWT sqrt2 f.garr).2 level := by
    obtain ⟨m, rfl⟩ : ∃ m, level = m + 1 := ⟨level - 1, by omega⟩
    rfl
  rw [hsl] at hlast
  simp only [doAll, Assert, hne, hgood, Bool.not_false, if_true, getFilters_catalog,
    hlist, List.foldl_append, List.foldl_cons, List.foldl_nil]
  refine ⟨hlast.2, ?_⟩
  rw [hlast.1]
  unfold doAllScalingCalls
  simp only [drive_cons, drive_append]
  rfl

end FrameLemmas

section ClosedFormLemmas

variable {α : Type} [Field α] {σ : Type}

theorem circ_cast (N : Nat) (i : Int) (hN : 0 < N) : ((circ N i : Nat) : Int) = i % (N : Int) := by
  unfold circ
  exact Int.toNat_of_nonneg (Int.emod_nonneg _ (by omega))

theorem circ_lt (N : Nat) (i : Int) (hN : 0 < N) : circ N i < N := by
  have h1 := circ_cast N i hN
  have h2 : i % (N : Int) < (N : Int) := Int.emod_lt_of_pos _ (by omega)
  omega

theorem circ_natCast (N t : Nat) (ht : t < N) : circ N (t : Int) = t := by
  have h1 := circ_cast N (t : Int) (by omega)
  have h2 : (t : Int) % (N : Int) = t := Int.emod_eq_of_lt (by omega) (by omega)
  omega

theorem fwdIdx_circ (N D : Nat) (i : Int) (hN : 0 < N) (hD : D ≤ N) :
    Details.fwdIdx N D (circ N i) = circ N (i - (D : Int)) := by
  rw [fwdIdx_eq_mod N D _ (circ_lt N i hN) hD]
  have hinj : (((circ N i + (N - D)) % N : Nat) : Int) = ((circ N (i - (D : Int)) : Nat) : Int) := by
    rw [circ_cast N _ hN, Int.natCast_mod, Nat.cast_add, circ_cast N _ hN, Nat.cast_sub hD]
    have h1 : (i % (N : Int) + ((N : Int) - (D : Int))) % (N : Int) =
        (i + ((N : Int) - (D : Int))) % (N : Int) := Int.emod_add_emod _ _ _
    rw [h1]
    have h2 : i + ((N : Int) - (D : Int)) = (i - (D : Int)) + (N : Int) := by ring
    rw [h2, Int.add_emod_self]
  exact_mod_cast hinj

theorem bwdIdx_eq_mod (N D k : Nat) (hk : k < N) (hD : D ≤ N) :
    Details.bwdIdx N D k = (k + D) % N := by
  unfold Details.bwdIdx
  split
  · rename_i hge
    have h1 : k + D = (k + D - N) + N := by omega
    rw [h1, Nat.add_mod_right, Nat.mod_eq_of_lt (by omega)]
    omega
  · rename_i hlt
    rw [Nat.mod_eq_of_lt (by omega)]

theorem bwdIdx_circ (N D : Nat) (i : Int) (hN : 0 < N) (hD : D ≤ N) :
    Details.bwdIdx N D (circ N i) = circ N (i + (D : Int)) := by
  rw [bwdIdx_eq_mod N D _ (circ_lt N i hN) hD]
  have hinj : (((circ N i + D) % N : Nat) : Int) = ((circ N (i + (D : Int)) : Nat) : Int) := by
    rw [circ_cast N _ hN, Int.natCast_mod, Nat.cast_add, circ_cast N _ hN]
    exact Int.emod_add_emod _ _ _
  exact_mod_cast hinj

theorem iterate_fwdIdx (N D t : Nat) (ht : t < N) (hD : D ≤ N) (l : Nat) :
    (Details.fwdIdx N D)^[l] t = circ N ((t : Int) - (l : Int) * (D : Int)) := by
  induction l with
  | zero => simp [circ_natCast N t ht]
  | succ l ih =>
    rw [Function.iterate_succ_apply', ih, fwdIdx_circ N D _ (by omega) hD]
    congr 1
    push_cast
    ring

theorem iterate_bwdIdx (N D t : Nat) (ht : t < N) (hD : D ≤ N) (l : Nat) :
    (Details.bwdIdx N D)^[l] t = circ N ((t : Int) + (l : Int) * (D : Int)) := by
  induction l with
  | zero => simp [circ_natCast N t ht]
  | succ l ih =>
    rw [Function.iterate_succ_apply', ih, bwdIdx_circ N D _ (by omega) hD]
    congr 1
    push_cast
    ring

theorem forward_fold (Vi h g : List α) (N D : Nat) (n : Nat) :
    ∀ (a k : Nat) (v u : α),
      (List.range' a n).foldl
        (fun (acc : Nat × α × α) l =>
          (Details.fwdIdx N D acc.1,
            acc.2.1 + g.getD l 0 * Vi.getD (Details.fwdIdx N D acc.1) 0,
            acc.2.2 + h.getD l 0 * Vi.getD (Details.fwdIdx N D acc.1) 0))
        (k, v, u) =
      ((Details.fwdIdx N D)^[n] k,
        v + (Finset.range n).sum (fun i =>
          g.getD (a + i) 0 * Vi.getD ((Details.fwdIdx N D)^[i + 1] k) 0),
        u + (Finset.range n).sum (fun i =>
          h.getD (a + i) 0 * Vi.getD ((Details.fwdIdx N D)^[i + 1] k) 0)) := by
  induction n with
  | zero => intro a k v u; simp
  | succ n ih =>
    intro a k v u
    rw [List.range'_succ, List.foldl_cons, ih]
    refine Prod.ext rfl (Prod.ext ?_ ?_)
    · show _ = v + _
      rw [Finset.sum_range_succ' _ n]
      simp only [Function.iterate_succ_apply, Function.iterate_zero, id_eq, Nat.add_zero]
      have e : ∀ i, a + 1 + i = a + (i + 1) := by intro i; omega
      simp only [e]
      ring
    · show _ = u + _
      rw [Finset.sum_range_succ' _ n]
      simp only [Function.iterate_succ_apply, Function.iterate_zero, id_eq, Nat.add_zero]
      have e : ∀ i, a + 1 + i = a + (i + 1) := by intro i; omega
      simp only [e]
      ring

theorem modwt_forward_at_closed (Vi h g : List α) (D t : Nat) (hL : 1 ≤ h.length)
    (hD : D ≤ Vi.length) (ht : t < Vi.length) :
    Details.modwt_forward_at Vi h g D t =
      (circSum g Vi h.length D (-1) t, circSum h Vi h.length D (-1) t) := by
  have hfold := forward_fold Vi h g Vi.length D (h.length - 1) 1 t
    (g.getD 0 0 * Vi.getD t 0) (h.getD 0 0 * Vi.getD t 0)
  have hidx : ∀ l : Nat, circ Vi.length ((t : Int) + (-1) * ((l : Int) * (D : Int))) =
      (Details.fwdIdx Vi.length D)^[l] t := by
    intro l
    rw [iterate_fwdIdx Vi.length D t ht hD l]
    congr 1
    ring
  obtain ⟨n, hn⟩ : ∃ n, h.length = n + 1 := ⟨h.length - 1, by omega⟩
  unfold Details.modwt_forward_at
  simp only []
  rw [hfold]
  unfold circSum
  simp only [hidx, hn, Nat.add_sub_cancel]
  rw [Finset.sum_range_succ' _ n, Finset.sum_range_succ' _ n]
  simp only [Function.iterate_zero, id_eq]
  refine Prod.ext ?_ ?_
  · show _ + _ = _ + _
    rw [add_comm]
    congr 1
    apply Finset.sum_congr rfl
    intro i _
    rw [Nat.add_comm 1 i]
  · show _ + _ = _ + _
    rw [add_comm]
    congr 1
    apply Finset.sum_congr rfl
    intro i _
    rw [Nat.add_comm 1 i]

theorem zerophase_fold (Kj filt : List α) (N D : Nat) (n : Nat) :
    ∀ (a k : Nat) (v : α),
      (List.range' a n).foldl
        (fun (acc : Nat × α) l =>
          (Details.bwdIdx N D acc.1,
            acc.2 + filt.getD l 0 * Kj.getD (Details.bwdIdx N D acc.1) 0))
        (k, v) =
      ((Details.bwdIdx N D)^[n] k,
        v + (Finset.range n).sum (fun i =>
          filt.getD (a + i) 0 * Kj.getD ((Details.bwdIdx N D)^[i + 1] k) 0)) := by
  induction n with
  | zero => intro a k v; simp
  | succ n ih =>
    intro a k v
    rw [List.range'_succ, List.foldl_cons, ih]
    refine Prod.ext rfl ?_
    show _ = v + _
    rw [Finset.sum_range_succ' _ n]
    simp only [Function.iterate_succ_apply, Function.iterate_zero, id_eq, Nat.add_zero]
    have e : ∀ i, a + 1 + i = a + (i + 1) := by intro i; omega
    simp only [e]
    ring

theorem zerophase_at_closed (Kj filt : List α) (D t : Nat) (hL : 1 ≤ filt.length)
    (hD : D ≤ Kj.length) (ht : t < Kj.length) :
    Details.imodwt_backward_zerophase_at Kj filt D t = circSum filt Kj filt.length D 1 t := by
  have hfold := zerophase_fold Kj filt Kj.length D (filt.length - 1) 1 t
    (filt.getD 0 0 * Kj.getD t 0)
  have hidx : ∀ l : Nat, circ Kj.length ((t : Int) + 1 * ((l : Int) * (D : Int))) =
      (Details.bwdIdx Kj.length D)^[l] t := by
    intro l
    rw [iterate_bwdIdx Kj.length D t ht hD l]
    congr 1
    ring
  obtain ⟨n, hn⟩ : ∃ n, filt.length = n + 1 := ⟨filt.length - 1, by omega⟩
  unfold Details.imodwt_backward_zerophase_at
  simp only []
  rw [hfold]
  unfold circSum
  simp only [hidx, hn, Nat.add_sub_cancel]
  rw [Finset.sum_range_succ' _ n]
  simp only [Function.iterate_zero, id_eq]
  show _ + _ = _ + _
  rw [add_comm]
  congr 1
  apply Finset.sum_congr rfl
  intro i _
  rw [Nat.add_comm 1 i]

theorem backward_fold_split (Vj Wj h g : List α) (N D : Nat) (ls : List Nat) :
    ∀ (k : Nat) (v1 v2 : α),
      ls.foldl
        (fun (acc : Nat × α) l =>
          (Details.bwdIdx N D acc.1,
            acc.2 + (g.getD l 0 * Vj.getD (Details.bwdIdx N D acc.1) 0 +
              h.getD l 0 * Wj.getD (Details.bwdIdx N D acc.1) 0)))
        (k, v1 + v2) =
      ((ls.foldl
        (fun (acc : Nat × α) l =>
          (Details.bwdIdx N D acc.1,
            acc.2 + g.getD l 0 * Vj.getD (Details.bwdIdx N D acc.1) 0))
        (k, v1)).1,
       (ls.foldl
        (fun (acc : Nat × α) l =>
          (Details.bwdIdx N D acc.1,
            acc.2 + g.getD l 0 * Vj.getD (Details.bwdIdx N D acc.1) 0))
        (k, v1)).2 +
       (ls.foldl
        (fun (acc : Nat × α) l =>
          (Details.bwdIdx N D acc.1,
            acc.2 + h.getD l 0 * Wj.getD (Details.bwdIdx N D acc.1) 0))
        (k, v2)).2) := by
  induction ls with
  | nil => intro k v1 v2; rfl
  | cons l rest ih =>
    intro k v1 v2
    simp only [List.foldl_cons]
    rw [← ih]
    congr 2
    ring

theorem imodwt_backward_at_split (Vj Wj h g : List α) (D t : Nat) (hL : g.length = h.length)
    (hW : Wj.length = Vj.length) :
    Details.imodwt_backward_at Vj Wj h g D t =
      Details.imodwt_backward_zerophase_at Vj g D t +
        Details.imodwt_backward_zerophase_at Wj h D t := by
  unfold Details.imodwt_backward_at Details.imodwt_backward_zerophase_at
  simp only [hL, hW]
  rw [backward_fold_split]

theorem backwardAll_getD (Vj Wj h g : List α) (j t : Nat) (ht : t < Vj.length) :
    (Details.backwardAll Vj Wj h g j).getD t 0 =
      Details.imodwt_backward_at Vj Wj h g (2 ^ j) t := by
  simp [Details.backwardAll, ht]

theorem zerophaseAll_getD (Kj filt : List α) (j t : Nat) (ht : t < Kj.length) :
    (Details.zerophaseAll Kj filt j).getD t 0 =
      Details.imodwt_backward_zerophase_at Kj filt (2 ^ j) t := by
  simp [Details.zerophaseAll, ht]

theorem fwdIdx_bwdIdx (N D k : Nat) (hk : k < N) (hD : D ≤ N) :
    Details.fwdIdx N D (Details.bwdIdx N D k) = k ∧
      Details.bwdIdx N D (Details.fwdIdx N D k) = k := by
  unfold Details.fwdIdx Details.bwdIdx
  constructor
  · split <;> split <;> omega
  · split <;> split <;> omega

theorem flatMap_range_congr {β : Type} (n : Nat) (f1 f2 : Nat → List β)
    (hf : ∀ t, t < n → f1 t = f2 t) :
    (List.range n).flatMap f1 = (List.range n).flatMap f2 :=
  flatMap_congr_mem _ _ _ (fun t ht => hf t (List.mem_range.mp ht))

end ClosedFormLemmas

section SafetyLemmas

variable {α : Type} [Field α] {σ : Type}

theorem lengthOk_shift (N : Nat) (e : Int) (j : Nat) (h : lengthOk N e = true)
    (hj : (j : Int) ≤ e) : 2 ^ j ≤ N := by
  obtain ⟨m, rfl⟩ : ∃ m : Nat, e = (m : Int) := ⟨e.toNat, (Int.toNat_of_nonneg (by omega)).symm⟩
  rw [lengthOk_natCast] at h
  have h1 : 2 ^ m ≤ N := of_decide_eq_true h
  have h2 : j ≤ m := by omega
  exact le_trans (Nat.pow_le_pow_right (by norm_num) h2) h1

theorem modwt_err_none (vop wop : Sink σ α) (X h g : List α) (numLevels : Int) (w : σ)
    (he : (modwt vop wop X h g numLevels w).err = none) :
    lengthOk X.length (numLevels - 1) = true := by
  by_contra hbad
  have hf : lengthOk X.length (numLevels - 1) = false := by simpa using hbad
  simp [modwt, Assert, hf] at he

theorem smooth_err_none (sop : Sink σ α) (Vj0 g : List α) (numLevels : Int) (w : σ)
    (he : (smooth sop Vj0 g numLevels w).err = none) :
    lengthOk Vj0.length (numLevels - 1) = true := by
  by_contra hbad
  have hf : lengthOk Vj0.length (numLevels - 1) = false := by simpa using hbad
  simp [smooth, Assert, hf] at he

theorem imodwt_err_none (vop : Sink σ α) (Vj0 : List α) (Wj : List (List α)) (h g : List α)
    (w : σ) (he : (imodwt vop Vj0 Wj h g w).err = none) :
    lengthOk Vj0.length (((Wj.length + 2 ^ 64 - 1) % 2 ^ 64 : Nat) : Int) = true := by
  by_contra hbad
  have hf : lengthOk Vj0.length (((Wj.length + 2 ^ 64 - 1) % 2 ^ 64 : Nat) : Int) = false := by
    simpa using hbad
  simp only [imodwt, Assert, hf, Bool.not_false, if_true] at he
  cases he

theorem details_err_none (dops : List (Sink σ α)) (Wj : List (List α)) (h g : List α) (w : σ)
    (hne : Wj ≠ []) (he : (details dops Wj h g w).err = none) :
    lengthOk (Wj.getD 0 []).length ((Wj.length - 1 : Nat) : Int) = true := by
  by_contra hbad
  have hf : lengthOk (Wj.getD 0 []).length ((Wj.length - 1 : Nat) : Int) = false := by
    simpa using hbad
  have hemp : Wj.isEmpty = false := by
    cases Wj with
    | nil => exact absurd rfl hne
    | cons a l => rfl
  simp only [details, hemp, Assert, hf, Bool.not_false, if_true] at he
  cases he

theorem doAll_err_none (sqrt2 : α) (a b c d : Sink σ α) (X : List α) (level : Nat)
    (filterType : Int) (w : σ) (he : (doAll sqrt2 a b c d X level filterType w).err = none) :
    X ≠ [] ∧ lengthOk X.length (((level + 2 ^ 32 - 1) % 2 ^ 32 : Nat) : Int) = true := by
  have hX : X ≠ [] := by
    intro hnil
    subst hnil
    simp [doAll, Assert] at he
  have hemp : X.isEmpty = false := by
    cases X with
    | nil => exact absurd rfl hX
    | cons a l => rfl
  refine ⟨hX, ?_⟩
  by_contra hbad
  have hf : lengthOk X.length (((level + 2 ^ 32 - 1) % 2 ^ 32 : Nat) : Int) = false := by
    simpa using hbad
  simp only [doAll, Assert, hemp, hf, Bool.not_false, if_true] at he
  cases he

theorem iterate_fwdIdx_lt (N D t : Nat) (ht : t < N) (hD : D ≤ N) (l : Nat) :
    (Details.fwdIdx N D)^[l] t < N := by
  rw [iterate_fwdIdx N D t ht hD l]
  exact circ_lt N _ (by omega)

theorem iterate_bwdIdx_lt (N D t : Nat) (ht : t < N) (hD : D ≤ N) (l : Nat) :
    (Details.bwdIdx N D)^[l] t < N := by
  rw [iterate_bwdIdx N D t ht hD l]
  exact circ_lt N _ (by omega)

theorem fwdIdx_exact (N D k : Nat) (hD : D ≤ N) :
    ((Details.fwdIdx N D k : Nat) : Int) =
      if k ≥ D then (k : Int) - (D : Int) else (N : Int) + (k : Int) - (D : Int) := by
  unfold Details.fwdIdx
  split
  · omega
  · omega

theorem bwdIdx_exact (N D k : Nat) :
    ((Details.bwdIdx N D k : Nat) : Int) =
      if k + D ≥ N then (k : Int) + (D : Int) - (N : Int) else (k : Int) + (D : Int) := by
  unfold Details.bwdIdx
  split
  · omega
  · omega

end SafetyLemmas

section CascadeLemmas

variable {α : Type} [Field α] {σ τ : Type}

theorem detailStage_length (W h g : List α) (ell m : Nat) :
    (detailStage W h g ell m).length = W.length := by
  induction m with
  | zero => rfl
  | succ m ih => rw [detailStage, zerophaseAll_length, ih]

theorem details_one_loop (dop : Sink σ α) (W Wit h g : List α) (ell : Nat) (w : σ)
    (hlen : Wit.length = W.length) (m : Nat) :
    (List.range m).foldl (Details.details_one_step dop h g ell)
        { src := W, dst := Wit, world := w } =
      { src := detailStage W h g ell m,
        dst := if m = 0 then Wit else detailStage W h g ell (m - 1),
        world := drive dop ((List.range m).flatMap (fun j =>
          Call.Level ((j : Int) + 1) :: (detailStage W h g ell (j + 1)).map Call.value)) w } := by
  induction m with
  | zero => simp [detailStage, drive]
  | succ m ih =>
    rw [List.range_succ, List.foldl_append, ih]
    simp only [List.foldl_cons, List.foldl_nil, Details.details_one_step]
    have hdst : (if m = 0 then Wit else detailStage W h g ell (m - 1)).length
        = (detailStage W h g ell m).length := by
      split <;> simp [detailStage_length, hlen]
    rw [imodwt_backward_zerophase_eq dop _ _ _ _ _ hdst]
    simp only [Nat.add_sub_cancel, Nat.succ_ne_zero, if_false, List.flatMap_append,
      List.flatMap_cons, List.flatMap_nil, List.append_nil, drive_append, drive_cons]
    rfl

theorem smooth_one_loop (sop : Sink σ α) (Vj0 Vi g : List α) (n : Nat) (w : σ)
    (hlen : Vi.length = Vj0.length) (m : Nat) (hm : m ≤ n) :
    (List.range m).foldl (Details.smooth_one_step sop g n)
        { src := Vj0, dst := Vi, world := w } =
      { src := smoothStage Vj0 g n m,
        dst := if m = 0 then Vi else smoothStage Vj0 g n (m - 1),
        world := drive sop ((List.range m).flatMap (fun i =>
          Call.Level ((i : Int) + 1) :: (smoothStage Vj0 g n (i + 1)).map Call.value)) w } := by
  induction m with
  | zero => simp [smoothStage, drive]
  | succ m ih =>
    rw [List.range_succ, List.foldl_append, ih (by omega)]
    simp only [List.foldl_cons, List.foldl_nil, Details.smooth_one_step]
    have hdst : (if m = 0 then Vi else smoothStage Vj0 g n (m - 1)).length
        = (smoothStage Vj0 g n m).length := by
      split <;> simp [smoothStage_length, hlen]
    have hlev : ((n : Int) - ((n - 1 - m : Nat) : Int)) = (m : Int) + 1 := by omega
    rw [imodwt_backward_zerophase_eq sop _ g _ _ _ hdst, hlev]
    simp only [Nat.add_sub_cancel, Nat.succ_ne_zero, if_false, List.flatMap_append,
      List.flatMap_cons, List.flatMap_nil, List.append_nil, drive_append, drive_cons]
    rfl

theorem details_one_eq (dop : Sink σ α) (W Wit h g : List α) (ell : Nat) (w : σ)
    (hne : W ≠ []) (hlen : Wit.length = W.length) :
    Details.details_one dop W Wit h g ell w =
      (if (ell + 1) % 2 = 0 then detailStage W h g ell (ell + 1) else detailStage W h g ell ell,
       if (ell + 1) % 2 = 0 then detailStage W h g ell ell else detailStage W h g ell (ell + 1),
       drive dop (detailCalls W h g ell) w) := by
  have hemp : W.isEmpty = false := by
    cases W with
    | nil => exact absurd rfl hne
    | cons a l => rfl
  unfold Details.details_one
  rw [if_neg (by simp [hemp]), details_one_loop dop W Wit h g ell w hlen (ell + 1)]
  simp only [Details.PingPong.first, Details.PingPong.second, Nat.add_sub_cancel,
    Nat.succ_ne_zero, if_false]
  rfl

theorem smooth_one_eq (sop : Sink σ α) (Vj0 Vi g : List α) (n : Nat) (w : σ)
    (hlen : Vi.length = Vj0.length) (hok : lengthOk Vj0.length ((n : Int) - 1 - 1) = true) :
    Details.smooth_one sop Vj0 Vi g ((n : Int) - 1) w =
      { err := none,
        buf := (if n % 2 = 0 then smoothStage Vj0 g n n
                  else if n = 0 then Vi else smoothStage Vj0 g n (n - 1),
                if n % 2 = 0 then (if n = 0 then Vi else smoothStage Vj0 g n (n - 1))
                  else smoothStage Vj0 g n n),
        world := drive sop (smoothOneCalls Vj0 g n) w } := by
  unfold Details.smooth_one
  have hn : ((n : Int) - 1 + 1).toNat = n := by omega
  simp only [Assert, hok, Bool.not_true, if_false, hn,
    smooth_one_loop sop Vj0 Vi g n w hlen n (le_refl n)]
  simp only [Details.PingPong.first, Details.PingPong.second]
  rfl

theorem replay_map_tag (sinks : τ → Sink σ α) (i : τ) (calls : List (Call α)) (w : σ) :
    replay sinks (calls.map (fun c => (i, c))) w = drive (sinks i) calls w := by
  induction calls generalizing w with
  | nil => rfl
  | cons c rest ih =>
    show replay sinks (rest.map (fun c => (i, c))) ((sinks i).apply c w) = _
    rw [ih]
    rfl

theorem details_loop (dops : List (Sink σ α)) (Wj : List (List α)) (h g : List α) (w : σ)
    (N : Nat) (Wit0 : List α) (hN : 1 ≤ N) (hW : ∀ i, i < Wj.length → (Wj.getD i []).length = N)
    (hWit : Wit0.length = N) (m : Nat) (hm : m ≤ Wj.length) :
    ((List.range m).foldl (detailsStep dops h g) (Wj, Wit0, w)).1.length = Wj.length ∧
      (∀ i, m ≤ i → ((List.range m).foldl (detailsStep dops h g) (Wj, Wit0, w)).1.getD i [] =
        Wj.getD i []) ∧
      ((List.range m).foldl (detailsStep dops h g) (Wj, Wit0, w)).2.1.length = N ∧
      ((List.range m).foldl (detailsStep dops h g) (Wj, Wit0, w)).2.2 =
        replay (fun i => dops.getD i DoNothing)
          ((List.range m).flatMap (fun i =>
            (detailCalls (Wj.getD i []) h g i).map (fun c => (i, c)))) w := by
  induction m with
  | zero => exact ⟨rfl, fun i _ => rfl, hWit, rfl⟩
  | succ m ih =>
    obtain ⟨h1, h2, h3, h4⟩ := ih (by omega)
    rw [List.range_succ, List.foldl_append]
    simp only [List.foldl_cons, List.foldl_nil, List.flatMap_append, List.flatMap_cons,
      List.flatMap_nil, List.append_nil, replay_append]
    generalize (List.range m).foldl (detailsStep dops h g) (Wj, Wit0, w) = st at h1 h2 h3 h4 ⊢
    have hser : st.1.getD m [] = Wj.getD m [] := h2 m (le_refl m)
    have hlenm : (Wj.getD m []).length = N := hW m (by omega)
    have hne : Wj.getD m [] ≠ [] := by
      intro hnil
      rw [hnil] at hlenm
      simp at hlenm
      omega
    have heq := details_one_eq (dops.getD m DoNothing) (Wj.getD m []) st.2.1 h g m st.2.2 hne
      (by rw [h3, hlenm])
    unfold detailsStep
    simp only [hser, heq]
    refine ⟨?_, ?_, ?_, ?_⟩
    · rw [List.length_set, h1]
    · intro i hi
      rw [List.getD_eq_getElem?_getD, List.getElem?_set_ne (by omega),
        ← List.getD_eq_getElem?_getD]
      exact h2 i (by omega)
    · split
      · rw [detailStage_length, hlenm]
      · rw [detailStage_length, hlenm]
    · rw [replay_map_tag, h4]

end CascadeLemmas

section BoundaryLemmas

variable {α : Type} [Field α]

theorem set_append_right {β : Type} (A B : List β) (k : Nat) (v : β) :
    (A ++ B).set (A.length + k) v = A ++ B.set k v := by
  induction A with
  | nil => simp
  | cons a rest ih =>
    have e : (a :: rest).length + k = (rest.length + k) + 1 := by simp; omega
    rw [e, List.cons_append, List.set_cons_succ, ih]
    rfl

theorem set_replicate_last (T : List α) (k : Nat) (v : α) :
    (List.replicate (k + 1) (0 : α) ++ T).set k v = List.replicate k 0 ++ v :: T := by
  induction k with
  | zero => rfl
  | succ k ih =>
    rw [List.replicate_succ, List.cons_append, List.set_cons_succ, ih]
    rfl

theorem getD_append_left (A B : List α) (m : Nat) (hm : m < A.length) :
    (A ++ B).getD m 0 = A.getD m 0 := by
  rw [List.getD_eq_getElem _ _ (by simp; omega), List.getD_eq_getElem _ _ hm]
  exact List.getElem_append_left hm

theorem take_succ_reverse (x : List α) (m : Nat) (hm : m < x.length) :
    (x.take (m + 1)).reverse = x.getD m 0 :: (x.take m).reverse := by
  rw [List.take_succ, List.reverse_append, List.getD_eq_getElem _ _ hm]
  simp [List.getElem?_eq_getElem hm]

theorem reflectLoop_run (x : List α) (k : Nat) :
    ∀ (m fuel : Nat), m + k = x.length → 1 ≤ x.length → 2 * x.length < 2 ^ 64 → k + 1 ≤ fuel →
      reflectLoop x.length fuel
        (x ++ (List.replicate k (0 : α) ++ (x.take m).reverse)) (2 * x.length - 1 - m) m =
        some (x ++ x.reverse) := by
  induction k with
  | zero =>
    intro m fuel hmk hN h64 hfuel
    obtain ⟨f, rfl⟩ : ∃ f, fuel = f + 1 := ⟨fuel - 1, by omega⟩
    have hm : m = x.length := by omega
    subst hm
    have hlt : ¬ (2 * x.length - 1 - x.length ≥ x.length) := by omega
    simp only [reflectLoop, hlt, if_false, List.replicate_zero, List.nil_append, List.take_length]
  | succ k ih =>
    intro m fuel hmk hN h64 hfuel
    obtain ⟨f, rfl⟩ : ∃ f, fuel = f + 1 := ⟨fuel - 1, by omega⟩
    have hge : 2 * x.length - 1 - m ≥ x.length := by omega
    have hi : 2 * x.length - 1 - m = x.length + k := by omega
    have hi2 : (x.length + k + 2 ^ 64 - 1) % 2 ^ 64 = 2 * x.length - 1 - (m + 1) := by omega
    have hj : (m + 1) % 2 ^ 64 = m + 1 := by omega
    have hread : (x ++ (List.replicate (k + 1) (0 : α) ++ (x.take m).reverse)).getD m 0 =
        x.getD m 0 := getD_append_left x _ m (by omega)
    simp only [reflectLoop, hge, if_true]
    rw [hread, hi, hi2, hj, set_append_right, set_replicate_last,
      ← take_succ_reverse x m (by omega)]
    exact ih (m + 1) f (by omega) hN h64 (by omega)

theorem resize_double (x : List α) :
    resize x (2 * x.length) = x ++ List.replicate x.length 0 := by
  unfold resize
  rw [List.take_of_length_le (by omega)]
  congr 2
  omega

end BoundaryLemmas
section LifecycleLemmas

variable {α : Type}

theorem openAfter_concat (io : List (IOEvent α)) (e : IOEvent α) :
    openAfter (io ++ [e]) = ioStep (openAfter io) e := by
  simp [openAfter]

theorem Disciplined_nil : Disciplined ([] : List (IOEvent α)) := by
  constructor
  · intro p hp
    have : p = [] := List.prefix_nil.mp hp
    subst this
    exact ⟨[], rfl, by simp⟩
  · intro p name d hp
    have : p ++ [IOEvent.fopen name (some d)] = [] := List.prefix_nil.mp hp
    simp at this

theorem Disciplined_concat (io : List (IOEvent α)) (e : IOEvent α) (hio : Disciplined io)
    (hlen : ∃ acc, openAfter (io ++ [e]) = some acc ∧ acc.length ≤ 1)
    (hopen : ∀ name d, e = IOEvent.fopen name (some d) → openAfter io = some []) :
    Disciplined (io ++ [e]) := by
  constructor
  · intro p hp
    rcases List.prefix_concat_iff.mp hp with h | h
    · rw [h]; exact hlen
    · exact hio.1 p h
  · intro p name d hp
    rcases List.prefix_concat_iff.mp hp with h | h
    · have h2 := List.append_inj' h rfl
      rw [h2.1]
      exact hopen name d (List.singleton_inj.mp h2.2).symm
    · exact hio.2 p name d h

theorem closeIfOpen_inv (s : PrintValuesState α) (hs : LifeInv s) :
    ∃ io1, s.closeIfOpen = { s with io := io1 } ∧ Disciplined io1 ∧ openAfter io1 = some [] := by
  obtain ⟨pl, cp, mp, ba, o, dr, us, fp, io, th⟩ := s
  obtain ⟨hu, hd, ho, -⟩ := hs
  simp only at hu hd ho
  subst hu
  cases fp with
  | none =>
    refine ⟨io, rfl, hd, ?_⟩
    rcases ho with ⟨_, h⟩ | ⟨d, h1, _⟩
    · exact h
    · cases h1
  | some d =>
    have hclosed : openAfter (io ++ [IOEvent.fclose d]) = some [] := by
      rw [openAfter_concat]
      rcases ho with ⟨h1, _⟩ | ⟨d1, h1, h2⟩
      · cases h1
      · cases h1
        rw [h2]
        simp [ioStep]
    refine ⟨io ++ [IOEvent.fclose d], rfl, ?_, hclosed⟩
    apply Disciplined_concat _ _ hd
    · exact ⟨[], hclosed, by simp⟩
    · intro name d1 he
      cases he

theorem Level_inv (canOpen : String → Bool) (level : Int) (s : PrintValuesState α)
    (hs : LifeInv s) : LifeInv (s.Level canOpen level) := by
  obtain ⟨io1, hclose, hd1, hc1⟩ := closeIfOpen_inv s hs
  have hu := hs.1
  have hr := hs.2.2.2
  obtain ⟨pl, cp, mp, ba, o, dr, us, fp, io, th⟩ := s
  simp only at hu hclose hr
  subst hu
  unfold PrintValuesState.Level
  rw [hclose]
  simp only [Bool.not_false, if_true]
  split_ifs with h1 h2 h3
  · exact ⟨rfl, hd1, Or.inl ⟨rfl, hc1⟩, Or.inl h1.1⟩
  · exfalso
    rcases hr with h | h
    · exact absurd h (not_le.mpr h2.2)
    · rw [h] at h2
      exact absurd h2.1 (by decide)
  · refine ⟨rfl, ?_, Or.inr ⟨Dest.file (openCount io1), rfl, ?_⟩, Or.inr rfl⟩
    · apply Disciplined_concat _ _ hd1
      · refine ⟨[Dest.file (openCount io1)], ?_, by simp⟩
        rw [openAfter_concat, hc1]; rfl
      · intro _ _ _; exact hc1
    · show openAfter (io1 ++ [_]) = _
      rw [openAfter_concat, hc1]; rfl
  · refine ⟨rfl, ?_, Or.inl ⟨rfl, ?_⟩, Or.inr rfl⟩
    · apply Disciplined_concat _ _ hd1
      · refine ⟨[], ?_, by simp⟩
        rw [openAfter_concat, hc1]; rfl
      · intro name d he; cases he
    · show openAfter (io1 ++ [_]) = _
      rw [openAfter_concat, hc1]; rfl

theorem Reset_inv (s : PrintValuesState α) (hs : LifeInv s) : LifeInv s.Reset := by
  have hs1 : LifeInv { s with on_ := true } := ⟨hs.1, hs.2.1, hs.2.2.1, Or.inr rfl⟩
  obtain ⟨io1, hclose, hd1, hc1⟩ := closeIfOpen_inv _ hs1
  have hu := hs.1
  obtain ⟨pl, cp, mp, ba, o, dr, us, fp, io, th⟩ := s
  simp only at hu hclose
  subst hu
  unfold PrintValuesState.Reset
  simp only [Bool.not_false, if_true]
  rw [hclose]
  exact ⟨rfl, hd1, Or.inl ⟨rfl, hc1⟩, Or.inr rfl⟩

theorem destroy_inv (s : PrintValuesState α) (hs : LifeInv s) :
    Disciplined s.destroy.io ∧ openAfter s.destroy.io = some [] := by
  obtain ⟨io1, hclose, hd1, hc1⟩ := closeIfOpen_inv s hs
  unfold PrintValuesState.destroy
  rw [hclose]
  exact ⟨hd1, hc1⟩

theorem PrintValues_apply_inv (canOpen : String → Bool) (c : Call α) (s : PrintValuesState α)
    (hs : LifeInv s) (hv : c.isValue = false) (hoff : 0 ≤ s.pLevel_ ∨ c ≠ Call.Off) :
    LifeInv ((PrintValues canOpen).apply c s) ∧
      ((PrintValues canOpen).apply c s).pLevel_ = s.pLevel_ := by
  cases c with
  | Level l =>
    refine ⟨Level_inv canOpen l s hs, ?_⟩
    show (s.Level canOpen l).pLevel_ = s.pLevel_
    unfold PrintValuesState.Level PrintValuesState.closeIfOpen
    cases s.fptr_ <;> simp only [] <;> split_ifs <;> rfl
  | Off =>
    refine ⟨⟨hs.1, hs.2.1, hs.2.2.1, ?_⟩, rfl⟩
    rcases hoff with h | h
    · exact Or.inl h
    · exact absurd rfl h
  | On => exact ⟨⟨hs.1, hs.2.1, hs.2.2.1, Or.inr rfl⟩, rfl⟩
  | Reset =>
    refine ⟨Reset_inv s hs, ?_⟩
    show s.Reset.pLevel_ = s.pLevel_
    unfold PrintValuesState.Reset PrintValuesState.closeIfOpen
    cases s.fptr_ <;> simp only [] <;> split_ifs <;> rfl
  | value t => cases hv

theorem PrintValues_drive_inv (canOpen : String → Bool) (calls : List (Call α))
    (s : PrintValuesState α) (hs : LifeInv s) (hv : ∀ c ∈ calls, c.isValue = false)
    (hoff : 0 ≤ s.pLevel_ ∨ Call.Off ∉ calls) :
    LifeInv (drive (PrintValues canOpen) calls s) := by
  induction calls generalizing s with
  | nil => exact hs
  | cons c rest ih =>
    rw [drive_cons]
    have hstep := PrintValues_apply_inv canOpen c s hs (hv c (List.mem_cons_self _ _))
      (by
        rcases hoff with h | h
        · exact Or.inl h
        · right
          intro hc
          exact h (by rw [hc]; exact List.mem_cons_self _ _))
    apply ih _ hstep.1 (fun c hc => hv c (List.mem_cons_of_mem _ hc))
    rw [hstep.2]
    rcases hoff with h | h
    · exact Or.inl h
    · exact Or.inr (fun hc => h (List.mem_cons_of_mem _ hc))

theorem ctor_LifeInv (basename : String) (maxPrints : Nat) (pLevel : Int)
    (s0 : PrintValuesState α) (hfile : basename.isEmpty = false)
    (hctor : PrintValuesState.ctor basename maxPrints pLevel = Except.ok s0) :
    LifeInv s0 ∧ s0.pLevel_ = pLevel := by
  simp only [PrintValuesState.ctor, Assert, hfile, Bool.not_false, Bool.true_or, if_true] at hctor
  have hs : s0 = _ := (Except.ok.inj hctor).symm
  subst hs
  exact ⟨⟨rfl, Disciplined_nil, Or.inl ⟨rfl, rfl⟩, Or.inr rfl⟩, rfl⟩

end LifecycleLemmas


section PrintLemmas

variable {α : Type}

theorem Level_enabled (canOpen : String → Bool) (level : Int) (s : PrintValuesState α)
    (hen : (s.Level canOpen level).on_ = true) :
    (s.Level canOpen level).currentPrints_ = 0 ∧
      (s.Level canOpen level).maxPrints_ = s.maxPrints_ ∧
      printed (s.Level canOpen level).io = printed s.io := by
  obtain ⟨pl, cp, mp, ba, o, dr, us, fp, io, th⟩ := s
  revert hen
  simp only [PrintValuesState.Level, PrintValuesState.closeIfOpen]
  cases hc : canOpen (ba ++ "." ++ toString level) <;>
    cases fp <;> cases us <;> cases o <;>
    by_cases h1 : pl ≥ 0 ∧ level ≠ pl <;> by_cases h2 : pl < 0 <;>
    simp [h1, h2, hc, printed_append, printed]

theorem printed_values_on (canOpen : String → Bool) (vs : List α) (s : PrintValuesState α)
    (hon : s.on_ = true) (hc : s.currentPrints_ = 0) (hlt : vs.length < 2 ^ 64) :
    printed (drive (PrintValues canOpen) (vs.map Call.value) s).io =
      printed s.io ++ vs.take s.maxPrints_ := by
  rw [PrintValues_values_on canOpen vs s hon (by omega)]
  show printed (s.io ++ _) = _
  rw [printed_append, printed_println, hc, Nat.sub_zero]

end PrintLemmas

section DoAllMaster

variable {α : Type} [Field α] {σ : Type}

theorem modwt_forward_world (vop wop : Sink σ α) (Vi h g : List α) (j : Nat) (Vj : List α)
    (w : σ) (hlen : Vj.length = Vi.length) :
    (Details.modwt_forward vop wop Vi h g j Vj w).1 = Details.forwardV Vi h g j ∧
      (Details.modwt_forward vop wop Vi h g j Vj w).2 =
        replay (Port.sink vop wop)
          (forwardCalls (Details.forwardV Vi h g j) (Details.forwardW Vi h g j)) w := by
  rw [modwt_forward_eq vop wop Vi h g j Vj w hlen]
  refine ⟨rfl, ?_⟩
  unfold forwardCalls
  rw [forwardV_length]

theorem doAllStep_shared (a b c d : Sink σ α) (X h g : List α) (level : Nat)
    (wasOn : Bool) (st : DoAllState σ α) (idx : Nat) (w : σ)
    (h1 : 1 ≤ idx) (hN : 1 ≤ X.length)
    (hinv : DoAllShared X.length (scalingLevel X h g (idx - 1)) w st)
    (hok : lengthOk X.length ((idx : Int) - 1 - 1) = true) :
    (doAllStep a b c d h g X.length level wasOn st idx).err = none ∧
      (doAllStep a b c d h g X.length level wasOn st idx).world =
        doAllLevelWorld a b c d X h g level wasOn w idx ∧
      (idx ≠ level →
        DoAllShared X.length (scalingLevel X h g idx)
          (doAllLevelWorld a b c d X h g level wasOn w idx)
          (doAllStep a b c d h g X.length level wasOn st idx)) := by
  obtain ⟨he, hx, hy, hz, hw⟩ := hinv
  subst hw
  have hsome : st.err.isSome = false := by rw [he]; rfl
  have hxl : st.x.length = X.length := by rw [hx]; exact scalingLevel_length X h g (idx - 1)
  have hV : Details.forwardV st.x h g (idx - 1) = scalingLevel X h g idx := by
    obtain ⟨m, rfl⟩ : ∃ m, idx = m + 1 := ⟨idx - 1, by omega⟩
    rw [hx]; rfl
  have hW : Details.forwardW st.x h g (idx - 1) = waveletLevel X h g (idx - 1) := by
    rw [hx]; rfl
  have hVl : (scalingLevel X h g idx).length = X.length := scalingLevel_length X h g idx
  have hWl : (waveletLevel X h g (idx - 1)).length = X.length := waveletLevel_length X h g _
  have hWne : waveletLevel X h g (idx - 1) ≠ [] := by
    intro hnil
    rw [hnil] at hWl
    simp at hWl
    omega
  unfold doAllStep doAllLevelWorld
  simp only [hsome, if_false, Bool.false_eq_true]
  generalize (if idx = level ∧ wasOn = true then
        c.Level (idx : Int) (c.On (a.Level (idx : Int) st.world))
      else a.Level (idx : Int) st.world) = W2
  have hf := modwt_forward_world c a st.x h g (idx - 1) st.y
    (b.Level (idx : Int) (b.Reset W2)) (by omega)
  rw [hV, hW] at hf
  by_cases hd : b.IsOn (b.Level (idx : Int) (b.Reset W2)) = true
  · rw [if_pos hd, if_pos hd]
    have hf2 : ∀ z0 : List α, z0.length = X.length →
        Details.modwt_forward2 c a st.x h g (idx - 1) st.y z0
          (b.Level (idx : Int) (b.Reset W2)) =
        (Details.forwardV st.x h g (idx - 1), Details.forwardW st.x h g (idx - 1),
          (Details.modwt_forward c a st.x h g (idx - 1) st.y
            (b.Level (idx : Int) (b.Reset W2))).2) :=
      fun z0 hz0l => modwt_forward2_eq c a st.x h g (idx - 1) st.y z0
        (b.Level (idx : Int) (b.Reset W2)) (by omega) (by omega)
    rw [hf2]
    swap
    · cases hzz : st.z with
      | none => simp
      | some z => exact hz z hzz
    rw [hV, hW, hf.2]
    dsimp only
    rw [details_one_eq b (waveletLevel X h g (idx - 1)) st.x h g (idx - 1) _ hWne (by omega)]
    dsimp only
    generalize drive b (detailCalls (waveletLevel X h g (idx - 1)) h g (idx - 1))
      (replay (Port.sink c a)
        (forwardCalls (scalingLevel X h g idx) (waveletLevel X h g (idx - 1)))
        (b.Level (idx : Int) (b.Reset W2))) = W3
    have hDl : (if (idx - 1 + 1) % 2 = 0 then
          detailStage (waveletLevel X h g (idx - 1)) h g (idx - 1) (idx - 1)
        else detailStage (waveletLevel X h g (idx - 1)) h g (idx - 1) (idx - 1 + 1)).length =
        X.length := by
      split
      · rw [detailStage_length, hWl]
      · rw [detailStage_length, hWl]
    have hDl2 : (if (idx - 1 + 1) % 2 = 0 then
          detailStage (waveletLevel X h g (idx - 1)) h g (idx - 1) (idx - 1 + 1)
        else detailStage (waveletLevel X h g (idx - 1)) h g (idx - 1) (idx - 1)).length =
        X.length := by
      split
      · rw [detailStage_length, hWl]
      · rw [detailStage_length, hWl]
    by_cases hs : idx = level ∧ d.IsOn (d.Level (idx : Int) W3) = true
    · rw [if_pos hs, if_pos hs]
      dsimp only
      rw [smooth_one_eq d (scalingLevel X h g idx) _ g idx _ (by rw [hDl, hVl])
        (by rw [hVl]; exact hok)]
      dsimp only
      simp only [Option.isSome_none, Bool.false_eq_true, if_false]
      exact ⟨trivial, trivial, fun hne => absurd hs.1 hne⟩
    · rw [if_neg hs, if_neg hs]
      simp only [hsome, Bool.false_eq_true, if_false]
      refine ⟨he, trivial, fun _ => ⟨he, rfl, hDl, ?_, rfl⟩⟩
      intro z hzz
      have hzz2 : z = _ := (Option.some.inj hzz).symm
      rw [hzz2]
      exact hDl2
  · rw [if_neg hd, if_neg hd]
    dsimp only
    generalize hF : Details.modwt_forward c a st.x h g (idx - 1) st.y
      (b.Level (idx : Int) (b.Reset W2)) = F at hf ⊢
    obtain ⟨hf1, hf2⟩ := hf
    rw [← hf2]
    by_cases hs : idx = level ∧ d.IsOn (d.Level (idx : Int) F.2) = true
    · rw [if_pos hs, if_pos hs]
      dsimp only
      rw [hf1, smooth_one_eq d (scalingLevel X h g idx) _ g idx _ (by rw [hxl, hVl])
        (by rw [hVl]; exact hok)]
      dsimp only
      simp only [Option.isSome_none, Bool.false_eq_true, if_false]
      exact ⟨trivial, trivial, fun hne => absurd hs.1 hne⟩
    · rw [if_neg hs, if_neg hs]
      simp only [hsome, Bool.false_eq_true, if_false]
      exact ⟨he, trivial, fun _ => ⟨he, hf1, hxl, hz, rfl⟩⟩

theorem lengthOk_level (N level idx : Nat) (hN : 2 ^ (level - 1) ≤ N) (h1 : 1 ≤ idx)
    (hi : idx ≤ level) : lengthOk N ((idx : Int) - 1 - 1) = true := by
  have hpos : 1 ≤ N := le_trans Nat.one_le_two_pow hN
  by_cases h2 : idx = 1
  · subst h2
    rw [lengthOk_of_neg _ _ (by norm_num) (by norm_num)]
    exact decide_eq_true hpos
  · have hcast : ((idx : Int) - 1 - 1) = ((idx - 2 : Nat) : Int) := by omega
    rw [hcast, lengthOk_natCast]
    apply decide_eq_true
    exact le_trans (Nat.pow_le_pow_right (by norm_num) (by omega)) hN

theorem doAll_loop_shared (a b c d : Sink σ α) (X h g : List α) (level : Nat) (wasOn : Bool)
    (st : DoAllState σ α) (w : σ) (hN : 2 ^ (level - 1) ≤ X.length)
    (hinv : DoAllShared X.length X w st) (m : Nat) (hm : m < level) :
    DoAllShared X.length (scalingLevel X h g m)
      ((List.range' 1 m).foldl (doAllLevelWorld a b c d X h g level wasOn) w)
      ((List.range' 1 m).foldl (doAllStep a b c d h g X.length level wasOn) st) := by
  have hpos : 1 ≤ X.length := le_trans Nat.one_le_two_pow hN
  induction m with
  | zero => exact hinv
  | succ m ih =>
    have ih1 := ih (by omega)
    rw [List.range'_1_concat, List.foldl_append, List.foldl_append]
    simp only [List.foldl_cons, List.foldl_nil]
    have hstep := doAllStep_shared a b c d X h g level wasOn _ (1 + m) _ (by omega) hpos
      (by rw [Nat.add_sub_cancel_left]; exact ih1)
      (lengthOk_level X.length level (1 + m) hN (by omega) (by omega))
    rw [Nat.add_comm m 1]
    exact hstep.2.2 (by omega)

theorem doAll_shared (sqrt2 : α) (a b c d : Sink σ α) (X : List α) (level : Nat)
    (f : Filter.FType) (w : σ) (hX : X ≠ []) (h1 : 1 ≤ level) (h32 : level < 2 ^ 32)
    (hN : 2 ^ (level - 1) ≤ X.length) :
    (doAll sqrt2 a b c d X level f.toInt w).err = none ∧
      (doAll sqrt2 a b c d X level f.toInt w).world =
        (List.range' 1 level).foldl
          (doAllLevelWorld a b c d X
            (Filter.Details.make_filter Transform.MODWT sqrt2 f.garr).1
            (Filter.Details.make_filter Transform.MODWT sqrt2 f.garr).2 level (c.IsOn w))
          (c.Off w) := by
  have hne : X.isEmpty = false := by
    cases X with
    | nil => exact absurd rfl hX
    | cons a l => rfl
  have hexp : (level + 2 ^ 32 - 1) % 2 ^ 32 = level - 1 := by omega
  have hgood : lengthOk X.length (((level + 2 ^ 32 - 1) % 2 ^ 32 : Nat) : Int) = true := by
    rw [hexp, lengthOk_natCast]
    exact decide_eq_true hN
  have hpos : 1 ≤ X.length := le_trans Nat.one_le_two_pow hN
  have hlist : List.range' 1 level = List.range' 1 (level - 1) ++ [level] := by
    obtain ⟨m, rfl⟩ : ∃ m, level = m + 1 := ⟨level - 1, by omega⟩
    rw [List.range'_1_concat, Nat.add_sub_cancel, Nat.add_comm]
  have hinv0 : DoAllShared X.length X (c.Off w)
      ({ x := X, y := List.replicate X.length 0, xIsX := true, z := none,
         world := c.Off w, err := none } : DoAllState σ α) := by
    refine ⟨rfl, rfl, ?_, ?_, rfl⟩
    · simp
    · intro z hz
      cases hz
  have hmid := doAll_loop_shared a b c d X
    (Filter.Details.make_filter Transform.MODWT sqrt2 f.garr).1
    (Filter.Details.make_filter Transform.MODWT sqrt2 f.garr).2 level
    (c.IsOn w) _ _ hN hinv0 (level - 1) (by omega)
  have hlast := doAllStep_shared a b c d X
    (Filter.Details.make_filter Transform.MODWT sqrt2 f.garr).1
    (Filter.Details.make_filter Transform.MODWT sqrt2 f.garr).2 level
    (c.IsOn w) _ level _ h1 hpos hmid
    (lengthOk_level X.length level level hN h1 (le_refl _))
  simp only [doAll, Assert, hne, hgood, Bool.not_false, if_true, getFilters_catalog,
    hlist, List.foldl_append, List.foldl_cons, List.foldl_nil]
  exact ⟨hlast.1, hlast.2.1⟩

end DoAllMaster

section DoAllDetails

variable {α : Type} [Field α] {σ τ : Type}

theorem drive_onSnd (t : Sink τ α) (calls : List (Call α)) (a : σ) (b : τ) :
    drive (t.onSnd (σ := σ)) calls (a, b) = (a, drive t calls b) := by
  induction calls generalizing b with
  | nil => rfl
  | cons c rest ih =>
    have h1 : (t.onSnd (σ := σ)).apply c (a, b) = (a, t.apply c b) := by
      cases c <;> rfl
    rw [drive_cons, h1, ih]
    rfl

theorem replay_onFst_snd (c a : Sink σ α) (log : List (Port × Call α)) (w : σ × τ) :
    (replay (Port.sink (c.onFst (τ := τ)) (a.onFst (τ := τ))) log w).2 = w.2 := by
  induction log generalizing w with
  | nil => rfl
  | cons e rest ih =>
    obtain ⟨p, cl⟩ := e
    have hstep : replay (Port.sink (c.onFst (τ := τ)) (a.onFst (τ := τ))) ((p, cl) :: rest) w =
        replay (Port.sink (c.onFst (τ := τ)) (a.onFst (τ := τ))) rest
          ((Port.sink (c.onFst (τ := τ)) (a.onFst (τ := τ)) p).apply cl w) := rfl
    rw [hstep, ih]
    cases p <;> cases cl <;> rfl

theorem snd_drive_onFst (q : Sink σ α) (calls : List (Call α)) (w : σ × τ) :
    (drive (q.onFst (τ := τ)) calls w).2 = w.2 := by
  obtain ⟨w1, w2⟩ := w
  rw [drive_onFst]

theorem snd_drive_onSnd (t : Sink τ α) (calls : List (Call α)) (w : σ × τ) :
    (drive (t.onSnd (σ := σ)) calls w).2 = drive t calls w.2 := by
  obtain ⟨w1, w2⟩ := w
  rw [drive_onSnd]

theorem doAllLevelWorld_details (a c d : Sink σ α) (t : Sink τ α) (X h g : List α)
    (level : Nat) (wasOn : Bool) (w : σ × τ) (idx : Nat) :
    (doAllLevelWorld a.onFst t.onSnd c.onFst d.onFst X h g level wasOn w idx).2 =
      detailsLevelWorld t X h g w.2 idx := by
  have hW2 : (if idx = level ∧ wasOn = true then
        (c.onFst (τ := τ)).Level (idx : Int)
          ((c.onFst (τ := τ)).On ((a.onFst (τ := τ)).Level (idx : Int) w))
      else (a.onFst (τ := τ)).Level (idx : Int) w).2 = w.2 := by
    split <;> rfl
  unfold doAllLevelWorld detailsLevelWorld
  simp only []
  generalize (if idx = level ∧ wasOn = true then
        (c.onFst (τ := τ)).Level (idx : Int)
          ((c.onFst (τ := τ)).On ((a.onFst (τ := τ)).Level (idx : Int) w))
      else (a.onFst (τ := τ)).Level (idx : Int) w) = W2 at hW2 ⊢
  rw [← hW2]
  have hw3 : ((t.onSnd (σ := σ)).Level (idx : Int) ((t.onSnd (σ := σ)).Reset W2)).2 =
      t.Level (idx : Int) (t.Reset W2.2) := rfl
  have hon : (t.onSnd (σ := σ)).IsOn
      ((t.onSnd (σ := σ)).Level (idx : Int) ((t.onSnd (σ := σ)).Reset W2)) =
      t.IsOn (t.Level (idx : Int) (t.Reset W2.2)) := rfl
  rw [hon]
  have hfin : ∀ (cond : Prop) [Decidable cond] (calls : List (Call α)) (w4 : σ × τ),
      (if cond then drive (d.onFst (τ := τ)) calls w4 else w4).2 = w4.2 := by
    intro cond _ calls w4
    split
    · exact snd_drive_onFst d calls w4
    · rfl
  rw [hfin]
  show (if t.IsOn (t.Level (idx : Int) (t.Reset W2.2)) = true then _ else _ : σ × τ).2 = _
  split
  · rw [snd_drive_onSnd, replay_onFst_snd, hw3]
  · rw [replay_onFst_snd, hw3]

theorem doAll_details_world (a c d : Sink σ α) (t : Sink τ α) (X h g : List α)
    (level : Nat) (wasOn : Bool) (w : σ × τ) (l : List Nat) :
    (l.foldl (doAllLevelWorld a.onFst t.onSnd c.onFst d.onFst X h g level wasOn) w).2 =
      l.foldl (detailsLevelWorld t X h g) w.2 := by
  induction l generalizing w with
  | nil => rfl
  | cons idx rest ih =>
    rw [List.foldl_cons, List.foldl_cons, ih, doAllLevelWorld_details]

end DoAllDetails

section PrintLastLemmas

variable {α : Type}

theorem PrintLast_values (canOpen : String → Bool) (vs : List α) (s : PrintValuesState α) :
    drive (PrintLast canOpen) (vs.map Call.value) s =
      drive (PrintValues canOpen) (vs.map Call.value) s := by
  induction vs generalizing s with
  | nil => rfl
  | cons t rest ih =>
    rw [List.map_cons, drive_cons, drive_cons, ih]
    rfl

theorem Level_off_summary (canOpen : String → Bool) (s : PrintValuesState α) (p l : Int)
    (mp : Nat) (pr : List α) (hs : PrintSummary s p mp pr) (hp : 0 ≤ p) (hl : l ≠ p) :
    PrintSummary (s.Level canOpen l) p mp pr ∧ (s.Level canOpen l).on_ = false := by
  obtain ⟨pl, cp, mp0, ba, o, dr, us, fp, io, th⟩ := s
  obtain ⟨h1, h2, h3, h4, h5⟩ := hs
  simp only at h1 h2 h3 h4 h5
  subst h1 h2 h3 h4 h5
  have hc : pl ≥ 0 ∧ l ≠ pl := ⟨hp, hl⟩
  simp only [PrintValuesState.Level, PrintValuesState.closeIfOpen, PrintSummary]
  cases fp <;> simp [hc, printed_append, printed]

theorem Level_on_summary (canOpen : String → Bool) (hopen : ∀ n, canOpen n = true)
    (s : PrintValuesState α) (p : Int) (mp : Nat) (pr : List α)
    (hs : PrintSummary s p mp pr) (hp : 0 ≤ p) :
    PrintSummary (s.Level canOpen p) p mp pr ∧ (s.Level canOpen p).on_ = true ∧
      (s.Level canOpen p).currentPrints_ = 0 := by
  obtain ⟨pl, cp, mp0, ba, o, dr, us, fp, io, th⟩ := s
  obtain ⟨h1, h2, h3, h4, h5⟩ := hs
  simp only at h1 h2 h3 h4 h5
  subst h1 h2 h3 h4 h5
  have hnl : ¬ pl < 0 := by omega
  simp only [PrintValuesState.Level, PrintValuesState.closeIfOpen, PrintSummary]
  cases fp <;> simp [hnl, hopen, printed_append, printed]

theorem values_off_summary (canOpen : String → Bool) (vs : List α) (s : PrintValuesState α)
    (hoff : s.on_ = false) : drive (PrintLast canOpen) (vs.map Call.value) s = s := by
  rw [PrintLast_values, PrintValues_values_off canOpen vs s hoff]

theorem values_on_summary (canOpen : String → Bool) (vs : List α) (s : PrintValuesState α)
    (p : Int) (mp : Nat) (pr : List α) (hs : PrintSummary s p mp pr) (hon : s.on_ = true)
    (hc : s.currentPrints_ = 0) (hlt : vs.length < 2 ^ 64) :
    PrintSummary (drive (PrintLast canOpen) (vs.map Call.value) s) p mp (pr ++ vs.take mp) ∧
      (drive (PrintLast canOpen) (vs.map Call.value) s).on_ = true := by
  obtain ⟨h1, h2, h3, h4, h5⟩ := hs
  rw [PrintLast_values, PrintValues_values_on canOpen vs s hon (by omega)]
  refine ⟨⟨h1, h2, h3, h4, ?_⟩, hon⟩
  show printed (s.io ++ _) = _
  rw [printed_append, printed_println, hc, Nat.sub_zero, h5, h3]

theorem int_succ_exact (p : Int) (hp : 0 ≤ p) (hmax : p < 2 ^ 31 - 1) :
    (p + 1 + 2 ^ 31) % 2 ^ 32 - 2 ^ 31 = p + 1 := by
  omega

theorem Reset_summary (canOpen : String → Bool) (s : PrintValuesState α) (p : Int) (mp : Nat)
    (pr : List α) (hs : PrintSummary s p mp pr) (hp : 0 ≤ p) (hmax : p < 2 ^ 31 - 1) :
    PrintSummary ((PrintLast canOpen).Reset s) (p + 1) mp pr := by
  obtain ⟨h1, h2, h3, h4, h5⟩ := hs
  have hge : s.pLevel_ ≥ 0 := by omega
  simp only [PrintLast, hge, if_true]
  exact ⟨by rw [h1]; exact int_succ_exact p hp hmax, h2, h3, h4, h5⟩

end PrintLastLemmas

section PrintLastCascade

variable {α : Type} [Field α]

theorem PrintLast_off_blocks (canOpen : String → Bool) (W h g : List α) (ell : Nat)
    (s : PrintValuesState α) (mp : Nat) (pr : List α)
    (hs : PrintSummary s ((ell : Int) + 1) mp pr) (n : Nat) (hn : n ≤ ell) :
    PrintSummary (drive (PrintLast canOpen) ((List.range n).flatMap (fun j =>
        Call.Level ((j : Int) + 1) :: (detailStage W h g ell (j + 1)).map Call.value)) s)
      ((ell : Int) + 1) mp pr := by
  induction n with
  | zero => exact hs
  | succ n ih =>
    have ih1 := ih (by omega)
    rw [List.range_succ, List.flatMap_append, drive_append]
    simp only [List.flatMap_cons, List.flatMap_nil, List.append_nil]
    rw [drive_cons]
    have hoff := Level_off_summary canOpen _ ((ell : Int) + 1) ((n : Int) + 1) mp pr ih1
      (by omega) (by omega)
    show PrintSummary (drive (PrintLast canOpen) _ (PrintValuesState.Level canOpen _ _)) _ _ _
    rw [values_off_summary canOpen _ _ hoff.2]
    exact hoff.1

theorem PrintLast_cascade (canOpen : String → Bool) (hopen : ∀ n, canOpen n = true)
    (W h g : List α) (ell : Nat) (s : PrintValuesState α) (mp : Nat) (pr : List α)
    (hs : PrintSummary s ((ell : Int) + 1) mp pr) (hW : W.length < 2 ^ 64) :
    PrintSummary (drive (PrintLast canOpen) (detailCalls W h g ell) s) ((ell : Int) + 1) mp
      (pr ++ (detailStage W h g ell (ell + 1)).take mp) := by
  unfold detailCalls
  rw [List.range_succ, List.flatMap_append, drive_append]
  simp only [List.flatMap_cons, List.flatMap_nil, List.append_nil]
  rw [drive_cons]
  have hpre := PrintLast_off_blocks canOpen W h g ell s mp pr hs ell (le_refl _)
  have hon := Level_on_summary canOpen hopen _ ((ell : Int) + 1) mp pr hpre (by omega)
  show PrintSummary (drive (PrintLast canOpen) _ (PrintValuesState.Level canOpen _ _)) _ _ _
  exact (values_on_summary canOpen _ _ _ mp pr hon.1 hon.2.1 hon.2.2
    (by rw [detailStage_length]; exact hW)).1

theorem PrintLast_detailsLevel (canOpen : String → Bool) (hopen : ∀ n, canOpen n = true)
    (X h g : List α) (s : PrintValuesState α) (idx : Nat) (h1 : 1 ≤ idx) (mp : Nat)
    (pr : List α) (hs : PrintSummary s ((idx : Int) - 1) mp pr) (hX : X.length < 2 ^ 64)
    (hidx : idx < 2 ^ 31) :
    PrintSummary (detailsLevelWorld (PrintLast canOpen) X h g s idx) (idx : Int) mp
      (pr ++ (detailStage (waveletLevel X h g (idx - 1)) h g (idx - 1) idx).take mp) := by
  have hr := Reset_summary canOpen s _ mp pr hs (by omega) (by omega)
  have he : (idx : Int) - 1 + 1 = (idx : Int) := by omega
  rw [he] at hr
  have hon := Level_on_summary canOpen hopen _ (idx : Int) mp pr hr (by omega)
  unfold detailsLevelWorld
  have hison : (PrintLast canOpen).IsOn
      ((PrintLast canOpen).Level (idx : Int) ((PrintLast canOpen).Reset s)) = true := hon.2.1
  simp only [hison, if_true]
  have hell : (idx : Int) = ((idx - 1 : Nat) : Int) + 1 := by omega
  have hc := PrintLast_cascade canOpen hopen (waveletLevel X h g (idx - 1)) h g (idx - 1)
    ((PrintLast canOpen).Level (idx : Int) ((PrintLast canOpen).Reset s)) mp pr
    (by rw [← hell]; exact hon.1) (by rw [waveletLevel_length]; exact hX)
  rw [← hell, Nat.sub_add_cancel h1] at hc
  exact hc

theorem PrintLast_details_fold (canOpen : String → Bool) (hopen : ∀ n, canOpen n = true)
    (X h g : List α) (s : PrintValuesState α) (mp : Nat) (hs : PrintSummary s 0 mp [])
    (hX : X.length < 2 ^ 64) (m : Nat) (hm : m < 2 ^ 31) :
    PrintSummary ((List.range' 1 m).foldl (detailsLevelWorld (PrintLast canOpen) X h g) s)
      (m : Int) mp
      ((List.range' 1 m).flatMap (fun idx =>
        (detailStage (waveletLevel X h g (idx - 1)) h g (idx - 1) idx).take mp)) := by
  induction m with
  | zero => exact hs
  | succ m ih =>
    have ih := ih (by omega)
    rw [List.range'_1_concat, List.foldl_append, List.flatMap_append]
    simp only [List.foldl_cons, List.foldl_nil, List.flatMap_cons, List.flatMap_nil,
      List.append_nil]
    have hstep := PrintLast_detailsLevel canOpen hopen X h g _ (1 + m) (by omega) mp _
      (by
        have e : ((1 + m : Nat) : Int) - 1 = (m : Int) := by omega
        rw [e]; exact ih) hX (by omega)
    have e2 : ((1 + m : Nat) : Int) = ((m + 1 : Nat) : Int) := by omega
    rw [e2] at hstep
    exact hstep

theorem PrintLastCtor_summary (basename : String) (maxPrints : Nat) (s0 : PrintValuesState α)
    (hctor : PrintLastCtor basename maxPrints 0 = Except.ok s0) :
    PrintSummary s0 0 maxPrints [] := by
  cases hb : basename.isEmpty with
  | true =>
    simp [PrintLastCtor, PrintValuesState.ctor, Assert, hb] at hctor
  | false =>
    simp only [PrintLastCtor, PrintValuesState.ctor, Assert, hb, Bool.not_false, Bool.true_or,
      if_true, ge_iff_le, le_refl, decide_True] at hctor
    have hs : s0 = _ := (Except.ok.inj hctor).symm
    subst hs
    exact ⟨rfl, rfl, rfl, rfl, rfl⟩

theorem getElem_pair_one {β : Type} (a b : β) : ([a, b] : List β)[1] = b := rfl

theorem PrintLast_example_values :
    (List.range' 1 2).flatMap (fun idx =>
      (detailStage
        (waveletLevel ([1, 2] : List ℚ)
          (Filter.Details.make_filter Transform.MODWT (1 : ℚ) Filter.FType.Haar.garr).1
          (Filter.Details.make_filter Transform.MODWT (1 : ℚ) Filter.FType.Haar.garr).2
          (idx - 1))
        (Filter.Details.make_filter Transform.MODWT (1 : ℚ) Filter.FType.Haar.garr).1
        (Filter.Details.make_filter Transform.MODWT (1 : ℚ) Filter.FType.Haar.garr).2
        (idx - 1) idx).take 1) =
      [-499999999999999258385213783209 / 500000000000000000000000000000, 0] := by
  have hr : List.range 2 = [0, 1] := rfl
  simp [List.range', detailStage, waveletLevel, scalingLevel, Details.zerophaseAll,
    Details.forwardW, Details.forwardV, Details.modwt_forward_at,
    Details.imodwt_backward_zerophase_at, Filter.Details.make_filter, Filter.FType.garr,
    Filter.Details.Haar_garr, Filter.Details.quadraticMirror,
    Filter.Details.quadraticMirrorLoop, hr, Details.fwdIdx, Details.bwdIdx]
  rw [getElem_pair_one]
  norm_num

end PrintLastCascade

section OverloadLemmas

variable {α : Type} [Field α] {σ : Type}

theorem wop_calls_forwardCalls (V W : List α) (hW : W.length = V.length) :
    Port.calls Port.wop (forwardCalls V W) = W.map Call.value := by
  have h : ∀ l : List Nat, Port.calls Port.wop (l.flatMap (fun t =>
      [(Port.vop, Call.value (V.getD t 0)), (Port.wop, Call.value (W.getD t 0))])) =
      (l.map (fun t => W.getD t 0)).map Call.value := by
    intro l
    induction l with
    | nil => rfl
    | cons t rest ih =>
      simp only [List.flatMap_cons, List.map_cons]
      rw [← ih]
      simp [Port.calls]
  unfold forwardCalls
  rw [h, range_map_getD W V.length hW]

theorem vop_calls_forwardCalls (V W : List α) :
    Port.calls Port.vop (forwardCalls V W) = V.map Call.value := by
  unfold forwardCalls
  rw [vop_calls_values, range_map_getD V V.length rfl]

theorem lengthOk_huge (N e : Nat) (hN : N < 2 ^ 64) (he : 64 ≤ e) :
    lengthOk N (e : Int) = false := by
  rw [lengthOk_natCast]
  apply decide_eq_false
  have h1 : 2 ^ 64 ≤ 2 ^ e := Nat.pow_le_pow_right (by norm_num) he
  omega

theorem modwt_zero (vop wop : Sink σ α) (X h g : List α) (w : σ) (hX : X ≠ []) :
    modwt vop wop X h g 0 w = { err := none, buf := X, world := w } := by
  have hpos : 1 ≤ X.length := by
    cases X with
    | nil => exact absurd rfl hX
    | cons a l => simp
  have hok : lengthOk X.length ((0 : Int) - 1) = true := by
    rw [lengthOk_of_neg _ _ (by norm_num) (by norm_num)]
    exact decide_eq_true hpos
  simp only [modwt, Assert, hok, Bool.not_true, if_false]
  rfl

theorem modwt_of_valid (vop wop : Sink σ α) (X h g : List α) (J : Nat) (w : σ)
    (hJ : 1 ≤ J) (hN : 2 ^ (J - 1) ≤ X.length) :
    modwt vop wop X h g (J : Int) w =
      { err := none,
        buf := if J % 2 = 0 then scalingLevel X h g J else scalingLevel X h g (J - 1),
        world := replay (Port.sink vop wop) (modwtProtocol X h g J) w } := by
  have hcast : ((J : Int) - 1) = ((J - 1 : Nat) : Int) := by omega
  have hok : lengthOk X.length ((J : Int) - 1) = true := by
    rw [hcast, lengthOk_natCast]
    exact decide_eq_true hN
  have hJ0 : ¬ J = 0 := by omega
  simp only [modwt, Assert, hok, Bool.not_true, if_false, if_true, Int.toNat_ofNat, modwt_loop,
    Details.PingPong.first, hJ0]

theorem modwt_nonpositive (vop wop : Sink σ α) (X h g : List α) (n : Int) (w : σ)
    (hn : n ≤ 0) : (modwt vop wop X h g n w).buf = X ∧ (modwt vop wop X h g n w).world = w := by
  have h0 : n.toNat = 0 := by omega
  unfold modwt
  cases hA : Assert Error.ArgumentError (lengthOk X.length (n - 1)) with
  | error e => exact ⟨rfl, rfl⟩
  | ok u =>
    simp [h0, Details.PingPong.first]

end OverloadLemmas

section UnsafeLemmas

variable {α : Type}

theorem lastPartitionInRange_iff (vals : List (List α)) (h64 : vals.length < 2 ^ 64) :
    lastPartitionInRange vals = true ↔ vals ≠ [] := by
  unfold lastPartitionInRange
  rw [decide_eq_true_iff]
  cases vals with
  | nil => simp
  | cons a l =>
    simp only [List.length_cons] at h64 ⊢
    constructor
    · intro _; simp
    · intro _; omega

theorem lastPartitionInRange_nil :
    lastPartitionInRange ([] : List (List α)) = false := by
  unfold lastPartitionInRange
  exact decide_eq_false (by simp)

end UnsafeLemmas

section CommuteLemmas

variable {α : Type} [Field α] {σ : Type}

theorem zerophase_at_closed_all (Kj filt : List α) (D t : Nat)
    (hD : D ≤ Kj.length) (ht : t < Kj.length) :
    Details.imodwt_backward_zerophase_at Kj filt D t = circSum filt Kj filt.length D 1 t := by
  by_cases hL : 1 ≤ filt.length
  · exact zerophase_at_closed Kj filt D t hL hD ht
  · have h0 : filt = [] := List.length_eq_zero.mp (by omega)
    subst h0
    simp [Details.imodwt_backward_zerophase_at, circSum]

theorem circ_circ_add (N : Nat) (a b : Int) (hN : 0 < N) :
    circ N (((circ N a : Nat) : Int) + b) = circ N (a + b) := by
  have hinj : ((circ N (((circ N a : Nat) : Int) + b) : Nat) : Int) =
      ((circ N (a + b) : Nat) : Int) := by
    rw [circ_cast N _ hN, circ_cast N _ hN, circ_cast N _ hN]
    exact Int.emod_add_emod _ _ _
  exact_mod_cast hinj

theorem zerophase_twice (K f1 f2 : List α) (j1 j2 t : Nat) (h1 : 2 ^ j1 ≤ K.length)
    (h2 : 2 ^ j2 ≤ K.length) (ht : t < K.length) :
    (Details.zerophaseAll (Details.zerophaseAll K f1 j1) f2 j2).getD t 0 =
      (Finset.range f2.length).sum (fun m => (Finset.range f1.length).sum (fun l =>
        f2.getD m 0 * (f1.getD l 0 *
          K.getD (circ K.length ((t : Int) + (m : Int) * ((2 ^ j2 : Nat) : Int) +
            (l : Int) * ((2 ^ j1 : Nat) : Int))) 0))) := by
  have hN : 0 < K.length := by omega
  have hlen : (Details.zerophaseAll K f1 j1).length = K.length := zerophaseAll_length K f1 j1
  rw [zerophaseAll_getD _ f2 j2 t (by rw [hlen]; exact ht),
    zerophase_at_closed_all _ f2 (2 ^ j2) t (by rw [hlen]; exact h2) (by rw [hlen]; exact ht)]
  unfold circSum
  rw [hlen]
  apply Finset.sum_congr rfl
  intro m _
  rw [zerophaseAll_getD K f1 j1 _ (circ_lt _ _ hN),
    zerophase_at_closed_all K f1 (2 ^ j1) _ h1 (circ_lt _ _ hN)]
  unfold circSum
  rw [Finset.mul_sum]
  apply Finset.sum_congr rfl
  intro l _
  rw [circ_circ_add _ _ _ hN]
  congr 4
  ring

theorem zerophase_comm (K f1 f2 : List α) (j1 j2 : Nat) (h1 : 2 ^ j1 ≤ K.length)
    (h2 : 2 ^ j2 ≤ K.length) :
    Details.zerophaseAll (Details.zerophaseAll K f1 j1) f2 j2 =
      Details.zerophaseAll (Details.zerophaseAll K f2 j2) f1 j1 := by
  apply List.ext_getElem
  · simp [zerophaseAll_length]
  · intro t ht1 ht2
    have ht : t < K.length := by simpa [zerophaseAll_length] using ht1
    have e1 := zerophase_twice K f1 f2 j1 j2 t h1 h2 ht
    have e2 := zerophase_twice K f2 f1 j2 j1 t h2 h1 ht
    rw [List.getD_eq_getElem _ _ ht1] at e1
    rw [List.getD_eq_getElem _ _ ht2] at e2
    rw [e1, e2, Finset.sum_comm]
    apply Finset.sum_congr rfl
    intro l _
    apply Finset.sum_congr rfl
    intro m _
    have hidx : (t : Int) + (m : Int) * ((2 ^ j2 : Nat) : Int) + (l : Int) * ((2 ^ j1 : Nat) : Int) =
        (t : Int) + (l : Int) * ((2 ^ j1 : Nat) : Int) + (m : Int) * ((2 ^ j2 : Nat) : Int) := by
      ring
    rw [hidx]
    ring

theorem scalingUp_length (g : List α) (m : Nat) (K : List α) :
    (scalingUp g m K).length = K.length := by
  induction m with
  | zero => rfl
  | succ m ih => rw [scalingUp, zerophaseAll_length, ih]

theorem pow_le_of_le (N a b : Nat) (hab : a ≤ b) (hb : 2 ^ b ≤ N) : 2 ^ a ≤ N :=
  le_trans (Nat.pow_le_pow_right (by norm_num) hab) hb

theorem zerophase_scalingUp (g f : List α) (j m : Nat) (K : List α) (hj : 2 ^ j ≤ K.length)
    (hm : ∀ i, i < m → 2 ^ i ≤ K.length) :
    Details.zerophaseAll (scalingUp g m K) f j = scalingUp g m (Details.zerophaseAll K f j) := by
  induction m with
  | zero => rfl
  | succ m ih =>
    have ih1 := ih (fun i hi => hm i (by omega))
    rw [scalingUp, scalingUp,
      zerophase_comm (scalingUp g m K) g f m j
        (by rw [scalingUp_length]; exact hm m (by omega))
        (by rw [scalingUp_length]; exact hj),
      ih1]

theorem scalingDown_eq_scalingUp (g : List α) (m : Nat) :
    ∀ K : List α, (∀ i, i < m → 2 ^ i ≤ K.length) → scalingDown g m K = scalingUp g m K := by
  induction m with
  | zero => intro K _; rfl
  | succ m ih =>
    intro K hm
    rw [scalingDown, ih _ (fun i hi => by rw [zerophaseAll_length]; exact hm i (by omega)),
      scalingUp, zerophase_scalingUp g g m m K (hm m (by omega)) (fun i hi => hm i (by omega))]

theorem detailStage_scalingUp (W h g : List α) (ell m : Nat) (hm : m ≤ ell) :
    detailStage W h g ell m = scalingUp g m W := by
  induction m with
  | zero => rfl
  | succ m ih =>
    have hne : ¬ m = ell := by omega
    rw [detailStage, scalingUp, ih (by omega)]
    simp only [hne, if_false]

theorem detailStage_inverseOrder (W h g : List α) (ell : Nat) (hN : 2 ^ ell ≤ W.length) :
    detailStage W h g ell (ell + 1) = inverseOrderWaveform W h g ell := by
  have hall : ∀ i, i < ell → 2 ^ i ≤ W.length :=
    fun i hi => pow_le_of_le W.length i ell (by omega) hN
  unfold inverseOrderWaveform
  rw [scalingDown_eq_scalingUp g ell _ (fun i hi => by rw [zerophaseAll_length]; exact hall i hi),
    ← zerophase_scalingUp g h ell ell W hN hall, detailStage,
    detailStage_scalingUp W h g ell ell (le_refl _)]
  simp only [if_true]

end CommuteLemmas

section DoAllProjections

variable {α : Type} [Field α] {σ τ : Type}

theorem snd_replay_split (s : Sink σ α) (t : Sink τ α) (log : List (Port × Call α))
    (w : σ × τ) :
    (replay (Port.sink (s.onFst (τ := τ)) (t.onSnd (σ := σ))) log w).2 =
      drive t (Port.calls Port.wop log) w.2 := by
  obtain ⟨w1, w2⟩ := w
  rw [replay_split]

theorem doAllLevelWorld_wavelet (b c d : Sink σ α) (t : Sink τ α) (X h g : List α)
    (level : Nat) (wasOn : Bool) (w : σ × τ) (idx : Nat) :
    (doAllLevelWorld t.onSnd b.onFst c.onFst d.onFst X h g level wasOn w idx).2 =
      waveletLevelWorld t X h g w.2 idx := by
  have hW2 : (if idx = level ∧ wasOn = true then
        (c.onFst (τ := τ)).Level (idx : Int)
          ((c.onFst (τ := τ)).On ((t.onSnd (σ := σ)).Level (idx : Int) w))
      else (t.onSnd (σ := σ)).Level (idx : Int) w).2 = t.Level (idx : Int) w.2 := by
    split <;> rfl
  unfold doAllLevelWorld waveletLevelWorld
  simp only []
  generalize (if idx = level ∧ wasOn = true then
        (c.onFst (τ := τ)).Level (idx : Int)
          ((c.onFst (τ := τ)).On ((t.onSnd (σ := σ)).Level (idx : Int) w))
      else (t.onSnd (σ := σ)).Level (idx : Int) w) = W2 at hW2 ⊢
  rw [drive_cons]
  show _ = drive t _ (t.Level (idx : Int) w.2)
  rw [← hW2]
  have hfin : ∀ (cond : Prop) [Decidable cond] (calls : List (Call α)) (w4 : σ × τ),
      (if cond then drive (d.onFst (τ := τ)) calls w4 else w4).2 = w4.2 := by
    intro cond _ calls w4
    split
    · exact snd_drive_onFst d calls w4
    · rfl
  have hmid : ∀ (cond : Prop) [Decidable cond] (calls : List (Call α)) (w3 : σ × τ),
      (if cond then drive (b.onFst (τ := τ)) calls w3 else w3).2 = w3.2 := by
    intro cond _ calls w3
    split
    · exact snd_drive_onFst b calls w3
    · rfl
  rw [hfin]
  show (if _ then _ else _ : σ × τ).2 = _
  rw [hmid, snd_replay_split, wop_calls_forwardCalls _ _
    (by rw [scalingLevel_length, waveletLevel_length])]
  rfl

theorem doAllLevelWorld_smooth (a b c : Sink σ α) (t : Sink τ α) (X h g : List α)
    (level : Nat) (wasOn : Bool) (w : σ × τ) (idx : Nat) :
    (doAllLevelWorld a.onFst b.onFst c.onFst t.onSnd X h g level wasOn w idx).2 =
      smoothLevelWorld t X h g level w.2 idx := by
  have hW2 : (if idx = level ∧ wasOn = true then
        (c.onFst (τ := τ)).Level (idx : Int)
          ((c.onFst (τ := τ)).On ((a.onFst (τ := τ)).Level (idx : Int) w))
      else (a.onFst (τ := τ)).Level (idx : Int) w).2 = w.2 := by
    split <;> rfl
  unfold doAllLevelWorld smoothLevelWorld
  simp only []
  generalize (if idx = level ∧ wasOn = true then
        (c.onFst (τ := τ)).Level (idx : Int)
          ((c.onFst (τ := τ)).On ((a.onFst (τ := τ)).Level (idx : Int) w))
      else (a.onFst (τ := τ)).Level (idx : Int) w) = W2 at hW2 ⊢
  have hmid : ∀ (cond : Prop) [Decidable cond] (calls : List (Call α)) (w3 : σ × τ),
      (if cond then drive (b.onFst (τ := τ)) calls w3 else w3).2 = w3.2 := by
    intro cond _ calls w3
    split
    · exact snd_drive_onFst b calls w3
    · rfl
  have h3b : (if (b.onFst (τ := τ)).IsOn ((b.onFst (τ := τ)).Level (idx : Int)
        ((b.onFst (τ := τ)).Reset W2)) = true then
      drive (b.onFst (τ := τ)) (detailCalls (waveletLevel X h g (idx - 1)) h g (idx - 1))
        (replay (Port.sink (c.onFst (τ := τ)) (a.onFst (τ := τ)))
          (forwardCalls (scalingLevel X h g idx) (waveletLevel X h g (idx - 1)))
          ((b.onFst (τ := τ)).Level (idx : Int) ((b.onFst (τ := τ)).Reset W2)))
      else replay (Port.sink (c.onFst (τ := τ)) (a.onFst (τ := τ)))
          (forwardCalls (scalingLevel X h g idx) (waveletLevel X h g (idx - 1)))
          ((b.onFst (τ := τ)).Level (idx : Int) ((b.onFst (τ := τ)).Reset W2))).2 = w.2 := by
    rw [hmid, replay_onFst_snd]
    exact hW2
  generalize (if (b.onFst (τ := τ)).IsOn ((b.onFst (τ := τ)).Level (idx : Int)
        ((b.onFst (τ := τ)).Reset W2)) = true then
      drive (b.onFst (τ := τ)) (detailCalls (waveletLevel X h g (idx - 1)) h g (idx - 1))
        (replay (Port.sink (c.onFst (τ := τ)) (a.onFst (τ := τ)))
          (forwardCalls (scalingLevel X h g idx) (waveletLevel X h g (idx - 1)))
          ((b.onFst (τ := τ)).Level (idx : Int) ((b.onFst (τ := τ)).Reset W2)))
      else replay (Port.sink (c.onFst (τ := τ)) (a.onFst (τ := τ)))
          (forwardCalls (scalingLevel X h g idx) (waveletLevel X h g (idx - 1)))
          ((b.onFst (τ := τ)).Level (idx : Int) ((b.onFst (τ := τ)).Reset W2))) = W3
    at h3b ⊢
  rw [← h3b]
  have h4 : ((t.onSnd (σ := σ)).Level (idx : Int) W3).2 = t.Level (idx : Int) W3.2 := rfl
  have hon : (t.onSnd (σ := σ)).IsOn ((t.onSnd (σ := σ)).Level (idx : Int) W3) =
      t.IsOn (t.Level (idx : Int) W3.2) := rfl
  rw [hon]
  split
  · rw [snd_drive_onSnd, h4]
  · rw [h4]

theorem fold_snd_eq (F : σ × τ → Nat → σ × τ) (G : τ → Nat → τ)
    (hFG : ∀ w idx, (F w idx).2 = G w.2 idx) (l : List Nat) (w : σ × τ) :
    (l.foldl F w).2 = l.foldl G w.2 := by
  induction l generalizing w with
  | nil => rfl
  | cons idx rest ih => rw [List.foldl_cons, List.foldl_cons, ih, hFG]

theorem waveletLevelWorld_fold (t : Sink τ α) (X h g : List α) (s : τ) (m : Nat) :
    (List.range' 1 m).foldl (waveletLevelWorld t X h g) s =
      drive t ((List.range m).flatMap (fun j =>
        Call.Level ((j : Int) + 1) :: (waveletLevel X h g j).map Call.value)) s := by
  induction m with
  | zero => rfl
  | succ m ih =>
    rw [List.range'_1_concat, List.foldl_append, ih, List.range_succ, List.flatMap_append,
      drive_append]
    simp only [List.foldl_cons, List.foldl_nil, List.flatMap_cons, List.flatMap_nil,
      List.append_nil]
    unfold waveletLevelWorld
    have e1 : ((1 + m : Nat) : Int) = (m : Int) + 1 := by omega
    have e2 : 1 + m - 1 = m := by omega
    rw [e1, e2]

theorem modwt_wop_world (vop : Sink σ α) (t : Sink τ α) (X h g : List α) (J : Nat)
    (w : σ × τ) (hJ : 1 ≤ J) (hN : 2 ^ (J - 1) ≤ X.length) :
    (modwt vop.onFst t.onSnd X h g (J : Int) w).err = none ∧
      (modwt vop.onFst t.onSnd X h g (J : Int) w).world.2 =
        drive t ((List.range J).flatMap (fun j =>
          Call.Level ((j : Int) + 1) :: (waveletLevel X h g j).map Call.value)) w.2 := by
  rw [modwt_of_valid _ _ X h g J w hJ hN]
  refine ⟨rfl, ?_⟩
  show (replay _ _ w).2 = _
  rw [snd_replay_split, wop_calls_modwtProtocol]

theorem smoothLevelWorld_fold_mid (t : Sink τ α) (X h g : List α) (level : Nat) (s : τ)
    (m : Nat) (hm : m < level) :
    (List.range' 1 m).foldl (smoothLevelWorld t X h g level) s =
      drive t (levelTags m) s := by
  induction m with
  | zero => rfl
  | succ m ih =>
    unfold levelTags
    rw [List.range'_1_concat, List.foldl_append, ih (by omega), List.map_append, drive_append]
    simp only [List.foldl_cons, List.foldl_nil, List.map_cons, List.map_nil]
    unfold smoothLevelWorld levelTags
    have hne : ¬ (1 + m = level) := by omega
    simp only [hne, false_and, if_false]
    rfl

theorem smoothLevelWorld_fold (t : Sink τ α) (X h g : List α) (level : Nat) (s : τ)
    (h1 : 1 ≤ level) (hN : 2 ^ (level - 1) ≤ X.length) :
    (List.range' 1 level).foldl (smoothLevelWorld t X h g level) s =
      if t.IsOn (drive t (levelTags level) s) then
        (smooth t (scalingLevel X h g level) g (level : Int)
          (drive t (levelTags level) s)).world
      else drive t (levelTags level) s := by
  obtain ⟨m, rfl⟩ : ∃ m, level = m + 1 := ⟨level - 1, by omega⟩
  have hs := smooth_of_valid t (scalingLevel X h g (m + 1)) g (m + 1)
    (drive t (levelTags (m + 1)) s) h1
    (by rw [scalingLevel_length]; exact hN)
  rw [hs]
  have hl : levelTags (α := α) (m + 1) = levelTags m ++ [Call.Level ((1 + m : Nat) : Int)] := by
    unfold levelTags
    rw [List.range'_1_concat, List.map_append]
    rfl
  rw [hl, List.range'_1_concat, List.foldl_append, smoothLevelWorld_fold_mid t X h g (m + 1) s m
    (by omega), drive_append]
  simp only [List.foldl_cons, List.foldl_nil]
  unfold smoothLevelWorld smoothOneCalls
  have e : 1 + m = m + 1 := by omega
  simp only [e, true_and]
  rfl

theorem drive_DoNothing (calls : List (Call α)) (w : τ) :
    drive (DoNothing (σ := τ) (α := α)) calls w = w := by
  induction calls with
  | nil => rfl
  | cons c rest ih =>
    rw [drive_cons]
    have : (DoNothing (σ := τ) (α := α)).apply c w = w := by cases c <;> rfl
    rw [this, ih]

theorem replay_DoNothing_prefix (t : Sink τ α) (k : Nat) (calls : Nat → List (Call α))
    (w : τ) (m : Nat) (hm : m ≤ k) :
    replay (fun i => (List.replicate k (DoNothing (σ := τ) (α := α)) ++ [t]).getD i DoNothing)
      ((List.range m).flatMap (fun i => (calls i).map (fun c => (i, c)))) w = w := by
  induction m with
  | zero => rfl
  | succ m ih =>
    rw [List.range_succ, List.flatMap_append, replay_append, ih (by omega)]
    simp only [List.flatMap_cons, List.flatMap_nil, List.append_nil]
    rw [replay_map_tag]
    have hget : (List.replicate k (DoNothing (σ := τ) (α := α)) ++ [t]).getD m DoNothing =
        DoNothing := by
      rw [List.getD_eq_getElem?_getD, List.getElem?_append_left (by simp; omega)]
      simp
    rw [hget, drive_DoNothing]

theorem details_of_valid (dops : List (Sink σ α)) (Wj : List (List α)) (h g : List α) (w : σ)
    (N : Nat) (hne : Wj ≠ []) (hN : 2 ^ (Wj.length - 1) ≤ N)
    (hW : ∀ i, i < Wj.length → (Wj.getD i []).length = N) :
    (details dops Wj h g w).err = none ∧
      (details dops Wj h g w).world =
        replay (fun i => dops.getD i DoNothing)
          ((List.range Wj.length).flatMap (fun i =>
            (detailCalls (Wj.getD i []) h g i).map (fun c => (i, c)))) w := by
  have hemp : Wj.isEmpty = false := by
    cases Wj with
    | nil => exact absurd rfl hne
    | cons a l => rfl
  have hpos : 0 < Wj.length := by
    cases Wj with
    | nil => exact absurd rfl hne
    | cons a l => simp
  have h0 : (Wj.getD 0 []).length = N := hW 0 hpos
  have hgood : lengthOk (Wj.getD 0 []).length ((Wj.length - 1 : Nat) : Int) = true := by
    rw [lengthOk_natCast, h0]
    exact decide_eq_true hN
  have hN1 : 1 ≤ N := le_trans Nat.one_le_two_pow hN
  have hloop := details_loop dops Wj h g w N (List.replicate (Wj.getD 0 []).length 0) hN1 hW
    (by rw [List.length_replicate, h0]) Wj.length (le_refl _)
  simp only [details, hemp, Assert, hgood, Bool.not_true, if_false]
  exact ⟨rfl, hloop.2.2.2⟩

theorem details_single_sink (t : Sink τ α) (X h g : List α) (k : Nat) (w : τ)
    (hN : 2 ^ k ≤ X.length) :
    (details (List.replicate k (DoNothing (σ := τ) (α := α)) ++ [t])
        ((List.range (k + 1)).map (fun i => waveletLevel X h g i)) h g w).err = none ∧
      (details (List.replicate k (DoNothing (σ := τ) (α := α)) ++ [t])
        ((List.range (k + 1)).map (fun i => waveletLevel X h g i)) h g w).world =
        drive t (detailCalls (waveletLevel X h g k) h g k) w := by
  have hlenWj : ((List.range (k + 1)).map (fun i => waveletLevel X h g i)).length = k + 1 := by
    simp
  have hget : ∀ i, i < k + 1 →
      ((List.range (k + 1)).map (fun i => waveletLevel X h g i)).getD i [] =
        waveletLevel X h g i := by
    intro i hi
    rw [List.getD_eq_getElem _ _ (by rw [hlenWj]; exact hi)]
    simp
  have hne : (List.range (k + 1)).map (fun i => waveletLevel X h g i) ≠ [] := by
    intro hnil
    rw [hnil] at hlenWj
    simp at hlenWj
  have hv := details_of_valid (List.replicate k (DoNothing (σ := τ) (α := α)) ++ [t])
    ((List.range (k + 1)).map (fun i => waveletLevel X h g i)) h g w X.length hne
    (by rw [hlenWj, Nat.add_sub_cancel]; exact hN)
    (fun i hi => by rw [hget i (by rw [hlenWj] at hi; exact hi), waveletLevel_length])
  refine ⟨hv.1, ?_⟩
  rw [hv.2, hlenWj, List.range_succ, List.flatMap_append, replay_append,
    replay_DoNothing_prefix t k (fun i => detailCalls
      (((List.range k ++ [k]).map (fun i => waveletLevel X h g i)).getD i []) h g i) w k
      (le_refl _)]
  simp only [List.flatMap_cons, List.flatMap_nil, List.append_nil]
  rw [replay_map_tag, ← List.range_succ, hget k (by omega)]
  have hgetk : (List.replicate k (DoNothing (σ := τ) (α := α)) ++ [t]).getD k DoNothing = t := by
    rw [List.getD_eq_getElem?_getD, List.getElem?_append_right (by simp)]
    simp
  rw [hgetk]

theorem detailsLevelWorld_eq_details (t : Sink τ α) (X h g : List α) (s : τ) (idx : Nat)
    (h1 : 1 ≤ idx) (hN : 2 ^ (idx - 1) ≤ X.length) :
    detailsLevelWorld t X h g s idx = detailsViaDetails t X h g s idx := by
  obtain ⟨k, rfl⟩ : ∃ k, idx = k + 1 := ⟨idx - 1, by omega⟩
  unfold detailsLevelWorld detailsViaDetails
  simp only [Nat.add_sub_cancel] at hN ⊢
  rw [(details_single_sink t X h g k _ hN).2]

theorem foldl_congr_mem {β : Type} (F G : β → Nat → β) (l : List Nat)
    (hFG : ∀ s idx, idx ∈ l → F s idx = G s idx) (s : β) : l.foldl F s = l.foldl G s := by
  induction l generalizing s with
  | nil => rfl
  | cons idx rest ih =>
    rw [List.foldl_cons, List.foldl_cons, hFG s idx (List.mem_cons_self _ _),
      ih (fun s i hi => hFG s i (List.mem_cons_of_mem _ hi))]

end DoAllProjections
/-! ## One level on four samples, and the 19 taps of `Daub20` -/

section SingleLevel

variable {α : Type} [Field α]

theorem imodwtCalls_single (V W h g : List α) : imodwtCalls V [W] h g =
      Call.Level 0 :: (Details.backwardAll V W h g 0).map Call.value := by
  have hr : List.range 1 = [0] := rfl
  simp only [imodwtCalls, List.length_singleton, hr, List.flatMap_cons,
    List.flatMap_nil, List.append_nil, backStage, Nat.sub_self, List.getD_cons_zero]
  rfl

theorem imodwt_single (V W h g : List α) (hV : 1 ≤ V.length) :
    (imodwt SaveLastLevel V [W] h g (SaveLastLevelState.init 0)).world.vals_ =
      Details.backwardAll V W h g 0 := by
  have e1 : ([W] : List (List α)).length = 1 := rfl
  have hcalls := imodwt_of_valid_calls SaveLastLevel V [W] h g (SaveLastLevelState.init 0)
    (by rw [e1]) (by rw [e1]; exact Nat.one_lt_two_pow (by decide))
    (by rw [e1]; simpa using hV)
  rw [hcalls]
  have h1 : (SaveLastLevel (α := α)).apply (Call.Level 0) (SaveLastLevelState.init 0) =
      { on_ := true, last_ := 0, vals_ := [] } := by
    simp [Sink.apply, SaveLastLevel, SaveLastLevelState.init]
  show (drive SaveLastLevel (imodwtCalls V [W] h g) (SaveLastLevelState.init 0)).vals_ = _
  rw [imodwtCalls_single, drive_cons, h1, SaveLastLevel_values_on _ _ rfl]
  simp

theorem roundTrip_four_one (h g : List α) (x0 x1 x2 x3 : α) :
    roundTrip h g [x0, x1, x2, x3] 1 =
      Details.backwardAll (Details.forwardV [x0, x1, x2, x3] h g 0)
        (Details.forwardW [x0, x1, x2, x3] h g 0) h g 0 := by
  have hV : 1 ≤ (Details.forwardV [x0, x1, x2, x3] h g 0).length := by
    rw [forwardV_length]; simp
  have hs := imodwt_single (Details.forwardV [x0, x1, x2, x3] h g 0)
    (Details.forwardW [x0, x1, x2, x3] h g 0) h g hV
  rw [roundTrip, modwt_capture_four_one h g x0 x1 x2 x3]
  dsimp only
  rw [hs]

theorem smoothCalls_one (V g : List α) : smoothCalls V g 1 =
    Call.Level 1 :: (Details.zerophaseAll V g 0).map Call.value := by
  have hr : List.range 1 = [0] := rfl
  simp only [smoothCalls, hr, List.flatMap_cons, List.flatMap_nil, List.append_nil, smoothStage]
  rfl

theorem detailCalls_zero (W h g : List α) : detailCalls W h g 0 =
    Call.Level 1 :: (Details.zerophaseAll W h 0).map Call.value := by
  have hr : List.range (0 + 1) = [0] := rfl
  simp only [detailCalls, hr, List.flatMap_cons, List.flatMap_nil, List.append_nil, detailStage,
    if_true]
  rfl

theorem SaveLastLevel_capture_one (vs : List α) :
    drive SaveLastLevel (Call.Level 1 :: vs.map Call.value) (SaveLastLevelState.init 1) =
      { on_ := true, last_ := 1, vals_ := vs } := by
  have h1 : (SaveLastLevel (α := α)).apply (Call.Level 1) (SaveLastLevelState.init 1) =
      { on_ := true, last_ := 1, vals_ := [] } := by
    simp [Sink.apply, SaveLastLevel, SaveLastLevelState.init]
  rw [drive_cons, h1, SaveLastLevel_values_on _ _ rfl]
  simp

theorem smoothWaveform_one (V g : List α) (hV : 1 ≤ V.length) :
    smoothWaveform g V 1 = Details.zerophaseAll V g 0 := by
  have hs := smooth_of_valid SaveLastLevel V g 1 (SaveLastLevelState.init ((1 : Nat) : Int))
    (le_refl 1) (by simpa using hV)
  rw [smoothWaveform, hs]
  dsimp only
  rw [smoothCalls_one]
  exact congrArg SaveLastLevelState.vals_ (SaveLastLevel_capture_one _)

theorem drive_onIndex_zero {τ : Type} (s : Sink τ α) (calls : List (Call α)) (x : τ) :
    drive (Sink.onIndex 0 s) calls [x] = [drive s calls x] := by
  induction calls generalizing x with
  | nil => rfl
  | cons c rest ih =>
    rw [drive_cons, drive_cons]
    have h1 : (Sink.onIndex 0 s).apply c [x] = [s.apply c x] := by
      cases c <;> rfl
    rw [h1, ih]

theorem replay_single_tag {σ : Type} (sinks : Nat → Sink σ α) (calls : List (Call α))
    (w : σ) :
    replay sinks (calls.map (fun c => (0, c))) w = drive (sinks 0) calls w := by
  induction calls generalizing w with
  | nil => rfl
  | cons c rest ih =>
    simp only [List.map_cons, replay, drive, List.foldl_cons] at ih ⊢
    exact ih _

theorem detailWaveforms_one (W h g : List α) (hW : 1 ≤ W.length) :
    detailWaveforms h g [W] = [Details.zerophaseAll W h 0] := by
  have hr : List.range ([W] : List (List α)).length = [0] := rfl
  have hv := details_of_valid [Sink.onIndex 0 (SaveLastLevel (α := α))] [W] h g
    [SaveLastLevelState.init (((0 : Nat) : Int) + 1)] W.length (by simp) (by simpa using hW)
    (by
      intro i hi
      have hi0 : i = 0 := by simpa using hi
      subst hi0
      rfl)
  rw [detailWaveforms]
  simp only [hr, List.map_cons, List.map_nil]
  rw [hv.2]
  simp only [hr, List.flatMap_cons, List.flatMap_nil, List.append_nil, List.getD_cons_zero]
  rw [replay_single_tag]
  simp only [List.getD_cons_zero]
  rw [drive_onIndex_zero, detailCalls_zero]
  have hc := SaveLastLevel_capture_one (Details.zerophaseAll W h 0)
  simp only [Nat.cast_zero, zero_add, List.map_cons, List.map_nil]
  rw [hc]

theorem mraSum_four_one (h g : List α) (x0 x1 x2 x3 : α) :
    mraSum h g [x0, x1, x2, x3] 1 =
      List.zipWith (fun a b => a + b)
        (Details.zerophaseAll (Details.forwardV [x0, x1, x2, x3] h g 0) g 0)
        (Details.zerophaseAll (Details.forwardW [x0, x1, x2, x3] h g 0) h 0) := by
  have hV : 1 ≤ (Details.forwardV [x0, x1, x2, x3] h g 0).length := by
    rw [forwardV_length]; simp
  have hW : 1 ≤ (Details.forwardW [x0, x1, x2, x3] h g 0).length := by
    rw [forwardW_length]; simp
  rw [mraSum, modwt_capture_four_one h g x0 x1 x2 x3]
  dsimp only
  rw [smoothWaveform_one _ _ hV, detailWaveforms_one _ _ _ hW]
  rfl

theorem zipWith_same {β γ : Type} (f : β → β → γ) (l : List β) :
    List.zipWith f l l = l.map (fun a => f a a) := by
  induction l with
  | nil => rfl
  | cons a rest ih => simp [ih]

theorem zipWith_zerophase_eq_backward (V W h g : List α) (j : Nat) (hL : g.length = h.length)
    (hW : W.length = V.length) :
    List.zipWith (fun a b => a + b) (Details.zerophaseAll V g j) (Details.zerophaseAll W h j) =
      Details.backwardAll V W h g j := by
  simp only [Details.zerophaseAll, Details.backwardAll, hW, List.zipWith_map, zipWith_same]
  apply List.map_congr_left
  intro t _
  exact (imodwt_backward_at_split V W h g (2 ^ j) t hL hW).symm

theorem mraSum_eq_roundTrip_four_one (h g : List α) (x0 x1 x2 x3 : α) (hL : g.length = h.length) :
    mraSum h g [x0, x1, x2, x3] 1 = roundTrip h g [x0, x1, x2, x3] 1 := by
  rw [mraSum_four_one, roundTrip_four_one]
  exact zipWith_zerophase_eq_backward _ _ h g 0 hL (by rw [forwardV_length, forwardW_length])

theorem forwardV_div (X h g : List α) (s : α) (j : Nat) :
    Details.forwardV X (h.map (fun x => x / s)) (g.map (fun x => x / s)) j =
      (Details.forwardV X h g j).map (fun x => x / s) := by
  simp only [Details.forwardV, modwt_forward_at_div, List.map_map]
  rfl

theorem forwardW_div (X h g : List α) (s : α) (j : Nat) :
    Details.forwardW X (h.map (fun x => x / s)) (g.map (fun x => x / s)) j =
      (Details.forwardW X h g j).map (fun x => x / s) := by
  simp only [Details.forwardW, modwt_forward_at_div, List.map_map]
  rfl

theorem backwardAll_div (V W h g : List α) (s : α) (j : Nat) :
    Details.backwardAll (V.map (fun x => x / s)) (W.map (fun x => x / s))
        (h.map (fun x => x / s)) (g.map (fun x => x / s)) j =
      (Details.backwardAll V W h g j).map (fun x => x / (s * s)) := by
  simp only [Details.backwardAll, imodwt_backward_at_div, List.map_map, List.length_map]
  rfl

theorem zerophaseAll_div (K f : List α) (s : α) (j : Nat) :
    Details.zerophaseAll (K.map (fun x => x / s)) (f.map (fun x => x / s)) j =
      (Details.zerophaseAll K f j).map (fun x => x / (s * s)) := by
  simp only [Details.zerophaseAll, imodwt_backward_zerophase_at_div, List.map_map, List.length_map]
  rfl

theorem forward_nineteen_unit
    (g0 g1 g2 g3 g4 g5 g6 g7 g8 g9 g10 g11 g12 g13 g14 g15 g16 g17 g18 : α)
    (h0 h1 h2 h3 h4 h5 h6 h7 h8 h9 h10 h11 h12 h13 h14 h15 h16 h17 h18 : α) :
    Details.forwardV [1, 0, 0, 0]
      [h0, h1, h2, h3, h4, h5, h6, h7, h8, h9, h10, h11, h12, h13, h14, h15, h16, h17, h18]
      [g0, g1, g2, g3, g4, g5, g6, g7, g8, g9, g10, g11, g12, g13, g14, g15, g16, g17, g18] 0 =
      [g0 + g4 + g8 + g12 + g16, g1 + g5 + g9 + g13 + g17, g2 + g6 + g10 + g14 + g18,
        g3 + g7 + g11 + g15] ∧
    Details.forwardW [1, 0, 0, 0]
      [h0, h1, h2, h3, h4, h5, h6, h7, h8, h9, h10, h11, h12, h13, h14, h15, h16, h17, h18]
      [g0, g1, g2, g3, g4, g5, g6, g7, g8, g9, g10, g11, g12, g13, g14, g15, g16, g17, g18] 0 =
      [h0 + h4 + h8 + h12 + h16, h1 + h5 + h9 + h13 + h17, h2 + h6 + h10 + h14 + h18,
        h3 + h7 + h11 + h15] := by
  have hr : List.range 4 = [0, 1, 2, 3] := rfl
  simp only [Details.forwardV, Details.forwardW, Details.modwt_forward_at, List.length_cons,
    List.length_nil, List.range'_succ, List.range'_zero, hr, List.map_cons, List.map_nil,
    List.foldl_cons, List.foldl_nil, List.getD_cons_zero, List.getD_cons_succ]
  simp [Details.fwdIdx]

theorem backward_nineteen (v0 v1 v2 v3 w0 w1 w2 w3 : α)
    (g0 g1 g2 g3 g4 g5 g6 g7 g8 g9 g10 g11 g12 g13 g14 g15 g16 g17 g18 : α)
    (h0 h1 h2 h3 h4 h5 h6 h7 h8 h9 h10 h11 h12 h13 h14 h15 h16 h17 h18 : α) :
    Details.backwardAll [v0, v1, v2, v3] [w0, w1, w2, w3]
      [h0, h1, h2, h3, h4, h5, h6, h7, h8, h9, h10, h11, h12, h13, h14, h15, h16, h17, h18]
      [g0, g1, g2, g3, g4, g5, g6, g7, g8, g9, g10, g11, g12, g13, g14, g15, g16, g17, g18] 0 =
      [
        (g0 * v0 + h0 * w0) + (g1 * v1 + h1 * w1) + (g2 * v2 + h2 * w2) + (g3 * v3 + h3 * w3) +
          (g4 * v0 + h4 * w0) + (g5 * v1 + h5 * w1) + (g6 * v2 + h6 * w2) + (g7 * v3 + h7 * w3) +
          (g8 * v0 + h8 * w0) + (g9 * v1 + h9 * w1) + (g10 * v2 + h10 * w2) +
          (g11 * v3 + h11 * w3) + (g12 * v0 + h12 * w0) + (g13 * v1 + h13 * w1) +
          (g14 * v2 + h14 * w2) + (g15 * v3 + h15 * w3) + (g16 * v0 + h16 * w0) +
          (g17 * v1 + h17 * w1) + (g18 * v2 + h18 * w2),
        (g0 * v1 + h0 * w1) + (g1 * v2 + h1 * w2) + (g2 * v3 + h2 * w3) + (g3 * v0 + h3 * w0) +
          (g4 * v1 + h4 * w1) + (g5 * v2 + h5 * w2) + (g6 * v3 + h6 * w3) + (g7 * v0 + h7 * w0) +
          (g8 * v1 + h8 * w1) + (g9 * v2 + h9 * w2) + (g10 * v3 + h10 * w3) +
          (g11 * v0 + h11 * w0) + (g12 * v1 + h12 * w1) + (g13 * v2 + h13 * w2) +
          (g14 * v3 + h14 * w3) + (g15 * v0 + h15 * w0) + (g16 * v1 + h16 * w1) +
          (g17 * v2 + h17 * w2) + (g18 * v3 + h18 * w3),
        (g0 * v2 + h0 * w2) + (g1 * v3 + h1 * w3) + (g2 * v0 + h2 * w0) + (g3 * v1 + h3 * w1) +
          (g4 * v2 + h4 * w2) + (g5 * v3 + h5 * w3) + (g6 * v0 + h6 * w0) + (g7 * v1 + h7 * w1) +
          (g8 * v2 + h8 * w2) + (g9 * v3 + h9 * w3) + (g10 * v0 + h10 * w0) +
          (g11 * v1 + h11 * w1) + (g12 * v2 + h12 * w2) + (g13 * v3 + h13 * w3) +
          (g14 * v0 + h14 * w0) + (g15 * v1 + h15 * w1) + (g16 * v2 + h16 * w2) +
          (g17 * v3 + h17 * w3) + (g18 * v0 + h18 * w0),
        (g0 * v3 + h0 * w3) + (g1 * v0 + h1 * w0) + (g2 * v1 + h2 * w1) + (g3 * v2 + h3 * w2) +
          (g4 * v3 + h4 * w3) + (g5 * v0 + h5 * w0) + (g6 * v1 + h6 * w1) + (g7 * v2 + h7 * w2) +
          (g8 * v3 + h8 * w3) + (g9 * v0 + h9 * w0) + (g10 * v1 + h10 * w1) +
          (g11 * v2 + h11 * w2) + (g12 * v3 + h12 * w3) + (g13 * v0 + h13 * w0) +
          (g14 * v1 + h14 * w1) + (g15 * v2 + h15 * w2) + (g16 * v3 + h16 * w3) +
          (g17 * v0 + h17 * w0) + (g18 * v1 + h18 * w1)] := by
  have hr : List.range 4 = [0, 1, 2, 3] := rfl
  simp only [Details.backwardAll, Details.imodwt_backward_at, List.length_cons,
    List.length_nil, List.range'_succ, List.range'_zero, hr, List.map_cons, List.map_nil,
    List.foldl_cons, List.foldl_nil, List.getD_cons_zero, List.getD_cons_succ]
  simp [Details.bwdIdx]
  exact ⟨rfl, rfl, rfl, rfl⟩

end SingleLevel

section DaubNumbers

variable {α : Type} [LinearOrderedField α]

theorem Daub20_DWT_taps (s : α) :
    (Filter.Details.Daub20 Transform.DWT s).1 = [
      0.0000803244674257, 0.0001164668551285, -0.0006858566949566, -0.001992405295193,
      0.0013953517470692, 0.0107331754833036, 0.003606553566988, -0.0332126740593703,
      -0.029457536821848, 0.0713941471663697, 0.0930573646035802, -0.127369340335789,
      -0.19594627437734, 0.249846424327228, 0.281172343660649, -0.688459039453625,
      0.52720118893172, -0.188176800077686, 0.0266700579005546] ∧
    (Filter.Details.Daub20 Transform.DWT s).2 = [
      0.0266700579005546, 0.188176800077686, 0.52720118893172, 0.688459039453625,
      0.281172343660649, -0.249846424327228, -0.19594627437734, 0.127369340335789,
      0.0930573646035802, -0.0713941471663697, -0.029457536821848, 0.0332126740593703,
      0.003606553566988, -0.0107331754833036, 0.0013953517470692, 0.001992405295193,
      -0.0006858566949566, -0.0001164668551285, 0.0000803244674257] := by
  simp [Filter.Details.Daub20, Filter.Details.make_filter, Filter.Details.Daub20_garr,
    Filter.Details.quadraticMirror, Filter.Details.quadraticMirrorLoop]
  norm_num

theorem Daub20_unit_backward (s : α) :
    Details.backwardAll
      (Details.forwardV [1, 0, 0, 0] (Filter.Details.Daub20 Transform.DWT s).1
        (Filter.Details.Daub20 Transform.DWT s).2 0)
      (Details.forwardW [1, 0, 0, 0] (Filter.Details.Daub20 Transform.DWT s).1
        (Filter.Details.Daub20 Transform.DWT s).2 0)
      (Filter.Details.Daub20 Transform.DWT s).1 (Filter.Details.Daub20 Transform.DWT s).2 0 =
      [50000726542930837555942306989419 / 25000000000000000000000000000000, 0,
        -363262655010338410609943343 / 12500000000000000000000000000000, 0] := by
  rw [(Daub20_DWT_taps s).1, (Daub20_DWT_taps s).2,
    (forward_nineteen_unit _ _ _ _ _ _ _ _ _ _ _ _ _ _ _ _ _ _ _
      _ _ _ _ _ _ _ _ _ _ _ _ _ _ _ _ _ _ _).1,
    (forward_nineteen_unit _ _ _ _ _ _ _ _ _ _ _ _ _ _ _ _ _ _ _
      _ _ _ _ _ _ _ _ _ _ _ _ _ _ _ _ _ _ _).2,
    backward_nineteen]
  norm_num

theorem roundTrip_Daub20_unit (s : α) (hs : s * s = 2) :
    roundTrip (Filter.Details.Daub20 Transform.MODWT s).1
        (Filter.Details.Daub20 Transform.MODWT s).2 [1, 0, 0, 0] 1 =
      [50000726542930837555942306989419 / 50000000000000000000000000000000, 0,
        -363262655010338410609943343 / 25000000000000000000000000000000, 0] := by
  have hb := Daub20_unit_backward s
  obtain ⟨e0, e2, e1⟩ := make_filter_modwt_eq s (Filter.Details.Daub20_garr (α := α))
  unfold Filter.Details.Daub20 at hb ⊢
  rw [e0] at hb
  rw [roundTrip_four_one, e1, e2, forwardV_div, forwardW_div, backwardAll_div, hb, hs]
  norm_num

theorem not_closeTo_Daub20_unit :
    ¬ closeTo (1 / 100000 : α)
      [50000726542930837555942306989419 / 50000000000000000000000000000000, 0,
        -363262655010338410609943343 / 25000000000000000000000000000000, 0] [1, 0, 0, 0] := by
  rintro ⟨-, h⟩
  have h0 := h 0 (by simp)
  simp only [List.getD_cons_zero] at h0
  rw [abs_le] at h0
  norm_num at h0

end DaubNumbers

section ScalingEmission

variable {α : Type} [Field α] {σ τ : Type}

theorem drive_values_ignored (t : Sink τ α) (ht : HonoursOff t) (vs : List α) (w : τ)
    (hw : t.IsOn w = false) : drive t (vs.map Call.value) w = w := by
  induction vs with
  | nil => rfl
  | cons x rest ih =>
    rw [List.map_cons, drive_cons]
    have h1 : t.apply (Call.value x) w = w := ht.2 w x hw
    rw [h1, ih]

theorem doAllScalingCalls_HonoursOff (t : Sink τ α) (ht : HonoursOff t) (X h g : List α)
    (level : Nat) (w : τ) :
    drive t (doAllScalingCalls X h g level (t.IsOn w)) w =
      if t.IsOn w then
        drive t ((scalingLevel X h g level).map Call.value)
          (t.Level (level : Int) (t.On (t.Off w)))
      else t.Off w := by
  have hflat : (List.range' 1 (level - 1)).flatMap
      (fun idx => (scalingLevel X h g idx).map Call.value) =
      ((List.range' 1 (level - 1)).flatMap (fun idx => scalingLevel X h g idx)).map
        Call.value := by
    rw [List.map_flatMap]
  have hoff : t.apply Call.Off w = t.Off w := rfl
  unfold doAllScalingCalls
  rw [drive_cons, hoff, drive_append, hflat, drive_values_ignored t ht _ _ (ht.1 w)]
  cases hon : t.IsOn w
  · simp only [Bool.false_eq_true, if_false, List.nil_append]
    exact drive_values_ignored t ht _ _ (ht.1 w)
  · simp only [if_true, List.cons_append, List.nil_append, drive_cons]
    rfl

theorem doAllScalingCalls_example :
    doAllScalingCalls ([1, 2] : List ℚ)
        (Filter.Details.make_filter Transform.MODWT (1 : ℚ) Filter.FType.Haar.garr).1
        (Filter.Details.make_filter Transform.MODWT (1 : ℚ) Filter.FType.Haar.garr).2 2 true =
      [Call.Off, Call.value (2121320343559641 / 1000000000000000),
        Call.value (2121320343559641 / 1000000000000000), Call.On, Call.Level 2,
        Call.value (1499999999999997775155641349627 / 500000000000000000000000000000),
        Call.value (1499999999999997775155641349627 / 500000000000000000000000000000)] := by
  have hr : List.range 2 = [0, 1] := rfl
  simp [doAllScalingCalls, List.range', scalingLevel, Details.forwardV,
    Details.modwt_forward_at, Filter.Details.make_filter, Filter.FType.garr,
    Filter.Details.Haar_garr, Filter.Details.quadraticMirror,
    Filter.Details.quadraticMirrorLoop, hr, Details.fwdIdx]
  norm_num

end ScalingEmission

section ShiftOfModwt

variable {α : Type} [Field α]

theorem vop_calls_levelCalls (N : Nat) (lvl : Int) (V W : List α) (hV : V.length = N) :
    Port.calls Port.vop (levelCalls N lvl V W) = Call.Level lvl :: V.map Call.value := by
  have h0 : Port.calls Port.vop (levelCalls N lvl V W) =
      Call.Level lvl :: Port.calls Port.vop ((List.range N).flatMap (fun t =>
        [(Port.vop, Call.value (V.getD t 0)), (Port.wop, Call.value (W.getD t 0))])) := by
    simp [levelCalls, Port.calls]
  rw [h0, vop_calls_values, range_map_getD V N hV]

theorem vop_calls_modwtProtocol (X h g : List α) (J : Nat) :
    Port.calls Port.vop (modwtProtocol X h g J) =
      (List.range J).flatMap (fun j =>
        Call.Level ((j : Int) + 1) :: (scalingLevel X h g (j + 1)).map Call.value) := by
  induction J with
  | zero => rfl
  | succ J ih =>
    rw [modwtProtocol_succ, List.range_succ, List.flatMap_append]
    have happ : ∀ a b : List (Port × Call α),
        Port.calls Port.vop (a ++ b) = Port.calls Port.vop a ++ Port.calls Port.vop b := by
      intro a b
      simp [Port.calls]
    rw [happ, ih, vop_calls_levelCalls _ _ _ _ (scalingLevel_length X h g (J + 1))]
    simp

theorem modwtSaveAll_world (X h g : List α) (J : Nat) (hJ : 1 ≤ J)
    (hN : 2 ^ (J - 1) ≤ X.length) :
    (modwtSaveAll X h g (J : Int)).err = none ∧
      (modwtSaveAll X h g (J : Int)).world =
        ({ on_ := true, vals_ := (List.range J).map (fun j => scalingLevel X h g (j + 1)) },
          { on_ := true, vals_ := (List.range J).map (fun j => waveletLevel X h g j) }) := by
  unfold modwtSaveAll
  rw [modwt_of_valid _ _ X h g J _ hJ hN]
  refine ⟨rfl, ?_⟩
  show replay _ _ _ = _
  rw [replay_split, wop_calls_modwtProtocol, vop_calls_modwtProtocol]
  simp only [SaveAllValuesState.init, SaveAllValues_blocks, List.nil_append]

theorem modwtSaveAll_rotate (X h g : List α) (s J : Nat) (hJ : 1 ≤ J)
    (hN : 2 ^ (J - 1) ≤ X.length) :
    (modwtSaveAll (X.rotate s) h g (J : Int)).world.1.vals_ =
        (modwtSaveAll X h g (J : Int)).world.1.vals_.map (fun V => V.rotate s) ∧
      (modwtSaveAll (X.rotate s) h g (J : Int)).world.2.vals_ =
        (modwtSaveAll X h g (J : Int)).world.2.vals_.map (fun W => W.rotate s) := by
  rw [(modwtSaveAll_world (X.rotate s) h g J hJ (by rw [List.length_rotate]; exact hN)).2,
    (modwtSaveAll_world X h g J hJ hN).2]
  simp only [List.map_map]
  constructor
  · apply List.map_congr_left
    intro j hj
    have hj2 : j < J := List.mem_range.mp hj
    exact scalingLevel_rotate X h g s (j + 1)
      (Or.inr (le_trans (Nat.pow_le_pow_right (by norm_num) (by omega)) hN))
  · apply List.map_congr_left
    intro j hj
    have hj2 : j < J := List.mem_range.mp hj
    exact waveletLevel_rotate X h g s j
      (le_trans (Nat.pow_le_pow_right (by norm_num) (by omega)) hN)

end ShiftOfModwt

section CheckedKernels

variable {α : Type} [Field α] {σ : Type}

end CheckedKernels

section CheckedCascades

variable {α : Type} [Field α] {σ : Type}

theorem pow_le_of_lengthOk (N : Nat) (e : Int) (j : Nat) (hok : lengthOk N e = true)
    (hj : (j : Int) ≤ e) : 2 ^ j ≤ N :=
  lengthOk_shift N e j hok hj

end CheckedCascades

section CheckedOrchestrators

variable {α : Type} [Field α] {σ : Type}

end CheckedOrchestrators

section CheckedNone

variable {α : Type} [Field α] {σ : Type}

end CheckedNone

section OrchestratorClaims

variable {α : Type} [Field α] {σ : Type}

/-- C10. Level chaining and emission protocol of `modwt`: for depth `J >= 1` and
`N >= 2^(J-1)` the call succeeds and the sinks receive, in this order, for `j = 0 .. J-1`:
`vop.Level(j+1)`, `wop.Level(j+1)`, then for `t = 0 .. N-1` the value `V_(j+1)[t]` on `vop`
followed by `W_(j+1)[t]` on `wop`, where `V_0 = X` and `(V_(j+1), W_(j+1))` is the forward step
applied to the complete `V_j` with shift `2^j` (the pure recursion `scalingLevel` /
`waveletLevel`); recording sinks log exactly `modwtProtocol`. -/
theorem modwt_emission_protocol (vop wop : Sink σ α) (X h g : List α) (J : Nat) (w : σ)
    (hJ : 1 ≤ J) (hN : 2 ^ (J - 1) ≤ X.length) :
    (modwt vop wop X h g (J : Int) w).err = none ∧
      (modwt vop wop X h g (J : Int) w).world =
        replay (Port.sink vop wop) (modwtProtocol X h g J) w ∧
      ∀ b1 b2 : Bool,
        (modwt (recorder Port.vop b1) (recorder Port.wop b2) X h g (J : Int) []).world =
          modwtProtocol X h g J := by
  have hcast : ((J : Int) - 1) = ((J - 1 : Nat) : Int) := by omega
  have hok : lengthOk X.length ((J : Int) - 1) = true := by
    rw [hcast, lengthOk_natCast]
    simpa using hN
  have hgen : ∀ {ρ : Type} (v u : Sink ρ α) (w0 : ρ),
      (modwt v u X h g (J : Int) w0).err = none ∧
        (modwt v u X h g (J : Int) w0).world =
          replay (Port.sink v u) (modwtProtocol X h g J) w0 := by
    intro ρ v u w0
    simp only [modwt, Assert, hok, if_true, Int.toNat_ofNat, modwt_loop]
    exact ⟨trivial, trivial⟩
  refine ⟨(hgen vop wop w).1, (hgen vop wop w).2, ?_⟩
  intro b1 b2
  rw [(hgen (recorder Port.vop b1) (recorder Port.wop b2) []).2]
  rw [replay_recorder_append]
  · simp
  · intro p c l
    cases p <;> cases c <;> rfl

/-- Witness for C10: the series `[1, 3, 5, 7]`, the Haar pair of the DWT variant and depth 2. -/
theorem modwt_emission_protocol_witness :
    1 ≤ 2 ∧ 2 ^ (2 - 1) ≤ ([1, 3, 5, 7] : List ℚ).length ∧
      (modwt (recorder Port.vop true) (recorder Port.wop true) ([1, 3, 5, 7] : List ℚ)
          (Filter.Details.Haar Transform.DWT 1).1 (Filter.Details.Haar Transform.DWT 1).2
          ((2 : Nat) : Int) []).world =
        modwtProtocol [1, 3, 5, 7] (Filter.Details.Haar Transform.DWT 1).1
          (Filter.Details.Haar Transform.DWT 1).2 2 :=
  ⟨by decide, by decide,
    (modwt_emission_protocol (recorder Port.vop true) (recorder Port.wop true) [1, 3, 5, 7]
      (Filter.Details.Haar Transform.DWT 1).1 (Filter.Details.Haar Transform.DWT 1).2 2 []
      (by decide) (by decide)).2.2 true true⟩

end OrchestratorClaims

/-! ## Properties of the filter bank -/

section FilterClaims

open Filter

variable {α : Type} [Field α]

/-- C6. Filter pairing: for every family of the catalog the wavelet filter `h` and the scaling
filter `g` returned by `getFilters` have the same length `L`, and `h` is `g` reversed with
alternating sign starting at `+1`: `h[i] = (-1)^i * g[L-1-i]` for every `i < L`. -/
theorem filter_pairing (wt : Transform) (sqrt2 : α) (f : FType) :
    ∃ h g : List α, getFilters wt sqrt2 f.toInt = Except.ok (h, g) ∧ h.length = g.length ∧
      ∀ i, i < g.length → h.getD i 0 = (-1) ^ i * g.getD (g.length - 1 - i) 0 := by
  refine ⟨(Filter.Details.make_filter wt sqrt2 f.garr).1,
    (Filter.Details.make_filter wt sqrt2 f.garr).2, getFilters_catalog wt sqrt2 f, ?_, ?_⟩
  · rw [(make_filter_length wt sqrt2 f.garr).1, (make_filter_length wt sqrt2 f.garr).2]
  · intro i hi
    exact make_filter_mirror wt sqrt2 f.garr i hi

/-- C7 (what the code does). The filters of `D20` have 19 taps, an odd number different from
the width 20 of the name: the last two literals of the array of `Daub20` are joined into one
initializer. Every other family has the even width of its name. -/
theorem Daub20_filter_length (wt : Transform) (sqrt2 : α) :
    (∃ h g : List α, getFilters wt sqrt2 FType.D20.toInt = Except.ok (h, g) ∧
        h.length = 19 ∧ g.length = 19 ∧ ¬ Even g.length ∧ g.length ≠ FType.D20.width) ∧
      ∀ f : FType, f ≠ FType.D20 →
        ∃ h g : List α, getFilters wt sqrt2 f.toInt = Except.ok (h, g) ∧
          h.length = f.width ∧ g.length = f.width ∧ Even f.width := by
  constructor
  · refine ⟨(Filter.Details.make_filter wt sqrt2 FType.D20.garr).1,
      (Filter.Details.make_filter wt sqrt2 FType.D20.garr).2,
      getFilters_catalog wt sqrt2 FType.D20, ?_, ?_, ?_, ?_⟩
    · rw [(make_filter_length wt sqrt2 _).1]; rfl
    · rw [(make_filter_length wt sqrt2 _).2]; rfl
    · rw [(make_filter_length wt sqrt2 _).2]
      show ¬ Even 19
      decide
    · rw [(make_filter_length wt sqrt2 _).2]
      show 19 ≠ 20
      decide
  · intro f hf
    refine ⟨(Filter.Details.make_filter wt sqrt2 f.garr).1,
      (Filter.Details.make_filter wt sqrt2 f.garr).2, getFilters_catalog wt sqrt2 f, ?_, ?_, ?_⟩
    · rw [(make_filter_length wt sqrt2 _).1]
      cases f <;> first | rfl | exact absurd rfl hf
    · rw [(make_filter_length wt sqrt2 _).2]
      cases f <;> first | rfl | exact absurd rfl hf
    · cases f <;> simp only [FType.width] <;> decide

/-- C8. MODWT normalisation: for every family the DWT variant returns the literal taps of the
family as scaling filter, the MODWT scaling filter is these taps divided by `sqrt(2)`, and
both MODWT filters are the DWT filters divided by `sqrt(2)`, tap by tap. -/
theorem modwt_normalisation (sqrt2 : α) (f : FType) :
    ∃ hM gM hD gD : List α,
      getFilters Transform.MODWT sqrt2 f.toInt = Except.ok (hM, gM) ∧
      getFilters Transform.DWT sqrt2 f.toInt = Except.ok (hD, gD) ∧
      gD = f.garr ∧
      gM = f.garr.map (fun x => x / sqrt2) ∧
      gM = gD.map (fun x => x / sqrt2) ∧
      hM = hD.map (fun x => x / sqrt2) ∧
      (∀ i, i < gM.length → gM.getD i 0 = (f.garr : List α).getD i 0 / sqrt2) := by
  have hm := make_filter_modwt_eq sqrt2 (f.garr : List α)
  refine ⟨(Filter.Details.make_filter Transform.MODWT sqrt2 f.garr).1,
    (Filter.Details.make_filter Transform.MODWT sqrt2 f.garr).2,
    (Filter.Details.make_filter Transform.DWT sqrt2 f.garr).1,
    (Filter.Details.make_filter Transform.DWT sqrt2 f.garr).2,
    getFilters_catalog Transform.MODWT sqrt2 f,
    getFilters_catalog Transform.DWT sqrt2 f, hm.1, hm.2.1, ?_, hm.2.2, ?_⟩
  · rw [hm.1, hm.2.1]
  · intro i hi
    rw [hm.2.1] at hi ⊢
    rw [List.length_map] at hi
    rw [List.getD_eq_getElem _ _ (by simpa using hi), List.getD_eq_getElem _ _ hi]
    simp

/-- C9 as stated fails: for the value 25, outside the catalog, `getFilters` does not fail with
`ConfigError` (it throws `ArgumentError`). -/
theorem getFilters_unknown_not_ConfigError :
    getFilters Transform.MODWT (1 : ℚ) 25 ≠ Except.error Error.ConfigError := by
  rw [getFilters_outside Transform.MODWT (1 : ℚ) 25 (Or.inr (by norm_num))]
  intro h
  cases h

/-- C9 amended. `FType` has 25 enumerators; `getFilters` returns a filter pair (the one
`make_filter` builds from the family's array) for each of them and fails with `ArgumentError`
for every other value, so no default filter is ever returned. -/
theorem getFilters_total (wt : Transform) (sqrt2 : α) :
    FType.all.length = 25 ∧ FType.all.Nodup ∧ (∀ f : FType, f ∈ FType.all) ∧
      (∀ f : FType,
        getFilters wt sqrt2 f.toInt = Except.ok (Filter.Details.make_filter wt sqrt2 f.garr)) ∧
      (∀ ft : Int, (∀ f : FType, f.toInt ≠ ft) →
        getFilters wt sqrt2 ft = Except.error Error.ArgumentError) := by
  refine ⟨rfl, by decide, ?_, getFilters_catalog wt sqrt2, ?_⟩
  · intro f
    cases f <;> decide
  · intro ft hft
    apply getFilters_outside
    by_contra hcon
    obtain ⟨f, hf⟩ := FType.exists_of_range ft (by omega) (by omega)
    exact hft f hf

end FilterClaims

/-! ## The Haar test vector -/

section HaarCase

theorem haar_run (a b c d : ℚ) :
    (modwtSaveAll [a, b, c, d] (Filter.Details.Haar Transform.DWT 1).1
        (Filter.Details.Haar Transform.DWT 1).2 1).err = none ∧
      (modwtSaveAll [a, b, c, d] (Filter.Details.Haar Transform.DWT 1).1
        (Filter.Details.Haar Transform.DWT 1).2 1).world.1.vals_ =
        [[0.707106781186547 * (a + d), 0.707106781186547 * (b + a),
          0.707106781186547 * (c + b), 0.707106781186547 * (d + c)]] ∧
      (modwtSaveAll [a, b, c, d] (Filter.Details.Haar Transform.DWT 1).1
        (Filter.Details.Haar Transform.DWT 1).2 1).world.2.vals_ =
        [[0.707106781186547 * (a - d), 0.707106781186547 * (b - a),
          0.707106781186547 * (c - b), 0.707106781186547 * (d - c)]] := by
  simp [modwtSaveAll, modwt, modwtStep, Assert, lengthOk, Filter.Details.Haar,
    Filter.Details.make_filter, Filter.Details.Haar_garr, Filter.Details.quadraticMirror,
    Filter.Details.quadraticMirrorLoop, Details.modwt_forward, Details.modwt_forward_at,
    Details.PingPong.first, List.range_succ, List.range'_succ, Details.fwdIdx,
    Sink.onFst, Sink.onSnd, SaveAllValues, SaveAllValuesState.init, pushLast]
  refine ⟨⟨?_, ?_, ?_, ?_⟩, ?_, ?_, ?_, ?_⟩ <;> ring

/-- C3 as stated fails: on `[1, 3, 5, 7]` with the Haar pair built from
`[0.707106781186547, 0.707106781186547]`, depth 1, the scaling coefficients the code emits are
not `[2.828427, 5.656854, 8.485281, 5.656854]` and the wavelet coefficients are not
`[-1.414214, -1.414214, -1.414214, 4.242641]`, even up to a tolerance of 1. -/
theorem haar_case_as_stated_fails :
    ¬ closeTo (1 : ℚ)
        ((modwtSaveAll ([1, 3, 5, 7] : List ℚ) (Filter.Details.Haar Transform.DWT 1).1
          (Filter.Details.Haar Transform.DWT 1).2 1).world.1.vals_.getD 0 [])
        [2.828427, 5.656854, 8.485281, 5.656854] ∧
      ¬ closeTo (1 : ℚ)
        ((modwtSaveAll ([1, 3, 5, 7] : List ℚ) (Filter.Details.Haar Transform.DWT 1).1
          (Filter.Details.Haar Transform.DWT 1).2 1).world.2.vals_.getD 0 [])
        [-1.414214, -1.414214, -1.414214, 4.242641] := by
  rw [(haar_run 1 3 5 7).2.1, (haar_run 1 3 5 7).2.2]
  constructor
  · rintro ⟨-, h⟩
    have h0 := h 0 (by simp)
    simp only [List.getD_cons_zero] at h0
    rw [abs_le] at h0
    norm_num at h0
  · rintro ⟨-, h⟩
    have h0 := h 0 (by simp)
    simp only [List.getD_cons_zero] at h0
    rw [abs_le] at h0
    norm_num at h0

/-- C3 amended. For every series `[a, b, c, d]`, the Haar pair built from
`[0.707106781186547, 0.707106781186547]` and depth 1, `modwt` succeeds and emits the scaling
coefficients `0.707106781186547 * (x[t] + x[t-1 mod 4])` and the wavelet coefficients
`0.707106781186547 * (x[t] - x[t-1 mod 4])`, `t = 0 .. 3`; for `[1, 3, 5, 7]` these are
`[5.656854, 2.828427, 5.656854, 8.485281]` and `[-4.242641, 1.414214, 1.414214, 1.414214]`
up to `1e-6`. -/
theorem haar_case (a b c d : ℚ) :
    (modwtSaveAll [a, b, c, d] (Filter.Details.Haar Transform.DWT 1).1
        (Filter.Details.Haar Transform.DWT 1).2 1).err = none ∧
      (modwtSaveAll [a, b, c, d] (Filter.Details.Haar Transform.DWT 1).1
        (Filter.Details.Haar Transform.DWT 1).2 1).world.1.vals_ =
        [[0.707106781186547 * (a + d), 0.707106781186547 * (b + a),
          0.707106781186547 * (c + b), 0.707106781186547 * (d + c)]] ∧
      (modwtSaveAll [a, b, c, d] (Filter.Details.Haar Transform.DWT 1).1
        (Filter.Details.Haar Transform.DWT 1).2 1).world.2.vals_ =
        [[0.707106781186547 * (a - d), 0.707106781186547 * (b - a),
          0.707106781186547 * (c - b), 0.707106781186547 * (d - c)]] ∧
      closeTo (1 / 1000000 : ℚ)
        ((modwtSaveAll ([1, 3, 5, 7] : List ℚ) (Filter.Details.Haar Transform.DWT 1).1
          (Filter.Details.Haar Transform.DWT 1).2 1).world.1.vals_.getD 0 [])
        [5.656854, 2.828427, 5.656854, 8.485281] ∧
      closeTo (1 / 1000000 : ℚ)
        ((modwtSaveAll ([1, 3, 5, 7] : List ℚ) (Filter.Details.Haar Transform.DWT 1).1
          (Filter.Details.Haar Transform.DWT 1).2 1).world.2.vals_.getD 0 [])
        [-4.242641, 1.414214, 1.414214, 1.414214] := by
  refine ⟨(haar_run a b c d).1, (haar_run a b c d).2.1, (haar_run a b c d).2.2, ?_, ?_⟩
  · rw [(haar_run 1 3 5 7).2.1]
    refine ⟨rfl, ?_⟩
    intro i hi
    simp only [List.getD_cons_zero, List.length_cons, List.length_nil] at hi
    interval_cases i <;> simp only [List.getD_cons_zero, List.getD_cons_succ] <;>
      rw [abs_le] <;> norm_num
  · rw [(haar_run 1 3 5 7).2.2]
    refine ⟨rfl, ?_⟩
    intro i hi
    simp only [List.getD_cons_zero, List.length_cons, List.length_nil] at hi
    interval_cases i <;> simp only [List.getD_cons_zero, List.getD_cons_succ] <;>
      rw [abs_le] <;> norm_num

end HaarCase

/-! ## Properties of the sinks -/

section SinkClaims

variable {α : Type}

/-- C12. Trigger semantics of the printing sink: with a trigger level `pLevel_ >= 0`, after
any call `Level(j)` the sink is on exactly when `j == pLevel_`, whatever its state was, and no
method of `PrintValues` changes `pLevel_`. A sink constructed with trigger 2 and driven through
`Level(1)`, values, `Level(2)`, values, `Level(3)`, values is off during levels 1 and 3, on
during level 2, and passes to `Println` only values received during level 2 (the first
`maxPrints` of them). -/
theorem PrintValues_trigger (canOpen : String → Bool) (basename : String) (maxPrints : Nat)
    (vs1 vs2 vs3 : List α) (h2 : vs2.length < 2 ^ 64) :
    (∀ (s : PrintValuesState α) (j : Int), 0 ≤ s.pLevel_ →
        (((PrintValues canOpen).IsOn ((PrintValues canOpen).Level j s) = true ↔ j = s.pLevel_) ∧
          ((PrintValues canOpen).Level j s).pLevel_ = s.pLevel_)) ∧
      (∀ (s : PrintValuesState α) (t : α),
        ((PrintValues canOpen).On s).pLevel_ = s.pLevel_ ∧
        ((PrintValues canOpen).Off s).pLevel_ = s.pLevel_ ∧
        ((PrintValues canOpen).Reset s).pLevel_ = s.pLevel_ ∧
        ((PrintValues canOpen).call t s).pLevel_ = s.pLevel_) ∧
      ∃ s0 : PrintValuesState α, PrintValuesState.ctor basename maxPrints 2 = Except.ok s0 ∧
        (drive (PrintValues canOpen) (Call.Level 1 :: vs1.map Call.value) s0).on_ = false ∧
        printed (drive (PrintValues canOpen) (Call.Level 1 :: vs1.map Call.value) s0).io = [] ∧
        (drive (PrintValues canOpen) (Call.Level 2 :: vs2.map Call.value)
          (drive (PrintValues canOpen) (Call.Level 1 :: vs1.map Call.value) s0)).on_ = true ∧
        printed (drive (PrintValues canOpen) (Call.Level 2 :: vs2.map Call.value)
          (drive (PrintValues canOpen) (Call.Level 1 :: vs1.map Call.value) s0)).io =
          vs2.take maxPrints ∧
        (drive (PrintValues canOpen) (Call.Level 3 :: vs3.map Call.value)
          (drive (PrintValues canOpen) (Call.Level 2 :: vs2.map Call.value)
            (drive (PrintValues canOpen) (Call.Level 1 :: vs1.map Call.value) s0))).on_ = false ∧
        printed (drive (PrintValues canOpen) (Call.Level 3 :: vs3.map Call.value)
          (drive (PrintValues canOpen) (Call.Level 2 :: vs2.map Call.value)
            (drive (PrintValues canOpen) (Call.Level 1 :: vs1.map Call.value) s0))).io =
          vs2.take maxPrints := by
  refine ⟨?_, ?_, ?_⟩
  · intro s j hp
    have hnl : ¬ s.pLevel_ < 0 := by omega
    by_cases hj : j = s.pLevel_
    · subst hj
      simp only [PrintValues, PrintValuesState.Level, PrintValuesState.closeIfOpen]
      cases hf : s.fptr_ <;> cases hu : s.useStdout_ <;> cases hc : canOpen (s.base_ ++ "." ++ toString s.pLevel_) <;>
        simp [hp, hnl, hf, hu, hc]
    · simp only [PrintValues, PrintValuesState.Level, PrintValuesState.closeIfOpen]
      cases hf : s.fptr_ <;> cases hu : s.useStdout_ <;> simp [hp, hj, hf, hu]
  · intro s t
    refine ⟨rfl, rfl, ?_, ?_⟩
    · simp only [PrintValues, PrintValuesState.Reset, PrintValuesState.closeIfOpen]
      cases hf : s.fptr_ <;> cases hu : s.useStdout_ <;> simp [hf, hu]
    · simp only [PrintValues, PrintValuesState.call]
      split
      · split <;> rfl
      · rfl
  · have hL1 : (PrintValues canOpen).apply (Call.Level 1)
        ({ pLevel_ := 2, currentPrints_ := 0, maxPrints_ := maxPrints, base_ := basename,
           on_ := true, doReset_ := false, useStdout_ := basename.isEmpty, fptr_ := none,
           io := [], thrown := none } : PrintValuesState α) =
        { pLevel_ := 2, currentPrints_ := 0, maxPrints_ := maxPrints, base_ := basename,
          on_ := false, doReset_ := false, useStdout_ := basename.isEmpty, fptr_ := none,
          io := [], thrown := none } := by
      simp [Sink.apply, PrintValues, PrintValuesState.Level, PrintValuesState.closeIfOpen]
    have hA : drive (PrintValues canOpen) (Call.Level 1 :: vs1.map Call.value)
        ({ pLevel_ := 2, currentPrints_ := 0, maxPrints_ := maxPrints, base_ := basename,
           on_ := true, doReset_ := false, useStdout_ := basename.isEmpty, fptr_ := none,
           io := [], thrown := none } : PrintValuesState α) =
        { pLevel_ := 2, currentPrints_ := 0, maxPrints_ := maxPrints, base_ := basename,
          on_ := false, doReset_ := false, useStdout_ := basename.isEmpty, fptr_ := none,
          io := [], thrown := none } := by
      rw [drive_cons, hL1, PrintValues_values_off canOpen vs1 _ rfl]
    have hB : ∃ sb : PrintValuesState α,
        (PrintValues canOpen).apply (Call.Level 2)
          ({ pLevel_ := 2, currentPrints_ := 0, maxPrints_ := maxPrints, base_ := basename,
             on_ := false, doReset_ := false, useStdout_ := basename.isEmpty, fptr_ := none,
             io := [], thrown := none } : PrintValuesState α) = sb ∧
        sb.on_ = true ∧ sb.currentPrints_ = 0 ∧ sb.maxPrints_ = maxPrints ∧ sb.pLevel_ = 2 ∧
        printed sb.io = [] := by
      refine ⟨_, rfl, ?_⟩
      simp only [Sink.apply, PrintValues, PrintValuesState.Level, PrintValuesState.closeIfOpen]
      cases hu : basename.isEmpty <;> cases hc : canOpen (basename ++ "." ++ toString (2 : Int)) <;>
        simp [hu, hc, printed]
    obtain ⟨sb, hsb, hon, hcur, hmax, hpl, hpr⟩ := hB
    have hB2 : drive (PrintValues canOpen) (Call.Level 2 :: vs2.map Call.value)
        ({ pLevel_ := 2, currentPrints_ := 0, maxPrints_ := maxPrints, base_ := basename,
           on_ := false, doReset_ := false, useStdout_ := basename.isEmpty, fptr_ := none,
           io := [], thrown := none } : PrintValuesState α) =
        { sb with currentPrints_ := sb.currentPrints_ + vs2.length,
                  io := sb.io ++ (vs2.take (sb.maxPrints_ - sb.currentPrints_)).map
                    (IOEvent.println sb.fptr_) } := by
      rw [drive_cons, hsb, PrintValues_values_on canOpen vs2 sb hon (by rw [hcur]; omega)]
    have hC : ∀ sc : PrintValuesState α, sc.pLevel_ = 2 →
        ((PrintValues canOpen).apply (Call.Level 3) sc).on_ = false ∧
        printed ((PrintValues canOpen).apply (Call.Level 3) sc).io = printed sc.io := by
      intro sc hp
      simp only [Sink.apply, PrintValues, PrintValuesState.Level, PrintValuesState.closeIfOpen]
      cases hf : sc.fptr_ <;> cases hu : sc.useStdout_ <;>
        simp [hp, hf, hu, printed, List.filterMap_append]
    refine ⟨{ pLevel_ := 2, currentPrints_ := 0, maxPrints_ := maxPrints, base_ := basename,
              on_ := true, doReset_ := false, useStdout_ := basename.isEmpty, fptr_ := none,
              io := [], thrown := none }, by simp [PrintValuesState.ctor, Assert], ?_⟩
    rw [hA, hB2]
    have hpr2 : printed ({ sb with
        currentPrints_ := sb.currentPrints_ + vs2.length,
        io := sb.io ++ (vs2.take (sb.maxPrints_ - sb.currentPrints_)).map
          (IOEvent.println sb.fptr_) } : PrintValuesState α).io = vs2.take maxPrints := by
      simp only [printed_append, printed_println, hpr, hcur, hmax, List.nil_append, Nat.sub_zero]
    have hc3 := hC { sb with
        currentPrints_ := sb.currentPrints_ + vs2.length,
        io := sb.io ++ (vs2.take (sb.maxPrints_ - sb.currentPrints_)).map
          (IOEvent.println sb.fptr_) } hpl
    refine ⟨rfl, rfl, hon, hpr2, ?_, ?_⟩
    · rw [drive_cons, PrintValues_values_off canOpen vs3 _ hc3.1]
      exact hc3.1
    · rw [drive_cons, PrintValues_values_off canOpen vs3 _ hc3.1, hc3.2]
      exact hpr2

/-- Witness for C12: a file-backed sink with trigger 2 and `maxPrints = 2`, every open
succeeding, driven with one value in level 1, three in level 2 and one in level 3. -/
theorem PrintValues_trigger_witness :
    ([2, 3, 4] : List ℚ).length < 2 ^ 64 ∧
      ∃ s0 : PrintValuesState ℚ, PrintValuesState.ctor "w" 2 2 = Except.ok s0 ∧
        (drive (PrintValues (fun _ => true)) (Call.Level 1 :: [1].map Call.value) s0).on_ = false ∧
        printed (drive (PrintValues (fun _ => true)) (Call.Level 1 :: [1].map Call.value) s0).io
          = [] ∧
        (drive (PrintValues (fun _ => true)) (Call.Level 2 :: [2, 3, 4].map Call.value)
          (drive (PrintValues (fun _ => true)) (Call.Level 1 :: [1].map Call.value) s0)).on_
          = true ∧
        printed (drive (PrintValues (fun _ => true)) (Call.Level 2 :: [2, 3, 4].map Call.value)
          (drive (PrintValues (fun _ => true)) (Call.Level 1 :: [1].map Call.value) s0)).io =
          [2, 3, 4].take 2 ∧
        (drive (PrintValues (fun _ => true)) (Call.Level 3 :: [5].map Call.value)
          (drive (PrintValues (fun _ => true)) (Call.Level 2 :: [2, 3, 4].map Call.value)
            (drive (PrintValues (fun _ => true)) (Call.Level 1 :: [1].map Call.value) s0))).on_
          = false ∧
        printed (drive (PrintValues (fun _ => true)) (Call.Level 3 :: [5].map Call.value)
          (drive (PrintValues (fun _ => true)) (Call.Level 2 :: [2, 3, 4].map Call.value)
            (drive (PrintValues (fun _ => true)) (Call.Level 1 :: [1].map Call.value) s0))).io =
          [2, 3, 4].take 2 :=
  ⟨by norm_num,
    (PrintValues_trigger (fun _ => true) "w" 2 ([1] : List ℚ) [2, 3, 4] [5] (by norm_num)).2.2⟩

/-- C13 as stated fails: a `SaveLastLevel` sink with trigger 2 driven through `Level(1)`, a
value, `Level(2)`, a value, `Level(3)`, a value is still on during level 3 and ends holding
the value received during level 3, not the one received during level 2. -/
theorem SaveLastLevel_trigger_as_stated_fails :
    (drive SaveLastLevel
        [Call.Level 1, Call.value 10, Call.Level 2, Call.value 20, Call.Level 3]
        (SaveLastLevelState.init 2 : SaveLastLevelState ℚ)).on_ = true ∧
      (drive SaveLastLevel
        [Call.Level 1, Call.value 10, Call.Level 2, Call.value 20, Call.Level 3, Call.value 30]
        (SaveLastLevelState.init 2 : SaveLastLevelState ℚ)).vals_ = [30] ∧
      (drive SaveLastLevel
        [Call.Level 1, Call.value 10, Call.Level 2, Call.value 20, Call.Level 3, Call.value 30]
        (SaveLastLevelState.init 2 : SaveLastLevelState ℚ)).vals_ ≠ [20] := by
  simp [drive, Sink.apply, SaveLastLevel, SaveLastLevelState.init]

/-- C13 amended. A `SaveLastLevel` sink constructed with trigger 2 is off during level 1
(values received there are not retained), is switched on by `Level(2)` and retains the values
received during level 2; `Level(3)` leaves it on, clears the retained values, and the values
received during level 3 are retained instead. -/
theorem SaveLastLevel_trigger (vs1 vs2 vs3 : List α) :
    (drive SaveLastLevel (Call.Level 1 :: vs1.map Call.value)
        (SaveLastLevelState.init 2 : SaveLastLevelState α)) =
        { on_ := false, last_ := 2, vals_ := [] } ∧
      (drive SaveLastLevel (Call.Level 2 :: vs2.map Call.value)
        (drive SaveLastLevel (Call.Level 1 :: vs1.map Call.value)
          (SaveLastLevelState.init 2 : SaveLastLevelState α))) =
        { on_ := true, last_ := 2, vals_ := vs2 } ∧
      (SaveLastLevel.Level 3 ({ on_ := true, last_ := 2, vals_ := vs2 } : SaveLastLevelState α)) =
        { on_ := true, last_ := 2, vals_ := [] } ∧
      (drive SaveLastLevel (Call.Level 3 :: vs3.map Call.value)
        (drive SaveLastLevel (Call.Level 2 :: vs2.map Call.value)
          (drive SaveLastLevel (Call.Level 1 :: vs1.map Call.value)
            (SaveLastLevelState.init 2 : SaveLastLevelState α)))) =
        { on_ := true, last_ := 2, vals_ := vs3 } := by
  have hA : drive SaveLastLevel (Call.Level 1 :: vs1.map Call.value)
      (SaveLastLevelState.init 2 : SaveLastLevelState α) =
      { on_ := false, last_ := 2, vals_ := [] } := by
    have h1 : (SaveLastLevel (α := α)).apply (Call.Level 1) (SaveLastLevelState.init 2) =
        { on_ := false, last_ := 2, vals_ := [] } := by
      simp [Sink.apply, SaveLastLevel, SaveLastLevelState.init]
    rw [drive_cons, h1, SaveLastLevel_values_off vs1 _ rfl]
  have hB : drive SaveLastLevel (Call.Level 2 :: vs2.map Call.value)
      ({ on_ := false, last_ := 2, vals_ := [] } : SaveLastLevelState α) =
      { on_ := true, last_ := 2, vals_ := vs2 } := by
    have h1 : (SaveLastLevel (α := α)).apply (Call.Level 2) { on_ := false, last_ := 2, vals_ := [] } =
        { on_ := true, last_ := 2, vals_ := [] } := by
      simp [Sink.apply, SaveLastLevel]
    rw [drive_cons, h1, SaveLastLevel_values_on vs2 _ rfl]
    simp
  have h3 : (SaveLastLevel (α := α)).apply (Call.Level 3) { on_ := true, last_ := 2, vals_ := vs2 } =
      { on_ := true, last_ := 2, vals_ := [] } := by
    simp [Sink.apply, SaveLastLevel]
  have hC : drive SaveLastLevel (Call.Level 3 :: vs3.map Call.value)
      ({ on_ := true, last_ := 2, vals_ := vs2 } : SaveLastLevelState α) =
      { on_ := true, last_ := 2, vals_ := vs3 } := by
    rw [drive_cons, h3, SaveLastLevel_values_on vs3 _ rfl]
    simp
  rw [hA, hB, hC]
  exact ⟨rfl, rfl, h3, rfl⟩

/-- C14. Reset of the capture sinks: in every state, after `Reset()` the retained-value store
of `SaveAllValues` and of `SaveLastLevel` is empty and `IsOn()` is true, and a second `Reset()`
changes nothing. -/
theorem capture_Reset (a : SaveAllValuesState α) (l : SaveLastLevelState α) :
    (SaveAllValues.Reset a).vals_ = [] ∧ SaveAllValues.IsOn (SaveAllValues.Reset a) = true ∧
      SaveAllValues.Reset (SaveAllValues.Reset a) = SaveAllValues.Reset a ∧
      (SaveLastLevel.Reset l).vals_ = [] ∧ SaveLastLevel.IsOn (SaveLastLevel.Reset l) = true ∧
      SaveLastLevel.Reset (SaveLastLevel.Reset l) = SaveLastLevel.Reset l := by
  simp [SaveAllValues, SaveLastLevel]

/-- C15 (what the code does). `SaveLastLevel::Level` clears the retained values whenever the
sink is on. When the sink has been switched `Off()`, `Level(level)` leaves it unchanged only if
a trigger is configured and differs from `level`; with the default (no trigger, `last_ < 0`)
or with `last_ == level` it switches the sink on and clears the retained values: a default
sink holding `[1, 2]` and switched off is on and empty after `Level(5)`. -/
theorem SaveLastLevel_Level_when_off :
    SaveLastLevel.Level 5 ({ on_ := false, last_ := -1, vals_ := [1, 2] } : SaveLastLevelState ℚ) =
        { on_ := true, last_ := -1, vals_ := [] } ∧
      (∀ (s : SaveLastLevelState ℚ) (level : Int), s.on_ = true →
        (SaveLastLevel.Level level s).vals_ = [] ∧ (SaveLastLevel.Level level s).on_ = true) ∧
      (∀ (s : SaveLastLevelState ℚ) (level : Int), s.on_ = false →
        (SaveLastLevel.Level level s = s ↔ (s.last_ ≠ level ∧ 0 ≤ s.last_))) := by
  refine ⟨by simp [SaveLastLevel], ?_, ?_⟩
  · intro s level hon
    simp [SaveLastLevel, hon]
  · intro s level hoff
    obtain ⟨b, last, vals⟩ := s
    simp only at hoff
    subst hoff
    by_cases h1 : last = level
    · simp [SaveLastLevel, h1]
    · by_cases h2 : last < 0
      · simp [SaveLastLevel, h1, h2]
      · simp [SaveLastLevel, h1, h2]
        omega

/-- C20 as stated fails: constructing a `PrintValues` sink with an empty basename and
`pLevel = -1` is not rejected with `ArgumentError` (the constructor throws `LogicError`). -/
theorem PrintValues_ctor_not_ArgumentError :
    (PrintValuesState.ctor "" 10 (-1) : Except Error (PrintValuesState ℚ)) ≠
      Except.error Error.ArgumentError := by
  have he : "".isEmpty = true := by decide
  simp [PrintValuesState.ctor, Assert, he]

/-- C20 amended. Constructing a `PrintValues` sink with an empty basename (standard output)
and `pLevel < 0` is rejected with `LogicError`; every other combination constructs a sink that
is on, with no destination open (`fptr_` null, no library call made) and a print counter
of 0. -/
theorem PrintValues_ctor (basename : String) (maxPrints : Nat) (pLevel : Int) :
    ((basename.isEmpty = true ∧ pLevel < 0) →
        (PrintValuesState.ctor basename maxPrints pLevel : Except Error (PrintValuesState α)) =
          Except.error Error.LogicError) ∧
      (¬ (basename.isEmpty = true ∧ pLevel < 0) →
        (PrintValuesState.ctor basename maxPrints pLevel : Except Error (PrintValuesState α)) =
          Except.ok { pLevel_ := pLevel, currentPrints_ := 0, maxPrints_ := maxPrints,
                      base_ := basename, on_ := true, doReset_ := false,
                      useStdout_ := basename.isEmpty, fptr_ := none, io := [],
                      thrown := none }) := by
  constructor
  · rintro ⟨h1, h2⟩
    have h3 : ¬ (0 ≤ pLevel) := by omega
    simp [PrintValuesState.ctor, Assert, h1, h3]
  · intro h
    by_cases h1 : basename.isEmpty = true
    · have h2 : 0 ≤ pLevel := by
        by_contra hc
        exact h ⟨h1, by omega⟩
      simp [PrintValuesState.ctor, Assert, h1, h2]
    · simp [PrintValuesState.ctor, Assert, h1]

end SinkClaims

/-! ## Properties of `smooth` and `imodwt` -/

section CascadeClaims

variable {α : Type} [Field α] {σ : Type}

/-- C18 as stated fails: for `numLevels = 1` and a series of length 2, `smooth` calls
`sop.Level` once (not `numLevels + 1 = 2` times) and offers 2 values (not
`(numLevels + 1) * N = 4`). -/
theorem smooth_as_stated_fails :
    ((smooth (recorder () true) ([1, 2] : List ℚ) [1 / 2, 1 / 2] 1 []).world.countP
        (fun e => e.2.isLevel)) ≠ 1 + 1 ∧
      ((smooth (recorder () true) ([1, 2] : List ℚ) [1 / 2, 1 / 2] 1 []).world.countP
        (fun e => e.2.isValue)) ≠ (1 + 1) * 2 := by
  have h := smooth_of_valid (recorder () true) ([1, 2] : List ℚ) [1 / 2, 1 / 2] 1
    ([] : List (Unit × Call ℚ)) (by norm_num) (by norm_num)
  have hc := countP_level_blocks (fun i => (i : Int) + 1)
    (fun i => smoothStage ([1, 2] : List ℚ) [1 / 2, 1 / 2] 1 (i + 1)) 2 1
    (fun i => smoothStage_length _ _ _ _)
  have hw : (smooth (recorder () true) ([1, 2] : List ℚ) [1 / 2, 1 / 2] 1 []).world =
      (smoothCalls ([1, 2] : List ℚ) [1 / 2, 1 / 2] 1).map (fun c => ((), c)) := by
    have h' : smooth (recorder () true) ([1, 2] : List ℚ) [1 / 2, 1 / 2] 1 [] =
        smooth (recorder () true) ([1, 2] : List ℚ) [1 / 2, 1 / 2] ((1 : Nat) : Int) [] := rfl
    rw [h', h, drive_recorder]
    simp
  rw [hw, List.countP_map, List.countP_map]
  have e1 : ((fun e : Unit × Call ℚ => e.2.isLevel) ∘ fun c => ((), c)) = Call.isLevel := rfl
  have e2 : ((fun e : Unit × Call ℚ => e.2.isValue) ∘ fun c => ((), c)) = Call.isValue := rfl
  rw [e1, e2]
  unfold smoothCalls
  rw [hc.1, hc.2]
  constructor <;> decide

/-- C18 amended. For depth `J >= 1` and `N >= 2^(J-1)`, `smooth(Vj0, scalefilt, J, sop)`
succeeds and cascades the zero-phase step `J` times (shifts `2^(J-1), ..., 2, 1`): `sop.Level`
is called `J` times (`Level(1), ..., Level(J)`), `sop` is offered `J * N` values, and the
last `N` of them are the final stage of the cascade, the smooth waveform. -/
theorem smooth_cascade (sop : Sink σ α) (Vj0 g : List α) (J : Nat) (w : σ)
    (hJ : 1 ≤ J) (hN : 2 ^ (J - 1) ≤ Vj0.length) :
    (smooth sop Vj0 g (J : Int) w).err = none ∧
      (smooth sop Vj0 g (J : Int) w).world = drive sop (smoothCalls Vj0 g J) w ∧
      (smoothCalls Vj0 g J).countP Call.isLevel = J ∧
      (smoothCalls Vj0 g J).countP Call.isValue = J * Vj0.length ∧
      (∃ pre : List (Call α), smoothCalls Vj0 g J =
        pre ++ Call.Level (J : Int) :: (smoothStage Vj0 g J J).map Call.value) ∧
      (smoothStage Vj0 g J J).length = Vj0.length ∧
      (∀ b : Bool, (smooth (recorder () b) Vj0 g (J : Int) []).world =
        (smoothCalls Vj0 g J).map (fun c => ((), c))) := by
  have hc := countP_level_blocks (fun i => (i : Int) + 1)
    (fun i => smoothStage Vj0 g J (i + 1)) Vj0.length J (fun i => smoothStage_length _ _ _ _)
  refine ⟨by rw [smooth_of_valid sop Vj0 g J w hJ hN], by rw [smooth_of_valid sop Vj0 g J w hJ hN],
    hc.1, hc.2, ?_, smoothStage_length _ _ _ _, ?_⟩
  · obtain ⟨k, rfl⟩ : ∃ k, J = k + 1 := ⟨J - 1, by omega⟩
    refine ⟨(List.range k).flatMap (fun i =>
      Call.Level ((i : Int) + 1) :: (smoothStage Vj0 g (k + 1) (i + 1)).map Call.value), ?_⟩
    simp [smoothCalls, List.range_succ]
  · intro b
    rw [smooth_of_valid (recorder () b) Vj0 g J [] hJ hN, drive_recorder]
    simp

/-- Witness for C18: the series `[1, 2, 3, 4]`, the scaling filter `[1/2, 1/2]`, depth 2. -/
theorem smooth_cascade_witness :
    1 ≤ 2 ∧ 2 ^ (2 - 1) ≤ ([1, 2, 3, 4] : List ℚ).length ∧
      (smoothCalls ([1, 2, 3, 4] : List ℚ) [1 / 2, 1 / 2] 2).countP Call.isLevel = 2 ∧
      (smoothCalls ([1, 2, 3, 4] : List ℚ) [1 / 2, 1 / 2] 2).countP Call.isValue =
        2 * ([1, 2, 3, 4] : List ℚ).length :=
  ⟨by decide, by decide,
    (smooth_cascade (DoNothing (σ := Unit)) ([1, 2, 3, 4] : List ℚ) [1 / 2, 1 / 2] 2 ()
      (by decide) (by decide)).2.2.1,
    (smooth_cascade (DoNothing (σ := Unit)) ([1, 2, 3, 4] : List ℚ) [1 / 2, 1 / 2] 2 ()
      (by decide) (by decide)).2.2.2.1⟩

theorem imodwt_example_run :
    (imodwt (recorder () true) ([0, 0] : List ℚ) [[1, 0], [0, 0]] [1 / 2, -1 / 2] [1 / 2, 1 / 2]
        []).world =
      (imodwtCalls ([0, 0] : List ℚ) [[1, 0], [0, 0]] [1 / 2, -1 / 2] [1 / 2, 1 / 2]).map
        (fun c => ((), c)) := by
  rw [imodwt_of_valid_calls (recorder () true) ([0, 0] : List ℚ) [[1, 0], [0, 0]] [1 / 2, -1 / 2]
    [1 / 2, 1 / 2] [] (by simp) (by simp) (by simp), drive_recorder]
  simp

/-- C19 as stated fails: with `Vj0 = [0, 0]` and the two series `Wj = [[1, 0], [0, 0]]`, the
first backward step of `imodwt` is tagged `Level(1)` and emits `[0, 0]`, the backward step on
the coarsest series `Wj[1]` with shift 2; the step on the finest series `Wj[0]` with shift 1
would emit `[1/2, -1/2]`. -/
theorem imodwt_order_as_stated_fails :
    (imodwt (recorder () true) ([0, 0] : List ℚ) [[1, 0], [0, 0]] [1 / 2, -1 / 2] [1 / 2, 1 / 2]
        []).world.take 3 = [((), Call.Level 1), ((), Call.value 0), ((), Call.value 0)] ∧
      Details.backwardAll ([0, 0] : List ℚ) [0, 0] [1 / 2, -1 / 2] [1 / 2, 1 / 2] 1 = [0, 0] ∧
      Details.backwardAll ([0, 0] : List ℚ) [1, 0] [1 / 2, -1 / 2] [1 / 2, 1 / 2] 0 =
        [1 / 2, -1 / 2] := by
  rw [imodwt_example_run]
  refine ⟨?_, ?_, ?_⟩
  · simp [imodwtCalls, backStage, Details.backwardAll, Details.imodwt_backward_at,
      Details.bwdIdx, List.range_succ, List.range'_succ]
  · simp [Details.backwardAll, Details.imodwt_backward_at, Details.bwdIdx, List.range_succ,
      List.range'_succ]
  · have e0 : ([0, 0] : List ℚ).getD 1 0 = 0 := rfl
    have e1 : ([1, 0] : List ℚ).getD 1 0 = 0 := rfl
    simp only [Details.backwardAll, Details.imodwt_backward_at, Details.bwdIdx, List.range_succ,
      List.range'_succ, List.length_cons, List.length_nil, List.range_zero, List.nil_append,
      List.map_cons, List.map_nil, List.cons_append, pow_zero, Nat.reduceAdd, Nat.reduceSub,
      List.range'_zero, List.foldl_cons, List.foldl_nil, List.getD_cons_zero, List.getD_cons_succ,
      ge_iff_le, Nat.reduceLeDiff, if_true, if_false, le_refl, e0, e1, List.range'_one]
    norm_num

/-- C19 amended. Given `J >= 1` wavelet series ordered as `modwt` produces them (finest
first) and `N >= 2^(J-1)`, `imodwt` succeeds and walks the levels from coarsest to finest, one
backward step per series: step `i` (`i = 0 .. J-1`) is tagged `Level(J-1-i)` and uses the
series `Wj[J-1-i]` with shift `2^(J-1-i)`; the first step uses `Wj[J-1]` with shift `2^(J-1)`
and the last one `Wj[0]` with shift 1. -/
theorem imodwt_order (vop : Sink σ α) (Vj0 : List α) (Wj : List (List α)) (h g : List α) (w : σ)
    (h1 : 1 ≤ Wj.length) (h2 : Wj.length < 2 ^ 64) (hN : 2 ^ (Wj.length - 1) ≤ Vj0.length) :
    (imodwt vop Vj0 Wj h g w).err = none ∧
      (imodwt vop Vj0 Wj h g w).world = drive vop (imodwtCalls Vj0 Wj h g) w ∧
      (imodwtCalls Vj0 Wj h g).countP Call.isLevel = Wj.length ∧
      (imodwtCalls Vj0 Wj h g).countP Call.isValue = Wj.length * Vj0.length ∧
      backStage Vj0 Wj h g 1 =
        Details.backwardAll Vj0 (Wj.getD (Wj.length - 1) []) h g (Wj.length - 1) ∧
      backStage Vj0 Wj h g Wj.length =
        Details.backwardAll (backStage Vj0 Wj h g (Wj.length - 1)) (Wj.getD 0 []) h g 0 ∧
      (∃ rest : List (Call α), imodwtCalls Vj0 Wj h g =
        Call.Level ((Wj.length - 1 : Nat) : Int) ::
          (Details.backwardAll Vj0 (Wj.getD (Wj.length - 1) []) h g (Wj.length - 1)).map
            Call.value ++ rest) ∧
      (∃ pre : List (Call α), imodwtCalls Vj0 Wj h g =
        pre ++ Call.Level 0 :: (backStage Vj0 Wj h g Wj.length).map Call.value) := by
  have hc := countP_level_blocks (fun i => ((Wj.length - 1 - i : Nat) : Int))
    (fun i => backStage Vj0 Wj h g (i + 1)) Vj0.length Wj.length
    (fun i => backStage_length _ _ _ _ _)
  obtain ⟨k, hk⟩ : ∃ k, Wj.length = k + 1 := ⟨Wj.length - 1, by omega⟩
  refine ⟨by rw [imodwt_of_valid_calls vop Vj0 Wj h g w h1 h2 hN],
    by rw [imodwt_of_valid_calls vop Vj0 Wj h g w h1 h2 hN], hc.1, hc.2, ?_, ?_, ?_, ?_⟩
  · simp [backStage]
  · rw [hk]
    simp [backStage, hk]
  · refine ⟨(List.range' 1 k).flatMap (fun i =>
      Call.Level ((Wj.length - 1 - i : Nat) : Int) ::
        (backStage Vj0 Wj h g (i + 1)).map Call.value), ?_⟩
    unfold imodwtCalls
    rw [hk, List.range_succ_eq_map, List.flatMap_cons]
    simp [backStage, hk, List.flatMap_map, List.range'_eq_map_range, Function.comp_def,
      Nat.add_comm]
  · refine ⟨(List.range k).flatMap (fun i =>
      Call.Level ((Wj.length - 1 - i : Nat) : Int) ::
        (backStage Vj0 Wj h g (i + 1)).map Call.value), ?_⟩
    unfold imodwtCalls
    rw [hk, List.range_succ]
    simp [hk]

/-- Witness for C19: `Vj0 = [0, 0]` and the two series `[[1, 0], [0, 0]]`. -/
theorem imodwt_order_witness :
    1 ≤ ([[1, 0], [0, 0]] : List (List ℚ)).length ∧
      ([[1, 0], [0, 0]] : List (List ℚ)).length < 2 ^ 64 ∧
      2 ^ (([[1, 0], [0, 0]] : List (List ℚ)).length - 1) ≤ ([0, 0] : List ℚ).length ∧
      (imodwt (recorder () true) ([0, 0] : List ℚ) [[1, 0], [0, 0]] [1 / 2, -1 / 2]
        [1 / 2, 1 / 2] []).err = none :=
  ⟨by simp, by simp, by simp,
    (imodwt_order (recorder () true) ([0, 0] : List ℚ) [[1, 0], [0, 0]] [1 / 2, -1 / 2]
      [1 / 2, 1 / 2] [] (by simp) (by simp) (by simp)).1⟩

end CascadeClaims

/-! ## Capture of the wavelet coefficients -/

section CaptureClaims

variable {α : Type} [Field α] {σ : Type}

/-- C11. Capture of all levels: a freshly constructed `SaveAllValues` sink used as the wavelet
sink of `modwt` to depth `J` on a series of length `N` ends on, with exactly `J` partitions of
`N` values each, partition `j` holding the wavelet coefficients of level `j + 1` in index
order. In general the number of partitions is the number of `Level` calls received while on
(since construction or the last `Reset()`), `Level` adds one empty partition when on and
nothing when off, and a value received while on is appended to the last partition only. -/
theorem SaveAllValues_captures_levels (s : Sink σ α) (w1 : σ) (X h g : List α) (J : Nat)
    (hJ : 1 ≤ J) (hN : 2 ^ (J - 1) ≤ X.length) :
    (modwt s.onFst SaveAllValues.onSnd X h g (J : Int) (w1, SaveAllValuesState.init)).world.2 =
        { on_ := true, vals_ := (List.range J).map (fun j => waveletLevel X h g j) } ∧
      ((modwt s.onFst SaveAllValues.onSnd X h g (J : Int)
        (w1, SaveAllValuesState.init)).world.2.vals_).length = J ∧
      (∀ j, j < J →
        ((modwt s.onFst SaveAllValues.onSnd X h g (J : Int)
          (w1, SaveAllValuesState.init)).world.2.vals_.getD j []) = waveletLevel X h g j ∧
        (waveletLevel X h g j).length = X.length) ∧
      (∀ (calls : List (Call α)) (st : SaveAllValuesState α),
        (drive SaveAllValues calls st).vals_.length =
          levelsWhileOn st.on_ st.vals_.length calls) ∧
      (∀ (st : SaveAllValuesState α) (l : Int),
        (st.on_ = true → (SaveAllValues.Level l st).vals_ = st.vals_ ++ [[]]) ∧
        (st.on_ = false → SaveAllValues.Level l st = st)) ∧
      (∀ (st : SaveAllValuesState α) (t : α) (ps : List (List α)) (p : List α),
        (st.on_ = true → st.vals_ = ps ++ [p] →
          (SaveAllValues.call t st).vals_ = ps ++ [p ++ [t]]) ∧
        (st.on_ = false → SaveAllValues.call t st = st)) := by
  have hcast : ((J : Int) - 1) = ((J - 1 : Nat) : Int) := by omega
  have hok : lengthOk X.length ((J : Int) - 1) = true := by
    rw [hcast, lengthOk_natCast]
    simpa using hN
  have hw : (modwt s.onFst SaveAllValues.onSnd X h g (J : Int)
      (w1, SaveAllValuesState.init)).world.2 =
      { on_ := true, vals_ := (List.range J).map (fun j => waveletLevel X h g j) } := by
    simp only [modwt, Assert, hok, if_true, Int.toNat_ofNat, modwt_loop, replay_split,
      wop_calls_modwtProtocol, SaveAllValuesState.init, SaveAllValues_blocks, List.nil_append]
  refine ⟨hw, ?_, ?_, SaveAllValues_partitions, ?_, ?_⟩
  · rw [hw]
    simp
  · intro j hj
    rw [hw]
    refine ⟨?_, waveletLevel_length X h g j⟩
    simp only
    rw [List.getD_eq_getElem _ _ (by simpa using hj)]
    simp
  · intro st l
    constructor
    · intro hon
      simp [SaveAllValues, hon]
    · intro hoff
      simp [SaveAllValues, hoff]
  · intro st t ps p
    constructor
    · intro hon hv
      simp [SaveAllValues, hon, hv, pushLast_concat]
    · intro hoff
      simp [SaveAllValues, hoff]

/-- Witness for C11: the series `[1, 3, 5, 7]`, the Haar pair of the DWT variant, depth 2 and
a `DoNothing` scaling sink. -/
theorem SaveAllValues_captures_levels_witness :
    1 ≤ 2 ∧ 2 ^ (2 - 1) ≤ ([1, 3, 5, 7] : List ℚ).length ∧
      ((modwt (DoNothing (σ := Unit)).onFst SaveAllValues.onSnd ([1, 3, 5, 7] : List ℚ)
        (Filter.Details.Haar Transform.DWT 1).1 (Filter.Details.Haar Transform.DWT 1).2
        ((2 : Nat) : Int) ((), SaveAllValuesState.init)).world.2.vals_).length = 2 :=
  ⟨by decide, by decide,
    (SaveAllValues_captures_levels (DoNothing (σ := Unit)) () ([1, 3, 5, 7] : List ℚ)
      (Filter.Details.Haar Transform.DWT 1).1 (Filter.Details.Haar Transform.DWT 1).2 2
      (by decide) (by decide)).2.1⟩

end CaptureClaims
/-! ## Shift invariance -/

section ShiftClaims

variable {α : Type} [Field α]

/-- C17. Shift invariance: for a series `X` of length `N`, a shift `s` and a level `j` with
`2^j <= N`, the forward step applied to `X` circularly shifted by `s` (`X.rotate s`) yields the
scaling and wavelet outputs of `X` circularly shifted by `s`, for the kernel `modwt_forward`
as for the pure step. Hence `modwt` to depth `j + 1` commutes with circular shifts at every
level: run with capturing sinks on the shifted series, it raises no exception and emits, level
by level, the scaling coefficients and the wavelet coefficients it emits on `X`, circularly
shifted by `s`; it emits `j + 1` levels of each kind, and every level has exactly `N` scaling
and `N` wavelet coefficients. -/
theorem modwt_shift_invariance (X h g : List α) (s j : Nat) (hj : 2 ^ j ≤ X.length) :
    Details.forwardV (X.rotate s) h g j = (Details.forwardV X h g j).rotate s ∧
      Details.forwardW (X.rotate s) h g j = (Details.forwardW X h g j).rotate s ∧
      (∀ Vj : List α, Vj.length = X.length →
        (Details.modwt_forward (DoNothing (σ := Unit)) DoNothing (X.rotate s) h g j Vj ()).1 =
          (Details.modwt_forward (DoNothing (σ := Unit)) DoNothing X h g j Vj ()).1.rotate s) ∧
      (modwtSaveAll (X.rotate s) h g ((j + 1 : Nat) : Int)).err = none ∧
      (modwtSaveAll (X.rotate s) h g ((j + 1 : Nat) : Int)).world.1.vals_ =
        (modwtSaveAll X h g ((j + 1 : Nat) : Int)).world.1.vals_.map (fun V => V.rotate s) ∧
      (modwtSaveAll (X.rotate s) h g ((j + 1 : Nat) : Int)).world.2.vals_ =
        (modwtSaveAll X h g ((j + 1 : Nat) : Int)).world.2.vals_.map (fun W => W.rotate s) ∧
      (modwtSaveAll X h g ((j + 1 : Nat) : Int)).world.1.vals_.length = j + 1 ∧
      (modwtSaveAll X h g ((j + 1 : Nat) : Int)).world.2.vals_.length = j + 1 ∧
      (∀ V, V ∈ (modwtSaveAll X h g ((j + 1 : Nat) : Int)).world.1.vals_ →
        V.length = X.length) ∧
      (∀ W, W ∈ (modwtSaveAll X h g ((j + 1 : Nat) : Int)).world.2.vals_ →
        W.length = X.length) := by
  have hN : 2 ^ (j + 1 - 1) ≤ X.length := by simpa using hj
  have hw := modwtSaveAll_world X h g (j + 1) (by omega) hN
  have hr := modwtSaveAll_rotate X h g s (j + 1) (by omega) hN
  have hwr := modwtSaveAll_world (X.rotate s) h g (j + 1) (by omega)
    (by rw [List.length_rotate]; exact hN)
  refine ⟨forwardV_rotate X h g s j hj, forwardW_rotate X h g s j hj, ?_, hwr.1, hr.1, hr.2,
    ?_, ?_, ?_, ?_⟩
  · intro Vj hlen
    rw [modwt_forward_eq _ _ _ h g j Vj () (by rw [List.length_rotate]; exact hlen),
      modwt_forward_eq _ _ _ h g j Vj () hlen]
    exact forwardV_rotate X h g s j hj
  · rw [hw.2]
    simp
  · rw [hw.2]
    simp
  · intro V hV
    rw [hw.2] at hV
    obtain ⟨i, -, rfl⟩ := List.mem_map.mp hV
    exact scalingLevel_length X h g (i + 1)
  · intro W hW
    rw [hw.2] at hW
    obtain ⟨i, -, rfl⟩ := List.mem_map.mp hW
    exact waveletLevel_length X h g i

/-- Witness for C17: the series `[1, 3, 5, 7]` shifted by 1, the Haar pair of the DWT variant,
level `j = 1` (shift distance 2), that is `modwt` to depth 2: the wavelet coefficients of both
levels are those of the unshifted series, shifted by 1. -/
theorem modwt_shift_invariance_witness :
    2 ^ 1 ≤ ([1, 3, 5, 7] : List ℚ).length ∧
      (modwtSaveAll (([1, 3, 5, 7] : List ℚ).rotate 1)
          (Filter.Details.Haar Transform.DWT 1).1 (Filter.Details.Haar Transform.DWT 1).2
          ((1 + 1 : Nat) : Int)).world.2.vals_ =
        (modwtSaveAll ([1, 3, 5, 7] : List ℚ)
          (Filter.Details.Haar Transform.DWT 1).1 (Filter.Details.Haar Transform.DWT 1).2
          ((1 + 1 : Nat) : Int)).world.2.vals_.map (fun W => W.rotate 1) :=
  ⟨by decide,
    (modwt_shift_invariance ([1, 3, 5, 7] : List ℚ) (Filter.Details.Haar Transform.DWT 1).1
      (Filter.Details.Haar Transform.DWT 1).2 1 1 (by decide)).2.2.2.2.2.1⟩

end ShiftClaims

section DoAllClaims

variable {α : Type} [Field α] {σ τ : Type}

/-- C16 as stated fails: the scaling sink does receive values during the levels
`1 .. level-1`. With a recording scaling sink that was on at entry, the series `[1, 2]`,
`level = 2` and the Haar family (with `sqrt2 := 1`), the calls `doAll` makes on the scaling
sink are `Off()`, the two scaling coefficients of level 1, `On()`, `Level(2)` and the two
scaling coefficients of level 2: `operator()` is called four times, twice of them before
`On()`. -/
theorem doAll_scaling_as_stated_fails :
    (doAll (1 : ℚ) (DoNothing (σ := Unit)).onFst (DoNothing (σ := Unit)).onFst
        (recorder () true).onSnd (DoNothing (σ := Unit)).onFst [1, 2] 2
        Filter.FType.Haar.toInt ((), ([] : List (Unit × Call ℚ)))).world.2 =
      [((), Call.Off), ((), Call.value (2121320343559641 / 1000000000000000)),
        ((), Call.value (2121320343559641 / 1000000000000000)), ((), Call.On),
        ((), Call.Level 2),
        ((), Call.value (1499999999999997775155641349627 / 500000000000000000000000000000)),
        ((), Call.value (1499999999999997775155641349627 / 500000000000000000000000000000))] := by
  rw [(doAll_scaling (1 : ℚ) (DoNothing (σ := Unit)) DoNothing DoNothing (recorder () true)
    [1, 2] 2 Filter.FType.Haar ((), []) (by simp) (by norm_num) (by norm_num) (by simp)).2,
    drive_recorder]
  show [] ++ List.map (fun c => ((), c)) (doAllScalingCalls ([1, 2] : List ℚ) _ _ 2 true) = _
  rw [doAllScalingCalls_example]
  rfl

/-- C16 amended. Scaling emission in `doAll`: for a valid call (non-empty series, `1 ≤ level`,
`2^(level-1) ≤ N`, a catalogued family) with the scaling sink `t` kept on its own component of
the sink state, `doAll` raises no exception and the calls it makes on `t` are exactly
`doAllScalingCalls`: `Off()` on entry, then for the levels `1 .. level-1` the `N` scaling
coefficients of each level through `operator()` (no `Level`, no `On`), then `On()` and
`Level(level)` if and only if `t.IsOn()` held on entry, then the `N` scaling coefficients of
the level `level`. A sink that honours `Off()` (it answers `IsOn() = false` after `Off()` and
ignores values while it does) is therefore left unchanged by the values of the levels
`1 .. level-1`: if it was on at entry its final state is that of `Off()`, `On()`,
`Level(level)` followed by the `N` level-`level` coefficients, otherwise that of `Off()`
alone. For the capturing sink `SaveAllValues`: nothing of the levels `1 .. level-1` is
retained, and one new partition holding the `N` level-`level` scaling coefficients is retained
exactly when the sink was on when `doAll` was called (otherwise its partitions are unchanged
and it is left off). -/
theorem doAll_scaling_emission (sqrt2 : α) (a b c : Sink σ α) (t : Sink τ α) (X : List α)
    (level : Nat) (f : Filter.FType) (w : σ × τ) (s : σ) (v : SaveAllValuesState α)
    (hX : X ≠ []) (h1 : 1 ≤ level) (h32 : level < 2 ^ 32) (hN : 2 ^ (level - 1) ≤ X.length) :
    (doAll sqrt2 a.onFst b.onFst t.onSnd c.onFst X level f.toInt w).err = none ∧
      (doAll sqrt2 a.onFst b.onFst t.onSnd c.onFst X level f.toInt w).world.2 =
        drive t (doAllScalingCalls X
          (Filter.Details.make_filter Transform.MODWT sqrt2 f.garr).1
          (Filter.Details.make_filter Transform.MODWT sqrt2 f.garr).2 level (t.IsOn w.2)) w.2 ∧
      (HonoursOff t →
        (doAll sqrt2 a.onFst b.onFst t.onSnd c.onFst X level f.toInt w).world.2 =
          (if t.IsOn w.2 then
            drive t ((scalingLevel X
                (Filter.Details.make_filter Transform.MODWT sqrt2 f.garr).1
                (Filter.Details.make_filter Transform.MODWT sqrt2 f.garr).2 level).map
                Call.value)
              (t.Level (level : Int) (t.On (t.Off w.2)))
          else t.Off w.2)) ∧
      (scalingLevel X (Filter.Details.make_filter Transform.MODWT sqrt2 f.garr).1
        (Filter.Details.make_filter Transform.MODWT sqrt2 f.garr).2 level).length = X.length ∧
      (doAll sqrt2 a.onFst b.onFst SaveAllValues.onSnd c.onFst X level f.toInt (s, v)).world.2 =
        (if v.on_ then
          { on_ := true,
            vals_ := v.vals_ ++ [scalingLevel X
              (Filter.Details.make_filter Transform.MODWT sqrt2 f.garr).1
              (Filter.Details.make_filter Transform.MODWT sqrt2 f.garr).2 level] }
        else { on_ := false, vals_ := v.vals_ }) := by
  have hgen := doAll_scaling sqrt2 a b c t X level f w hX h1 h32 hN
  have hcap := doAll_scaling sqrt2 a b c SaveAllValues X level f (s, v) hX h1 h32 hN
  refine ⟨hgen.1, hgen.2, ?_, scalingLevel_length X _ _ level, ?_⟩
  · intro ht
    rw [hgen.2]
    exact doAllScalingCalls_HonoursOff t ht X _ _ level w.2
  · rw [hcap.2]
    exact doAllScalingCalls_SaveAllValues X _ _ level v

/-- Witness for C16: the series `[1, 2]`, `level = 2` (so that level 1 is an intermediate
level), the Haar family, `SaveAllValues` sinks sharing one state as wavelet, details and smooth
sinks (the details and smooth branches run), and a fresh `SaveAllValues` as scaling sink: it
retains one partition, the scaling coefficients of level 2. -/
theorem doAll_scaling_emission_witness :
    ([1, 2] : List ℚ) ≠ [] ∧ 1 ≤ 2 ∧ 2 < 2 ^ 32 ∧ 2 ^ (2 - 1) ≤ ([1, 2] : List ℚ).length ∧
      (doAll (1 : ℚ) SaveAllValues.onFst SaveAllValues.onFst SaveAllValues.onSnd
          SaveAllValues.onFst [1, 2] 2 Filter.FType.Haar.toInt
          (SaveAllValuesState.init, SaveAllValuesState.init)).world.2 =
        (if (SaveAllValuesState.init (α := ℚ)).on_ then
          { on_ := true,
            vals_ := (SaveAllValuesState.init (α := ℚ)).vals_ ++ [scalingLevel [1, 2]
              (Filter.Details.make_filter Transform.MODWT (1 : ℚ) Filter.FType.Haar.garr).1
              (Filter.Details.make_filter Transform.MODWT (1 : ℚ) Filter.FType.Haar.garr).2 2] }
        else { on_ := false, vals_ := (SaveAllValuesState.init (α := ℚ)).vals_ }) :=
  ⟨by simp, by norm_num, by norm_num, by simp,
    (doAll_scaling_emission (1 : ℚ) SaveAllValues SaveAllValues SaveAllValues SaveAllValues
      [1, 2] 2 Filter.FType.Haar (SaveAllValuesState.init, SaveAllValuesState.init)
      SaveAllValuesState.init SaveAllValuesState.init (by simp) (by norm_num) (by norm_num)
      (by simp)).2.2.2.2⟩

end DoAllClaims


/-! ## Closed forms of the kernels -/

section KernelClaims

variable {α : Type} [Field α] {σ : Type}

/-- C25. Forward step closed form: for an input `Vi` of length `N`, filters of equal length
`L ≥ 1` and a level `j` with `D = 2^j ≤ N`, both overloads of `modwt_forward` leave in `Vj`,
for every `t < N`, the sum `Σ_{l<L} scalefilt[l]·Vi[(t - l·D) mod N]`; the wavelet value (the
buffer entry `Wj[t]` of the second overload, and the value passed to `wop` by both) is
`Σ_{l<L} wavefilt[l]·Vi[(t - l·D) mod N]`; the sink calls are `vop(Vj[t])`, `wop(W[t])` for
`t = 0 .. N-1` with these values; and the index `k` after `l` updates
`if ( k >= D ) k -= D; else k = N + k - D;` starting from `t` is `(t - l·D) mod N`. -/
theorem modwt_forward_closed_form (vop wop : Sink σ α) (Vi h g : List α) (L j : Nat)
    (Vj Wj : List α) (w : σ) (hh : h.length = L) (hg : g.length = L) (hL : 1 ≤ L)
    (hD : 2 ^ j ≤ Vi.length) (hVj : Vj.length = Vi.length) (hWj : Wj.length = Vi.length) :
    (∀ t, t < Vi.length →
      (Details.modwt_forward vop wop Vi h g j Vj w).1.getD t 0 =
          circSum g Vi L (2 ^ j) (-1) t ∧
        (Details.modwt_forward2 vop wop Vi h g j Vj Wj w).1.getD t 0 =
          circSum g Vi L (2 ^ j) (-1) t ∧
        (Details.modwt_forward2 vop wop Vi h g j Vj Wj w).2.1.getD t 0 =
          circSum h Vi L (2 ^ j) (-1) t ∧
        ∀ l : Nat, (Details.fwdIdx Vi.length (2 ^ j))^[l] t =
          circ Vi.length ((t : Int) - (l : Int) * ((2 ^ j : Nat) : Int))) ∧
      (Details.modwt_forward vop wop Vi h g j Vj w).2 =
        replay (Port.sink vop wop)
          ((List.range Vi.length).flatMap (fun t =>
            [(Port.vop, Call.value (circSum g Vi L (2 ^ j) (-1) t)),
             (Port.wop, Call.value (circSum h Vi L (2 ^ j) (-1) t))])) w ∧
      (Details.modwt_forward2 vop wop Vi h g j Vj Wj w).2.2 =
        (Details.modwt_forward vop wop Vi h g j Vj w).2 := by
  subst hh
  have hat : ∀ t, t < Vi.length →
      Details.modwt_forward_at Vi h g (2 ^ j) t =
        (circSum g Vi h.length (2 ^ j) (-1) t, circSum h Vi h.length (2 ^ j) (-1) t) :=
    fun t ht => modwt_forward_at_closed Vi h g (2 ^ j) t hL hD ht
  have h1 := modwt_forward_eq vop wop Vi h g j Vj w hVj
  have h2 := modwt_forward2_eq vop wop Vi h g j Vj Wj w hVj hWj
  refine ⟨?_, ?_, ?_⟩
  · intro t ht
    refine ⟨?_, ?_, ?_, ?_⟩
    · rw [h1]
      show (Details.forwardV Vi h g j).getD t 0 = _
      rw [forwardV_getD Vi h g j t ht, hat t ht]
    · rw [h2]
      show (Details.forwardV Vi h g j).getD t 0 = _
      rw [forwardV_getD Vi h g j t ht, hat t ht]
    · rw [h2]
      show (Details.forwardW Vi h g j).getD t 0 = _
      rw [forwardW_getD Vi h g j t ht, hat t ht]
    · intro l
      exact iterate_fwdIdx Vi.length (2 ^ j) t ht hD l
  · rw [h1]
    show replay _ _ w = _
    congr 1
    apply flatMap_range_congr
    intro t ht
    rw [forwardV_getD Vi h g j t ht, forwardW_getD Vi h g j t ht, hat t ht]
  · rw [h2]

/-- Witness for C25: the series `[1, 2]`, the filters `[1, -1]` and `[1, 1]`, level 0. -/
theorem modwt_forward_closed_form_witness :
    ([1, -1] : List ℚ).length = 2 ∧ ([1, 1] : List ℚ).length = 2 ∧ 1 ≤ 2 ∧
      2 ^ 0 ≤ ([1, 2] : List ℚ).length ∧
      ([0, 0] : List ℚ).length = ([1, 2] : List ℚ).length ∧
      ([0, 0] : List ℚ).length = ([1, 2] : List ℚ).length ∧
      (Details.modwt_forward2 (DoNothing (σ := Unit)) DoNothing ([1, 2] : List ℚ) [1, -1] [1, 1] 0
          [0, 0] [0, 0] ()).2.2 =
        (Details.modwt_forward (DoNothing (σ := Unit)) DoNothing ([1, 2] : List ℚ) [1, -1] [1, 1]
          0 [0, 0] ()).2 :=
  ⟨rfl, rfl, by decide, by decide, rfl, rfl,
    (modwt_forward_closed_form (DoNothing (σ := Unit)) DoNothing ([1, 2] : List ℚ) [1, -1] [1, 1]
      2 0 [0, 0] [0, 0] () rfl rfl (by decide) (by decide) rfl rfl).2.2⟩

/-- C26. Backward step closed form: for `Vj`, `Wj` of length `N`, filters of equal length
`L ≥ 1` and a level `j` with `D = 2^j ≤ N`, `imodwt_backward` leaves in `Vi`, for every
`t < N`, the sum `Σ_{l<L} (scalefilt[l]·Vj[(t + l·D) mod N] + wavefilt[l]·Wj[(t + l·D) mod N])`
and passes these values to `vop` in index order; the index `k` after `l` updates
`k += D; if ( k >= N ) k -= N;` starting from `t` is `(t + l·D) mod N`, and this update is the
inverse of the update of the forward step. -/
theorem imodwt_backward_closed_form (vop : Sink σ α) (Vj Wj h g : List α) (L j : Nat)
    (Vi : List α) (w : σ) (hh : h.length = L) (hg : g.length = L) (hL : 1 ≤ L)
    (hD : 2 ^ j ≤ Vj.length) (hWj : Wj.length = Vj.length) (hVi : Vi.length = Vj.length) :
    (∀ t, t < Vj.length →
      (Details.imodwt_backward vop Vj Wj h g j Vi w).1.getD t 0 =
          (Finset.range L).sum (fun l =>
            g.getD l 0 *
                Vj.getD (circ Vj.length ((t : Int) + (l : Int) * ((2 ^ j : Nat) : Int))) 0 +
              h.getD l 0 *
                Wj.getD (circ Vj.length ((t : Int) + (l : Int) * ((2 ^ j : Nat) : Int))) 0) ∧
        (∀ l : Nat, (Details.bwdIdx Vj.length (2 ^ j))^[l] t =
          circ Vj.length ((t : Int) + (l : Int) * ((2 ^ j : Nat) : Int))) ∧
        Details.bwdIdx Vj.length (2 ^ j) (Details.fwdIdx Vj.length (2 ^ j) t) = t ∧
        Details.fwdIdx Vj.length (2 ^ j) (Details.bwdIdx Vj.length (2 ^ j) t) = t) ∧
      (Details.imodwt_backward vop Vj Wj h g j Vi w).1.length = Vj.length ∧
      (Details.imodwt_backward vop Vj Wj h g j Vi w).2 =
        drive vop ((Details.imodwt_backward vop Vj Wj h g j Vi w).1.map Call.value) w := by
  have h1 := imodwt_backward_eq vop Vj Wj h g j Vi w hVi
  refine ⟨?_, ?_, ?_⟩
  · intro t ht
    refine ⟨?_, ?_, (fwdIdx_bwdIdx _ _ t ht hD).2, (fwdIdx_bwdIdx _ _ t ht hD).1⟩
    · rw [h1]
      show (Details.backwardAll Vj Wj h g j).getD t 0 = _
      rw [backwardAll_getD Vj Wj h g j t ht,
        imodwt_backward_at_split Vj Wj h g (2 ^ j) t (hg.trans hh.symm) hWj,
        zerophase_at_closed Vj g (2 ^ j) t (by omega) hD ht,
        zerophase_at_closed Wj h (2 ^ j) t (by omega) (by omega) (by omega)]
      unfold circSum
      rw [hg, hh, hWj, ← Finset.sum_add_distrib]
      apply Finset.sum_congr rfl
      intro l _
      rw [one_mul]
    · intro l
      exact iterate_bwdIdx Vj.length (2 ^ j) t ht hD l
  · rw [h1]
    exact backwardAll_length Vj Wj h g j
  · rw [h1]

/-- Witness for C26: the series `[1, 2]` and `[3, 4]`, the filters `[1, -1]` and `[1, 1]`,
level 0. -/
theorem imodwt_backward_closed_form_witness :
    ([1, -1] : List ℚ).length = 2 ∧ ([1, 1] : List ℚ).length = 2 ∧ 1 ≤ 2 ∧
      2 ^ 0 ≤ ([1, 2] : List ℚ).length ∧
      ([3, 4] : List ℚ).length = ([1, 2] : List ℚ).length ∧
      ([0, 0] : List ℚ).length = ([1, 2] : List ℚ).length ∧
      (Details.imodwt_backward (DoNothing (σ := Unit)) ([1, 2] : List ℚ) [3, 4] [1, -1] [1, 1] 0
          [0, 0] ()).1.length = ([1, 2] : List ℚ).length :=
  ⟨rfl, rfl, by decide, by decide, rfl, rfl,
    (imodwt_backward_closed_form (DoNothing (σ := Unit)) ([1, 2] : List ℚ) [3, 4] [1, -1] [1, 1]
      2 0 [0, 0] () rfl rfl (by decide) (by decide) rfl rfl).2.1⟩

/-- C27. Zero-phase step versus full backward step: for `Vj`, `Wj` of equal length `N`,
a filter pair (two filters of the same length) and any level `j`, the series
`imodwt_backward` leaves in `Vi` is, entry by entry, the sum of the series the zero-phase step
computes from `Vj` with the scaling filter and the series it computes from `Wj` with the
wavelet filter; the zero-phase step itself is `Ki[t] = Σ_l filt[l]·Kj[(t + l·D) mod N]` when
`D = 2^j ≤ N`, with the index arithmetic of the backward step. -/
theorem backward_eq_sum_of_zerophase (vop op1 op2 : Sink σ α) (Vj Wj h g : List α) (j : Nat)
    (Vi Ki1 Ki2 : List α) (w : σ) (hfilt : g.length = h.length) (hWj : Wj.length = Vj.length)
    (hVi : Vi.length = Vj.length) (hK1 : Ki1.length = Vj.length)
    (hK2 : Ki2.length = Vj.length) :
    (∀ t, t < Vj.length →
      (Details.imodwt_backward vop Vj Wj h g j Vi w).1.getD t 0 =
        (Details.imodwt_backward_zerophase op1 Vj g j Ki1 w).1.getD t 0 +
          (Details.imodwt_backward_zerophase op2 Wj h j Ki2 w).1.getD t 0) ∧
      (∀ (Kj filt : List α) (t : Nat), 1 ≤ filt.length → 2 ^ j ≤ Kj.length → t < Kj.length →
        Details.imodwt_backward_zerophase_at Kj filt (2 ^ j) t =
          circSum filt Kj filt.length (2 ^ j) 1 t) := by
  refine ⟨?_, ?_⟩
  · intro t ht
    rw [imodwt_backward_eq vop Vj Wj h g j Vi w hVi,
      imodwt_backward_zerophase_eq op1 Vj g j Ki1 w hK1,
      imodwt_backward_zerophase_eq op2 Wj h j Ki2 w (by omega)]
    show (Details.backwardAll Vj Wj h g j).getD t 0 =
      (Details.zerophaseAll Vj g j).getD t 0 + (Details.zerophaseAll Wj h j).getD t 0
    rw [backwardAll_getD Vj Wj h g j t ht, zerophaseAll_getD Vj g j t ht,
      zerophaseAll_getD Wj h j t (by omega)]
    exact imodwt_backward_at_split Vj Wj h g (2 ^ j) t hfilt hWj
  · intro Kj filt t hL hD ht
    exact zerophase_at_closed Kj filt (2 ^ j) t hL hD ht

/-- Witness for C27: the series `[1, 2]` and `[3, 4]`, the filters `[1, -1]` and `[1, 1]`,
level 0, entry 1. -/
theorem backward_eq_sum_of_zerophase_witness :
    ([1, 1] : List ℚ).length = ([1, -1] : List ℚ).length ∧
      ([3, 4] : List ℚ).length = ([1, 2] : List ℚ).length ∧
      ([0, 0] : List ℚ).length = ([1, 2] : List ℚ).length ∧
      (Details.imodwt_backward (DoNothing (σ := Unit)) ([1, 2] : List ℚ) [3, 4] [1, -1] [1, 1] 0
          [0, 0] ()).1.getD 1 0 =
        (Details.imodwt_backward_zerophase (DoNothing (σ := Unit)) ([1, 2] : List ℚ) [1, 1] 0
            [0, 0] ()).1.getD 1 0 +
          (Details.imodwt_backward_zerophase (DoNothing (σ := Unit)) ([3, 4] : List ℚ) [1, -1] 0
            [0, 0] ()).1.getD 1 0 :=
  ⟨rfl, rfl, rfl,
    (backward_eq_sum_of_zerophase (DoNothing (σ := Unit)) DoNothing DoNothing ([1, 2] : List ℚ)
      [3, 4] [1, -1] [1, 1] 0 [0, 0] [0, 0] [0, 0] () rfl rfl rfl rfl rfl).1 1 (by decide)⟩

end KernelClaims

/-! ## Index safety -/

section SafetyClaims

variable {α : Type} [Field α] {σ : Type}

end SafetyClaims

/-! ## The detail cascade -/

section DetailClaims

variable {α : Type} [Field α] {σ : Type}

/-- C29. Detail cascade filter selection: for a non-empty series `Wjt` (with a scratch buffer
`Wit` of the same length) and the 0-based level `ell`, `details_one` makes on its sink exactly
the calls `detailCalls`: for `j = 0 .. ell`, `Level(j+1)` followed by the `N` values of stage
`j + 1`, which is the zero-phase step with shift `2^j` applied to stage `j` with the scaling
filter when `j < ell` and with the wavelet filter when `j = ell`; that is `ell + 1` steps,
`ell + 1` `Level` calls and `(ell + 1) * N` values, the last `N` of them being the detail
waveform. The waveform is left in `Wit` when `ell + 1` is odd and in `Wjt` when it is even.
For an empty series `details_one` changes nothing and calls no sink method. -/
theorem details_one_cascade (dop : Sink σ α) (Wjt Wit h g : List α) (ell : Nat) (w : σ)
    (hne : Wjt ≠ []) (hlen : Wit.length = Wjt.length) :
    (Details.details_one dop Wjt Wit h g ell w).2.2 = drive dop (detailCalls Wjt h g ell) w ∧
      (∀ b : Bool, (Details.details_one (recorder () b) Wjt Wit h g ell []).2.2 =
        (detailCalls Wjt h g ell).map (fun c => ((), c))) ∧
      detailStage Wjt h g ell 0 = Wjt ∧
      (∀ j, j < ell → detailStage Wjt h g ell (j + 1) =
        Details.zerophaseAll (detailStage Wjt h g ell j) g j) ∧
      detailStage Wjt h g ell (ell + 1) =
        Details.zerophaseAll (detailStage Wjt h g ell ell) h ell ∧
      (detailCalls Wjt h g ell).countP Call.isLevel = ell + 1 ∧
      (detailCalls Wjt h g ell).countP Call.isValue = (ell + 1) * Wjt.length ∧
      (∃ pre : List (Call α), detailCalls Wjt h g ell =
        pre ++ Call.Level ((ell : Int) + 1) ::
          (detailStage Wjt h g ell (ell + 1)).map Call.value) ∧
      (if (ell + 1) % 2 = 0 then (Details.details_one dop Wjt Wit h g ell w).1
        else (Details.details_one dop Wjt Wit h g ell w).2.1) =
          detailStage Wjt h g ell (ell + 1) ∧
      (∀ (Wit0 : List α) (w0 : σ),
        Details.details_one dop ([] : List α) Wit0 h g ell w0 = ([], Wit0, w0)) := by
  have heq := details_one_eq dop Wjt Wit h g ell w hne hlen
  have hc := countP_level_blocks (fun j => (j : Int) + 1)
    (fun j => detailStage Wjt h g ell (j + 1)) Wjt.length (ell + 1)
    (fun j => detailStage_length _ _ _ _ _)
  refine ⟨by rw [heq], ?_, rfl, ?_, ?_, hc.1, hc.2, ?_, ?_, ?_⟩
  · intro b
    rw [details_one_eq (recorder () b) Wjt Wit h g ell [] hne hlen]
    show drive (recorder () b) (detailCalls Wjt h g ell) [] = _
    rw [drive_recorder]
    simp
  · intro j hj
    have hjl : ¬ j = ell := by omega
    simp only [detailStage, hjl, if_false]
  · simp only [detailStage, if_true]
  · refine ⟨(List.range ell).flatMap (fun j =>
      Call.Level ((j : Int) + 1) :: (detailStage Wjt h g ell (j + 1)).map Call.value), ?_⟩
    simp [detailCalls, List.range_succ]
  · rw [heq]
    by_cases hp : (ell + 1) % 2 = 0
    · simp only [hp, if_true]
    · simp only [hp, if_false]
  · intro Wit0 w0
    rfl

/-- Witness for C29: the series `[1, 2]`, the filters `[1, -1]` and `[1, 1]`, level 1. -/
theorem details_one_cascade_witness :
    ([1, 2] : List ℚ) ≠ [] ∧ ([0, 0] : List ℚ).length = ([1, 2] : List ℚ).length ∧
      (detailCalls ([1, 2] : List ℚ) [1, -1] [1, 1] 1).countP Call.isLevel = 1 + 1 :=
  ⟨by simp, rfl,
    (details_one_cascade (DoNothing (σ := Unit)) ([1, 2] : List ℚ) [0, 0] [1, -1] [1, 1] 1 ()
      (by simp) rfl).2.2.2.2.2.1⟩

end DetailClaims

/-! ## Boundary pre-processing -/

section BoundaryClaims

variable {α : Type} [Field α]

/-- C30. Reflected boundary extension: for a non-empty series `x` of length `N` (with
`2N < 2^64`), the block of `main` for `WT::Reflected` terminates (any bound of at least
`N + 1` evaluations of the loop condition suffices) and yields `x` followed by its reverse: a
series of length `2N` whose first `N` entries are `x` and whose entry `2N-1-j` is `x[j]` for
every `j < N`. For `WT::Periodic` the series is left unchanged. -/
theorem reflected_boundary (x : List α) (fuel : Nat) (hne : x ≠ [])
    (h64 : 2 * x.length < 2 ^ 64) (hfuel : x.length + 1 ≤ fuel) :
    applyBoundary fuel Boundary.Reflected x = some (x ++ x.reverse) ∧
      (x ++ x.reverse).length = 2 * x.length ∧
      (x ++ x.reverse).take x.length = x ∧
      (∀ j, j < x.length → (x ++ x.reverse).getD (2 * x.length - 1 - j) 0 = x.getD j 0) ∧
      (∀ fuel0 : Nat, applyBoundary fuel0 Boundary.Periodic x = some x) := by
  have hN : 1 ≤ x.length := by
    cases x with
    | nil => exact absurd rfl hne
    | cons a l => simp
  refine ⟨?_, ?_, ?_, ?_, ?_⟩
  · have hmod : (2 * x.length) % 2 ^ 64 = 2 * x.length := Nat.mod_eq_of_lt h64
    have hi : (2 * x.length + 2 ^ 64 - 1) % 2 ^ 64 = 2 * x.length - 1 - 0 := by omega
    have hrun := reflectLoop_run x x.length 0 fuel (by omega) hN h64 hfuel
    simp only [List.take_zero, List.reverse_nil, List.append_nil] at hrun
    simp only [applyBoundary, if_true, hmod, hi, resize_double]
    exact hrun
  · simp; omega
  · simp
  · intro j hj
    have h1 : x.length ≤ 2 * x.length - 1 - j := by omega
    have h2 : 2 * x.length - 1 - j < (x ++ x.reverse).length := by simp; omega
    rw [List.getD_eq_getElem _ _ h2, List.getD_eq_getElem _ _ hj,
      List.getElem_append_right h1, List.getElem_reverse]
    congr 1
    omega
  · intro fuel0
    rfl

/-- Witness for C30: the series `[1, 2, 3]` with a bound of 4. -/
theorem reflected_boundary_witness :
    ([1, 2, 3] : List ℚ) ≠ [] ∧ 2 * ([1, 2, 3] : List ℚ).length < 2 ^ 64 ∧
      ([1, 2, 3] : List ℚ).length + 1 ≤ 4 ∧
      applyBoundary 4 Boundary.Reflected ([1, 2, 3] : List ℚ) =
        some ([1, 2, 3] ++ ([1, 2, 3] : List ℚ).reverse) :=
  ⟨by simp, by simp, by simp,
    (reflected_boundary ([1, 2, 3] : List ℚ) 4 (by simp) (by simp) (by simp)).1⟩

end BoundaryClaims
/-! ## The printing sinks -/

section LifecycleClaims

variable {α : Type}

/-- C21 (what the code does). The destination lifecycle does not hold over every sequence of
calls. A file-backed `PrintValues` sink without trigger (`pLevel = -1`) on the basename `out`
that receives `Level(1)`, `Off()`, `Level(2)`, `Reset()` opens `out.1`, closes it in
`Level(2)`, returns early from `Level(2)` with `fptr_` still designating the closed stream,
and closes that stream a second time in `Reset()`: the sequence of library calls is
`fopen`, `fclose`, `fclose` on the same stream, which is undefined. The lifecycle does hold
when the sink has a trigger (`pLevel ≥ 0`) or `Off()` is not among the calls: for every such
sequence of `Level`, `On`, `Off`, `Reset` calls followed by destruction, every prefix of the
library calls is defined and leaves at most one destination open, no destination is open when
`fopen` succeeds, and none is open after the destructor. -/
theorem PrintValues_lifecycle_broken_by_Off :
    ((drive (PrintValues (fun _ => true)) [Call.Level 1, Call.Off, Call.Level 2, Call.Reset]
        ({ pLevel_ := -1, currentPrints_ := 0, maxPrints_ := 3, base_ := "out", on_ := true,
           doReset_ := false, useStdout_ := false, fptr_ := none, io := [],
           thrown := none } : PrintValuesState ℚ)).io =
        [IOEvent.fopen "out.1" (some (Dest.file 0)), IOEvent.fclose (Dest.file 0),
          IOEvent.fclose (Dest.file 0)] ∧
      openAfter (drive (PrintValues (fun _ => true))
        [Call.Level 1, Call.Off, Call.Level 2, Call.Reset]
        ({ pLevel_ := -1, currentPrints_ := 0, maxPrints_ := 3, base_ := "out", on_ := true,
           doReset_ := false, useStdout_ := false, fptr_ := none, io := [],
           thrown := none } : PrintValuesState ℚ)).destroy.io = none ∧
      PrintValuesState.ctor "out" 3 (-1) = Except.ok
        ({ pLevel_ := -1, currentPrints_ := 0, maxPrints_ := 3, base_ := "out", on_ := true,
           doReset_ := false, useStdout_ := false, fptr_ := none, io := [],
           thrown := none } : PrintValuesState ℚ)) ∧
      ∀ (canOpen : String → Bool) (basename : String) (maxPrints : Nat) (pLevel : Int)
        (s0 : PrintValuesState α) (calls : List (Call α)),
        basename.isEmpty = false →
        PrintValuesState.ctor basename maxPrints pLevel = Except.ok s0 →
        (∀ c ∈ calls, c.isValue = false) →
        (0 ≤ pLevel ∨ Call.Off ∉ calls) →
          (∀ p, p <+: (drive (PrintValues canOpen) calls s0).destroy.io →
            ∃ acc, openAfter p = some acc ∧ acc.length ≤ 1) ∧
          (∀ p name d,
            (p ++ [IOEvent.fopen name (some d)]) <+:
                (drive (PrintValues canOpen) calls s0).destroy.io →
              openAfter p = some []) ∧
          openAfter (drive (PrintValues canOpen) calls s0).destroy.io = some [] := by
  refine ⟨⟨by decide, by decide, rfl⟩, ?_⟩
  intro canOpen basename maxPrints pLevel s0 calls hfile hctor hv hoff
  have h0 := ctor_LifeInv basename maxPrints pLevel s0 hfile hctor
  have h1 := PrintValues_drive_inv canOpen calls s0 h0.1 hv (by rw [h0.2]; exact hoff)
  have h2 := destroy_inv _ h1
  exact ⟨h2.1.1, h2.1.2, h2.2⟩

end LifecycleClaims


section PrintClaims

variable {α : Type}

/-- C22. Print cap: let `Level(level)` leave a `PrintValues` sink on. Then that call has
reset the counter to 0, and if `m < 2^64` values are then received, the values passed to
`Println` during the level are exactly the first `min(m, maxPrints)` of them, in order; in
particular with `2N` values and `maxPrints = N`, exactly the first `N` values of the level are
printed. -/
theorem PrintValues_print_cap (canOpen : String → Bool) (s : PrintValuesState α) (level : Int)
    (vs : List α) (hm : vs.length < 2 ^ 64)
    (hen : (PrintValues canOpen).IsOn ((PrintValues canOpen).Level level s) = true) :
    ((PrintValues canOpen).Level level s).currentPrints_ = 0 ∧
      ((PrintValues canOpen).Level level s).maxPrints_ = s.maxPrints_ ∧
      printed (drive (PrintValues canOpen) (Call.Level level :: vs.map Call.value) s).io =
        printed s.io ++ vs.take s.maxPrints_ ∧
      (vs.take s.maxPrints_).length = min vs.length s.maxPrints_ ∧
      (∀ N : Nat, vs.length = 2 * N → s.maxPrints_ = N →
        printed (drive (PrintValues canOpen) (Call.Level level :: vs.map Call.value) s).io =
          printed s.io ++ vs.take N ∧ (vs.take N).length = N) := by
  have hl := Level_enabled canOpen level s hen
  have hp : printed (drive (PrintValues canOpen) (Call.Level level :: vs.map Call.value) s).io =
      printed s.io ++ vs.take s.maxPrints_ := by
    rw [drive_cons]
    show printed (drive (PrintValues canOpen) (vs.map Call.value) (s.Level canOpen level)).io = _
    rw [printed_values_on canOpen vs (s.Level canOpen level) hen hl.1 hm, hl.2.1, hl.2.2]
  refine ⟨hl.1, hl.2.1, hp, ?_, ?_⟩
  · rw [List.length_take, Nat.min_comm]
  · intro N hN hmp
    rw [hp, hmp]
    refine ⟨rfl, ?_⟩
    rw [List.length_take]
    omega

/-- Witness for C22: a sink without trigger streaming to a file, `maxPrints = 2`, level 1,
four values. -/
theorem PrintValues_print_cap_witness :
    ([5, 6, 7, 8] : List ℚ).length < 2 ^ 64 ∧
      (PrintValues (fun _ => true)).IsOn ((PrintValues (fun _ => true)).Level 1
        ({ pLevel_ := -1, currentPrints_ := 0, maxPrints_ := 2, base_ := "out", on_ := true,
           doReset_ := false, useStdout_ := false, fptr_ := none, io := [],
           thrown := none } : PrintValuesState ℚ)) = true ∧
      printed (drive (PrintValues (fun _ => true))
        (Call.Level 1 :: ([5, 6, 7, 8] : List ℚ).map Call.value)
        ({ pLevel_ := -1, currentPrints_ := 0, maxPrints_ := 2, base_ := "out", on_ := true,
           doReset_ := false, useStdout_ := false, fptr_ := none, io := [],
           thrown := none } : PrintValuesState ℚ)).io =
        printed ([] : List (IOEvent ℚ)) ++ ([5, 6, 7, 8] : List ℚ).take 2 :=
  ⟨by simp, rfl,
    (PrintValues_print_cap (fun _ => true)
      ({ pLevel_ := -1, currentPrints_ := 0, maxPrints_ := 2, base_ := "out", on_ := true,
         doReset_ := false, useStdout_ := false, fptr_ := none, io := [],
         thrown := none } : PrintValuesState ℚ) 1 [5, 6, 7, 8] (by simp) rfl).2.2.1⟩

end PrintClaims

section PrintLastClaims

variable {α : Type} [Field α] {σ : Type}

/-- C23. Cascade-driving sink: `PrintLast::Reset` on a sink with a trigger
`0 ≤ pLevel_ < INT_MAX` (the `int` increment does not overflow) advances the trigger by exactly
one and resets the print counter, leaving the on/off flag (and every other member) unchanged.
Consequently, in a valid `doAll` call whose details sink is a
`PrintLast` constructed with trigger 0 (every `fopen` succeeding, `N < 2^64`), the values the
sink passes to `Println` are, for `idx = 1 .. level` in this order, the first `maxPrints` of
the `N` values of the final (`idx`-th) step of the detail cascade of the level `idx`, and
nothing from the intermediate steps. -/
theorem PrintLast_drives_cascade (sqrt2 : α) (a c d : Sink σ α) (canOpen : String → Bool)
    (basename : String) (maxPrints : Nat) (s0 : PrintValuesState α) (X : List α) (level : Nat)
    (f : Filter.FType) (w : σ)
    (hctor : PrintLastCtor basename maxPrints 0 = Except.ok s0)
    (hopen : ∀ n, canOpen n = true) (hX : X ≠ []) (h1 : 1 ≤ level) (h32 : level < 2 ^ 32)
    (hN : 2 ^ (level - 1) ≤ X.length) (h64 : X.length < 2 ^ 64) :
    (∀ s : PrintValuesState α, 0 ≤ s.pLevel_ → s.pLevel_ < 2 ^ 31 - 1 →
      (PrintLast canOpen).Reset s =
        { s with pLevel_ := s.pLevel_ + 1, currentPrints_ := 0 }) ∧
      (∀ s : PrintValuesState α, ((PrintLast canOpen).Reset s).on_ = s.on_) ∧
      (doAll sqrt2 a.onFst (PrintLast canOpen).onSnd c.onFst d.onFst X level f.toInt
        (w, s0)).err = none ∧
      (doAll sqrt2 a.onFst (PrintLast canOpen).onSnd c.onFst d.onFst X level f.toInt
        (w, s0)).world.2.thrown = none ∧
      printed (doAll sqrt2 a.onFst (PrintLast canOpen).onSnd c.onFst d.onFst X level f.toInt
        (w, s0)).world.2.io =
        (List.range' 1 level).flatMap (fun idx =>
          (detailStage
            (waveletLevel X (Filter.Details.make_filter Transform.MODWT sqrt2 f.garr).1
              (Filter.Details.make_filter Transform.MODWT sqrt2 f.garr).2 (idx - 1))
            (Filter.Details.make_filter Transform.MODWT sqrt2 f.garr).1
            (Filter.Details.make_filter Transform.MODWT sqrt2 f.garr).2 (idx - 1) idx).take
              maxPrints) ∧
      (∀ idx : Nat,
        (detailStage
          (waveletLevel X (Filter.Details.make_filter Transform.MODWT sqrt2 f.garr).1
            (Filter.Details.make_filter Transform.MODWT sqrt2 f.garr).2 (idx - 1))
          (Filter.Details.make_filter Transform.MODWT sqrt2 f.garr).1
          (Filter.Details.make_filter Transform.MODWT sqrt2 f.garr).2 (idx - 1) idx).length =
            X.length) := by
  have hsh := doAll_shared sqrt2 (a.onFst (τ := PrintValuesState α))
    ((PrintLast canOpen).onSnd (σ := σ)) (c.onFst (τ := PrintValuesState α))
    (d.onFst (τ := PrintValuesState α)) X level f (w, s0) hX h1 h32 hN
  have hlev : level < 2 ^ 31 := by
    by_contra hc
    have h2 : 2 ^ 64 ≤ 2 ^ (level - 1) := Nat.pow_le_pow_right (by norm_num) (by omega)
    omega
  have hfold := PrintLast_details_fold canOpen hopen X
    (Filter.Details.make_filter Transform.MODWT sqrt2 f.garr).1
    (Filter.Details.make_filter Transform.MODWT sqrt2 f.garr).2 s0 maxPrints
    (PrintLastCtor_summary basename maxPrints s0 hctor) h64 level hlev
  have hw : (doAll sqrt2 a.onFst (PrintLast canOpen).onSnd c.onFst d.onFst X level f.toInt
      (w, s0)).world.2 =
      (List.range' 1 level).foldl (detailsLevelWorld (PrintLast canOpen) X
        (Filter.Details.make_filter Transform.MODWT sqrt2 f.garr).1
        (Filter.Details.make_filter Transform.MODWT sqrt2 f.garr).2) s0 := by
    rw [hsh.2, doAll_details_world]
    rfl
  refine ⟨?_, ?_, hsh.1, ?_, ?_, ?_⟩
  · intro s hp hmax
    have hge : s.pLevel_ ≥ 0 := hp
    simp only [PrintLast, hge, if_true]
    rw [int_succ_exact s.pLevel_ hp hmax]
  · intro s
    simp only [PrintLast]
    split <;> rfl
  · rw [hw]
    exact hfold.2.2.2.1
  · rw [hw]
    exact hfold.2.2.2.2
  · intro idx
    rw [detailStage_length, waveletLevel_length]

/-- Witness for C23: the series `[1, 2]`, `level = 2`, the Haar family (with `sqrt2 := 1`), a
`PrintLast` on the basename `d` with `maxPrints = 1`, and `DoNothing` for the three other
sinks. The detail cascade of level 2 has two steps; the sink prints one value per level, the
first value of the final step of the cascade of that level, and nothing of the first step of
the cascade of level 2. -/
theorem PrintLast_drives_cascade_witness :
    PrintLastCtor "d" 1 0 = Except.ok
        ({ pLevel_ := 0, currentPrints_ := 0, maxPrints_ := 1, base_ := "d", on_ := true,
           doReset_ := false, useStdout_ := false, fptr_ := none, io := [],
           thrown := none } : PrintValuesState ℚ) ∧
      (∀ n : String, (fun _ => true) n = true) ∧ ([1, 2] : List ℚ) ≠ [] ∧ 1 ≤ 2 ∧
      2 < 2 ^ 32 ∧ 2 ^ (2 - 1) ≤ ([1, 2] : List ℚ).length ∧
      ([1, 2] : List ℚ).length < 2 ^ 64 ∧
      printed (doAll (1 : ℚ) (DoNothing (σ := Unit)).onFst (PrintLast (fun _ => true)).onSnd
        (DoNothing (σ := Unit)).onFst (DoNothing (σ := Unit)).onFst [1, 2] 2
        Filter.FType.Haar.toInt
        ((),
          ({ pLevel_ := 0, currentPrints_ := 0, maxPrints_ := 1, base_ := "d", on_ := true,
             doReset_ := false, useStdout_ := false, fptr_ := none, io := [],
             thrown := none } : PrintValuesState ℚ))).world.2.io =
        [-499999999999999258385213783209 / 500000000000000000000000000000, 0] :=
  ⟨rfl, fun _ => rfl, by simp, by norm_num, by norm_num, by simp, by simp,
    ((PrintLast_drives_cascade (1 : ℚ) DoNothing DoNothing DoNothing (fun _ => true) "d" 1
      ({ pLevel_ := 0, currentPrints_ := 0, maxPrints_ := 1, base_ := "d", on_ := true,
         doReset_ := false, useStdout_ := false, fptr_ := none, io := [],
         thrown := none } : PrintValuesState ℚ) [1, 2] 2 Filter.FType.Haar () rfl
      (fun _ => rfl) (by simp) (by norm_num) (by norm_num) (by simp) (by simp)).2.2.2.2.1).trans
      PrintLast_example_values⟩

end PrintLastClaims

/-! ## The two forward overloads -/

section OverloadClaims

variable {α : Type} [Field α] {σ : Type}

/-- C38. The two `modwt_forward` overloads are equivalent: for buffers of the length `N` of
the input, both leave the same values in `Vj` and the same sink state, which is the one
reached by the calls `vop(Vj[t])`, `wop(W[t])` for `t = 0 .. N-1`, where `W` is what the
buffer-writing overload leaves in its `Wj`: the values passed to `wop`, in order, are exactly
the entries of that buffer (and those passed to `vop` the entries of `Vj`). With recording
sinks the two overloads produce the same log. -/
theorem modwt_forward_overloads (vop wop : Sink σ α) (Vi h g : List α) (j : Nat)
    (Vj Wj : List α) (w : σ) (hVj : Vj.length = Vi.length) (hWj : Wj.length = Vi.length) :
    (Details.modwt_forward2 vop wop Vi h g j Vj Wj w).1 =
        (Details.modwt_forward vop wop Vi h g j Vj w).1 ∧
      (Details.modwt_forward2 vop wop Vi h g j Vj Wj w).2.2 =
        (Details.modwt_forward vop wop Vi h g j Vj w).2 ∧
      (Details.modwt_forward vop wop Vi h g j Vj w).2 =
        replay (Port.sink vop wop)
          (forwardCalls (Details.modwt_forward2 vop wop Vi h g j Vj Wj w).1
            (Details.modwt_forward2 vop wop Vi h g j Vj Wj w).2.1) w ∧
      Port.calls Port.wop
          (forwardCalls (Details.modwt_forward2 vop wop Vi h g j Vj Wj w).1
            (Details.modwt_forward2 vop wop Vi h g j Vj Wj w).2.1) =
        (Details.modwt_forward2 vop wop Vi h g j Vj Wj w).2.1.map Call.value ∧
      Port.calls Port.vop
          (forwardCalls (Details.modwt_forward2 vop wop Vi h g j Vj Wj w).1
            (Details.modwt_forward2 vop wop Vi h g j Vj Wj w).2.1) =
        (Details.modwt_forward2 vop wop Vi h g j Vj Wj w).1.map Call.value ∧
      (∀ b1 b2 : Bool,
        (Details.modwt_forward2 (recorder Port.vop b1) (recorder Port.wop b2) Vi h g j Vj Wj
            []).2.2 =
          (Details.modwt_forward (recorder Port.vop b1) (recorder Port.wop b2) Vi h g j Vj
            []).2) := by
  have h2 := modwt_forward2_eq vop wop Vi h g j Vj Wj w hVj hWj
  have h1 := modwt_forward_world vop wop Vi h g j Vj w hVj
  rw [h2]
  refine ⟨h1.1.symm, rfl, h1.2, ?_, ?_, ?_⟩
  · exact wop_calls_forwardCalls _ _ (by rw [forwardV_length, forwardW_length])
  · exact vop_calls_forwardCalls _ _
  · intro b1 b2
    rw [modwt_forward2_eq _ _ Vi h g j Vj Wj [] hVj hWj]

/-- Witness for C38: the series `[1, 2]`, the filters `[1, -1]` and `[1, 1]`, level 0. -/
theorem modwt_forward_overloads_witness :
    ([0, 0] : List ℚ).length = ([1, 2] : List ℚ).length ∧
      ([0, 0] : List ℚ).length = ([1, 2] : List ℚ).length ∧
      (Details.modwt_forward2 (DoNothing (σ := Unit)) DoNothing ([1, 2] : List ℚ) [1, -1] [1, 1] 0
          [0, 0] [0, 0] ()).1 =
        (Details.modwt_forward (DoNothing (σ := Unit)) DoNothing ([1, 2] : List ℚ) [1, -1] [1, 1]
          0 [0, 0] ()).1 :=
  ⟨rfl, rfl,
    (modwt_forward_overloads (DoNothing (σ := Unit)) DoNothing ([1, 2] : List ℚ) [1, -1] [1, 1]
      0 [0, 0] [0, 0] () rfl rfl).1⟩

end OverloadClaims

/-! ## Unsigned wrap-around in the length checks -/

section WrapClaims

variable {α : Type} [Field α] {σ : Type}

/-- C33. `doAll` with `level = 0` raises `ArgumentError` for every series (of a length below
`2^64`), non-empty ones included, and leaves the series and the sinks untouched: the exponent
`level - 1` is computed on `unsigned int` and wraps to `2^32 - 1`, so that the check compares
`X.size()` with `2^(2^32 - 1)`. By contrast `modwt` with `numLevels = 0` accepts every
non-empty series, makes no sink call and leaves the series as it is. -/
theorem doAll_level_zero (sqrt2 : α) (a b c d : Sink σ α) (X : List α) (filterType : Int)
    (w : σ) (hN : X.length < 2 ^ 64) :
    (0 + 2 ^ 32 - 1) % 2 ^ 32 = 2 ^ 32 - 1 ∧
      (doAll sqrt2 a b c d X 0 filterType w).err = some Error.ArgumentError ∧
      (doAll sqrt2 a b c d X 0 filterType w).buf = X ∧
      (doAll sqrt2 a b c d X 0 filterType w).world = w ∧
      (∀ (h g : List α), X ≠ [] → modwt c a X h g 0 w = { err := none, buf := X, world := w }) := by
  have hexp : (0 + 2 ^ 32 - 1) % 2 ^ 32 = 2 ^ 32 - 1 := by norm_num
  have hd : (doAll sqrt2 a b c d X 0 filterType w).err = some Error.ArgumentError ∧
      (doAll sqrt2 a b c d X 0 filterType w).buf = X ∧
      (doAll sqrt2 a b c d X 0 filterType w).world = w := by
    by_cases hX : X = []
    · subst hX
      simp [doAll, Assert]
    · have hne : X.isEmpty = false := by
        cases X with
        | nil => exact absurd rfl hX
        | cons a l => rfl
      have hbad : lengthOk X.length (((0 + 2 ^ 32 - 1) % 2 ^ 32 : Nat) : Int) = false :=
        lengthOk_huge X.length _ hN (by rw [hexp]; norm_num)
      simp only [doAll, Assert, hne, hbad, Bool.not_false, if_true]
      exact ⟨rfl, rfl, rfl⟩
  exact ⟨hexp, hd.1, hd.2.1, hd.2.2, fun h g hX => modwt_zero c a X h g w hX⟩

/-- Witness for C33: the series `[1, 2, 3]` with recording sinks. -/
theorem doAll_level_zero_witness :
    ([1, 2, 3] : List ℚ).length < 2 ^ 64 ∧
      (doAll (1 : ℚ) (recorder 0 true) (recorder 1 true) (recorder 2 true) (recorder 3 true)
        [1, 2, 3] 0 0 ([] : List (Nat × Call ℚ))).err = some Error.ArgumentError :=
  ⟨by simp,
    (doAll_level_zero (1 : ℚ) (recorder 0 true) (recorder 1 true) (recorder 2 true)
      (recorder 3 true) [1, 2, 3] 0 ([] : List (Nat × Call ℚ)) (by simp)).2.1⟩

/-- C34. `imodwt` with an empty collection of wavelet coefficient series raises
`ArgumentError` for every `Vj0` (of a length below `2^64`) and makes no sink call; it does not
return `Vj0` as the reconstruction: the exponent `Wj.size() - 1` is computed on `std::size_t`
and wraps to `2^64 - 1`, so that the check compares `Vj0.size()` with `2^(2^64 - 1)`. -/
theorem imodwt_empty_rejected (vop : Sink σ α) (Vj0 h g : List α) (w : σ)
    (hN : Vj0.length < 2 ^ 64) :
    (0 + 2 ^ 64 - 1) % 2 ^ 64 = 2 ^ 64 - 1 ∧
      (imodwt vop Vj0 ([] : List (List α)) h g w).err = some Error.ArgumentError ∧
      (imodwt vop Vj0 ([] : List (List α)) h g w).world = w ∧
      (imodwt vop Vj0 ([] : List (List α)) h g w).buf = Vj0 := by
  have hexp : (0 + 2 ^ 64 - 1) % 2 ^ 64 = 2 ^ 64 - 1 := by norm_num
  have hbad : lengthOk Vj0.length (((([] : List (List α)).length + 2 ^ 64 - 1) % 2 ^ 64 : Nat) :
      Int) = false :=
    lengthOk_huge Vj0.length _ hN (by rw [List.length_nil, hexp]; norm_num)
  refine ⟨hexp, ?_⟩
  simp only [imodwt, Assert, hbad, Bool.not_false, if_true]
  exact ⟨rfl, rfl, rfl⟩

/-- Witness for C34: the scaling coefficients `[1, 2, 3]` with a recording sink. -/
theorem imodwt_empty_rejected_witness :
    ([1, 2, 3] : List ℚ).length < 2 ^ 64 ∧
      (imodwt (recorder () true) ([1, 2, 3] : List ℚ) [] [1, -1] [1, 1]
        ([] : List (Unit × Call ℚ))).err = some Error.ArgumentError :=
  ⟨by simp,
    (imodwt_empty_rejected (recorder () true) ([1, 2, 3] : List ℚ) [1, -1] [1, 1]
      ([] : List (Unit × Call ℚ)) (by simp)).2.1⟩

end WrapClaims

/-! ## Effect of `modwt` on its argument -/

section FrameClaims

variable {α : Type} [Field α] {σ : Type}

/-- C35. Effect of `modwt` on the caller's series: in a valid call with `numLevels = J ≥ 1`
(`2^(J-1) ≤ N`), on return `X` holds the scaling coefficients of the level `2·⌊J/2⌋` (the
series itself for `J = 1`, the last even level computed for `J ≥ 2`) and its length is
unchanged; with `numLevels ≤ 0` the series and the sinks are left as they are. -/
theorem modwt_effect_on_series (vop wop : Sink σ α) (X h g : List α) (J : Nat) (w : σ)
    (hJ : 1 ≤ J) (hN : 2 ^ (J - 1) ≤ X.length) :
    (modwt vop wop X h g (J : Int) w).buf = scalingLevel X h g (2 * (J / 2)) ∧
      (modwt vop wop X h g (J : Int) w).buf.length = X.length ∧
      (J = 1 → (modwt vop wop X h g (J : Int) w).buf = X) ∧
      (∀ n : Int, n ≤ 0 →
        (modwt vop wop X h g n w).buf = X ∧ (modwt vop wop X h g n w).world = w) := by
  have hv := modwt_of_valid vop wop X h g J w hJ hN
  have hbuf : (modwt vop wop X h g (J : Int) w).buf = scalingLevel X h g (2 * (J / 2)) := by
    rw [hv]
    by_cases hp : J % 2 = 0
    · have e : 2 * (J / 2) = J := by omega
      simp only [hp, if_true, e]
    · have e : 2 * (J / 2) = J - 1 := by omega
      simp only [hp, if_false, e]
  refine ⟨hbuf, ?_, ?_, fun n hn => modwt_nonpositive vop wop X h g n w hn⟩
  · rw [hbuf, scalingLevel_length]
  · intro h1
    rw [hbuf, h1]
    rfl

/-- Witness for C35: the series `[1, 2, 3, 4]`, the filters `[1, -1]` and `[1, 1]`, depth 3:
on return the series holds the scaling coefficients of level 2. -/
theorem modwt_effect_on_series_witness :
    1 ≤ 3 ∧ 2 ^ (3 - 1) ≤ ([1, 2, 3, 4] : List ℚ).length ∧
      (modwt (DoNothing (σ := Unit)) DoNothing ([1, 2, 3, 4] : List ℚ) [1, -1] [1, 1]
        ((3 : Nat) : Int) ()).buf = scalingLevel ([1, 2, 3, 4] : List ℚ) [1, -1] [1, 1]
          (2 * (3 / 2)) :=
  ⟨by norm_num, by simp,
    (modwt_effect_on_series (DoNothing (σ := Unit)) DoNothing ([1, 2, 3, 4] : List ℚ) [1, -1]
      [1, 1] 3 () (by norm_num) (by simp)).1⟩

end FrameClaims

/-! ## Sequences of sink calls the sinks do not guard against -/

section DoubleClose

/-- C36. A file-backed `PrintValues` sink can close the same destination twice: a sink without
trigger (`pLevel = -1`) on the basename `out` that is opened by `Level(1)`, switched `Off()`
and then receives `Level(2)` closes the stream of level 1 in `Level(2)`, returns early without
resetting `fptr_`, and closes the same stream again in its destructor. One stream has been
opened and `fclose` has been called on it twice. -/
theorem PrintValues_double_close :
    PrintValuesState.ctor "out" 3 (-1) = Except.ok
        ({ pLevel_ := -1, currentPrints_ := 0, maxPrints_ := 3, base_ := "out", on_ := true,
           doReset_ := false, useStdout_ := false, fptr_ := none, io := [],
           thrown := none } : PrintValuesState ℚ) ∧
      openCount (drive (PrintValues (fun _ => true)) [Call.Level 1, Call.Off, Call.Level 2]
        ({ pLevel_ := -1, currentPrints_ := 0, maxPrints_ := 3, base_ := "out", on_ := true,
           doReset_ := false, useStdout_ := false, fptr_ := none, io := [],
           thrown := none } : PrintValuesState ℚ)).destroy.io = 1 ∧
      (drive (PrintValues (fun _ => true)) [Call.Level 1, Call.Off, Call.Level 2]
        ({ pLevel_ := -1, currentPrints_ := 0, maxPrints_ := 3, base_ := "out", on_ := true,
           doReset_ := false, useStdout_ := false, fptr_ := none, io := [],
           thrown := none } : PrintValuesState ℚ)).fptr_ = some (Dest.file 0) ∧
      closeCount (Dest.file 0)
        (drive (PrintValues (fun _ => true)) [Call.Level 1, Call.Off, Call.Level 2]
          ({ pLevel_ := -1, currentPrints_ := 0, maxPrints_ := 3, base_ := "out", on_ := true,
             doReset_ := false, useStdout_ := false, fptr_ := none, io := [],
             thrown := none } : PrintValuesState ℚ)).io = 1 ∧
      closeCount (Dest.file 0)
        (drive (PrintValues (fun _ => true)) [Call.Level 1, Call.Off, Call.Level 2]
          ({ pLevel_ := -1, currentPrints_ := 0, maxPrints_ := 3, base_ := "out", on_ := true,
             doReset_ := false, useStdout_ := false, fptr_ := none, io := [],
             thrown := none } : PrintValuesState ℚ)).destroy.io = 2 := by
  refine ⟨rfl, ?_, ?_, ?_, ?_⟩ <;> decide

end DoubleClose

section AppendSafety

variable {α : Type}

/-- C37. `SaveAllValues` does not guard its append: right after construction and right
after `Reset()` the sink is on and has no partition, so that a call of `operator()` accesses
`vals_[vals_.size()-1]` out of range (the index wraps to `2^64 - 1`); the same holds after
`Off()`, `Level(1)`, `On()` on a fresh sink. The access is in range once `Level` has been
called while the sink was on (with fewer than `2^64 - 1` partitions), and it stays in range
through `operator()`, `On()`, `Off()` and further `Level` calls. -/
theorem SaveAllValues_append_unguarded :
    ((SaveAllValuesState.init (α := α)).on_ = true ∧
        lastPartitionInRange (SaveAllValuesState.init (α := α)).vals_ = false) ∧
      (∀ s : SaveAllValuesState α,
        ((SaveAllValues (α := α)).Reset s).on_ = true ∧
          lastPartitionInRange ((SaveAllValues (α := α)).Reset s).vals_ = false) ∧
      ((drive (SaveAllValues (α := α)) [Call.Off, Call.Level 1, Call.On]
          SaveAllValuesState.init).on_ = true ∧
        lastPartitionInRange (drive (SaveAllValues (α := α)) [Call.Off, Call.Level 1, Call.On]
          SaveAllValuesState.init).vals_ = false) ∧
      (∀ (s : SaveAllValuesState α) (l : Int), s.on_ = true → s.vals_.length + 1 < 2 ^ 64 →
        lastPartitionInRange ((SaveAllValues (α := α)).Level l s).vals_ = true) ∧
      (∀ (s : SaveAllValuesState α) (c : Call α), c ≠ Call.Reset →
        s.vals_.length + 1 < 2 ^ 64 → lastPartitionInRange s.vals_ = true →
          lastPartitionInRange ((SaveAllValues (α := α)).apply c s).vals_ = true) := by
  refine ⟨⟨rfl, lastPartitionInRange_nil⟩, fun s => ⟨rfl, lastPartitionInRange_nil⟩,
    ⟨rfl, lastPartitionInRange_nil⟩, ?_, ?_⟩
  · intro s l hon h64
    have hl : ((SaveAllValues (α := α)).Level l s).vals_ = s.vals_ ++ [[]] := by
      simp [SaveAllValues, hon]
    rw [hl, lastPartitionInRange_iff _ (by simp; omega)]
    simp
  · intro s c hc h64 hin
    have hne : s.vals_ ≠ [] := (lastPartitionInRange_iff _ (by omega)).mp hin
    cases c with
    | Level l =>
      by_cases hon : s.on_ = true
      · have hl : ((SaveAllValues (α := α)).apply (Call.Level l) s).vals_ = s.vals_ ++ [[]] := by
          simp [Sink.apply, SaveAllValues, hon]
        rw [hl, lastPartitionInRange_iff _ (by simp; omega)]
        simp
      · have hl : (SaveAllValues (α := α)).apply (Call.Level l) s = s := by
          simp [Sink.apply, SaveAllValues, hon]
        rw [hl]; exact hin
    | Off => exact hin
    | On => exact hin
    | Reset => exact absurd rfl hc
    | value t =>
      by_cases hon : s.on_ = true
      · have hl : ((SaveAllValues (α := α)).apply (Call.value t) s).vals_ =
            pushLast s.vals_ t := by
          simp [Sink.apply, SaveAllValues, hon]
        have hlen := pushLast_length s.vals_ t
        rw [hl, lastPartitionInRange_iff _ (by omega)]
        intro hnil
        rw [hnil] at hlen
        have : s.vals_.length = 0 := by simpa using hlen.symm
        exact hne (List.length_eq_zero.mp this)
      · have hl : (SaveAllValues (α := α)).apply (Call.value t) s = s := by
          simp [Sink.apply, SaveAllValues, hon]
        rw [hl]; exact hin

end AppendSafety

section SmoothOneCheck

variable {α : Type} [Field α] {σ : Type}

end SmoothOneCheck

/-! ## Commutation of the zero-phase steps -/

section CommuteClaims

variable {α : Type} [Field α] {σ : Type}

/-- C31. Order independence of the detail cascade: for a wavelet coefficient series `W` of
length `N`, a 0-based level `ell` with `2^ell ≤ N` and any two filters, the waveform
`details_one` produces (scaling-filter steps at the shifts `1, 2, ..., 2^(ell-1)`, then the
wavelet-filter step at the shift `2^ell`) equals the waveform computed in the order of the
inverse transform (wavelet-filter step at `2^ell` first, then scaling-filter steps at
`2^(ell-1), ..., 1`). Any two zero-phase steps commute: for every series `K`, filters `f1`,
`f2` and levels with `2^j1 ≤ N`, `2^j2 ≤ N`, applying step `(f1, j1)` then `(f2, j2)` gives the
same series as applying `(f2, j2)` then `(f1, j1)`. -/
theorem detail_cascade_order_independent (dop : Sink σ α) (W Wit h g : List α) (ell : Nat)
    (w : σ) (hN : 2 ^ ell ≤ W.length) (hlen : Wit.length = W.length) :
    detailStage W h g ell (ell + 1) = inverseOrderWaveform W h g ell ∧
      (if (ell + 1) % 2 = 0 then (Details.details_one dop W Wit h g ell w).1
        else (Details.details_one dop W Wit h g ell w).2.1) = inverseOrderWaveform W h g ell ∧
      (∃ pre : List (Call α), detailCalls W h g ell =
        pre ++ Call.Level ((ell : Int) + 1) ::
          (inverseOrderWaveform W h g ell).map Call.value) ∧
      (∀ (K f1 f2 : List α) (j1 j2 : Nat), 2 ^ j1 ≤ K.length → 2 ^ j2 ≤ K.length →
        Details.zerophaseAll (Details.zerophaseAll K f1 j1) f2 j2 =
          Details.zerophaseAll (Details.zerophaseAll K f2 j2) f1 j1) ∧
      (∀ (op1 op2 op3 op4 : Sink σ α) (K f1 f2 B1 B2 B3 B4 : List α) (j1 j2 : Nat)
        (w1 w2 w3 w4 : σ), 2 ^ j1 ≤ K.length → 2 ^ j2 ≤ K.length →
        B1.length = K.length → B2.length = K.length → B3.length = K.length →
        B4.length = K.length →
        (Details.imodwt_backward_zerophase op2
            (Details.imodwt_backward_zerophase op1 K f1 j1 B1 w1).1 f2 j2 B2 w2).1 =
          (Details.imodwt_backward_zerophase op4
            (Details.imodwt_backward_zerophase op3 K f2 j2 B3 w3).1 f1 j1 B4 w4).1) := by
  have hpos : 1 ≤ W.length := le_trans Nat.one_le_two_pow hN
  have hne : W ≠ [] := by
    intro hnil
    rw [hnil] at hpos
    simp at hpos
  have hmain := detailStage_inverseOrder W h g ell hN
  refine ⟨hmain, ?_, ?_, fun K f1 f2 j1 j2 h1 h2 => zerophase_comm K f1 f2 j1 j2 h1 h2, ?_⟩
  · rw [details_one_eq dop W Wit h g ell w hne hlen, ← hmain]
    by_cases hp : (ell + 1) % 2 = 0
    · simp only [hp, if_true]
    · simp only [hp, if_false]
  · refine ⟨(List.range ell).flatMap (fun j =>
      Call.Level ((j : Int) + 1) :: (detailStage W h g ell (j + 1)).map Call.value), ?_⟩
    rw [← hmain]
    simp [detailCalls, List.range_succ]
  · intro op1 op2 op3 op4 K f1 f2 B1 B2 B3 B4 j1 j2 w1 w2 w3 w4 h1 h2 hB1 hB2 hB3 hB4
    rw [imodwt_backward_zerophase_eq op1 K f1 j1 B1 w1 hB1,
      imodwt_backward_zerophase_eq op3 K f2 j2 B3 w3 hB3]
    rw [imodwt_backward_zerophase_eq op2 _ f2 j2 B2 w2 (by rw [zerophaseAll_length]; exact hB2),
      imodwt_backward_zerophase_eq op4 _ f1 j1 B4 w4 (by rw [zerophaseAll_length]; exact hB4)]
    exact zerophase_comm K f1 f2 j1 j2 h1 h2

/-- Witness for C31: the series `[1, 2]`, the filters `[1, -1]` and `[1, 1]`, level 1. -/
theorem detail_cascade_order_independent_witness :
    2 ^ 1 ≤ ([1, 2] : List ℚ).length ∧ ([0, 0] : List ℚ).length = ([1, 2] : List ℚ).length ∧
      detailStage ([1, 2] : List ℚ) [1, -1] [1, 1] 1 (1 + 1) =
        inverseOrderWaveform ([1, 2] : List ℚ) [1, -1] [1, 1] 1 :=
  ⟨by simp, rfl,
    (detail_cascade_order_independent (DoNothing (σ := Unit)) ([1, 2] : List ℚ) [0, 0] [1, -1]
      [1, 1] 1 () (by simp) rfl).1⟩

end CommuteClaims

/-! ## `doAll` and the separate pipeline -/

section PipelineClaims

variable {α : Type} [Field α] {σ τ : Type}

/-- C32. `doAll` agrees with the separate pipeline. In a valid call (non-empty series,
`1 ≤ level < 2^32`, `2^(level-1) ≤ N`, a catalogued family with MODWT filters `h`, `g`), for a
sink `t` with its own state and arbitrary other sinks (in particular whether or not the
details sink is on): as wavelet sink, `t` ends in the state `modwt` to depth `level` leaves it
in; as smooth sink, `t` receives `Level(1), ..., Level(level)` and then, if it is on, exactly
the calls of `smooth(V_level, g, level)`; as details sink, `t` receives at every level `idx`
`Reset()`, `Level(idx)` and then, if it is on, exactly the calls `details` makes for the
series `W_idx`. No exception is raised. The values are those computed from the complete
coefficient series, so no buffer is overwritten while a later step still reads it. -/
theorem doAll_agrees_with_pipeline (sqrt2 : α) (a b c d : Sink σ α) (t : Sink τ α)
    (X : List α) (level : Nat) (f : Filter.FType) (w : σ) (s : τ)
    (hX : X ≠ []) (h1 : 1 ≤ level) (h32 : level < 2 ^ 32) (hN : 2 ^ (level - 1) ≤ X.length) :
    (doAll sqrt2 t.onSnd b.onFst c.onFst d.onFst X level f.toInt (w, s)).err = none ∧
      (doAll sqrt2 t.onSnd b.onFst c.onFst d.onFst X level f.toInt (w, s)).world.2 =
        (modwt c.onFst t.onSnd X
          (Filter.Details.make_filter Transform.MODWT sqrt2 f.garr).1
          (Filter.Details.make_filter Transform.MODWT sqrt2 f.garr).2 (level : Int)
          (w, s)).world.2 ∧
      (doAll sqrt2 a.onFst b.onFst c.onFst t.onSnd X level f.toInt (w, s)).err = none ∧
      (doAll sqrt2 a.onFst b.onFst c.onFst t.onSnd X level f.toInt (w, s)).world.2 =
        (if t.IsOn (drive t (levelTags level) s) then
          (smooth t
            (scalingLevel X (Filter.Details.make_filter Transform.MODWT sqrt2 f.garr).1
              (Filter.Details.make_filter Transform.MODWT sqrt2 f.garr).2 level)
            (Filter.Details.make_filter Transform.MODWT sqrt2 f.garr).2 (level : Int)
            (drive t (levelTags level) s)).world
        else drive t (levelTags level) s) ∧
      (doAll sqrt2 a.onFst t.onSnd c.onFst d.onFst X level f.toInt (w, s)).err = none ∧
      (doAll sqrt2 a.onFst t.onSnd c.onFst d.onFst X level f.toInt (w, s)).world.2 =
        (List.range' 1 level).foldl
          (detailsViaDetails t X (Filter.Details.make_filter Transform.MODWT sqrt2 f.garr).1
            (Filter.Details.make_filter Transform.MODWT sqrt2 f.garr).2) s := by
  have hw := doAll_shared sqrt2 (t.onSnd (σ := σ)) (b.onFst (τ := τ)) (c.onFst (τ := τ))
    (d.onFst (τ := τ)) X level f (w, s) hX h1 h32 hN
  have hs := doAll_shared sqrt2 (a.onFst (τ := τ)) (b.onFst (τ := τ)) (c.onFst (τ := τ))
    (t.onSnd (σ := σ)) X level f (w, s) hX h1 h32 hN
  have hd := doAll_shared sqrt2 (a.onFst (τ := τ)) (t.onSnd (σ := σ)) (c.onFst (τ := τ))
    (d.onFst (τ := τ)) X level f (w, s) hX h1 h32 hN
  refine ⟨hw.1, ?_, hs.1, ?_, hd.1, ?_⟩
  · rw [hw.2, fold_snd_eq _ _ (fun w0 idx => doAllLevelWorld_wavelet b c d t X _ _ level _ w0 idx),
      (modwt_wop_world c t X _ _ level (w, s) h1 hN).2, waveletLevelWorld_fold]
    rfl
  · rw [hs.2, fold_snd_eq _ _ (fun w0 idx => doAllLevelWorld_smooth a b c t X _ _ level _ w0 idx)]
    exact smoothLevelWorld_fold t X _ _ level s h1 hN
  · rw [hd.2, fold_snd_eq _ _ (fun w0 idx => doAllLevelWorld_details a c d t X _ _ level _ w0 idx)]
    apply foldl_congr_mem
    intro s0 idx hidx
    have hb := List.mem_range'_1.mp hidx
    exact detailsLevelWorld_eq_details t X _ _ s0 idx hb.1
      (pow_le_of_le X.length (idx - 1) (level - 1) (by omega) hN)

/-- Witness for C32: the series `[1, 2, 3, 4]`, `level = 3`, the Haar family, and five
`SaveAllValues` sinks, all on: the four sinks of `doAll` that are not under observation share
one state, so the details branch (third buffer, three cascades of one, two and three steps)
and the three-step smooth cascade run, and the buffers are swapped after every level. The
wavelet sink ends as after `modwt`, the smooth sink as after `smooth`, the details sink as
after `details` level by level. -/
theorem doAll_agrees_with_pipeline_witness :
    ([1, 2, 3, 4] : List ℚ) ≠ [] ∧ 1 ≤ 3 ∧ 3 < 2 ^ 32 ∧
      2 ^ (3 - 1) ≤ ([1, 2, 3, 4] : List ℚ).length ∧
      (doAll (1 : ℚ) SaveAllValues.onSnd SaveAllValues.onFst SaveAllValues.onFst
          SaveAllValues.onFst [1, 2, 3, 4] 3 Filter.FType.Haar.toInt
          (SaveAllValuesState.init, SaveAllValuesState.init)).world.2 =
        (modwt SaveAllValues.onFst SaveAllValues.onSnd [1, 2, 3, 4]
          (Filter.Details.make_filter Transform.MODWT (1 : ℚ) Filter.FType.Haar.garr).1
          (Filter.Details.make_filter Transform.MODWT (1 : ℚ) Filter.FType.Haar.garr).2
          ((3 : Nat) : Int) (SaveAllValuesState.init, SaveAllValuesState.init)).world.2 ∧
      (doAll (1 : ℚ) SaveAllValues.onFst SaveAllValues.onFst SaveAllValues.onFst
          SaveAllValues.onSnd [1, 2, 3, 4] 3 Filter.FType.Haar.toInt
          (SaveAllValuesState.init, SaveAllValuesState.init)).world.2 =
        (if SaveAllValues.IsOn (drive SaveAllValues (levelTags 3)
            (SaveAllValuesState.init (α := ℚ))) then
          (smooth SaveAllValues
            (scalingLevel [1, 2, 3, 4]
              (Filter.Details.make_filter Transform.MODWT (1 : ℚ) Filter.FType.Haar.garr).1
              (Filter.Details.make_filter Transform.MODWT (1 : ℚ) Filter.FType.Haar.garr).2 3)
            (Filter.Details.make_filter Transform.MODWT (1 : ℚ) Filter.FType.Haar.garr).2
            ((3 : Nat) : Int) (drive SaveAllValues (levelTags 3) SaveAllValuesState.init)).world
        else drive SaveAllValues (levelTags 3) SaveAllValuesState.init) ∧
      (doAll (1 : ℚ) SaveAllValues.onFst SaveAllValues.onSnd SaveAllValues.onFst
          SaveAllValues.onFst [1, 2, 3, 4] 3 Filter.FType.Haar.toInt
          (SaveAllValuesState.init, SaveAllValuesState.init)).world.2 =
        (List.range' 1 3).foldl
          (detailsViaDetails SaveAllValues [1, 2, 3, 4]
            (Filter.Details.make_filter Transform.MODWT (1 : ℚ) Filter.FType.Haar.garr).1
            (Filter.Details.make_filter Transform.MODWT (1 : ℚ) Filter.FType.Haar.garr).2)
          SaveAllValuesState.init :=
  ⟨by simp, by norm_num, by norm_num, by simp,
    (doAll_agrees_with_pipeline (1 : ℚ) SaveAllValues SaveAllValues SaveAllValues
      SaveAllValues SaveAllValues [1, 2, 3, 4] 3 Filter.FType.Haar SaveAllValuesState.init
      SaveAllValuesState.init (by simp) (by norm_num) (by norm_num) (by simp)).2.1,
    (doAll_agrees_with_pipeline (1 : ℚ) SaveAllValues SaveAllValues SaveAllValues
      SaveAllValues SaveAllValues [1, 2, 3, 4] 3 Filter.FType.Haar SaveAllValuesState.init
      SaveAllValuesState.init (by simp) (by norm_num) (by norm_num) (by simp)).2.2.2.1,
    (doAll_agrees_with_pipeline (1 : ℚ) SaveAllValues SaveAllValues SaveAllValues
      SaveAllValues SaveAllValues [1, 2, 3, 4] 3 Filter.FType.Haar SaveAllValuesState.init
      SaveAllValuesState.init (by simp) (by norm_num) (by norm_num) (by simp)).2.2.2.2.2⟩

end PipelineClaims
/-! ## Round trip and multiresolution sum with the `D20` filters -/

section DaubClaims

open Filter

/-- C1 (what the code does). With the `D20` filters of `getFilters<MODWT>` (19 taps), the series
`[1, 0, 0, 0]` and depth 1, the round trip emits about `1.0000145` at index 0 and about
`-0.0000145` at index 2 in exact real arithmetic: it does not reconstruct the series, not even
within `1e-5`. -/
theorem roundTrip_Daub20_diverges :
    ∃ h g : List ℝ,
      Filter.getFilters Transform.MODWT (Real.sqrt 2) FType.D20.toInt = Except.ok (h, g) ∧
        roundTrip h g [1, 0, 0, 0] 1 =
          [50000726542930837555942306989419 / 50000000000000000000000000000000, 0,
            -363262655010338410609943343 / 25000000000000000000000000000000, 0] ∧
        ¬ closeTo (1 / 100000 : ℝ) (roundTrip h g [1, 0, 0, 0] 1) [1, 0, 0, 0] := by
  have hs : Real.sqrt 2 * Real.sqrt 2 = 2 := Real.mul_self_sqrt (by norm_num)
  refine ⟨(Filter.Details.Daub20 Transform.MODWT (Real.sqrt 2)).1,
    (Filter.Details.Daub20 Transform.MODWT (Real.sqrt 2)).2,
    getFilters_catalog Transform.MODWT (Real.sqrt 2) FType.D20, ?_, ?_⟩
  · exact roundTrip_Daub20_unit (Real.sqrt 2) hs
  · rw [roundTrip_Daub20_unit (Real.sqrt 2) hs]
    exact not_closeTo_Daub20_unit

/-- C2 (what the code does). With the `D20` filters of `getFilters<MODWT>` (19 taps), the series
`[1, 0, 0, 0]` and depth 1, the smooth waveform plus the detail waveform is about `1.0000145` at
index 0 and about `-0.0000145` at index 2 in exact real arithmetic: the sum is not the series,
not even within `1e-5`. -/
theorem mraSum_Daub20_diverges :
    ∃ h g : List ℝ,
      Filter.getFilters Transform.MODWT (Real.sqrt 2) FType.D20.toInt = Except.ok (h, g) ∧
        mraSum h g [1, 0, 0, 0] 1 =
          [50000726542930837555942306989419 / 50000000000000000000000000000000, 0,
            -363262655010338410609943343 / 25000000000000000000000000000000, 0] ∧
        ¬ closeTo (1 / 100000 : ℝ) (mraSum h g [1, 0, 0, 0] 1) [1, 0, 0, 0] := by
  have hs : Real.sqrt 2 * Real.sqrt 2 = 2 := Real.mul_self_sqrt (by norm_num)
  have hL : (Filter.Details.Daub20 Transform.MODWT (Real.sqrt 2)).2.length =
      (Filter.Details.Daub20 Transform.MODWT (Real.sqrt 2)).1.length := by
    unfold Filter.Details.Daub20
    rw [(make_filter_length _ _ _).1, (make_filter_length _ _ _).2]
  have hm := mraSum_eq_roundTrip_four_one
    (Filter.Details.Daub20 Transform.MODWT (Real.sqrt 2)).1
    (Filter.Details.Daub20 Transform.MODWT (Real.sqrt 2)).2 1 0 0 0 hL
  refine ⟨(Filter.Details.Daub20 Transform.MODWT (Real.sqrt 2)).1,
    (Filter.Details.Daub20 Transform.MODWT (Real.sqrt 2)).2,
    getFilters_catalog Transform.MODWT (Real.sqrt 2) FType.D20, ?_, ?_⟩
  · rw [hm]
    exact roundTrip_Daub20_unit (Real.sqrt 2) hs
  · rw [hm, roundTrip_Daub20_unit (Real.sqrt 2) hs]
    exact not_closeTo_Daub20_unit

end DaubClaims

end WT
